import Mathlib

/-! # A Lean model of the simple RISC-V emulator

Shallow embedding of the RV32IM_Zicond core (`src/lib/core`, `src/sim/core`), the
block memory (`src/sim/device/block-memory.cpp`) and the debug-stub packet framer
(`src/lib/gdb-stub/packet.cpp`), followed by theorems about them.

Conventions.
* A C++ `u32`/`u64`/`u8` value is a `Nat`; every operation that can overflow in the
  source wraps explicitly with `% 2 ^ w`.
* `static_cast<i32>(x)` is `as_signed 32 x : Int`, the conversion back is `of_int 32`.
* `std::expected<T, E>` is `Except E T`; a C++ exception escaping a function is the
  `none` of an `Option` around its result.
* A `std::array`/`std::vector` indexed by a bounded index is a total function on `Nat`.
* C++ strings are lists of byte values (`List Nat`).
-/

namespace core

/-! ## Machine integers -/

/-- Two's-complement reading of the low `w` bits of `x` (`static_cast<iN>(x)`). -/
def as_signed (w : Nat) (x : Nat) : Int :=
  if x % 2 ^ w < 2 ^ (w - 1) then ((x % 2 ^ w : Nat) : Int) else ((x % 2 ^ w : Nat) : Int) - 2 ^ w

/-- Conversion of a signed value to the unsigned `w`-bit type (`static_cast<uN>(i)`). -/
def of_int (w : Nat) (i : Int) : Nat := (i % 2 ^ w).toNat

/-- Wrap to 32 bits. -/
def wrap32 (n : Nat) : Nat := n % 2 ^ 32

/-! ## `Bitset<Nb>` (common/bitset.hpp) -/

namespace Bitset

/-- Constructor `Bitset<Nb>(value)`: keeps the low `Nb` bits. -/
def mk (nb : Nat) (value : Nat) : Nat := value % 2 ^ nb

/-- Operation `slice<MSB, LSB>()`: `Bitset<MSB - LSB + 1>(value >> LSB)`. -/
def slice (msb lsb : Nat) (value : Nat) : Nat := mk (msb - lsb + 1) (value >>> lsb)

/-- Operation `take_bit<Bit>()`: `(value >> Bit) & 1`. -/
def take_bit (bit : Nat) (value : Nat) : Nat := mk 1 ((value >>> bit) &&& 1)

/-- Operator `+` on bit sets: `a + b` is `Bitset<Na + Nb>((a << Nb) | b)`. -/
def concat (na nb : Nat) (a b : Nat) : Nat := mk (na + nb) ((a <<< nb) ||| b)

/-- Constant `Bitset<Nb>::ones()`. -/
def ones (nb : Nat) : Nat := mk nb (2 ^ 64 - 1)

/-- Constant `Bitset<Nb>::zeros()`. -/
def zeros (_nb : Nat) : Nat := 0

/-- Operation `sext<Ny>()` on a `Bitset<Nb>`. -/
def sext (nb ny : Nat) (value : Nat) : Nat :=
  concat (ny - nb) nb (if take_bit (nb - 1) value ≠ 0 then ones (ny - nb) else zeros (ny - nb)) value

end Bitset

/-! ## ALU and branch unit (sim/core/alu.cpp) -/

namespace native_math

namespace compare

def eq (x y : Nat) : Bool := x == y

def lt (x y : Nat) : Bool := decide (as_signed 32 x < as_signed 32 y)

def ltu (x y : Nat) : Bool := decide (x < y)

end compare

def sll (x shift_amount : Nat) : Nat := wrap32 (x <<< (shift_amount &&& 0b11111))

def srl (x shift_amount : Nat) : Nat := x >>> (shift_amount &&& 0b11111)

def sra (x shift_amount : Nat) : Nat :=
  of_int 32 (as_signed 32 x >>> (shift_amount &&& 0b11111))

def mul (x y : Nat) : Nat := wrap32 (x * y)

/-- Source: `(static_cast<i64>(x) * static_cast<i64>(y)) >> 32`. The casts act on `u32`
values, so both operands are zero-extended; the 64-bit signed product wraps. -/
def mulh (x y : Nat) : Nat :=
  of_int 32 (as_signed 64 (of_int 64 (as_signed 64 x * as_signed 64 y)) >>> 32)

def mulhu (x y : Nat) : Nat := wrap32 (((x * y) % 2 ^ 64) >>> 32)

/-- Source: `(static_cast<i64>(x) * static_cast<u64>(y)) >> 32`; the product is formed
in `u64` after the usual arithmetic conversions. -/
def mulhsu (x y : Nat) : Nat :=
  wrap32 (((of_int 64 (as_signed 64 x) * y) % 2 ^ 64) >>> 32)

def div (x y : Nat) : Nat :=
  if y = 0 then of_int 32 (-1)
  else if x = 0x80000000 ∧ y = 0xFFFFFFFF then x
  else of_int 32 (Int.tdiv (as_signed 32 x) (as_signed 32 y))

def divu (x y : Nat) : Nat :=
  if y = 0 then of_int 32 (-1) else x / y

def rem (x y : Nat) : Nat :=
  if y = 0 then x
  else if x = 0x80000000 ∧ y = 0xFFFFFFFF then 0
  else of_int 32 (Int.tmod (as_signed 32 x) (as_signed 32 y))

def remu (x y : Nat) : Nat :=
  if y = 0 then x else x % y

end native_math

namespace ALU_module

inductive Opcode
  | Add | Sub | Sll | Srl | Sra | Slt | Sltu | And | Or | Xor
  | Mul | Mulh | Mulhsu | Mulhu | Div | Divu | Rem | Remu | Czero_eqz | Czero_nez
  deriving DecidableEq, Repr

/-- The call operator `ALU_module::operator()`. -/
def call (opcode : Opcode) (x y : Nat) : Nat :=
  match opcode with
  | .Add => wrap32 (x + y)
  | .Sub => wrap32 (x + 2 ^ 32 - y % 2 ^ 32)
  | .Sll => native_math.sll x y
  | .Srl => native_math.srl x y
  | .Sra => native_math.sra x y
  | .Slt => if native_math.compare.lt x y then 1 else 0
  | .Sltu => if native_math.compare.ltu x y then 1 else 0
  | .And => x &&& y
  | .Or => x ||| y
  | .Xor => x ^^^ y
  | .Mul => native_math.mul x y
  | .Mulh => native_math.mulh x y
  | .Mulhsu => native_math.mulhsu x y
  | .Mulhu => native_math.mulhu x y
  | .Div => native_math.div x y
  | .Rem => native_math.rem x y
  | .Divu => native_math.divu x y
  | .Remu => native_math.remu x y
  | .Czero_eqz => if y = 0 then 0 else x
  | .Czero_nez => if y ≠ 0 then 0 else x

end ALU_module

namespace Branch_module

inductive Opcode
  | None | Eq | Ne | Lt | Ge | Ltu | Geu
  deriving DecidableEq, Repr

/-- The call operator `Branch_module::operator()`. -/
def call (opcode : Opcode) (x y : Nat) : Bool :=
  match opcode with
  | .None => false
  | .Eq => native_math.compare.eq x y
  | .Ne => !native_math.compare.eq x y
  | .Lt => native_math.compare.lt x y
  | .Ge => !native_math.compare.lt x y
  | .Ltu => native_math.compare.ltu x y
  | .Geu => !native_math.compare.ltu x y

end Branch_module

end core

/-! ## Debug-stub packet framing (lib/gdb-stub/packet.cpp) -/

deriving instance DecidableEq for Except

namespace gdb_stub

namespace algo

/-- Function `algo::get_checksum`: the sum of the bytes, folded in `u8`. -/
def get_checksum (body : List Nat) : Nat :=
  body.foldl (fun acc c => (acc + c % 256) % 256) 0

/-- Function `algo::remove_escape`: byte 125 announces an escaped byte, which is
XOR-ed with `0x20`; a trailing or doubled escape byte is malformed. -/
def remove_escape : List Nat → Option (List Nat)
  | [] => some []
  | c :: rest =>
    if c = 125 then
      match rest with
      | [] => none
      | d :: rest2 =>
        if d = 125 then none
        else (remove_escape rest2).map (fun r => (d ^^^ 0x20) % 256 :: r)
    else (remove_escape rest).map (fun r => c :: r)

end algo

/-- The C library predicate `isxdigit` on a byte. -/
def isxdigit (c : Nat) : Bool :=
  (48 ≤ c && c ≤ 57) || (97 ≤ c && c ≤ 102) || (65 ≤ c && c ≤ 70)

/-- Value of a hexadecimal digit character. -/
def hex_value (c : Nat) : Nat :=
  if 48 ≤ c ∧ c ≤ 57 then c - 48
  else if 97 ≤ c ∧ c ≤ 102 then c - 87
  else c - 55

/-- The call `std::stoi(s, nullptr, 16)` on a string of two hexadecimal digits. -/
def stoi16 (c0 c1 : Nat) : Nat := 16 * hex_value c0 + hex_value c1

/-- One lowercase hexadecimal digit, as `std::format` prints it. -/
def hex_digit (d : Nat) : Nat := if d < 10 then 48 + d else 87 + d

/-- The format `{:02x}` applied to a `u8`. -/
def format_02x (n : Nat) : List Nat := [hex_digit (n / 16), hex_digit (n % 16)]

namespace Packet_decoder

def max_buffer_size : Nat := 1048576

inductive Error
  | Bad_checksum | Bad_packet | Buffer_overflow | Internal_error | No_new_packet
  deriving DecidableEq, Repr

inductive State
  | Waiting_dollar | Receiving_body | Receiving_checksum1 | Receiving_checksum2
  deriving DecidableEq, Repr

end Packet_decoder

/-- Class `Packet_decoder`; the mutex guarding `out_queue` is not modelled. -/
structure Packet_decoder where
  in_buffer : List Nat := []
  out_queue : List (Except Packet_decoder.Error (List Nat)) := []
  out_queue_available : Bool := false
  state : Packet_decoder.State := .Waiting_dollar
  checksum_buffer : Nat × Nat := (0, 0)

namespace Packet_decoder

/-- Method `Packet_decoder::decode_in_buffer`. -/
def decode_in_buffer (d : Packet_decoder) : Except Error (List Nat) :=
  if !(isxdigit d.checksum_buffer.1 && isxdigit d.checksum_buffer.2) then .error .Bad_packet
  else
    let received_checksum := stoi16 d.checksum_buffer.1 d.checksum_buffer.2 % 256
    let computed_checksum := algo.get_checksum d.in_buffer
    if received_checksum ≠ computed_checksum then .error .Bad_checksum
    else
      match algo.remove_escape d.in_buffer with
      | none => .error .Bad_packet
      | some r => .ok r

/-- The local lambda `push_result` of `Packet_decoder::push`. -/
def push_result (d : Packet_decoder) (result : Except Error (List Nat)) : Packet_decoder :=
  { d with out_queue := d.out_queue ++ [result], out_queue_available := true, in_buffer := [] }

/-- Body of the loop of `Packet_decoder::push` for one input byte `c`. -/
def push_char (d : Packet_decoder) (c : Nat) : Packet_decoder :=
  match d.state with
  | .Waiting_dollar =>
    if c = 36 then { d with state := .Receiving_body }
    else if c = 43 ∨ c = 45 ∨ c = 3 then push_result d (.ok [c])
    else d
  | .Receiving_body =>
    if c = 35 then { d with state := .Receiving_checksum1 }
    else if c = 36 then { push_result d (.error .Bad_packet) with state := .Receiving_body }
    else if d.in_buffer.length ≥ max_buffer_size then
      { push_result d (.error .Buffer_overflow) with state := .Waiting_dollar }
    else { d with in_buffer := d.in_buffer ++ [c] }
  | .Receiving_checksum1 =>
    if c = 36 then { push_result d (.error .Bad_packet) with state := .Receiving_body }
    else if c = 43 ∨ c = 45 ∨ c = 3 then
      { push_result (push_result d (.error .Bad_packet)) (.ok [c]) with state := .Waiting_dollar }
    else { d with checksum_buffer := (c, d.checksum_buffer.2), state := .Receiving_checksum2 }
  | .Receiving_checksum2 =>
    if c = 36 then { push_result d (.error .Bad_packet) with state := .Receiving_body }
    else if c = 43 ∨ c = 45 ∨ c = 3 then
      { push_result (push_result d (.error .Bad_packet)) (.ok [c]) with state := .Waiting_dollar }
    else
      let d1 := { d with checksum_buffer := (d.checksum_buffer.1, c) }
      { push_result d1 (decode_in_buffer d1) with state := .Waiting_dollar }

/-- Method `Packet_decoder::push`. -/
def push (d : Packet_decoder) (new_input : List Nat) : Packet_decoder :=
  new_input.foldl push_char d

/-- Method `Packet_decoder::pop_packet`. -/
def pop_packet (d : Packet_decoder) : Except Error (List Nat) × Packet_decoder :=
  match d.out_queue with
  | [] => (.error .No_new_packet, d)
  | packet :: rest => (packet, { d with out_queue := rest, out_queue_available := !rest.isEmpty })

end Packet_decoder

/-- Class `Packet_encoder`: the output stream, the last byte pushed and the number of
further repetitions of it seen so far (`u8`). -/
structure Packet_encoder where
  stream : List Nat := []
  last_char : Nat := 0
  repeat_count : Nat := 0

namespace Packet_encoder

/-- Method `Packet_encoder::push_repeat`. -/
def push_repeat (e : Packet_encoder) : Packet_encoder :=
  if e.repeat_count = 0 ∨ e.last_char = 0 then e
  else if e.repeat_count ≤ 2 then
    { e with stream := e.stream ++ List.replicate e.repeat_count e.last_char }
  else if e.repeat_count = 6 then { e with stream := e.stream ++ [42, 34, e.last_char] }
  else if e.repeat_count = 7 then
    { e with stream := e.stream ++ [42, 34, e.last_char, e.last_char] }
  else { e with stream := e.stream ++ [42, (e.repeat_count + 29) % 256] }

/-- Method `Packet_encoder::push`. -/
def push (e : Packet_encoder) (c : Nat) : Packet_encoder :=
  if c = 0 then e
  else if c ≠ e.last_char ∨ e.repeat_count ≥ 126 - 29 then
    let e1 := push_repeat e
    let e2 := { e1 with last_char := c, repeat_count := 0 }
    if c = 42 ∨ c = 36 ∨ c = 125 ∨ c = 35 then
      { e2 with stream := e2.stream ++ [125, (c % 256) ^^^ 0x20] }
    else { e2 with stream := e2.stream ++ [c] }
  else { e with repeat_count := (e.repeat_count + 1) % 256 }

/-- Method `Packet_encoder::internal_encode`. -/
def internal_encode (e : Packet_encoder) (str : List Nat) : List Nat :=
  let e1 := push_repeat (str.foldl push e)
  let result_str := e1.stream
  let checksum := algo.get_checksum result_str
  [36] ++ result_str ++ [35] ++ format_02x checksum

/-- Static method `Packet_encoder::encode`: encodes with a fresh encoder. -/
def encode (str : List Nat) : List Nat := internal_encode {} str

end Packet_encoder

/-- The bytes of a string literal. -/
def bytes (s : String) : List Nat := s.toList.map Char.toNat

/-- Predicate: no four consecutive equal bytes. -/
def no_run4 : List Nat → Bool
  | a :: b :: c :: d :: rest => !(a == b && b == c && c == d) && no_run4 (b :: c :: d :: rest)
  | _ => true

/-- Predicate: byte of the printable range `[0x20, 0x7E]` other than the six bytes
`$ # } * + -`. -/
def plain_byte (c : Nat) : Bool :=
  0x20 ≤ c && c ≤ 0x7E && c != 36 && c != 35 && c != 125 && c != 42 && c != 43 && c != 45

end gdb_stub

/-! ## Traps and the memory interface (sim/include/core/trap.hpp, memory.hpp) -/

namespace core

inductive Trap
  | Inst_address_misaligned | Inst_access_fault | Illegal_instruction | Breakpoint
  | Load_address_misaligned | Load_access_fault | Store_address_misaligned
  | Store_access_fault | Env_call_from_U_mode | Env_call_from_S_mode | Env_call_from_M_mode
  | Inst_page_fault | Load_page_fault | Store_page_fault
  | Supervisor_software_interrupt | Machine_software_interrupt | Supervisor_timer_interrupt
  | Machine_timer_interrupt | Supervisor_external_interrupt | Machine_external_interrupt
  | Counter_overflow_interrupt
  deriving DecidableEq, Repr

namespace Trap

/-- The enumerator value, `(u32)trap`. -/
def code : Trap → Nat
  | Inst_address_misaligned => 0x0000
  | Inst_access_fault => 0x0001
  | Illegal_instruction => 0x0002
  | Breakpoint => 0x0003
  | Load_address_misaligned => 0x0004
  | Load_access_fault => 0x0005
  | Store_address_misaligned => 0x0006
  | Store_access_fault => 0x0007
  | Env_call_from_U_mode => 0x0008
  | Env_call_from_S_mode => 0x0009
  | Env_call_from_M_mode => 0x000B
  | Inst_page_fault => 0x000C
  | Load_page_fault => 0x000D
  | Store_page_fault => 0x000F
  | Supervisor_software_interrupt => 0x80000001
  | Machine_software_interrupt => 0x80000003
  | Supervisor_timer_interrupt => 0x80000005
  | Machine_timer_interrupt => 0x80000007
  | Supervisor_external_interrupt => 0x80000009
  | Machine_external_interrupt => 0x8000000B
  | Counter_overflow_interrupt => 0x8000000C

end Trap

/-- Helper `is_interrupt`. -/
def is_interrupt (trap : Trap) : Bool := decide (trap.code ≥ 0x80000000)

namespace Memory_interface

inductive Error
  | Out_of_range | Unaligned | Access_fault | Device_error | Not_supported
  deriving DecidableEq, Repr

end Memory_interface

/-- A 4 KiB page as transferred by `read_page`: 1024 words, indexed from 0. -/
abbrev Page := Nat → Nat

/-- The abstract class `Memory_interface`, as the operations of a device whose state has
type `M`. Every operation returns the device state it leaves behind; `read_page` receives
the contents of the destination span and returns what the span holds afterwards. -/
structure Memory_interface (M : Type) where
  read : M → Nat → Except Memory_interface.Error Nat × M
  read_page : M → Nat → Page → Except Memory_interface.Error Unit × Page × M
  write : M → Nat → Nat → Nat → Except Memory_interface.Error Unit × M
  size : M → Nat

/-! ## Load/store unit and instruction fetch (lib/core/memory.cpp) -/

namespace Load_store_module

inductive Funct
  | None | Load_byte | Load_halfword | Load_word | Load_byte_unsigned | Load_halfword_unsigned
  | Store_byte | Store_halfword | Store_word
  deriving DecidableEq, Repr

inductive Opcode
  | None | Load | Store
  deriving DecidableEq, Repr

end Load_store_module

/-- The file-local function `is_aligned`. -/
def is_aligned (address : Nat) (funct : Load_store_module.Funct) : Bool :=
  match funct with
  | .Load_byte | .Store_byte | .Load_byte_unsigned => true
  | .Load_halfword | .Store_halfword | .Load_halfword_unsigned => (address &&& 0x1) == 0
  | .Load_word | .Store_word => (address &&& 0x3) == 0
  | .None => false

namespace Load_store_module

/-- The call operator `Load_store_module::operator()`. The result is `none` where the
source throws `std::logic_error`. -/
def call {M : Type} (interface : Memory_interface M) (m : M) (opcode : Opcode) (funct : Funct)
    (address store_value : Nat) : Option (Except Trap Nat × M) :=
  if opcode = .None then some (.ok 0, m)
  else
    let address_aligned := address &&& 0xfffffffc
    let aligned := is_aligned address funct
    let byte_offset := address &&& 0x3
    if opcode = .Load then
      if !aligned then some (.error .Load_address_misaligned, m)
      else
        match interface.read m address_aligned with
        | (.error _, m1) => some (.error .Load_access_fault, m1)
        | (.ok value, m1) =>
          match funct with
          | .Load_byte => some (.ok (of_int 32 (as_signed 8 (value >>> (byte_offset * 8)))), m1)
          | .Load_halfword =>
            some (.ok (of_int 32 (as_signed 16 (value >>> (byte_offset * 8)))), m1)
          | .Load_word => some (.ok value, m1)
          | .Load_byte_unsigned => some (.ok ((value >>> (byte_offset * 8)) % 2 ^ 8), m1)
          | .Load_halfword_unsigned => some (.ok ((value >>> (byte_offset * 8)) % 2 ^ 16), m1)
          | _ => none
    else
      if !aligned then some (.error .Store_address_misaligned, m)
      else
        let mask : Option Nat :=
          match funct with
          | .Store_byte => some (Bitset.mk 4 (0b0001 <<< byte_offset))
          | .Store_halfword => some (Bitset.mk 4 (0b0011 <<< byte_offset))
          | .Store_word => some (Bitset.mk 4 0b1111)
          | _ => none
        match mask with
        | none => none
        | some mask =>
          match interface.write m address_aligned
              (wrap32 (store_value <<< (byte_offset * 8))) mask with
          | (.ok _, m1) => some (.ok 0, m1)
          | (.error .Out_of_range, m1) => some (.error .Store_access_fault, m1)
          | (.error .Access_fault, m1) => some (.error .Store_access_fault, m1)
          | (.error .Device_error, m1) => some (.error .Store_access_fault, m1)
          | (.error .Unaligned, m1) => some (.error .Store_address_misaligned, m1)
          | (.error .Not_supported, _) => none

end Load_store_module

namespace Inst_fetch_module

/-- Struct `Inst_fetch_module::Cache_entry`. -/
structure Cache_entry where
  data : Page := fun _ => 0
  address : Nat := 0
  valid : Bool := false

def cache_num : Nat := 1024

end Inst_fetch_module

/-- Struct `Inst_fetch_module`: `cache` is the vector of `cache_num` entries. -/
structure Inst_fetch_module where
  cache : Nat → Inst_fetch_module.Cache_entry := fun _ => {}

namespace Inst_fetch_module

/-- Write one entry of the cache vector. -/
def set_entry (f : Inst_fetch_module) (idx : Nat) (e : Cache_entry) : Inst_fetch_module :=
  { cache := fun i => if i = idx then e else f.cache i }

/-- The call operator `Inst_fetch_module::operator()`. The result is `none` where the
source throws `std::logic_error`. -/
def call {M : Type} (interface : Memory_interface M) (f : Inst_fetch_module) (m : M) (pc : Nat) :
    Option (Except Trap Nat × Inst_fetch_module × M) :=
  if pc &&& 0x3 ≠ 0 then some (.error .Inst_address_misaligned, f, m)
  else
    let cache_idx := (pc >>> 12) % cache_num
    let entry := f.cache cache_idx
    if !entry.valid || entry.address != (pc &&& 0xFFFFF000) then
      match interface.read_page m (pc &&& 0xfffff000) entry.data with
      | (.error err, data, m1) =>
        let f1 := f.set_entry cache_idx { entry with data := data, valid := false }
        match err with
        | .Out_of_range => some (.error .Inst_access_fault, f1, m1)
        | .Access_fault => some (.error .Inst_access_fault, f1, m1)
        | .Device_error => some (.error .Illegal_instruction, f1, m1)
        | .Unaligned => some (.error .Inst_address_misaligned, f1, m1)
        | .Not_supported => none
      | (.ok _, data, m1) =>
        let f1 := f.set_entry cache_idx
          { data := data, address := pc &&& 0xfffff000, valid := true }
        some (.ok (data ((pc &&& 0xfff) >>> 2)), f1, m1)
    else some (.ok (entry.data ((pc &&& 0xfff) >>> 2)), f, m)

/-- Method `Inst_fetch_module::fencei`. -/
def fencei (f : Inst_fetch_module) : Inst_fetch_module :=
  { cache := fun i => { f.cache i with valid := false } }

end Inst_fetch_module

end core

/-! ## Block memory (sim/device/block-memory.cpp) and peripherals -/

namespace device

open core

inductive Fill_policy
  | None | Zero | One | Random | Cdcdcdcd
  deriving DecidableEq, Repr

/-- Class `Block_memory`. `storage` is the vector of lazily allocated 64 KiB pages (its
length, fixed by the constructor, is `page_count`); a page is a function from word index
to word. The words drawn by `Fill_policy::Random` come from `random_source`, indexed by
the number of random fills made so far and the word index. -/
structure Block_memory where
  write_lock : Bool := false
  actual_size_bytes : Nat
  fill_policy : Fill_policy := .None
  storage : Nat → Option (Nat → Nat) := fun _ => none
  random_source : Nat → Nat → Nat := fun _ _ => 0
  random_fills : Nat := 0

namespace Block_memory

def page_size_bytes : Nat := 64 * 1024

/-- Length of `storage`, as set by the constructor. -/
def page_count (b : Block_memory) : Nat :=
  (b.actual_size_bytes + page_size_bytes - 1) / page_size_bytes

/-- Constructor `Block_memory(size_bytes, mode)`. -/
def create (size_bytes : Nat) (mode : Fill_policy := .None) : Block_memory :=
  { actual_size_bytes := size_bytes, fill_policy := mode }

/-- Method `fill_page`, applied to a freshly value-initialised (all-zero) page. -/
def fill_page (b : Block_memory) : (Nat → Nat) × Block_memory :=
  match b.fill_policy with
  | .None => (fun _ => 0, b)
  | .Zero => (fun _ => 0, b)
  | .One => (fun _ => 0xFFFFFFFF, b)
  | .Random =>
    (fun i => b.random_source b.random_fills i % 2 ^ 32,
      { b with random_fills := b.random_fills + 1 })
  | .Cdcdcdcd => (fun _ => 0xCDCDCDCD, b)

/-- Method `touch_page`. -/
def touch_page (b : Block_memory) (page_index : Nat) : Block_memory :=
  if page_index ≥ b.page_count then b
  else if (b.storage page_index).isSome then b
  else
    let (page, b1) := b.fill_page
    { b1 with storage := fun i => if i = page_index then some page else b1.storage i }

/-- The page `*storage[page_index]`; an unallocated slot reads as zeros. -/
def page (b : Block_memory) (page_index : Nat) : Nat → Nat :=
  match b.storage page_index with
  | some p => p
  | none => fun _ => 0

def size (b : Block_memory) : Nat := b.actual_size_bytes

/-- Method `Block_memory::read`. -/
def read (b : Block_memory) (address : Nat) : Except Memory_interface.Error Nat × Block_memory :=
  if address ≥ b.size then (.error .Out_of_range, b)
  else if address &&& 0x3 ≠ 0 then (.error .Unaligned, b)
  else if b.actual_size_bytes < 4 then (.error .Out_of_range, b)
  else
    let page_index := address / page_size_bytes
    let page_offset := address % page_size_bytes
    let page_offset_word := page_offset / 4
    let b1 := b.touch_page page_index
    (.ok (b1.page page_index page_offset_word), b1)

/-- Method `Block_memory::read_page`. -/
def read_page (b : Block_memory) (address : Nat) (data : Page) :
    Except Memory_interface.Error Unit × Page × Block_memory :=
  if address &&& 0x00000FFF ≠ 0 then (.error .Unaligned, data, b)
  else if address + 1024 * 4 > b.size then (.error .Out_of_range, data, b)
  else
    let page_index := address / page_size_bytes
    let page_offset := address % page_size_bytes
    let page_offset_word := page_offset / 4
    let b1 := b.touch_page page_index
    (.ok (), (fun i => if i < 1024 then b1.page page_index (page_offset_word + i) else data i), b1)

/-- The four byte stores at the end of `Block_memory::write`, on the little-endian word
`old` holding the bytes at `byte_ptr[0..3]`. -/
def write_bytes (old data mask : Nat) : Nat :=
  let b0 := if Bitset.take_bit 0 mask ≠ 0 then data % 256 else old % 256
  let b1 := if Bitset.take_bit 1 mask ≠ 0 then (data >>> 8) % 256 else (old >>> 8) % 256
  let b2 := if Bitset.take_bit 2 mask ≠ 0 then (data >>> 16) % 256 else (old >>> 16) % 256
  let b3 := if Bitset.take_bit 3 mask ≠ 0 then (data >>> 24) % 256 else (old >>> 24) % 256
  b0 + b1 * 2 ^ 8 + b2 * 2 ^ 16 + b3 * 2 ^ 24

/-- Method `Block_memory::write`. -/
def write (b : Block_memory) (address data mask : Nat) :
    Except Memory_interface.Error Unit × Block_memory :=
  if address ≥ b.size then (.error .Out_of_range, b)
  else if b.write_lock then (.error .Access_fault, b)
  else if mask = 0 then (.ok (), b)
  else if address &&& 0x3 ≠ 0 then (.error .Unaligned, b)
  else if b.actual_size_bytes < 4 ∧
      ((b.actual_size_bytes < 4 ∧ Bitset.take_bit 3 mask ≠ 0)
        ∨ (b.actual_size_bytes < 3 ∧ Bitset.take_bit 2 mask ≠ 0)
        ∨ (b.actual_size_bytes < 2 ∧ Bitset.take_bit 1 mask ≠ 0)
        ∨ (b.actual_size_bytes < 1 ∧ Bitset.take_bit 0 mask ≠ 0)) then
    (.error .Out_of_range, b)
  else
    let page_index := address / page_size_bytes
    let page_offset := address % page_size_bytes
    let b1 := b.touch_page page_index
    let old := b1.page page_index (page_offset / 4)
    let page1 : Nat → Nat := fun i =>
      if i = page_offset / 4 then write_bytes old data mask else b1.page page_index i
    (.ok (), { b1 with storage := fun i => if i = page_index then some page1 else b1.storage i })

/-- The device seen through the abstract memory interface. -/
def interface : Memory_interface Block_memory where
  read := read
  read_page := read_page
  write := write
  size := size

end Block_memory

namespace periph

/-- Method `Periph_base::read_page`: peripherals do not support page reads. -/
def Periph_base.read_page {P : Type} (p : P) (_address : Nat) (data : Page) :
    Except Memory_interface.Error Unit × Page × P :=
  (.error .Not_supported, data, p)

def Periph_base.size : Nat := 256

end periph

end device

namespace device

open core

/-- A store through the load/store unit over a block memory followed, when the store
succeeds, by a load at the same address; the value is the outcome of the load (or the
trap of the store). -/
def store_then_load (b : Block_memory) (store_funct load_funct : Load_store_module.Funct)
    (address store_value : Nat) : Option (Except Trap Nat) :=
  match Load_store_module.call Block_memory.interface b .Store store_funct address store_value with
  | some (.ok _, b1) =>
    (Load_store_module.call Block_memory.interface b1 .Load load_funct address 0).map Prod.fst
  | some (.error t, _) => some (.error t)
  | none => none

/-- A word store at `store_address` followed by a load of kind `load_funct` at
`load_address`. -/
def store_word_then_load (b : Block_memory) (store_address store_value : Nat)
    (load_funct : Load_store_module.Funct) (load_address : Nat) : Option (Except Trap Nat) :=
  match Load_store_module.call Block_memory.interface b .Store .Store_word store_address
      store_value with
  | some (.ok _, b1) =>
    (Load_store_module.call Block_memory.interface b1 .Load load_funct load_address 0).map Prod.fst
  | some (.error t, _) => some (.error t)
  | none => none

end device

/-! ## Register file (sim/include/core/register-file.hpp) -/

namespace core

/-- Struct `Register_file_module`: `registers` is the array of 32 words. -/
structure Register_file_module where
  registers : Nat → Nat := fun _ => 0

namespace Register_file_module

/-- Method `get_register`; the index is a `Bitset<5>`. -/
def get_register (r : Register_file_module) (index : Nat) : Nat :=
  r.registers (Bitset.mk 5 index)

/-- Method `set_register`; the index is a `Bitset<5>`. -/
def set_register (r : Register_file_module) (index value : Nat) : Register_file_module :=
  if Bitset.mk 5 index ≠ 0 then
    { registers := fun i => if i = Bitset.mk 5 index then value else r.registers i }
  else r

end Register_file_module

/-! ## CSR block (lib/include/core/csr.hpp, lib/core/csr.cpp) -/

/-- Field of `width` bits at bit `lo` of a word. -/
def field (word lo width : Nat) : Nat := (word >>> lo) % 2 ^ width

/-- One-bit field at bit `i` of a word, as a `bool` bit-field reads it. -/
def flag (word i : Nat) : Bool := field word i 1 == 1

/-- Value `0`/`1` of a `bool`. -/
def bit (b : Bool) : Nat := if b then 1 else 0

namespace Priviledge

def User : Nat := 0
def Supervisor : Nat := 1
def Machine : Nat := 3

end Priviledge

namespace csr

/-- Struct `csr::Mstatus`, one field per bit-field of the source, in declaration order
(low word first, then the four high-word fields). -/
structure Mstatus where
  padding0_0 : Bool := false
  sie : Bool := false
  padding2_2 : Bool := false
  mie : Bool := false
  padding4_4 : Bool := false
  spie : Bool := false
  ube : Bool := false
  mpie : Bool := false
  spp : Bool := false
  vs : Nat := 0
  mpp : Nat := Priviledge.Machine
  fs : Nat := 0
  xs1 : Bool := false
  xs2 : Bool := false
  mprv : Bool := false
  sum : Bool := false
  mxr : Bool := false
  tvm : Bool := false
  tw : Bool := false
  tsr : Bool := false
  padding30_23 : Nat := 0
  sd : Bool := false
  paddingh3_0 : Nat := 0
  sbe : Bool := false
  mbe : Bool := false
  paddingh31_6 : Nat := 0

namespace Mstatus

def low_address : Nat := 0x300
def high_address : Nat := 0x310

/-- The first 32-bit word of the object, `*(u32*)&mstatus`. -/
def low_word (m : Mstatus) : Nat :=
  bit m.padding0_0 + bit m.sie * 2 ^ 1 + bit m.padding2_2 * 2 ^ 2 + bit m.mie * 2 ^ 3
  + bit m.padding4_4 * 2 ^ 4 + bit m.spie * 2 ^ 5 + bit m.ube * 2 ^ 6 + bit m.mpie * 2 ^ 7
  + bit m.spp * 2 ^ 8 + (m.vs % 4) * 2 ^ 9 + (m.mpp % 4) * 2 ^ 11 + (m.fs % 4) * 2 ^ 13
  + bit m.xs1 * 2 ^ 15 + bit m.xs2 * 2 ^ 16 + bit m.mprv * 2 ^ 17 + bit m.sum * 2 ^ 18
  + bit m.mxr * 2 ^ 19 + bit m.tvm * 2 ^ 20 + bit m.tw * 2 ^ 21 + bit m.tsr * 2 ^ 22
  + (m.padding30_23 % 256) * 2 ^ 23 + bit m.sd * 2 ^ 31

/-- The second 32-bit word of the object, `*((u32*)&mstatus + 1)`. -/
def high_word (m : Mstatus) : Nat :=
  m.paddingh3_0 % 16 + bit m.sbe * 2 ^ 4 + bit m.mbe * 2 ^ 5 + (m.paddingh31_6 % 2 ^ 26) * 2 ^ 6

/-- Overwrite the first word of the object with `w`. -/
def set_low_word (m : Mstatus) (w : Nat) : Mstatus :=
  { m with
    padding0_0 := flag w 0, sie := flag w 1, padding2_2 := flag w 2, mie := flag w 3,
    padding4_4 := flag w 4, spie := flag w 5, ube := flag w 6, mpie := flag w 7,
    spp := flag w 8, vs := field w 9 2, mpp := field w 11 2, fs := field w 13 2,
    xs1 := flag w 15, xs2 := flag w 16, mprv := flag w 17, sum := flag w 18,
    mxr := flag w 19, tvm := flag w 20, tw := flag w 21, tsr := flag w 22,
    padding30_23 := field w 23 8, sd := flag w 31 }

/-- Overwrite the second word of the object with `w`. -/
def set_high_word (m : Mstatus) (w : Nat) : Mstatus :=
  { m with
    paddingh3_0 := field w 0 4, sbe := flag w 4, mbe := flag w 5,
    paddingh31_6 := field w 6 26 }

/-- Method `csr::Mstatus::force_legal`. -/
def force_legal (m : Mstatus) : Mstatus :=
  { m with
    sie := false, spie := false, ube := false, spp := false, vs := 0, fs := 0,
    xs1 := false, xs2 := false, mprv := false, sum := false, mxr := false, tvm := false,
    tw := false, tsr := false, sd := false, sbe := false, mbe := false,
    padding0_0 := false, padding2_2 := false, padding4_4 := false, padding30_23 := 0,
    paddingh3_0 := 0, paddingh31_6 := 0 }

end Mstatus

/-- Struct `csr::Mcause`: a 31-bit exception code below a 1-bit interrupt flag. -/
structure Mcause where
  exception_code : Nat := 0
  interrupt : Bool := false

namespace Mcause

def address : Nat := 0x342

/-- The object read as a word, `*(u32*)&mcause`. -/
def word (m : Mcause) : Nat := m.exception_code % 2 ^ 31 + bit m.interrupt * 2 ^ 31

/-- The object after the word `w` is stored over it. -/
def of_word (w : Nat) : Mcause := { exception_code := field w 0 31, interrupt := flag w 31 }

end Mcause

/-- Struct `csr::Mtvec`: a 2-bit mode below the upper 30 bits of the base address. -/
structure Mtvec where
  mode : Nat := 0
  base_upper30 : Nat := 0

namespace Mtvec

def address : Nat := 0x305

namespace Mode

def Direct : Nat := 0
def Vectored : Nat := 1

end Mode

/-- The object read as a word. -/
def word (m : Mtvec) : Nat := m.mode % 4 + (m.base_upper30 % 2 ^ 30) * 2 ^ 2

/-- The object after the word `w` is stored over it. -/
def of_word (w : Nat) : Mtvec := { mode := field w 0 2, base_upper30 := field w 2 30 }

end Mtvec

namespace Misa

def address : Nat := 0x301

/-- Word image of `{.ext_i = true, .ext_m = true, .base = Base_width::Rv32}`: extension
bits `a`..`z` occupy bits 0..25 (`i` is bit 8, `m` is bit 12) and `base` bits 31:30. -/
def initial : Nat := 2 ^ 8 + 2 ^ 12 + 1 * 2 ^ 30

end Misa

def Mscratch.address : Nat := 0x340
def Mepc.address : Nat := 0x341
def Mtval.address : Nat := 0x343
def Mip.address : Nat := 0x344
def Mie.address : Nat := 0x304
def Mcycles.low_address : Nat := 0xB00
def Mcycles.high_address : Nat := 0xB80
def Minstret.low_address : Nat := 0xB02
def Minstret.high_address : Nat := 0xB82
def Mvendorid.address : Nat := 0xF11
def Marchid.address : Nat := 0xF12
def Mimpid.address : Nat := 0xF13
def Mhartid.address : Nat := 0xF14
def Mconfigptr.address : Nat := 0xF15

end csr

inductive CSR_write_mode
  | None | Overwrite | Set | Clear
  deriving DecidableEq, Repr

/-- Struct `CSR_access_info`. -/
structure CSR_access_info where
  write_mode : CSR_write_mode := .None
  address : Nat := 0
  write_value : Nat := 0
  read : Bool := false
  deriving DecidableEq, Repr

namespace CSR_module

inductive Error
  | Insufficient_priviledge | Write_readonly | Not_exists
  deriving DecidableEq, Repr

end CSR_module

/-- Struct `CSR_module`. Plain CSRs hold their `value`; `misa` is kept as the word image
of its bit-field record; `mcycles` and `minstret` are 64-bit. -/
structure CSR_module where
  mvendorid : Nat := 0
  marchid : Nat := 0
  mimpid : Nat := 0
  mhartid : Nat := 0
  mconfigptr : Nat := 0
  misa : Nat := csr.Misa.initial
  mscratch : Nat := 0
  mcycles : Nat := 0
  minstret : Nat := 0
  mstatus : csr.Mstatus := {}
  mepc : Nat := 0
  mcause : csr.Mcause := {}
  mtval : Nat := 0
  mip : Nat := 0
  mie : Nat := 0
  mtvec : csr.Mtvec := {}

namespace CSR_module

/-- The 32-bit complement `~mask`. -/
def not32 (mask : Nat) : Nat := (2 ^ 32 - 1) ^^^ (mask % 2 ^ 32)

/-- The new contents computed by the local lambda `write`:
`(dst & ~mask) | (value & mask)`. -/
def write (dst mask value : Nat) : Nat := (dst &&& not32 mask) ||| (value &&& mask)

/-- Low half of a 64-bit CSR. -/
def low32 (v : Nat) : Nat := v % 2 ^ 32

/-- High half of a 64-bit CSR. -/
def high32 (v : Nat) : Nat := (v / 2 ^ 32) % 2 ^ 32

/-- A 64-bit CSR with its low half replaced. -/
def with_low32 (v w : Nat) : Nat := high32 v * 2 ^ 32 + w % 2 ^ 32

/-- A 64-bit CSR with its high half replaced. -/
def with_high32 (v w : Nat) : Nat := (w % 2 ^ 32) * 2 ^ 32 + low32 v

/-- The call operator `CSR_module::operator()`: the value returned and the CSR block
afterwards, or the access error (the block is then unchanged). -/
def call (c : CSR_module) (access_info : CSR_access_info) : Except Error (Nat × CSR_module) :=
  let (write_value, write_mask) : Nat × Nat :=
    match access_info.write_mode with
    | .None => (0, 0)
    | .Overwrite => (access_info.write_value, 0xffffffff)
    | .Clear => (0, access_info.write_value)
    | .Set => (0xffffffff, access_info.write_value)
  let writable := Bitset.slice 11 10 access_info.address != 0b11
  if !writable && write_mask != 0 then .error .Write_readonly
  else if !access_info.read && access_info.write_mode == .None then .ok (0, c)
  else
    let a := Bitset.mk 12 access_info.address
    if a = csr.Mscratch.address then
      .ok (c.mscratch, { c with mscratch := write c.mscratch write_mask write_value })
    else if a = csr.Misa.address then
      .ok (c.misa, { c with misa := write c.misa write_mask write_value })
    else if a = csr.Mvendorid.address then
      .ok (c.mvendorid, { c with mvendorid := write c.mvendorid write_mask write_value })
    else if a = csr.Marchid.address then
      .ok (c.marchid, { c with marchid := write c.marchid write_mask write_value })
    else if a = csr.Mimpid.address then
      .ok (c.mimpid, { c with mimpid := write c.mimpid write_mask write_value })
    else if a = csr.Mhartid.address then
      .ok (c.mhartid, { c with mhartid := write c.mhartid write_mask write_value })
    else if a = csr.Mconfigptr.address then
      .ok (c.mconfigptr, { c with mconfigptr := write c.mconfigptr write_mask write_value })
    else if a = csr.Mcycles.low_address then
      .ok (low32 c.mcycles,
        { c with mcycles := with_low32 c.mcycles (write (low32 c.mcycles) write_mask write_value) })
    else if a = csr.Mcycles.high_address then
      .ok (high32 c.mcycles,
        { c with mcycles := with_high32 c.mcycles (write (high32 c.mcycles) write_mask write_value) })
    else if a = csr.Minstret.low_address then
      .ok (low32 c.minstret,
        { c with
          minstret := with_low32 c.minstret (write (low32 c.minstret) write_mask write_value) })
    else if a = csr.Minstret.high_address then
      .ok (high32 c.minstret,
        { c with
          minstret := with_high32 c.minstret (write (high32 c.minstret) write_mask write_value) })
    else if a = csr.Mepc.address then
      .ok (c.mepc, { c with mepc := write c.mepc write_mask write_value })
    else if a = csr.Mcause.address then
      .ok (c.mcause.word,
        { c with mcause := csr.Mcause.of_word (write c.mcause.word write_mask write_value) })
    else if a = csr.Mtval.address then
      .ok (c.mtval, { c with mtval := write c.mtval write_mask write_value })
    else if a = csr.Mip.address then
      .ok (c.mip, { c with mip := write c.mip write_mask write_value })
    else if a = csr.Mie.address then
      .ok (c.mie, { c with mie := write c.mie write_mask write_value })
    else if a = csr.Mtvec.address then
      .ok (c.mtvec.word,
        { c with mtvec := csr.Mtvec.of_word (write c.mtvec.word write_mask write_value) })
    else if a = csr.Mstatus.low_address then
      let m := (c.mstatus.set_low_word (write c.mstatus.low_word write_mask write_value)).force_legal
      .ok (m.low_word, { c with mstatus := m })
    else if a = csr.Mstatus.high_address then
      let m :=
        (c.mstatus.set_high_word (write c.mstatus.high_word write_mask write_value)).force_legal
      .ok (m.high_word, { c with mstatus := m })
    else .error .Not_exists

/-- Method `CSR_module::tick`. -/
def tick (c : CSR_module) : CSR_module :=
  { c with mcycles := (c.mcycles + 1) % 2 ^ 64, minstret := (c.minstret + 1) % 2 ^ 64 }

end CSR_module

end core

/-! ## Instruction formats and decoder (lib/include/core/inst.hpp, lib/core/decode.cpp) -/

namespace core

namespace inst

structure Rtype where
  funct7 : Nat
  rs2 : Nat
  rs1 : Nat
  funct3 : Nat
  rd : Nat

def Rtype.of (instr : Nat) : Rtype :=
  { funct7 := Bitset.slice 31 25 instr, rs2 := Bitset.slice 24 20 instr,
    rs1 := Bitset.slice 19 15 instr, funct3 := Bitset.slice 14 12 instr,
    rd := Bitset.slice 11 7 instr }

structure Itype where
  imm : Nat
  rs1 : Nat
  funct3 : Nat
  rd : Nat

def Itype.of (instr : Nat) : Itype :=
  { imm := Bitset.sext 12 32 (Bitset.slice 31 20 instr), rs1 := Bitset.slice 19 15 instr,
    funct3 := Bitset.slice 14 12 instr, rd := Bitset.slice 11 7 instr }

structure Stype where
  imm : Nat
  rs1 : Nat
  rs2 : Nat
  funct3 : Nat

def Stype.of (instr : Nat) : Stype :=
  { imm := Bitset.sext 12 32
      (Bitset.concat 7 5 (Bitset.slice 31 25 instr) (Bitset.slice 11 7 instr)),
    rs1 := Bitset.slice 19 15 instr, rs2 := Bitset.slice 24 20 instr,
    funct3 := Bitset.slice 14 12 instr }

structure Btype where
  imm : Nat
  rs1 : Nat
  rs2 : Nat
  funct3 : Nat

def Btype.of (instr : Nat) : Btype :=
  { imm := Bitset.sext 13 32
      (Bitset.concat 12 1
        (Bitset.concat 8 4
          (Bitset.concat 2 6
            (Bitset.concat 1 1 (Bitset.take_bit 31 instr) (Bitset.take_bit 7 instr))
            (Bitset.slice 30 25 instr))
          (Bitset.slice 11 8 instr))
        (Bitset.zeros 1)),
    rs1 := Bitset.slice 19 15 instr, rs2 := Bitset.slice 24 20 instr,
    funct3 := Bitset.slice 14 12 instr }

structure Utype where
  imm : Nat
  rd : Nat

def Utype.of (instr : Nat) : Utype :=
  { imm := Bitset.concat 20 12 (Bitset.slice 31 12 instr) (Bitset.zeros 12),
    rd := Bitset.slice 11 7 instr }

structure Jtype where
  imm : Nat
  rd : Nat

def Jtype.of (instr : Nat) : Jtype :=
  { imm := Bitset.sext 21 32
      (Bitset.concat 20 1
        (Bitset.concat 10 10
          (Bitset.concat 9 1
            (Bitset.concat 1 8 (Bitset.take_bit 31 instr) (Bitset.slice 19 12 instr))
            (Bitset.take_bit 20 instr))
          (Bitset.slice 30 21 instr))
        (Bitset.zeros 1)),
    rd := Bitset.slice 11 7 instr }

end inst

inductive Register_source
  | None | Pc_plus_4 | Alu | Memory | Csr
  deriving DecidableEq, Repr

namespace Inst_decode_module

/-- Struct `Inst_decode_module::Result`. -/
structure Result where
  writeback_source : Register_source := .None
  dest_register : Nat := 0
  alu_opcode : ALU_module.Opcode := .Add
  alu_num1 : Nat := 0
  alu_num2 : Nat := 0
  branch_opcode : Branch_module.Opcode := .None
  branch_num1 : Nat := 0
  branch_num2 : Nat := 0
  memory_opcode : Load_store_module.Opcode := .None
  memory_funct : Load_store_module.Funct := .None
  memory_store_value : Nat := 0
  fencei : Bool := false
  ecall : Bool := false
  mret : Bool := false
  csr_access_info : CSR_access_info := {}
  deriving DecidableEq, Repr

end Inst_decode_module

namespace Opcode

def Lui : Nat := 0b01101
def Auipc : Nat := 0b00101
def Jal : Nat := 0b11011
def Jalr : Nat := 0b11001
def Branch : Nat := 0b11000
def Load : Nat := 0b00000
def Store : Nat := 0b01000
def Reg_imm_arithmetic : Nat := 0b00100
def Reg_reg_arithmetic : Nat := 0b01100
def Misc_mem : Nat := 0b00011
def System : Nat := 0b11100

end Opcode

def decode_lui (instr : Nat) : Inst_decode_module.Result :=
  let utype := inst.Utype.of instr
  { writeback_source := .Alu, dest_register := utype.rd, alu_opcode := .Add,
    alu_num1 := utype.imm % 2 ^ 32, alu_num2 := 0 }

def decode_auipc (instr pc : Nat) : Inst_decode_module.Result :=
  let utype := inst.Utype.of instr
  { writeback_source := .Alu, dest_register := utype.rd, alu_opcode := .Add,
    alu_num1 := pc, alu_num2 := utype.imm % 2 ^ 32 }

def decode_jal (instr pc : Nat) : Inst_decode_module.Result :=
  let jtype := inst.Jtype.of instr
  { writeback_source := .Pc_plus_4, dest_register := jtype.rd, alu_opcode := .Add,
    alu_num1 := pc, alu_num2 := jtype.imm % 2 ^ 32,
    branch_opcode := .Eq, branch_num1 := 0, branch_num2 := 0 }

def decode_jalr (registers : Register_file_module) (instr : Nat) : Inst_decode_module.Result :=
  let itype := inst.Itype.of instr
  { writeback_source := .Pc_plus_4, dest_register := itype.rd, alu_opcode := .Add,
    alu_num1 := registers.get_register itype.rs1, alu_num2 := itype.imm % 2 ^ 32,
    branch_opcode := .Eq, branch_num1 := 0, branch_num2 := 0 }

def decode_load (registers : Register_file_module) (instr : Nat) : Inst_decode_module.Result :=
  let itype := inst.Itype.of instr
  let memory_opcode_list : List Load_store_module.Funct :=
    [.Load_byte, .Load_halfword, .Load_word, .None, .Load_byte_unsigned,
      .Load_halfword_unsigned, .None, .None]
  { writeback_source := .Memory, dest_register := itype.rd, alu_opcode := .Add,
    alu_num1 := registers.get_register itype.rs1, alu_num2 := itype.imm % 2 ^ 32,
    memory_opcode := .Load, memory_funct := memory_opcode_list.getD itype.funct3 .None }

def decode_store (registers : Register_file_module) (instr : Nat) : Inst_decode_module.Result :=
  let stype := inst.Stype.of instr
  let memory_funct : Load_store_module.Funct :=
    if stype.funct3 % 256 = 0b000 then .Store_byte
    else if stype.funct3 % 256 = 0b001 then .Store_halfword
    else if stype.funct3 % 256 = 0b010 then .Store_word
    else .None
  { writeback_source := .None, alu_opcode := .Add,
    alu_num1 := registers.get_register stype.rs1, alu_num2 := stype.imm % 2 ^ 32,
    memory_opcode := .Store, memory_funct := memory_funct,
    memory_store_value := registers.get_register stype.rs2 }

def decode_register_imm (registers : Register_file_module) (instr : Nat) :
    Inst_decode_module.Result :=
  let itype := inst.Itype.of instr
  let opcode : List ALU_module.Opcode :=
    [.Add, .Sll, .Slt, .Sltu, .Xor,
      if Bitset.take_bit 30 instr ≠ 0 then .Sra else .Srl, .Or, .And]
  { writeback_source := .Alu, dest_register := itype.rd,
    alu_opcode := opcode.getD itype.funct3 .Add,
    alu_num1 := registers.get_register itype.rs1, alu_num2 := itype.imm % 2 ^ 32 }

def decode_register_register (registers : Register_file_module) (instr : Nat) :
    Except Trap Inst_decode_module.Result :=
  let rtype := inst.Rtype.of instr
  let funct7_select := Bitset.slice 2 0 rtype.funct7 % 256
  let opcode : Except Trap ALU_module.Opcode :=
    if funct7_select = 0b000 then
      .ok (([if Bitset.take_bit 30 instr ≠ 0 then .Sub else .Add, .Sll, .Slt, .Sltu, .Xor,
          if Bitset.take_bit 30 instr ≠ 0 then .Sra else .Srl, .Or, .And] :
            List ALU_module.Opcode).getD rtype.funct3 .Add)
    else if funct7_select = 0b001 then
      .ok (([.Mul, .Mulh, .Mulhsu, .Mulhu, .Div, .Divu, .Rem, .Remu] :
            List ALU_module.Opcode).getD rtype.funct3 .Add)
    else if funct7_select = 0b111 then
      if rtype.funct3 % 256 = 0b101 then .ok .Czero_eqz
      else if rtype.funct3 % 256 = 0b111 then .ok .Czero_nez
      else .error .Illegal_instruction
    else .error .Illegal_instruction
  match opcode with
  | .error t => .error t
  | .ok opcode =>
    .ok { writeback_source := .Alu, dest_register := rtype.rd, alu_opcode := opcode,
          alu_num1 := registers.get_register rtype.rs1,
          alu_num2 := registers.get_register rtype.rs2 }

def decode_branch (registers : Register_file_module) (instr pc : Nat) :
    Inst_decode_module.Result :=
  let btype := inst.Btype.of instr
  let opcode : List Branch_module.Opcode := [.Eq, .Ne, .None, .None, .Lt, .Ge, .Ltu, .Geu]
  { writeback_source := .None, alu_opcode := .Add, alu_num1 := pc,
    alu_num2 := btype.imm % 2 ^ 32, branch_opcode := opcode.getD btype.funct3 .None,
    branch_num1 := registers.get_register btype.rs1,
    branch_num2 := registers.get_register btype.rs2 }

def decode_misc_mem (instr : Nat) : Except Trap Inst_decode_module.Result :=
  let itype := inst.Itype.of instr
  if itype.funct3 = 0b001 then .ok { fencei := true }
  else .error .Illegal_instruction

def decode_system (registers : Register_file_module) (instr : Nat) :
    Except Trap Inst_decode_module.Result :=
  let itype := inst.Itype.of instr
  if itype.funct3 = 0b000 then
    if itype.imm % 2 ^ 16 = 0b000000000000 then .ok { ecall := true }
    else if itype.imm % 2 ^ 16 = 0b001100000010 then .ok { mret := true }
    else .error .Illegal_instruction
  else if ¬ (itype.funct3 % 256 = 0b001 ∨ itype.funct3 % 256 = 0b010
      ∨ itype.funct3 % 256 = 0b011 ∨ itype.funct3 % 256 = 0b101
      ∨ itype.funct3 % 256 = 0b110 ∨ itype.funct3 % 256 = 0b111) then
    .error .Illegal_instruction
  else
    let csr_do_write := itype.rs1 ≠ 0
    let address := Bitset.slice 11 0 itype.imm
    let write_value :=
      if Bitset.take_bit 2 itype.funct3 ≠ 0 then Bitset.sext 5 32 itype.rs1 % 2 ^ 32
      else registers.get_register itype.rs1
    let sel := Bitset.slice 1 0 itype.funct3 % 256
    if sel = 0b01 then
      .ok { writeback_source := .Csr, dest_register := itype.rd,
            csr_access_info :=
              { write_mode := if csr_do_write then .Overwrite else .None, address := address,
                write_value := write_value, read := decide (itype.rd ≠ 0) } }
    else if sel = 0b10 then
      .ok { writeback_source := .Csr, dest_register := itype.rd,
            csr_access_info :=
              { write_mode := if csr_do_write then .Set else .None, address := address,
                write_value := write_value, read := true } }
    else if sel = 0b11 then
      .ok { writeback_source := .Csr, dest_register := itype.rd,
            csr_access_info :=
              { write_mode := if csr_do_write then .Clear else .None, address := address,
                write_value := write_value, read := true } }
    else .error .Illegal_instruction

namespace Inst_decode_module

/-- The call operator `Inst_decode_module::operator()`. -/
def call (registers : Register_file_module) (instr pc : Nat) : Except Trap Result :=
  let instr_bitset := Bitset.mk 32 instr
  let opcode := Bitset.slice 6 2 instr_bitset
  let len := Bitset.slice 1 0 instr_bitset
  if len ≠ 0b11 then .error .Illegal_instruction
  else if opcode = Opcode.Lui then .ok (decode_lui instr_bitset)
  else if opcode = Opcode.Auipc then .ok (decode_auipc instr_bitset pc)
  else if opcode = Opcode.Jal then .ok (decode_jal instr_bitset pc)
  else if opcode = Opcode.Jalr then .ok (decode_jalr registers instr_bitset)
  else if opcode = Opcode.Load then .ok (decode_load registers instr_bitset)
  else if opcode = Opcode.Store then .ok (decode_store registers instr_bitset)
  else if opcode = Opcode.Reg_imm_arithmetic then .ok (decode_register_imm registers instr_bitset)
  else if opcode = Opcode.Reg_reg_arithmetic then decode_register_register registers instr_bitset
  else if opcode = Opcode.Branch then .ok (decode_branch registers instr_bitset pc)
  else if opcode = Opcode.Misc_mem then decode_misc_mem instr_bitset
  else if opcode = Opcode.System then decode_system registers instr_bitset
  else .error .Illegal_instruction

end Inst_decode_module

end core

/-! ## CPU step sequencer (lib/core/cpu.cpp) -/

namespace core

/-- Modelled from the spec: the header `core/cpu.hpp` declaring `CPU_module` is not among
the sources. The fields are those `cpu.cpp` uses: the program counter, the register file,
the CSR block and the fetch cache; `memory` is the state of the device behind the
`interface` pointer, whose operations are passed to `execute` and `step`. -/
structure CPU_module (M : Type) where
  pc : Nat
  registers : Register_file_module := {}
  csr : CSR_module := {}
  inst_fetch : Inst_fetch_module := {}
  memory : M

namespace CPU_module

/-- Modelled from the spec: the step record `CPU_module::Result`, declared in the absent
`core/cpu.hpp`. It carries the decoded fields of `Inst_decode_module::Result` together
with `pc`, `inst`, the results of the execute stage and the optional trap; a
default-constructed record holds zeros and no trap, and assigning a decode result to it
replaces the decoded fields only. -/
structure Result extends Inst_decode_module.Result where
  pc : Nat := 0
  inst : Nat := 0
  alu_result : Nat := 0
  branch_result : Bool := false
  csr_result : Nat := 0
  memory_load_value : Nat := 0
  writeback_value : Nat := 0
  trap : Option Trap := none
  deriving DecidableEq, Repr

/-- Method `CPU_module::execute`. The result is `none` where a callee throws. -/
def execute {M : Type} (interface : Memory_interface M) (cpu : CPU_module M) :
    Option (Result × CPU_module M) :=
  let result : Result := { pc := cpu.pc }
  /- Inst Fetch -/
  match Inst_fetch_module.call interface cpu.inst_fetch cpu.memory cpu.pc with
  | none => none
  | some (.error t, f1, m1) =>
    some ({ result with trap := some t }, { cpu with inst_fetch := f1, memory := m1 })
  | some (.ok fetched, f1, m1) =>
    let cpu : CPU_module M := { cpu with inst_fetch := f1, memory := m1 }
    let result : Result := { result with inst := fetched }
    /- Inst Decode -/
    match Inst_decode_module.call cpu.registers result.inst cpu.pc with
    | .error t => some ({ result with trap := some t }, cpu)
    | .ok decoded =>
      let result : Result := { result with toResult := decoded }
      /- Execute -/
      if result.ecall then some ({ result with trap := some .Env_call_from_M_mode }, cpu)
      else if cpu.csr.mstatus.mie = true ∧ (cpu.csr.mip &&& cpu.csr.mie) ≠ 0
          ∧ ((cpu.csr.mip &&& cpu.csr.mie) &&& (1 <<< 7)) ≠ 0 then
        some ({ result with trap := some .Machine_timer_interrupt }, cpu)
      else
        let result : Result :=
          { result with
            alu_result := ALU_module.call result.alu_opcode result.alu_num1 result.alu_num2 }
        let result : Result :=
          { result with
            branch_result :=
              Branch_module.call result.branch_opcode result.branch_num1 result.branch_num2 }
        match cpu.csr.call result.csr_access_info with
        | .error _ => some ({ result with trap := some .Illegal_instruction }, cpu)
        | .ok (csr_value, csr1) =>
          let cpu : CPU_module M := { cpu with csr := csr1 }
          let result : Result := { result with csr_result := csr_value }
          match Load_store_module.call interface cpu.memory result.memory_opcode
              result.memory_funct result.alu_result result.memory_store_value with
          | none => none
          | some (.error t, m2) =>
            some ({ result with trap := some t }, { cpu with memory := m2 })
          | some (.ok loaded, m2) =>
            let cpu : CPU_module M := { cpu with memory := m2 }
            let result : Result := { result with memory_load_value := loaded }
            /- Writeback -/
            let result : Result :=
              match result.writeback_source with
              | .None => result
              | .Pc_plus_4 => { result with writeback_value := wrap32 (cpu.pc + 4) }
              | .Alu => { result with writeback_value := result.alu_result }
              | .Memory => { result with writeback_value := result.memory_load_value }
              | .Csr => { result with writeback_value := result.csr_result }
            let cpu : CPU_module M :=
              if result.dest_register ≠ 0 then
                { cpu with
                  registers :=
                    cpu.registers.set_register result.dest_register result.writeback_value }
              else cpu
            let cpu : CPU_module M :=
              if result.mret then
                { cpu with
                  pc := cpu.csr.mepc,
                  csr :=
                    { cpu.csr with
                      mstatus :=
                        { cpu.csr.mstatus with mie := cpu.csr.mstatus.mpie, mpie := false } } }
              else if result.branch_result then { cpu with pc := result.alu_result }
              else { cpu with pc := wrap32 (cpu.pc + 4) }
            some (result, cpu)

/-- The value `handle_trap` stores in `mtval` for a trap. -/
def trap_value (result : Result) (trap : Trap) : Nat :=
  match trap with
  | .Inst_address_misaligned | .Inst_access_fault | .Inst_page_fault | .Load_access_fault
  | .Store_access_fault | .Load_address_misaligned | .Store_address_misaligned
  | .Load_page_fault | .Store_page_fault => result.alu_result
  | .Illegal_instruction => result.inst
  | _ => 0

/-- Method `CPU_module::handle_trap`. -/
def handle_trap {M : Type} (cpu : CPU_module M) (result : Result) : CPU_module M :=
  match result.trap with
  | none => cpu
  | some trap =>
    let mstatus : csr.Mstatus :=
      { cpu.csr.mstatus with
        mpie := cpu.csr.mstatus.mie, mie := false, mpp := Priviledge.Machine }
    let pc :=
      if is_interrupt trap = true ∧ cpu.csr.mtvec.mode = csr.Mtvec.Mode.Vectored then
        wrap32 (wrap32 (cpu.csr.mtvec.base_upper30 <<< 2) + wrap32 (4 * (trap.code &&& 0x7fffffff)))
      else wrap32 (cpu.csr.mtvec.base_upper30 <<< 2)
    { cpu with
      pc := pc,
      csr :=
        { cpu.csr with
          mstatus := mstatus,
          mepc := cpu.pc,
          mcause := csr.Mcause.of_word trap.code,
          mtval := trap_value result trap } }

/-- Method `CPU_module::step`. -/
def step {M : Type} (interface : Memory_interface M) (cpu : CPU_module M) :
    Option (Result × CPU_module M) :=
  match execute interface cpu with
  | none => none
  | some (result, cpu1) =>
    let cpu2 := handle_trap cpu1 result
    some (result, { cpu2 with csr := cpu2.csr.tick })

end CPU_module

end core

/-! ## Interconnect and platform memory map (lib/device/interconnect.cpp, main/src/platform.cpp) -/

namespace device

open core

namespace periph

/-- The pure-virtual `read` and `write` a peripheral of state `P` supplies to
`Periph_base`. -/
structure Ops (P : Type) where
  read : P → Nat → Except Memory_interface.Error Nat × P
  write : P → Nat → Nat → Nat → Except Memory_interface.Error Unit × P

/-- A peripheral derived from `Periph_base`, seen through the memory interface:
`read_page` and `size` are those of the base class. -/
def Periph_base.interface {P : Type} (ops : Ops P) : Memory_interface P where
  read := ops.read
  read_page := Periph_base.read_page
  write := ops.write
  size := fun _ => Periph_base.size

end periph

namespace Interconnect

/-- Struct `Interconnect::Memory_query_result`, for an interconnect of state `M`: the
device referred to, as its operations on the interconnect state, and the local offset. -/
structure Memory_query_result (M : Type) where
  entry : Memory_interface M
  offset : Nat

/-- Method `Interconnect::read`, over the pure-virtual `get_memory`. -/
def read {M : Type} (get_memory : M → Nat → Except Memory_interface.Error (Memory_query_result M))
    (m : M) (address : Nat) : Except Memory_interface.Error Nat × M :=
  match get_memory m address with
  | .error e => (.error e, m)
  | .ok q => q.entry.read m q.offset

/-- Method `Interconnect::read_page`. -/
def read_page {M : Type}
    (get_memory : M → Nat → Except Memory_interface.Error (Memory_query_result M))
    (m : M) (address : Nat) (data : Page) : Except Memory_interface.Error Unit × Page × M :=
  match get_memory m address with
  | .error e => (.error e, data, m)
  | .ok q => q.entry.read_page m q.offset data

/-- Method `Interconnect::write`. -/
def write {M : Type}
    (get_memory : M → Nat → Except Memory_interface.Error (Memory_query_result M))
    (m : M) (address data mask : Nat) : Except Memory_interface.Error Unit × M :=
  match get_memory m address with
  | .error e => (.error e, m)
  | .ok q => q.entry.write m q.offset data mask

/-- An interconnect seen through the memory interface. -/
def interface {M : Type}
    (get_memory : M → Nat → Except Memory_interface.Error (Memory_query_result M)) :
    Memory_interface M where
  read := read get_memory
  read_page := read_page get_memory
  write := write get_memory
  size := fun _ => 2 ^ 64 - 1

end Interconnect

end device

namespace Platform

open core device

/-- Struct `Platform::Memory`: the ROM, the RAM and the two peripherals, whose states
have types `U` (UART) and `C` (clock). -/
structure Memory (U C : Type) where
  rom : Block_memory
  ram : Block_memory
  uart : U
  clock_periph : C

namespace Memory

/-- The ROM as a device of the platform memory. -/
def rom_entry {U C : Type} : Memory_interface (Memory U C) where
  read := fun m a => ((m.rom.read a).1, { m with rom := (m.rom.read a).2 })
  read_page := fun m a d =>
    ((m.rom.read_page a d).1, (m.rom.read_page a d).2.1, { m with rom := (m.rom.read_page a d).2.2 })
  write := fun m a d k => ((m.rom.write a d k).1, { m with rom := (m.rom.write a d k).2 })
  size := fun m => m.rom.size

/-- The RAM as a device of the platform memory. -/
def ram_entry {U C : Type} : Memory_interface (Memory U C) where
  read := fun m a => ((m.ram.read a).1, { m with ram := (m.ram.read a).2 })
  read_page := fun m a d =>
    ((m.ram.read_page a d).1, (m.ram.read_page a d).2.1, { m with ram := (m.ram.read_page a d).2.2 })
  write := fun m a d k => ((m.ram.write a d k).1, { m with ram := (m.ram.write a d k).2 })
  size := fun m => m.ram.size

/-- The UART as a device of the platform memory. -/
def uart_entry {U C : Type} (uart_ops : periph.Ops U) : Memory_interface (Memory U C) where
  read := fun m a =>
    (((periph.Periph_base.interface uart_ops).read m.uart a).1,
      { m with uart := ((periph.Periph_base.interface uart_ops).read m.uart a).2 })
  read_page := fun m a d =>
    (((periph.Periph_base.interface uart_ops).read_page m.uart a d).1,
      ((periph.Periph_base.interface uart_ops).read_page m.uart a d).2.1,
      { m with uart := ((periph.Periph_base.interface uart_ops).read_page m.uart a d).2.2 })
  write := fun m a d k =>
    (((periph.Periph_base.interface uart_ops).write m.uart a d k).1,
      { m with uart := ((periph.Periph_base.interface uart_ops).write m.uart a d k).2 })
  size := fun _ => periph.Periph_base.size

/-- The clock as a device of the platform memory. -/
def clock_entry {U C : Type} (clock_ops : periph.Ops C) : Memory_interface (Memory U C) where
  read := fun m a =>
    (((periph.Periph_base.interface clock_ops).read m.clock_periph a).1,
      { m with clock_periph := ((periph.Periph_base.interface clock_ops).read m.clock_periph a).2 })
  read_page := fun m a d =>
    (((periph.Periph_base.interface clock_ops).read_page m.clock_periph a d).1,
      ((periph.Periph_base.interface clock_ops).read_page m.clock_periph a d).2.1,
      { m with
        clock_periph :=
          ((periph.Periph_base.interface clock_ops).read_page m.clock_periph a d).2.2 })
  write := fun m a d k =>
    (((periph.Periph_base.interface clock_ops).write m.clock_periph a d k).1,
      { m with
        clock_periph := ((periph.Periph_base.interface clock_ops).write m.clock_periph a d k).2 })
  size := fun _ => periph.Periph_base.size

def rom_start : Nat := 0x00100000
def ram_start : Nat := 0x80000000
def uart_start : Nat := 0x00010000
def clock_start : Nat := 0x00011000

/-- Method `Platform::Memory::get_memory`. -/
def get_memory {U C : Type} (uart_ops : periph.Ops U) (clock_ops : periph.Ops C)
    (m : Memory U C) (address : Nat) :
    Except Memory_interface.Error (Interconnect.Memory_query_result (Memory U C)) :=
  if address ≥ ram_start ∧ address < ram_start + m.ram.size then
    .ok { entry := ram_entry, offset := address - ram_start }
  else if address ≥ rom_start ∧ address < rom_start + m.rom.size then
    .ok { entry := rom_entry, offset := address - rom_start }
  else if address ≥ uart_start ∧ address < uart_start + periph.Periph_base.size then
    .ok { entry := uart_entry uart_ops, offset := address - uart_start }
  else if address ≥ clock_start ∧ address < clock_start + periph.Periph_base.size then
    .ok { entry := clock_entry clock_ops, offset := address - clock_start }
  else .error .Out_of_range

/-- The platform memory seen through the memory interface. -/
def interface {U C : Type} (uart_ops : periph.Ops U) (clock_ops : periph.Ops C) :
    Memory_interface (Memory U C) :=
  Interconnect.interface (get_memory uart_ops clock_ops)

end Memory

/-- The memory built by the constructor `Platform::Platform`, before the flash image is
copied in: a locked 128 KiB ROM and a 2 GiB RAM with the given fill policy. -/
def create_memory {U C : Type} (fill_policy : Fill_policy) (uart : U) (clock_periph : C) :
    Memory U C :=
  { rom := { Block_memory.create (128 * 1024) with write_lock := true },
    ram := Block_memory.create (2 * 1024 * 1024 * 1024) fill_policy,
    uart := uart, clock_periph := clock_periph }

end Platform

/-! ## A small machine used to instantiate the theorems -/

namespace demo

open core device

/-- Four instructions: `ecall`, `mret`, `csrrw x0, mcycle, x1`, `addi x1, x0, 5`. -/
def program : Nat → Nat := fun w =>
  if w = 0 then 0x00000073
  else if w = 1 then 0x30200073
  else if w = 2 then 0xB0009073
  else if w = 3 then 0x00500093
  else 0

/-- A 4 KiB block memory holding `program`. -/
def memory : Block_memory :=
  { actual_size_bytes := 4096, fill_policy := .Zero,
    storage := fun i => if i = 0 then some program else none }

/-- A CPU wired to `memory`, with interrupts enabled, `mpie` set, `mepc = 0x100`,
`mcycle = 7`, `minstret = 9`, `x1 = 100` and a vectored trap base of `0x400`. -/
def cpu (pc : Nat) : CPU_module Block_memory :=
  { pc := pc,
    registers := { registers := fun i => if i = 1 then 100 else 0 },
    csr :=
      { mstatus := { mie := true, mpie := true }, mepc := 0x100, mcycles := 7, minstret := 9,
        mtvec := { mode := csr.Mtvec.Mode.Vectored, base_upper30 := 0x100 } },
    memory := memory }

/-- The same CPU with the machine timer interrupt pending and enabled and direct trap
mode. -/
def cpu_timer (pc : Nat) : CPU_module Block_memory :=
  { cpu pc with
    csr :=
      { (cpu pc).csr with
        mip := 0x80
        mie := 0x80
        mtvec := { mode := csr.Mtvec.Mode.Direct, base_upper30 := 0x100 } } }

/-- A peripheral without registers: every read and write is an access fault. -/
def no_registers : periph.Ops Unit where
  read := fun p _ => (.error .Access_fault, p)
  write := fun p _ _ _ => (.error .Access_fault, p)

end demo

namespace core

namespace CPU_module

/-- The record and state produced by `step`; the default record and the unchanged state
stand in where `step` throws. -/
def step_result {M : Type} (interface : Memory_interface M) (cpu : CPU_module M) :
    Result × CPU_module M :=
  (step interface cpu).getD ({}, cpu)

end CPU_module

end core

/-! ## Reference values for the high-word multiplications -/

namespace core

namespace reference

/-- Reference value for `mulh`, after the specification's words: bits 63..32 of the 64-bit
product of `x` and `y`, both read as signed two's-complement 32-bit integers. -/
def mulh (x y : Nat) : Nat := (of_int 64 (as_signed 32 x * as_signed 32 y) >>> 32) % 2 ^ 32

/-- Reference value for `mulhsu`, after the specification's words: bits 63..32 of the
product of `x` read as signed and `y` read as unsigned. -/
def mulhsu (x y : Nat) : Nat := (of_int 64 (as_signed 32 x * (y : Int)) >>> 32) % 2 ^ 32

/-- Reference value for `mulhu`, after the specification's words: bits 63..32 of the
unsigned product. -/
def mulhu (x y : Nat) : Nat := ((x * y) >>> 32) % 2 ^ 32

end reference

end core

/-! ## A second small machine: reserved encodings and a CSR immediate -/

namespace demo

open core device

/-- Four instruction words: `0x00002063` (BRANCH opcode, `funct3 = 010`, `x0`, `x0`,
offset 0), `0x00003083` (LOAD opcode, `funct3 = 011`, `rd = x1`, address `0(x0)`),
`0x00003023` (STORE opcode, `funct3 = 011`, address `0(x0)`) and `0x340FD073`
(`csrrwi x0, mscratch, 31`). -/
def encodings : Nat → Nat := fun w =>
  if w = 0 then 0x00002063
  else if w = 1 then 0x00003083
  else if w = 2 then 0x00003023
  else if w = 3 then 0x340FD073
  else 0

/-- A 4 KiB block memory holding `encodings`. -/
def memory_encodings : Block_memory :=
  { actual_size_bytes := 4096, fill_policy := .Zero,
    storage := fun i => if i = 0 then some encodings else none }

/-- The CPU of `cpu`, wired to `memory_encodings`. -/
def cpu_encodings (pc : Nat) : CPU_module Block_memory :=
  { cpu pc with memory := memory_encodings }

end demo

/-! ## Canonical placement of the branch and jump immediates -/

namespace core

namespace reference

/-- Bits 31:25 of a B-type word that encodes `offset`, after the specification's words:
`imm[12|10:5]`. -/
def btype_bits_31_25 (offset : Int) : Nat :=
  field (of_int 32 offset) 12 1 * 2 ^ 6 + field (of_int 32 offset) 5 6

/-- Bits 11:7 of a B-type word that encodes `offset`, after the specification's words:
`imm[4:1|11]`. -/
def btype_bits_11_7 (offset : Int) : Nat :=
  field (of_int 32 offset) 1 4 * 2 ^ 1 + field (of_int 32 offset) 11 1

/-- Bits 31:12 of a JAL word that encodes `offset`, after the specification's words:
`imm[20|10:1|11|19:12]`. -/
def jtype_bits_31_12 (offset : Int) : Nat :=
  field (of_int 32 offset) 20 1 * 2 ^ 19 + field (of_int 32 offset) 1 10 * 2 ^ 9
    + field (of_int 32 offset) 11 1 * 2 ^ 8 + field (of_int 32 offset) 12 8

end reference

end core

/-! ## CSR block: state after an access, and the 64-bit `mstatus` -/

namespace core

namespace csr

/-- The 64 bits of the `mstatus` object: `mstatus` (the first word) below `mstatush`. -/
def Mstatus.word64 (m : Mstatus) : Nat := m.low_word + m.high_word * 2 ^ 32

/-- Whether a `misa` word reports base RV32 (`base`, bits 31:30, equal to `Rv32 = 1`) with
the `I` (bit 8) and `M` (bit 12) extension bits set. -/
def Misa.reports_rv32im (w : Nat) : Bool := field w 30 2 == 1 && flag w 8 && flag w 12

end csr

namespace CSR_module

/-- The CSR block after `operator()` has run on it: the block returned along with the
value, or the block itself when the access fails (both error returns of the source
precede every store). -/
def after (c : CSR_module) (access_info : CSR_access_info) : CSR_module :=
  match c.call access_info with
  | .ok (_, c1) => c1
  | .error _ => c

/-- The CSR block after a sequence of accesses, first to last. -/
def after_all (c : CSR_module) (accesses : List CSR_access_info) : CSR_module :=
  accesses.foldl after c

/-- The value a read access to `address` returns (`0` stands in for an access error). -/
def read_value (c : CSR_module) (address : Nat) : Nat :=
  match c.call { address := address, read := true } with
  | .ok (v, _) => v
  | .error _ => 0

end CSR_module

end core

/-! ## A third small machine: `fence.i` -/

namespace demo

open core device

/-- A 4 KiB block memory whose first word is `0x0000100F` (`fence.i`). -/
def memory_fencei : Block_memory :=
  { actual_size_bytes := 4096, fill_policy := .Zero,
    storage := fun i => if i = 0 then some (fun w => if w = 0 then 0x0000100F else 0) else none }

/-- The CPU of `cpu`, wired to `memory_fencei`. -/
def cpu_fencei (pc : Nat) : CPU_module Block_memory :=
  { cpu pc with memory := memory_fencei }

end demo

/-! ## Clock peripheral (lib/device/peripheral/clock.cpp, sim/device/peripheral/clock.cpp) -/

namespace core

namespace Bitset

/-- Operation `expand_byte_mask()` on a `Bitset<Nb>`: bit `i` becomes byte `i`, all ones
or all zeros. -/
def expand_byte_mask : Nat → Nat → Nat
  | 0, _ => 0
  | 1, value => sext 1 8 (slice 0 0 value)
  | nb + 2, value =>
    concat 8 (8 * (nb + 1)) (sext 1 8 (slice (nb + 1) (nb + 1) value))
      (expand_byte_mask (nb + 1) (slice nb 0 value))

/-- Operation `choose_bits(if_one, if_zero)` of a `Bitset<32>` on `u32` operands. -/
def choose_bits (value if_one if_zero : Nat) : Nat :=
  (if_one &&& (value % 2 ^ 32)) ||| (if_zero &&& ((2 ^ 32 - 1) ^^^ (value % 2 ^ 32)))

end Bitset

end core

namespace device

open core

namespace periph

namespace Clock

/-- The pair of 32-bit halves of a 64-bit register: `struct Reg` of the `lib` header, the
anonymous union of two `u32` with one `u64` in the `sim` header (little-endian). -/
structure Reg where
  low : Nat := 0
  high : Nat := 0

/-- Method `Reg::get_64`: `(static_cast<u64>(high) << 32) | low`. -/
def Reg.get_64 (r : Reg) : Nat := (((r.high % 2 ^ 32) <<< 32) % 2 ^ 64) ||| (r.low % 2 ^ 32)

/-- Method `Reg::set_64`. -/
def Reg.set_64 (value : Nat) : Reg :=
  { low := (value &&& 0xFFFFFFFF) % 2 ^ 32, high := ((value >>> 32) &&& 0xFFFFFFFF) % 2 ^ 32 }

end Clock

/-- Class `Clock`: the counter, the compare register and the two staging registers. The
warnings the source prints on a refused access are not modelled. -/
structure Clock where
  timer : Clock.Reg := {}
  comp : Clock.Reg := {}
  counter_templow : Option Nat := none
  comp_templow : Option Nat := none

namespace Clock

/-- Method `Clock::write`. -/
def write (c : Clock) (address data mask : Nat) : Except Memory_interface.Error Unit × Clock :=
  if address &&& 0x3 ≠ 0 then (.error .Unaligned, c)
  else
    let new_address := address / 4
    let byte_mask := Bitset.expand_byte_mask 4 (Bitset.mk 4 mask)
    if new_address = 0 then
      (.ok (), { c with
        timer := { c.timer with low := Bitset.choose_bits byte_mask data c.timer.low }
        counter_templow := none })
    else if new_address = 1 then
      (.ok (), { c with
        timer := { c.timer with high := Bitset.choose_bits byte_mask data c.timer.high }
        counter_templow := none })
    else if new_address = 2 then
      (.ok (), { c with
        comp := { c.comp with low := Bitset.choose_bits byte_mask data c.comp.low }
        comp_templow := none })
    else if new_address = 3 then
      (.ok (), { c with
        comp := { c.comp with high := Bitset.choose_bits byte_mask data c.comp.high }
        comp_templow := none })
    else (.error .Access_fault, c)

/-- Method `Clock::read`. -/
def read (c : Clock) (address : Nat) : Except Memory_interface.Error Nat × Clock :=
  if address &&& 0x3 ≠ 0 then (.error .Unaligned, c)
  else
    let new_address := address / 4
    if new_address = 0 then
      match c.counter_templow with
      | some result => (.ok result, { c with counter_templow := none })
      | none => (.ok c.timer.low, c)
    else if new_address = 1 then
      (.ok c.timer.high, { c with counter_templow := some c.timer.low })
    else if new_address = 2 then
      match c.comp_templow with
      | some result => (.ok result, { c with comp_templow := none })
      | none => (.ok c.comp.low, c)
    else if new_address = 3 then
      (.ok c.comp.high, { c with comp_templow := some c.comp.low })
    else (.error .Access_fault, c)

/-- Method `Clock::tick`; `mip` is the value of the `mip` CSR passed by reference. -/
def tick (c : Clock) (mip : Nat) : Clock × Nat :=
  let timer := Reg.set_64 ((c.timer.get_64 + 1) % 2 ^ 64)
  ({ c with timer := timer },
    if timer.get_64 > c.comp.get_64 then (mip ||| (1 <<< 7)) % 2 ^ 32 else mip)

/-- The clock and `mip` after `k` calls of `tick`. -/
def ticks : Nat → Clock → Nat → Clock × Nat
  | 0, c, mip => (c, mip)
  | k + 1, c, mip => ticks k (c.tick mip).1 (c.tick mip).2

/-- The clock seen through the memory interface of `Periph_base`. -/
def ops : Ops Clock where
  read := read
  write := write

end Clock

end periph

end device

/-! ## Reference readings of the packet body (run-length markers, escapes) -/

namespace gdb_stub

namespace reference

/-- Reference expansion of run-length markers, after the specification's words: every
marker byte 42 followed by a count byte `k` stands for `k - 29` further copies of the
preceding byte `prev`; every other byte stands for itself. A marker without a count byte
is kept. -/
def expand_runs (prev : Nat) : List Nat → List Nat
  | [] => []
  | c :: rest =>
    if c = 42 then
      match rest with
      | [] => [42]
      | k :: rest2 => List.replicate (k - 29) prev ++ expand_runs prev rest2
    else c :: expand_runs c rest

/-- Reading position inside a packet body: at a plain byte, right after the escape byte
125, or right after an unescaped marker byte 42. -/
inductive Scan
  | Normal | Escaped | Counting
  deriving DecidableEq, Repr

/-- Reading position reached after the bytes of `body`, starting in position `st`. -/
def scan_state : Scan → List Nat → Scan
  | st, [] => st
  | .Normal, c :: rest =>
    if c = 125 then scan_state .Escaped rest
    else if c = 42 then scan_state .Counting rest
    else scan_state .Normal rest
  | .Escaped, _ :: rest => scan_state .Normal rest
  | .Counting, _ :: rest => scan_state .Normal rest

/-- The run-length count bytes met inside a stretch of wire bytes, read from position
`st`: the bytes that follow an unescaped marker byte 42. A marker that is the last byte of
the stretch has its count byte in the bytes that come after the stretch (the position
`scan_state` reports is then `Counting`). -/
def count_chars_from : Scan → List Nat → List Nat
  | _, [] => []
  | .Normal, c :: rest =>
    if c = 125 then count_chars_from .Escaped rest
    else if c = 42 then count_chars_from .Counting rest
    else count_chars_from .Normal rest
  | .Escaped, _ :: rest => count_chars_from .Normal rest
  | .Counting, k :: rest => k :: count_chars_from .Normal rest

/-- The run-length count bytes of a frame with body `body`: every byte that follows an
unescaped marker byte 42 of the body on the wire. The body is read together with the frame
terminator 35 that `internal_encode` writes right after it, so a marker that is the last
byte of the body has the terminator as its count byte. -/
def count_chars (body : List Nat) : List Nat := count_chars_from .Normal (body ++ [35])

/-- Reference escaping, after the specification's words: each of the bytes `* $ } #` is
replaced by byte 125 followed by that byte XOR `0x20`. -/
def escape : List Nat → List Nat
  | [] => []
  | c :: rest =>
    if c = 42 ∨ c = 36 ∨ c = 125 ∨ c = 35 then 125 :: (c ^^^ 0x20) :: escape rest
    else c :: escape rest

/-- Predicate: position `i` of `body` holds byte 125 in escape-introducer position, that
is, the byte is 125 and the position before it is not itself an introducer. -/
def is_introducer (body : List Nat) : Nat → Bool
  | 0 => body[0]? == some 125
  | i + 1 => body[i + 1]? == some 125 && !is_introducer body i

end reference

/-- The local `result_str` of `Packet_encoder::internal_encode` on a fresh encoder: the
stream after every byte of `str` is pushed and the pending repetitions are flushed. It is
the body of the frame `encode` returns. -/
def Packet_encoder.result_str (str : List Nat) : List Nat :=
  (Packet_encoder.push_repeat (str.foldl Packet_encoder.push {})).stream

end gdb_stub

/-! ## CSR block: the word stored at an address -/

namespace core

namespace CSR_module

/-- The 32-bit word the CSR block holds at a 12-bit CSR address, read off the member the
`switch` of `operator()` selects for it: the register itself, the low or high half of a
64-bit counter, or the first or second word of the `mstatus` object. Addresses without a
case hold nothing. -/
def stored (c : CSR_module) (a : Nat) : Option Nat :=
  if a = csr.Mscratch.address then some c.mscratch
  else if a = csr.Misa.address then some c.misa
  else if a = csr.Mvendorid.address then some c.mvendorid
  else if a = csr.Marchid.address then some c.marchid
  else if a = csr.Mimpid.address then some c.mimpid
  else if a = csr.Mhartid.address then some c.mhartid
  else if a = csr.Mconfigptr.address then some c.mconfigptr
  else if a = csr.Mcycles.low_address then some (low32 c.mcycles)
  else if a = csr.Mcycles.high_address then some (high32 c.mcycles)
  else if a = csr.Minstret.low_address then some (low32 c.minstret)
  else if a = csr.Minstret.high_address then some (high32 c.minstret)
  else if a = csr.Mepc.address then some c.mepc
  else if a = csr.Mcause.address then some c.mcause.word
  else if a = csr.Mtval.address then some c.mtval
  else if a = csr.Mip.address then some c.mip
  else if a = csr.Mie.address then some c.mie
  else if a = csr.Mtvec.address then some c.mtvec.word
  else if a = csr.Mstatus.low_address then some c.mstatus.low_word
  else if a = csr.Mstatus.high_address then some c.mstatus.high_word
  else none

end CSR_module

end core

/-! ## Watchpoint keys and the watchpoint check
(sim/include/gdb-stub/addr-range.hpp, lib/include/gdb-stub/stop-point.hpp,
main/src/emulator-debug.cpp) -/

namespace gdb_stub

/-- The four values of `std::partial_ordering`. -/
inductive Partial_ordering
  | less | equivalent | greater | unordered
  deriving DecidableEq, Repr

/-- Struct `Address_range`; `start` and `size` are `u32`. -/
structure Address_range where
  start : Nat
  size : Nat
  deriving DecidableEq, Repr

namespace Address_range

/-- The comparison `Address_range::operator<=>`; the two ends are computed in `u32`. -/
def compare (a other : Address_range) : Partial_ordering :=
  let end_ := (a.start + a.size) % 2 ^ 32
  let other_end := (other.start + other.size) % 2 ^ 32
  if a.start ≤ other.start ∧ other_end ≤ end_ then .equivalent
  else if other.start ≤ a.start ∧ end_ ≤ other_end then .equivalent
  else if other_end < a.start then .greater
  else if end_ < other.start then .less
  else .unordered

/-- The comparison `a < b` the language derives from `operator<=>`, which `std::less`
uses as the key order of `std::map`: true exactly on `less`. -/
def lt (a other : Address_range) : Bool := a.compare other == .less

/-- The ranges share at least one byte address, `start + size` not wrapping. -/
def shares_byte (a other : Address_range) : Bool :=
  decide (a.start < other.start + other.size ∧ other.start < a.start + a.size)

end Address_range

/-- Struct `Watchpoint`. -/
structure Watchpoint where
  watch_write : Bool
  watch_read : Bool
  addr_range : Address_range
  deriving DecidableEq, Repr

end gdb_stub

namespace core

/-- Function `core::get_size`; `none` where the source throws `std::logic_error`. -/
def get_size (funct : Load_store_module.Funct) : Option Nat :=
  match funct with
  | .Load_byte | .Load_byte_unsigned | .Store_byte => some 1
  | .Load_halfword | .Load_halfword_unsigned | .Store_halfword => some 2
  | .Load_word | .Store_word => some 4
  | .None => none

end core

namespace Emulator_debug

open gdb_stub core

/-- The member `watchpoints`, a `std::map<Address_range, Watchpoint>`, as the list of its
entries in iteration order. -/
abbrev Watchpoints := List (Address_range × Watchpoint)

/-- The lookup `std::map::find` under the key order `Address_range.lt`: the lower bound,
that is the first entry whose key is not less than `key`, is the entry found unless `key`
is less than its key. On a map of one entry this is the walk over the tree of one node. -/
def find (watchpoints : Watchpoints) (key : Address_range) : Option (Address_range × Watchpoint) :=
  match watchpoints.find? (fun e => !(e.1.lt key)) with
  | none => none
  | some e => if key.lt e.1 then none else some e

/-- Method `Emulator_debug::check_watchpoint`: the optional pair `(is_read, is_write)`;
the outer `none` stands for the exception `get_size` throws. -/
def check_watchpoint (watchpoints : Watchpoints) (result : CPU_module.Result) :
    Option (Option (Bool × Bool)) :=
  let mode := result.memory_opcode
  if mode = .None then some none
  else
    let write := mode == .Store
    let read := mode == .Load
    match get_size result.memory_funct with
    | none => none
    | some size =>
      match find watchpoints { start := result.alu_result, size := size % 2 ^ 32 } with
      | none => some none
      | some e =>
        if !(write && e.2.watch_write) && !(read && e.2.watch_read) then some none
        else some (some (read && e.2.watch_read, write && e.2.watch_write))

end Emulator_debug

/-! ## Fetching a sequence of addresses through the cache -/

namespace device

open core

/-- Fetch the addresses `pcs` one after the other through the fetch cache `f` over the
block memory `b`, and compare each fetched word with the word a direct `read(pc)` of the
memory returns at that moment (the memory as the fetches so far have left it). The
result is `true` when every fetch delivers a word and that word is the one read. -/
def fetch_matches_read (f : Inst_fetch_module) (b : Block_memory) : List Nat → Bool
  | [] => true
  | pc :: rest =>
    match Inst_fetch_module.call Block_memory.interface f b pc with
    | some (.ok w, f1, b1) =>
      decide ((b.read pc).1 = .ok w) && fetch_matches_read f1 b1 rest
    | _ => false

end device

/-! ## Agent-expression virtual machine (lib/gdb-stub/expression.cpp) -/

namespace gdb_stub

namespace expression

/-! The values of `enum class Bytecode` the interpreter has a case for. -/

namespace Bytecode

def Add : Nat := 0x02
def Sub : Nat := 0x03
def Mul : Nat := 0x04
def Div_signed : Nat := 0x05
def Div_unsigned : Nat := 0x06
def Rem_signed : Nat := 0x07
def Rem_unsigned : Nat := 0x08
def Lsh : Nat := 0x09
def Rsh_signed : Nat := 0x0a
def Rsh_unsigned : Nat := 0x0b
def Log_not : Nat := 0x0e
def Bit_and : Nat := 0x0f
def Bit_or : Nat := 0x10
def Bit_xor : Nat := 0x11
def Bit_not : Nat := 0x12
def Equal : Nat := 0x13
def Less_signed : Nat := 0x14
def Less_unsigned : Nat := 0x15
def Ext : Nat := 0x16
def Zero_ext : Nat := 0x2a
def Ref8 : Nat := 0x17
def Ref16 : Nat := 0x18
def Ref32 : Nat := 0x19
def Dup : Nat := 0x28
def Swap : Nat := 0x2b
def Pop : Nat := 0x29
def Pick : Nat := 0x32
def Rot : Nat := 0x33
def If_goto : Nat := 0x20
def Goto : Nat := 0x21
def Const8 : Nat := 0x22
def Const16 : Nat := 0x23
def Const32 : Nat := 0x24
def Reg : Nat := 0x26
def End : Nat := 0x27

end Bytecode

inductive Execute_error
  | Unsupported_bytecode | Bytecode_out_of_bound | Stack_out_of_bound | Division_by_zero
  | Memory_access_error | Register_access_error
  deriving DecidableEq, Repr

/-- Struct `Execute_result`. -/
structure Execute_result where
  top : Nat
  next_to_top : Option Nat := none
  deriving DecidableEq, Repr

/-- How a run of the interpreter ends: with the result, with an `Execute_error`, or in an
operation whose behaviour the language leaves undefined (an integer division by zero or
of `INT_MIN` by `-1`, a shift by a negative count or by 32 or more). -/
inductive Outcome
  | result (r : Execute_result)
  | error (e : Execute_error)
  | undefined
  deriving DecidableEq, Repr

/-- One turn of the `while (true)` loop: either the loop goes on with a new `pc` and
stack, or `execute` returns. The stack is listed from its top (`stack.back()`) down. -/
inductive Step
  | next (pc : Nat) (stack : List Nat)
  | done (o : Outcome)
  deriving DecidableEq, Repr

/-- The macro `GET_TOP_TWO_STACK` followed by `PUSH_STACK(f a b); pc++`: `b` is popped
first (the top, pushed later), then `a`. -/
def binary (pc : Nat) (stack : List Nat) (f : Nat → Nat → Nat) : Step :=
  match stack with
  | b :: a :: rest => .next (pc + 1) (f a b :: rest)
  | _ => .done (.error .Stack_out_of_bound)

/-- The two bytes at `pc + 1`, `pc + 2` read most-significant byte first, as the `u16` the
source assembles with `std::bit_cast`; the error of `GET_OP_AT_INDEX` otherwise. -/
def operand16 (bytecode : List Nat) (pc : Nat) : Option Nat :=
  match bytecode[pc + 1]?, bytecode[pc + 2]? with
  | some hi, some lo => some (hi % 256 * 256 + lo % 256)
  | _, _ => none

/-- The body of the loop of `execute` at `pc` with stack `stack`. -/
def step (access_memory_func access_register_func : Nat → Option Nat) (bytecode : List Nat)
    (pc : Nat) (stack : List Nat) : Step :=
  match bytecode[pc]? with
  | none => .done (.error .Bytecode_out_of_bound)
  | some op =>
    if op = Bytecode.Add then binary pc stack (fun a b => (a + b) % 2 ^ 32)
    else if op = Bytecode.Sub then binary pc stack (fun a b => (b + 2 ^ 32 - a % 2 ^ 32) % 2 ^ 32)
    else if op = Bytecode.Mul then binary pc stack (fun a b => (a * b) % 2 ^ 32)
    else if op = Bytecode.Div_signed then
      match stack with
      | b :: a :: rest =>
        if b = 0 then .done (.error .Division_by_zero)
        else if a = 0 then .done .undefined
        else if core.as_signed 32 b = -2 ^ 31 ∧ core.as_signed 32 a = -1 then .done .undefined
        else .next (pc + 1)
          (core.of_int 32 (Int.tdiv (core.as_signed 32 b) (core.as_signed 32 a)) :: rest)
      | _ => .done (.error .Stack_out_of_bound)
    else if op = Bytecode.Div_unsigned then
      match stack with
      | b :: a :: rest =>
        if b = 0 then .done (.error .Division_by_zero)
        else if a = 0 then .done .undefined
        else .next (pc + 1) (b / a :: rest)
      | _ => .done (.error .Stack_out_of_bound)
    else if op = Bytecode.Rem_signed then
      match stack with
      | b :: a :: rest =>
        if b = 0 then .done (.error .Division_by_zero)
        else if a = 0 then .done .undefined
        else if core.as_signed 32 b = -2 ^ 31 ∧ core.as_signed 32 a = -1 then .done .undefined
        else .next (pc + 1)
          (core.of_int 32 (Int.tmod (core.as_signed 32 b) (core.as_signed 32 a)) :: rest)
      | _ => .done (.error .Stack_out_of_bound)
    else if op = Bytecode.Rem_unsigned then
      match stack with
      | b :: a :: rest =>
        if b = 0 then .done (.error .Division_by_zero)
        else if a = 0 then .done .undefined
        else .next (pc + 1) (b % a :: rest)
      | _ => .done (.error .Stack_out_of_bound)
    else if op = Bytecode.Lsh then binary pc stack (fun a b => (b <<< (a &&& 0x1F)) % 2 ^ 32)
    else if op = Bytecode.Rsh_signed then
      binary pc stack (fun a b => core.of_int 32 (core.as_signed 32 b >>> (a &&& 0x1F)))
    else if op = Bytecode.Rsh_unsigned then binary pc stack (fun a b => b >>> (a &&& 0x1F))
    else if op = Bytecode.Log_not then
      match stack with
      | a :: rest => .next (pc + 1) ((if a = 0 then 1 else 0) :: rest)
      | _ => .done (.error .Stack_out_of_bound)
    else if op = Bytecode.Bit_and then binary pc stack (fun a b => a &&& b)
    else if op = Bytecode.Bit_or then binary pc stack (fun a b => a ||| b)
    else if op = Bytecode.Bit_xor then binary pc stack (fun a b => a ^^^ b)
    else if op = Bytecode.Bit_not then
      match stack with
      | a :: rest => .next (pc + 1) (((2 ^ 32 - 1) ^^^ (a % 2 ^ 32)) :: rest)
      | _ => .done (.error .Stack_out_of_bound)
    else if op = Bytecode.Equal then binary pc stack (fun a b => if a = b then 1 else 0)
    else if op = Bytecode.Less_signed then
      binary pc stack (fun a b => if core.as_signed 32 b < core.as_signed 32 a then 1 else 0)
    else if op = Bytecode.Less_unsigned then binary pc stack (fun a b => if b < a then 1 else 0)
    else if op = Bytecode.Ext then
      match bytecode[pc + 1]? with
      | none => .done (.error .Bytecode_out_of_bound)
      | some n =>
        match stack with
        | a :: rest =>
          if n = 0 ∨ 32 < n then .done .undefined
          else .next (pc + 2)
            (core.of_int 32 (core.as_signed 32 ((a <<< (32 - n)) % 2 ^ 32) >>> (32 - n)) :: rest)
        | _ => .done (.error .Stack_out_of_bound)
    else if op = Bytecode.Zero_ext then
      match bytecode[pc + 1]? with
      | none => .done (.error .Bytecode_out_of_bound)
      | some n =>
        match stack with
        | a :: rest =>
          if 32 ≤ n then .done .undefined
          else .next (pc + 2) ((a &&& ((1 <<< n) % 2 ^ 32 - 1)) :: rest)
        | _ => .done (.error .Stack_out_of_bound)
    else if op = Bytecode.Ref8 then
      match stack with
      | addr :: rest =>
        match access_memory_func addr with
        | none => .done (.error .Memory_access_error)
        | some v => .next (pc + 1) (v :: rest)
      | _ => .done (.error .Stack_out_of_bound)
    else if op = Bytecode.Ref16 then
      match stack with
      | addr :: rest =>
        match access_memory_func addr, access_memory_func ((addr + 1) % 2 ^ 32) with
        | some v0, some v1 => .next (pc + 1) ((v0 + v1 * 2 ^ 8) :: rest)
        | _, _ => .done (.error .Memory_access_error)
      | _ => .done (.error .Stack_out_of_bound)
    else if op = Bytecode.Ref32 then
      match stack with
      | addr :: rest =>
        match access_memory_func addr, access_memory_func ((addr + 1) % 2 ^ 32),
            access_memory_func ((addr + 2) % 2 ^ 32), access_memory_func ((addr + 3) % 2 ^ 32) with
        | some v0, some v1, some v2, some v3 =>
          .next (pc + 1) ((v0 + v1 * 2 ^ 8 + v2 * 2 ^ 16 + v3 * 2 ^ 24) :: rest)
        | _, _, _, _ => .done (.error .Memory_access_error)
      | _ => .done (.error .Stack_out_of_bound)
    else if op = Bytecode.Dup then
      match stack with
      | a :: rest => .next (pc + 1) (a :: a :: rest)
      | _ => .done (.error .Stack_out_of_bound)
    else if op = Bytecode.Swap then
      match stack with
      | a :: b :: rest => .next (pc + 1) (b :: a :: rest)
      | _ => .done (.error .Stack_out_of_bound)
    else if op = Bytecode.Pop then
      match stack with
      | _ :: rest => .next (pc + 1) rest
      | _ => .done (.error .Stack_out_of_bound)
    else if op = Bytecode.Pick then
      match bytecode[pc + 1]? with
      | none => .done (.error .Bytecode_out_of_bound)
      | some n =>
        match stack[n]? with
        | none => .done (.error .Stack_out_of_bound)
        | some val => .next (pc + 2) (val :: stack)
    else if op = Bytecode.Rot then
      match stack with
      | c :: b :: a :: rest => .next (pc + 1) (b :: a :: c :: rest)
      | _ => .done (.error .Stack_out_of_bound)
    else if op = Bytecode.If_goto then
      match stack with
      | a :: rest =>
        if a = 0 then .next (pc + 3) rest
        else
          match operand16 bytecode pc with
          | none => .done (.error .Bytecode_out_of_bound)
          | some target => .next target rest
      | _ => .done (.error .Stack_out_of_bound)
    else if op = Bytecode.Goto then
      match operand16 bytecode pc with
      | none => .done (.error .Bytecode_out_of_bound)
      | some target => .next target stack
    else if op = Bytecode.Const8 then
      match bytecode[pc + 1]? with
      | none => .done (.error .Bytecode_out_of_bound)
      | some value => .next (pc + 2) (value :: stack)
    else if op = Bytecode.Const16 then
      match operand16 bytecode pc with
      | none => .done (.error .Bytecode_out_of_bound)
      | some value => .next (pc + 3) (value :: stack)
    else if op = Bytecode.Const32 then
      match bytecode[pc + 1]?, bytecode[pc + 2]?, bytecode[pc + 3]?, bytecode[pc + 4]? with
      | some b3, some b2, some b1, some b0 =>
        .next (pc + 5)
          ((b3 % 256 * 2 ^ 24 + b2 % 256 * 2 ^ 16 + b1 % 256 * 2 ^ 8 + b0 % 256) :: stack)
      | _, _, _, _ => .done (.error .Bytecode_out_of_bound)
    else if op = Bytecode.Reg then
      match operand16 bytecode pc with
      | none => .done (.error .Bytecode_out_of_bound)
      | some index =>
        match access_register_func index with
        | none => .done (.error .Register_access_error)
        | some val => .next (pc + 3) (val :: stack)
    else if op = Bytecode.End then
      match stack with
      | top :: [] => .done (.result { top := top })
      | top :: next_to_top :: _ =>
        .done (.result { top := top, next_to_top := some next_to_top })
      | [] => .done (.error .Stack_out_of_bound)
    else .done (.error .Unsupported_bytecode)

/-- The loop of `execute`, cut after `fuel` turns: `none` when the loop has not returned
by then. -/
def run (access_memory_func access_register_func : Nat → Option Nat) (bytecode : List Nat) :
    Nat → Nat → List Nat → Option Outcome
  | 0, _, _ => none
  | fuel + 1, pc, stack =>
    match step access_memory_func access_register_func bytecode pc stack with
    | .done o => some o
    | .next pc1 stack1 => run access_memory_func access_register_func bytecode fuel pc1 stack1

/-- Function `execute`: the loop started at `pc = 0` with an empty stack. -/
def execute (access_memory_func access_register_func : Nat → Option Nat) (bytecode : List Nat)
    (fuel : Nat) : Option Outcome :=
  run access_memory_func access_register_func bytecode fuel 0 []

end expression

end gdb_stub

/-! ## Command parser and register dump (sim/gdb-stub/command.cpp,
lib/gdb-stub/response.cpp) -/

namespace gdb_stub

/-- How a call of a C++ function ends: it returns a value, an exception leaves it, or it
runs into behaviour the language or the library leaves undefined. -/
inductive Cxx (α : Type)
  | ret (a : α)
  | throws
  | undefined
  deriving DecidableEq, Repr

/-- Sequencing of calls: the first call that does not return decides. -/
def Cxx.bind {α β : Type} (x : Cxx α) (f : α → Cxx β) : Cxx β :=
  match x with
  | .ret a => f a
  | .throws => .throws
  | .undefined => .undefined

/-- The range adaptor `std::views::chunk(n)`, on at most `fuel` chunks. -/
def chunk_fuel (n : Nat) : Nat → List Nat → List (List Nat)
  | 0, _ => []
  | fuel + 1, l => if l = [] then [] else l.take n :: chunk_fuel n fuel (l.drop n)

/-- The range adaptor `std::views::chunk(n)` for `n ≥ 1`: pieces of `n` elements, the
last one possibly shorter. -/
def chunk (n : Nat) (l : List Nat) : List (List Nat) := chunk_fuel n l.length l

/-- Splitting at each `delim`, with the piece under construction in `cur` (reversed). -/
def split_go (delim : Nat) : List Nat → List Nat → List (List Nat)
  | [], cur => [cur.reverse]
  | c :: rest, cur =>
    if c = delim then cur.reverse :: split_go delim rest [] else split_go delim rest (c :: cur)

/-- The range adaptor `std::views::split(delim)`: an empty range has no piece. -/
def split (delim : Nat) (l : List Nat) : List (List Nat) :=
  if l = [] then [] else split_go delim l []

/-- The byte-wise order of `std::string`. -/
def string_lt : List Nat → List Nat → Bool
  | [], [] => false
  | [], _ :: _ => true
  | _ :: _, [] => false
  | a :: as, b :: bs => decide (a < b) || (a == b && string_lt as bs)

/-- Insertion into a `std::map`, kept as the list of its entries in key order: an entry
whose key is already present is not inserted. -/
def map_insert {K V : Type} [DecidableEq K] (lt : K → K → Bool) (m : List (K × V)) (k : K)
    (v : V) : List (K × V) :=
  match m with
  | [] => [(k, v)]
  | (k1, v1) :: rest =>
    if lt k k1 then (k, v) :: (k1, v1) :: rest
    else if k = k1 then (k1, v1) :: rest
    else (k1, v1) :: map_insert lt rest k v

namespace command

inductive Host_feature_property
  | Value | Supported | Unsupported | Unknown
  deriving DecidableEq, Repr

/-- Struct `Query_supported::Host_feature_status`. -/
structure Host_feature_status where
  property : Host_feature_property
  value : Option (List Nat) := none
  deriving DecidableEq, Repr

/-- The command structs of `command.hpp` and `special-packet.hpp`, one constructor per
struct a `std::any` returned by `parse` can hold. -/
inductive Command
  | Acknowledge_packet (success : Bool)
  | Interrupt_packet
  | Enable_persistant
  | Ask_halt_reason
  | Continue (address : Option Nat)
  | Read_register
  | Write_register (values : List (Nat × Nat))
  | Step_cycles (address cycle_count : Option Nat)
  | Stop
  | Read_memory (address length : Nat)
  | Write_memory (address : Nat) (data : List Nat)
  | Read_single_register (regno : Nat)
  | Write_single_register (regno value : Nat)
  | Step_single_inst (address : Option Nat)
  | Query_supported (features : List (List Nat × Host_feature_status))
  | Read_feature_xml (annex : List Nat) (offset length : Nat)
  | Read_memory_map_xml (offset length : Nat)
  | Add_breakpoint (is_hardware : Bool) (address length : Nat) (cond : Option (List Nat))
  | Add_watchpoint (watch_write watch_read : Bool) (address length : Nat)
  | Remove_breakpoint (is_hardware : Bool) (address length : Nat)
  | Remove_watchpoint (watch_write watch_read : Bool) (address length : Nat)
  deriving DecidableEq, Repr

/-- The value a parse function returns: a `std::any` holding a command, or the empty
`fail`. -/
abbrev Any := Option Command

/-- The value `std::from_chars` accumulates from hexadecimal digits, most significant
first. -/
def hex_number (digits : List Nat) : Nat := digits.foldl (fun acc c => acc * 16 + hex_value c) 0

/-- Function `util::parse_hex` (both overloads). `std::from_chars` stops at the first
byte that is not a hexadecimal digit, so the result is empty unless the whole string
consists of digits. When the digits denote a value of `2 ^ 32` or more, `from_chars`
reports `result_out_of_range` with `ptr` at the end and leaves `address` unwritten: the
function then reads the uninitialised `address`, which is undefined. -/
def parse_hex (str : List Nat) : Cxx (Option Nat) :=
  if str = [] then .ret none
  else if !str.all isxdigit then .ret none
  else if hex_number str < 2 ^ 32 then .ret (some (hex_number str))
  else .undefined

/-- Function `util::parse_u32_pair`: both numbers are parsed before either is tested. -/
def parse_u32_pair (str : List Nat) : Cxx (Option (Nat × Nat)) :=
  if 44 ∉ str then .ret none
  else
    (parse_hex (str.takeWhile (· ≠ 44))).bind fun first =>
    (parse_hex ((str.dropWhile (· ≠ 44)).drop 1)).bind fun second =>
    match first, second with
    | some a, some b => .ret (some (a, b))
    | _, _ => .ret none

/-- Function `util::split_once`: the parts before and after the first `delim`, or two
empty strings when there is none. -/
def split_once (str : List Nat) (delim : Nat) : List Nat × List Nat :=
  if delim ∉ str then ([], [])
  else (str.takeWhile (· ≠ delim), (str.dropWhile (· ≠ delim)).drop 1)

/-- Function `parse_continue`. -/
def parse_continue (params : List Nat) : Cxx Any :=
  if params = [] then .ret (some (.Continue none))
  else
    (parse_hex params).bind fun address =>
    match address with
    | none => .ret none
    | some a => .ret (some (.Continue (some a)))

/-- The loop over the 8-byte chunks in `parse_write_registers`, from chunk number `index`
on: `xxxxxxxx` is skipped, a chunk that is not a number makes the lambda throw, which the
function catches and turns into `fail` (the `none` here). -/
def parse_register_chunks :
    List (List Nat) → Nat → List (Nat × Nat) → Cxx (Option (List (Nat × Nat)))
  | [], _, values => .ret (some values)
  | subrange :: rest, index, values =>
    if subrange = [120, 120, 120, 120, 120, 120, 120, 120] then
      parse_register_chunks rest (index + 1) values
    else
      (parse_hex subrange).bind fun parse_result =>
      match parse_result with
      | none => .ret none
      | some v =>
        parse_register_chunks rest (index + 1)
          (map_insert (fun a b => decide (a < b)) values (index % 65536) v)

/-- Function `parse_write_registers`. -/
def parse_write_registers (params : List Nat) : Cxx Any :=
  if params = [] ∨ params.length % 8 ≠ 0 then .ret none
  else
    (parse_register_chunks (chunk 8 params) 0 []).bind fun values =>
    match values with
    | none => .ret none
    | some values => .ret (some (.Write_register values))

/-- The elements of a vector of optionals, in order; `none` when one is empty. -/
def all_values : List (Option Nat) → Option (List Nat)
  | [] => some []
  | none :: _ => none
  | some v :: rest => (all_values rest).map (fun vs => v :: vs)

/-- Every element of a list of strings through `parse_hex`, first to last. -/
def parse_hex_list : List (List Nat) → Cxx (List (Option Nat))
  | [] => .ret []
  | s :: rest =>
    (parse_hex s).bind fun v => (parse_hex_list rest).bind fun vs => .ret (v :: vs)

/-- Function `parse_step_single_cycle`. -/
def parse_step_single_cycle (params : List Nat) : Cxx Any :=
  (parse_hex_list (split 44 params)).bind fun subparams =>
  match all_values subparams with
  | none => .ret none
  | some [] => .ret (some (.Step_cycles none none))
  | some [a] => .ret (some (.Step_cycles (some a) none))
  | some [a, c] => .ret (some (.Step_cycles (some a) (some c)))
  | some _ => .ret none

/-- Function `parse_read_memory`. -/
def parse_read_memory (params : List Nat) : Cxx Any :=
  (parse_u32_pair params).bind fun parse_result =>
  match parse_result with
  | none => .ret none
  | some (addr, length) => .ret (some (.Read_memory addr length))

/-- The pairs of hexadecimal digits of `data_str` as bytes, `std::optional<u8>` by
`std::optional<u8>`; empty when a chunk is not a number. A chunk has at most two digits,
so its value fits the `u8`. -/
def parse_hex_bytes (data_str : List Nat) : Cxx (Option (List Nat)) :=
  (parse_hex_list (chunk 2 data_str)).bind fun data_view =>
  .ret ((all_values data_view).map (fun vs => vs.map (· % 256)))

/-- Function `parse_write_memory`. The test `data_str.size() != length * 2` multiplies in
`u32`. -/
def parse_write_memory (params : List Nat) : Cxx Any :=
  let (addr_length_str, data_str) := split_once params 58
  if addr_length_str = [] ∨ data_str = [] then .ret none
  else
    (parse_u32_pair addr_length_str).bind fun parse_pair_result =>
    match parse_pair_result with
    | none => .ret none
    | some (addr, length) =>
      if data_str.length ≠ (length * 2) % 2 ^ 32 then .ret none
      else
        (parse_hex_bytes data_str).bind fun data =>
        match data with
        | none => .ret none
        | some data => .ret (some (.Write_memory addr data))

/-- Function `parse_read_single_register`. -/
def parse_read_single_register (params : List Nat) : Cxx Any :=
  if params = [] ∨ params.length > 4 then .ret none
  else
    (parse_hex params).bind fun address =>
    match address with
    | none => .ret none
    | some a => if a ≥ 65536 then .ret none else .ret (some (.Read_single_register a))

/-- Function `parse_write_single_register`. -/
def parse_write_single_register (params : List Nat) : Cxx Any :=
  if params = [] then .ret none
  else
    let (address_str, value_str) := split_once params 61
    if address_str = [] ∨ value_str = [] ∨ address_str.length > 4 ∨ value_str.length ≠ 8 then
      .ret none
    else
      (parse_hex address_str).bind fun address =>
      match address with
      | none => .ret none
      | some a =>
        if a ≥ 65536 then .ret none
        else
          (parse_hex value_str).bind fun value =>
          match value with
          | none => .ret none
          | some v => .ret (some (.Write_single_register a v))

/-- Function `parse_step_single`. -/
def parse_step_single (params : List Nat) : Cxx Any :=
  if params = [] then .ret (some (.Step_single_inst none))
  else
    (parse_hex params).bind fun address =>
    match address with
    | none => .ret none
    | some a => .ret (some (.Step_single_inst (some a)))

/-- Whether a byte is one of `+`, `-`, `?`, `=`. -/
def is_feature_separator (c : Nat) : Bool := c == 43 || c == 45 || c == 63 || c == 61

/-- One slice of `parse_q_supported`: the name before the LAST of the bytes `+ - ? =` of
the slice and the status that byte selects. A slice without such a byte makes the lambda
dereference the end of the reversed slice and build a string from an inverted pointer
pair, which is undefined. -/
def parse_feature (subrange : List Nat) : Cxx (List Nat × Host_feature_status) :=
  match (subrange.reverse.dropWhile (fun c => !is_feature_separator c)) with
  | [] => .undefined
  | sep :: name_reversed =>
    let name := name_reversed.reverse
    let value := subrange.drop (name.length + 1)
    if sep = 43 then .ret (name, { property := .Supported })
    else if sep = 45 then .ret (name, { property := .Unsupported })
    else if sep = 63 then .ret (name, { property := .Unknown })
    else .ret (name, { property := .Value, value := some value })

/-- The slices of `parse_q_supported` collected into the map, first to last. -/
def parse_features :
    List (List Nat) → List (List Nat × Host_feature_status)
      → Cxx (List (List Nat × Host_feature_status))
  | [], features => .ret features
  | subrange :: rest, features =>
    (parse_feature subrange).bind fun (name, status) =>
    parse_features rest (map_insert string_lt features name status)

/-- Function `parse_q_supported`. -/
def parse_q_supported (params : List Nat) : Cxx Any :=
  (parse_features (split 59 params) []).bind fun features =>
  .ret (some (.Query_supported features))

/-- Function `parse_qxfer_feature_read`. -/
def parse_qxfer_feature_read (params : List Nat) : Cxx Any :=
  let (annex_str, offset_length_str) := split_once params 58
  (parse_u32_pair offset_length_str).bind fun parse_offset_length_result =>
  match parse_offset_length_result with
  | none => .ret none
  | some (offset, length) => .ret (some (.Read_feature_xml annex_str offset length))

/-- Function `parse_qxfer_memorymap_read`. -/
def parse_qxfer_memorymap_read (params : List Nat) : Cxx Any :=
  let (_, offset_length_str) := split_once params 58
  (parse_u32_pair offset_length_str).bind fun parse_offset_length_result =>
  match parse_offset_length_result with
  | none => .ret none
  | some (offset, length) => .ret (some (.Read_memory_map_xml offset length))

/-- The call `params.substr(pos)`: `std::out_of_range` is thrown when `pos` exceeds the
length. -/
def substr (params : List Nat) (pos : Nat) : Cxx (List Nat) :=
  if pos > params.length then .throws else .ret (params.drop pos)

/-- The bytes of `features:read` (13 bytes; with the colon that follows, 14). -/
def features_read : List Nat := [102, 101, 97, 116, 117, 114, 101, 115, 58, 114, 101, 97, 100]

/-- The bytes of `memory-map:read` (15 bytes; with the colon that follows, 16). -/
def memory_map_read : List Nat :=
  [109, 101, 109, 111, 114, 121, 45, 109, 97, 112, 58, 114, 101, 97, 100]

/-- Function `parse_qxfer`: the prefix tested has no trailing colon, the prefix skipped
has one. -/
def parse_qxfer (params : List Nat) : Cxx Any :=
  if features_read.isPrefixOf params then
    (substr params (features_read.length + 1)).bind parse_qxfer_feature_read
  else if memory_map_read.isPrefixOf params then
    (substr params (memory_map_read.length + 1)).bind parse_qxfer_memorymap_read
  else .ret none

/-- Function `parse_q`; the two names compared are `Supported` and `Xfer`. -/
def parse_q (params : List Nat) : Cxx Any :=
  let (sub_operand, sub_params) := split_once params 58
  if sub_operand = [] ∨ sub_params = [] then .ret none
  else if sub_operand = [83, 117, 112, 112, 111, 114, 116, 101, 100] then
    parse_q_supported sub_params
  else if sub_operand = [88, 102, 101, 114] then parse_qxfer sub_params
  else .ret none

/-- Function `parse_bytecode`. -/
def parse_bytecode (str_rep : List Nat) : Cxx (Option (List Nat)) :=
  match str_rep with
  | [] => .ret none
  | c :: tail =>
    if c ≠ 88 then .ret none
    else
      let (length_str, data_str) := split_once tail 44
      if length_str = [] ∨ data_str = [] then .ret none
      else
        (parse_hex length_str).bind fun parse_length_result =>
        match parse_length_result with
        | none => .ret none
        | some length =>
          if data_str.length ≠ (length * 2) % 2 ^ 32 then .ret none
          else parse_hex_bytes data_str

/-- Function `parse_z`. -/
def parse_z (params : List Nat) : Cxx Any :=
  if params.length ≤ 2 then .ret none
  else if params[1]? ≠ some 44 then .ret none
  else
    (parse_u32_pair (params.drop 2)).bind fun parse_addr_length_result =>
    match parse_addr_length_result with
    | none => .ret none
    | some (addr, length) =>
      if params[0]? = some 48 then .ret (some (.Remove_breakpoint false addr length))
      else if params[0]? = some 49 then .ret (some (.Remove_breakpoint true addr length))
      else if params[0]? = some 50 then .ret (some (.Remove_watchpoint true false addr length))
      else if params[0]? = some 51 then .ret (some (.Remove_watchpoint false true addr length))
      else if params[0]? = some 52 then .ret (some (.Remove_watchpoint true true addr length))
      else .ret none

/-- Function `parse_Z`. -/
def parse_Z (params : List Nat) : Cxx Any :=
  if params.length ≤ 2 then .ret none
  else if params[1]? ≠ some 44 then .ret none
  else
    let subparams := params.drop 2
    if params[0]? = some 48 ∨ params[0]? = some 49 then
      match split 59 subparams with
      | [] => .ret none
      | first :: more =>
        if more.length + 1 > 3 then .ret none
        else
          (parse_u32_pair first).bind fun parse_addr_length_result =>
          match parse_addr_length_result with
          | none => .ret none
          | some (addr, length) =>
            match more with
            | [] =>
              .ret (some (.Add_breakpoint (params[0]? == some 49) addr length none))
            | second :: _ =>
              (parse_bytecode second).bind fun bytecode =>
              match bytecode with
              | none => .ret none
              | some code =>
                .ret (some (.Add_breakpoint (params[0]? == some 49) addr length (some code)))
    else if params[0]? = some 50 ∨ params[0]? = some 51 ∨ params[0]? = some 52 then
      (parse_u32_pair subparams).bind fun parse_addr_length_result =>
      match parse_addr_length_result with
      | none => .ret none
      | some (addr, length) =>
        .ret (some (.Add_watchpoint (params[0]? == some 50 || params[0]? == some 52)
          (params[0]? == some 51 || params[0]? == some 52) addr length))
    else .ret none

/-- The table `single_char_command`. -/
def single_char_command (c : Nat) : Option Command :=
  if c = 43 then some (.Acknowledge_packet true)
  else if c = 45 then some (.Acknowledge_packet false)
  else if c = 3 then some .Interrupt_packet
  else if c = 33 then some .Enable_persistant
  else if c = 63 then some .Ask_halt_reason
  else if c = 103 then some .Read_register
  else if c = 107 then some .Stop
  else none

/-- The table `param_char_command_parsers`. -/
def param_char_command_parsers (c : Nat) : Option (List Nat → Cxx Any) :=
  if c = 99 then some parse_continue
  else if c = 71 then some parse_write_registers
  else if c = 105 then some parse_step_single_cycle
  else if c = 109 then some parse_read_memory
  else if c = 77 then some parse_write_memory
  else if c = 112 then some parse_read_single_register
  else if c = 80 then some parse_write_single_register
  else if c = 115 then some parse_step_single
  else if c = 113 then some parse_q
  else if c = 122 then some parse_z
  else if c = 90 then some parse_Z
  else none

/-- Function `command::parse`. -/
def parse (command : List Nat) : Cxx Any :=
  match command with
  | [] => .ret none
  | c :: params =>
    match (if params = [] then single_char_command c else none) with
    | some single => .ret (some single)
    | none =>
      match param_char_command_parsers c with
      | some parser_func => parser_func params
      | none => .ret none

end command

namespace reference

/-- The bytes a string of hexadecimal digit pairs denotes, in order: each pair is read as
a two-digit hexadecimal number; a last digit without partner is dropped. -/
def hex_pairs : List Nat → List Nat
  | hi :: lo :: rest => (16 * hex_value hi + hex_value lo) :: hex_pairs rest
  | _ => []

end reference

namespace response

/-- The function `std::byteswap` on a `u32`. -/
def byteswap (v : Nat) : Nat :=
  v % 256 * 2 ^ 24 + v / 2 ^ 8 % 256 * 2 ^ 16 + v / 2 ^ 16 % 256 * 2 ^ 8 + v / 2 ^ 24 % 256

/-- The format `{:08x}` applied to a `u32`. -/
def format_08x (v : Nat) : List Nat :=
  [hex_digit (v / 16 ^ 7 % 16), hex_digit (v / 16 ^ 6 % 16), hex_digit (v / 16 ^ 5 % 16),
    hex_digit (v / 16 ^ 4 % 16), hex_digit (v / 16 ^ 3 % 16), hex_digit (v / 16 ^ 2 % 16),
    hex_digit (v / 16 % 16), hex_digit (v % 16)]

/-- Function `Register_content::to_string` on the vector `reg_values`. -/
def Register_content.to_string (reg_values : List (Option Nat)) : List Nat :=
  (reg_values.map (fun val =>
    match val with
    | some v => format_08x (byteswap v)
    | none => [120, 120, 120, 120, 120, 120, 120, 120])).flatten

end response

end gdb_stub

/-! # Theorems -/

namespace core

/-! ## Signed helpers -/

theorem as_signed_of_int_32 (i : Int) (h1 : -2147483648 ≤ i) (h2 : i < 2147483648) :
    as_signed 32 (of_int 32 i) = i := by
  unfold as_signed of_int
  norm_num
  omega

theorem as_signed_32_range (x : Nat) :
    -2147483648 ≤ as_signed 32 x ∧ as_signed 32 x < 2147483648 := by
  unfold as_signed
  norm_num
  split <;> omega

theorem as_signed_32_eq_min (x : Nat) (hx : x < 4294967296) :
    as_signed 32 x = -2147483648 ↔ x = 0x80000000 := by
  unfold as_signed
  norm_num
  split <;> omega

theorem as_signed_32_eq_neg_one (y : Nat) (hy : y < 4294967296) :
    as_signed 32 y = -1 ↔ y = 0xFFFFFFFF := by
  unfold as_signed
  norm_num
  split <;> omega

theorem as_signed_32_eq_zero (y : Nat) (hy : y < 4294967296) :
    as_signed 32 y = 0 ↔ y = 0 := by
  unfold as_signed
  norm_num
  split <;> omega

theorem tdiv_range (a b : Int) (ha1 : -2147483648 ≤ a) (ha2 : a < 2147483648)
    (hb : b ≠ 0) (hov : ¬ (a = -2147483648 ∧ b = -1)) :
    -2147483648 ≤ a.tdiv b ∧ a.tdiv b < 2147483648 := by
  have habs : (a.tdiv b).natAbs = a.natAbs / b.natAbs := Int.natAbs_tdiv a b
  by_cases h1 : b = 1
  · subst h1; simp; omega
  by_cases h2 : b = -1
  · subst h2
    have : a.tdiv (-1) = - a := by rw [Int.tdiv_neg, Int.tdiv_one]
    rw [this]; omega
  have hb2 : 2 ≤ b.natAbs := by omega
  have : a.natAbs / b.natAbs ≤ a.natAbs / 2 := Nat.div_le_div_left hb2 (by decide)
  omega

theorem tmod_sign_bound (a b : Int) (hb : b ≠ 0) :
    (a.tmod b).natAbs < b.natAbs ∧ (0 ≤ a → 0 ≤ a.tmod b) ∧ (a ≤ 0 → a.tmod b ≤ 0) := by
  rcases a with m | m <;> rcases b with n | n
  · have hn : 0 < n := by
      rcases n with _ | n
      · exact absurd rfl hb
      · exact Nat.succ_pos n
    have h1 : m % n < n := Nat.mod_lt _ hn
    have h2 : Int.tmod (Int.ofNat m) (Int.ofNat n) = ((m % n : Nat) : Int) := rfl
    rw [h2]
    refine ⟨?_, ?_, ?_⟩
    · simp only [Int.ofNat_eq_coe, Int.natAbs_ofNat]; exact h1
    · intro _; exact Int.ofNat_nonneg _
    · intro h
      have : m = 0 := by simp only [Int.ofNat_eq_coe] at h; omega
      subst this; simp
  · have h1 : m % (n+1) < n+1 := Nat.mod_lt _ (Nat.succ_pos n)
    have h2 : Int.tmod (Int.ofNat m) (Int.negSucc n) = ((m % (n+1) : Nat) : Int) := rfl
    rw [h2]
    refine ⟨?_, ?_, ?_⟩
    · simp only [Int.natAbs_ofNat, Int.natAbs_negSucc]; exact h1
    · intro _; exact Int.ofNat_nonneg _
    · intro h
      have : m = 0 := by simp only [Int.ofNat_eq_coe] at h; omega
      subst this; simp
  · have hn : 0 < n := by
      rcases n with _ | n
      · exact absurd rfl hb
      · exact Nat.succ_pos n
    have h1 : (m+1) % n < n := Nat.mod_lt _ hn
    have h2 : Int.tmod (Int.negSucc m) (Int.ofNat n) = -(((m+1) % n : Nat) : Int) := rfl
    rw [h2]
    refine ⟨?_, ?_, ?_⟩
    · simp only [Int.ofNat_eq_coe, Int.natAbs_neg, Int.natAbs_ofNat]; exact h1
    · intro h; exact absurd h (by simp [Int.negSucc_lt_zero])
    · intro _; omega
  · have h1 : (m+1) % (n+1) < n+1 := Nat.mod_lt _ (Nat.succ_pos n)
    have h2 : Int.tmod (Int.negSucc m) (Int.negSucc n) = -(((m+1) % (n+1) : Nat) : Int) := rfl
    rw [h2]
    refine ⟨?_, ?_, ?_⟩
    · simp only [Int.natAbs_neg, Int.natAbs_ofNat, Int.natAbs_negSucc]; exact h1
    · intro h; exact absurd h (by simp [Int.negSucc_lt_zero])
    · intro _; omega

/-! ## C10: division and remainder -/

/-- C10. ALU division edge cases. For 32-bit words `x`, `y`: dividing by zero gives
all-ones for `div`/`divu` and `x` for `rem`/`remu`; `0x80000000 / 0xFFFFFFFF` gives
`0x80000000` with remainder `0`; for every other pair `div`/`rem` are the signed quotient
truncated toward zero and its remainder (the quotient and remainder are representable,
satisfy `x = y * q + r`, `|r| < |y|`, and `r` carries the sign of `x`), and `divu`/`remu`
are the unsigned quotient and remainder. -/
theorem alu_division_edge_cases (x y : Nat) (hx : x < 2 ^ 32) (hy : y < 2 ^ 32) :
    (native_math.div x 0 = 0xFFFFFFFF ∧ native_math.divu x 0 = 0xFFFFFFFF
      ∧ native_math.rem x 0 = x ∧ native_math.remu x 0 = x)
    ∧ (native_math.div 0x80000000 0xFFFFFFFF = 0x80000000
      ∧ native_math.rem 0x80000000 0xFFFFFFFF = 0)
    ∧ (y ≠ 0 → ¬ (x = 0x80000000 ∧ y = 0xFFFFFFFF) →
        as_signed 32 (native_math.div x y) = Int.tdiv (as_signed 32 x) (as_signed 32 y)
        ∧ as_signed 32 (native_math.rem x y) = Int.tmod (as_signed 32 x) (as_signed 32 y)
        ∧ as_signed 32 x
            = as_signed 32 y * as_signed 32 (native_math.div x y)
              + as_signed 32 (native_math.rem x y)
        ∧ (as_signed 32 (native_math.rem x y)).natAbs < (as_signed 32 y).natAbs
        ∧ (0 ≤ as_signed 32 x → 0 ≤ as_signed 32 (native_math.rem x y))
        ∧ (as_signed 32 x ≤ 0 → as_signed 32 (native_math.rem x y) ≤ 0)
        ∧ native_math.div x y < 2 ^ 32 ∧ native_math.rem x y < 2 ^ 32)
    ∧ (y ≠ 0 →
        native_math.divu x y = x / y ∧ native_math.remu x y = x % y
        ∧ x = y * native_math.divu x y + native_math.remu x y
        ∧ native_math.remu x y < y) := by
  have hx' : x < 4294967296 := by norm_num at hx; exact hx
  have hy' : y < 4294967296 := by norm_num at hy; exact hy
  refine ⟨⟨?_, ?_, ?_, ?_⟩, ⟨?_, ?_⟩, ?_, ?_⟩
  · simp only [native_math.div, if_true]; decide
  · simp only [native_math.divu, if_true]; decide
  · simp [native_math.rem]
  · simp [native_math.remu]
  · decide
  · decide
  · intro hy0 hov
    have hsy0 : as_signed 32 y ≠ 0 := fun h => hy0 ((as_signed_32_eq_zero y hy').1 h)
    have hsov : ¬ (as_signed 32 x = -2147483648 ∧ as_signed 32 y = -1) := fun h =>
      hov ⟨(as_signed_32_eq_min x hx').1 h.1, (as_signed_32_eq_neg_one y hy').1 h.2⟩
    obtain ⟨hxl, hxu⟩ := as_signed_32_range x
    obtain ⟨hyl, hyu⟩ := as_signed_32_range y
    obtain ⟨hql, hqu⟩ := tdiv_range _ _ hxl hxu hsy0 hsov
    obtain ⟨hr1, hr2, hr3⟩ := tmod_sign_bound (as_signed 32 x) (as_signed 32 y) hsy0
    have hdiv : native_math.div x y
        = of_int 32 (Int.tdiv (as_signed 32 x) (as_signed 32 y)) := by
      simp only [native_math.div, if_neg hy0, if_neg hov]
    have hrem : native_math.rem x y
        = of_int 32 (Int.tmod (as_signed 32 x) (as_signed 32 y)) := by
      simp only [native_math.rem, if_neg hy0, if_neg hov]
    have hq : as_signed 32 (native_math.div x y)
        = Int.tdiv (as_signed 32 x) (as_signed 32 y) := by
      rw [hdiv]; exact as_signed_of_int_32 _ hql hqu
    have hr : as_signed 32 (native_math.rem x y)
        = Int.tmod (as_signed 32 x) (as_signed 32 y) := by
      rw [hrem]; exact as_signed_of_int_32 _ (by omega) (by omega)
    refine ⟨hq, hr, ?_, ?_, ?_, ?_, ?_, ?_⟩
    · rw [hq, hr]; exact (Int.tdiv_add_tmod _ _).symm
    · rw [hr]; exact hr1
    · rw [hr]; exact hr2
    · rw [hr]; exact hr3
    · rw [hdiv]; unfold of_int; norm_num; omega
    · rw [hrem]; unfold of_int; norm_num; omega
  · intro hy0
    have hdivu : native_math.divu x y = x / y := by simp only [native_math.divu, if_neg hy0]
    have hremu : native_math.remu x y = x % y := by simp only [native_math.remu, if_neg hy0]
    refine ⟨hdivu, hremu, ?_, ?_⟩
    · rw [hdivu, hremu]; exact (Nat.div_add_mod x y).symm
    · rw [hremu]; exact Nat.mod_lt _ (Nat.pos_of_ne_zero hy0)

/-- Witness for C10 at `x = 0xFFFFFFF9` (that is `-7`) and `y = 2`: the quotient is `-3`
and the remainder `-1`. -/
theorem alu_division_edge_cases_witness :
    (native_math.div 4294967289 0 = 0xFFFFFFFF ∧ native_math.divu 4294967289 0 = 0xFFFFFFFF
      ∧ native_math.rem 4294967289 0 = 4294967289 ∧ native_math.remu 4294967289 0 = 4294967289)
    ∧ (native_math.div 0x80000000 0xFFFFFFFF = 0x80000000
      ∧ native_math.rem 0x80000000 0xFFFFFFFF = 0)
    ∧ (as_signed 32 (native_math.div 4294967289 2)
          = Int.tdiv (as_signed 32 4294967289) (as_signed 32 2)
        ∧ as_signed 32 (native_math.rem 4294967289 2)
          = Int.tmod (as_signed 32 4294967289) (as_signed 32 2)
        ∧ as_signed 32 4294967289
            = as_signed 32 2 * as_signed 32 (native_math.div 4294967289 2)
              + as_signed 32 (native_math.rem 4294967289 2)
        ∧ (as_signed 32 (native_math.rem 4294967289 2)).natAbs < (as_signed 32 2).natAbs
        ∧ (0 ≤ as_signed 32 4294967289 → 0 ≤ as_signed 32 (native_math.rem 4294967289 2))
        ∧ (as_signed 32 4294967289 ≤ 0 → as_signed 32 (native_math.rem 4294967289 2) ≤ 0)
        ∧ native_math.div 4294967289 2 < 2 ^ 32 ∧ native_math.rem 4294967289 2 < 2 ^ 32)
    ∧ (native_math.divu 4294967289 2 = 4294967289 / 2
        ∧ native_math.remu 4294967289 2 = 4294967289 % 2
        ∧ 4294967289 = 2 * native_math.divu 4294967289 2 + native_math.remu 4294967289 2
        ∧ native_math.remu 4294967289 2 < 2) :=
  have h := alu_division_edge_cases 4294967289 2 (by decide) (by decide)
  ⟨h.1, h.2.1, h.2.2.1 (by decide) (by decide), h.2.2.2 (by decide)⟩

end core

namespace gdb_stub

/-! ## C1: packet framing -/

theorem no_run4_tail (a : Nat) (l : List Nat) (h : no_run4 (a :: l) = true) :
    no_run4 l = true := by
  match l with
  | [] => rfl
  | [_] => rfl
  | [_, _] => rfl
  | [_, _, _] => rfl
  | b :: c :: d :: e :: rest =>
    rw [no_run4, Bool.and_eq_true] at h
    exact h.2

theorem plain_byte_facts (c : Nat) (h : plain_byte c = true) :
    c ≠ 0 ∧ c ≠ 35 ∧ c ≠ 36 ∧ c ≠ 42 ∧ c ≠ 125 ∧ c ≠ 43 ∧ c ≠ 45 ∧ c ≠ 3 ∧ 32 ≤ c ∧ c ≤ 126 := by
  simp only [plain_byte, Bool.and_eq_true, decide_eq_true_eq, bne_iff_ne, ne_eq] at h
  omega

/-- Encoder loop on input without a run of four: the pending repetitions are flushed
literally, so the stream grows by exactly the bytes consumed. -/
theorem encoder_stream_of_no_run4 (rest : List Nat) :
    ∀ (e : Packet_encoder), e.last_char ≠ 0 → e.repeat_count ≤ 2 →
      (∀ c ∈ rest, plain_byte c = true) →
      no_run4 (List.replicate (e.repeat_count + 1) e.last_char ++ rest) = true →
      (Packet_encoder.push_repeat (rest.foldl Packet_encoder.push e)).stream
        = e.stream ++ List.replicate e.repeat_count e.last_char ++ rest := by
  induction rest with
  | nil =>
    intro e hl hr _ _
    simp only [List.foldl_nil, List.append_nil]
    unfold Packet_encoder.push_repeat
    by_cases h0 : e.repeat_count = 0
    · simp [h0]
    · simp [h0, hl, hr]
  | cons c rest ih =>
    intro e hl hr hplain hrun
    have hc := plain_byte_facts c (hplain c (List.mem_cons_self _ _))
    have hplain' : ∀ c ∈ rest, plain_byte c = true :=
      fun x hx => hplain x (List.mem_cons_of_mem _ hx)
    simp only [List.foldl_cons]
    by_cases hcl : c = e.last_char
    · -- the run continues: it cannot already be three long
      have hr1 : e.repeat_count ≤ 1 := by
        by_contra hcon
        have hr2 : e.repeat_count = 2 := by omega
        rw [hr2, hcl] at hrun
        simp [List.replicate, no_run4] at hrun
      have hpush : Packet_encoder.push e c
          = { e with repeat_count := e.repeat_count + 1 } := by
        unfold Packet_encoder.push
        have : ¬ (c ≠ e.last_char ∨ e.repeat_count ≥ 126 - 29) := by
          intro h; rcases h with h | h
          · exact h hcl
          · omega
        rw [if_neg hc.1, if_neg this]
        have : (e.repeat_count + 1) % 256 = e.repeat_count + 1 := by omega
        rw [this]
      rw [hpush]
      have := ih { e with repeat_count := e.repeat_count + 1 } hl (by simp only; omega) hplain'
        (by
          simp only
          have : List.replicate (e.repeat_count + 1 + 1) e.last_char ++ rest
              = List.replicate (e.repeat_count + 1) e.last_char ++ (c :: rest) := by
            rw [hcl, List.replicate_succ', List.append_assoc]; rfl
          rw [this]; exact hrun)
      rw [this]
      simp only
      rw [hcl, List.replicate_succ', List.append_assoc, List.append_assoc,
        List.append_assoc]
      rfl
    · -- a new byte: pending repetitions are written out, then the byte itself
      have hflush : (Packet_encoder.push_repeat e).stream
          = e.stream ++ List.replicate e.repeat_count e.last_char := by
        unfold Packet_encoder.push_repeat
        by_cases h0 : e.repeat_count = 0
        · simp [h0]
        · simp [h0, hl, hr]
      have hpush : Packet_encoder.push e c
          = { stream := e.stream ++ List.replicate e.repeat_count e.last_char ++ [c],
              last_char := c, repeat_count := 0 } := by
        unfold Packet_encoder.push
        have h1 : c ≠ e.last_char ∨ e.repeat_count ≥ 126 - 29 := Or.inl hcl
        have h2 : ¬ (c = 42 ∨ c = 36 ∨ c = 125 ∨ c = 35) := by omega
        rw [if_neg hc.1, if_pos h1]
        simp only [if_neg h2, hflush]
      rw [hpush]
      have hrun' : no_run4 (List.replicate (0 + 1) c ++ rest) = true := by
        have hdrop : ∀ (n : Nat) (l : List Nat),
            no_run4 (List.replicate n e.last_char ++ l) = true → no_run4 l = true := by
          intro n
          induction n with
          | zero => intro l h; simpa using h
          | succ n ihn =>
            intro l h
            rw [List.replicate_succ, List.cons_append] at h
            exact ihn l (no_run4_tail _ _ h)
        exact hdrop _ _ hrun
      have := ih { stream := e.stream ++ List.replicate e.repeat_count e.last_char ++ [c],
                   last_char := c, repeat_count := 0 } hc.1 (by simp) hplain' hrun'
      rw [this]
      simp

/-- With plain bytes and no run of four the encoder output is the framed body itself. -/
theorem encode_of_no_run4 (body : List Nat) (hplain : ∀ c ∈ body, plain_byte c = true)
    (hrun : no_run4 body = true) :
    Packet_encoder.encode body
      = [36] ++ body ++ [35] ++ format_02x (algo.get_checksum body) := by
  have hstream : (Packet_encoder.push_repeat
      (body.foldl Packet_encoder.push {})).stream = body := by
    match body, hplain, hrun with
    | [], _, _ => rfl
    | c :: rest, hplain, hrun =>
      have hc := plain_byte_facts c (hplain c (List.mem_cons_self _ _))
      have hpush : Packet_encoder.push {} c
          = { stream := [c], last_char := c, repeat_count := 0 } := by
        unfold Packet_encoder.push
        have h1 : c ≠ ({} : Packet_encoder).last_char
            ∨ ({} : Packet_encoder).repeat_count ≥ 126 - 29 := Or.inl hc.1
        have h2 : ¬ (c = 42 ∨ c = 36 ∨ c = 125 ∨ c = 35) := by omega
        rw [if_neg hc.1, if_pos h1]
        simp only [if_neg h2]
        rfl
      simp only [List.foldl_cons]
      rw [hpush]
      have := encoder_stream_of_no_run4 rest
        { stream := [c], last_char := c, repeat_count := 0 } hc.1 (by simp)
        (fun x hx => hplain x (List.mem_cons_of_mem _ hx)) (by simpa using hrun)
      rw [this]
      simp
  unfold Packet_encoder.encode Packet_encoder.internal_encode
  simp only [hstream]

theorem get_checksum_lt (body : List Nat) : algo.get_checksum body < 256 := by
  unfold algo.get_checksum
  have : ∀ (l : List Nat) (acc : Nat), acc < 256 →
      l.foldl (fun acc c => (acc + c % 256) % 256) acc < 256 := by
    intro l
    induction l with
    | nil => intro acc h; simpa using h
    | cons c l ih =>
      intro acc _
      simp only [List.foldl_cons]
      exact ih _ (Nat.mod_lt _ (by decide))
  exact this body 0 (by decide)

/-- The two digits printed by `{:02x}` are hexadecimal digits, none of them is a framing
byte, and `stoi` reads the printed value back. -/
theorem format_02x_reads_back (n : Nat) (h : n < 256) :
    isxdigit (hex_digit (n / 16)) = true ∧ isxdigit (hex_digit (n % 16)) = true
    ∧ stoi16 (hex_digit (n / 16)) (hex_digit (n % 16)) % 256 = n
    ∧ (hex_digit (n / 16) ≠ 36 ∧ hex_digit (n / 16) ≠ 43 ∧ hex_digit (n / 16) ≠ 45
        ∧ hex_digit (n / 16) ≠ 3)
    ∧ (hex_digit (n % 16) ≠ 36 ∧ hex_digit (n % 16) ≠ 43 ∧ hex_digit (n % 16) ≠ 45
        ∧ hex_digit (n % 16) ≠ 3) := by
  have hd : ∀ d, d < 16 → isxdigit (hex_digit d) = true ∧ hex_value (hex_digit d) = d
      ∧ hex_digit d ≠ 36 ∧ hex_digit d ≠ 43 ∧ hex_digit d ≠ 45 ∧ hex_digit d ≠ 3 := by
    decide
  obtain ⟨a1, a2, a3⟩ := hd (n / 16) (by omega)
  obtain ⟨b1, b2, b3⟩ := hd (n % 16) (by omega)
  refine ⟨a1, b1, ?_, a3, b3⟩
  unfold stoi16
  rw [a2, b2]
  omega

theorem remove_escape_of_no_escape (body : List Nat) (h : ∀ c ∈ body, c ≠ 125) :
    algo.remove_escape body = some body := by
  induction body with
  | nil => rfl
  | cons c rest ih =>
    have hc : c ≠ 125 := h c (List.mem_cons_self _ _)
    have ih' := ih (fun x hx => h x (List.mem_cons_of_mem _ hx))
    unfold algo.remove_escape
    rw [if_neg hc, ih']
    rfl

/-- Decoder loop inside a packet body: bytes other than `#` and `$` are appended to the
input buffer while it stays within `max_buffer_size`. -/
theorem decoder_receives_body (body : List Nat) :
    ∀ (d : Packet_decoder), d.state = .Receiving_body →
      (∀ c ∈ body, c ≠ 35 ∧ c ≠ 36) →
      d.in_buffer.length + body.length ≤ Packet_decoder.max_buffer_size →
      body.foldl Packet_decoder.push_char d = { d with in_buffer := d.in_buffer ++ body } := by
  induction body with
  | nil => intro d _ _ _; simp
  | cons c rest ih =>
    intro d hs hc hlen
    obtain ⟨hc1, hc2⟩ := hc c (List.mem_cons_self _ _)
    simp only [List.length_cons] at hlen
    have hstep : Packet_decoder.push_char d c = { d with in_buffer := d.in_buffer ++ [c] } := by
      unfold Packet_decoder.push_char
      rw [hs]
      have : ¬ d.in_buffer.length ≥ Packet_decoder.max_buffer_size := by omega
      simp only [if_neg hc1, if_neg hc2, if_neg this]
    simp only [List.foldl_cons]
    rw [hstep, ih { d with in_buffer := d.in_buffer ++ [c] } hs
      (fun x hx => hc x (List.mem_cons_of_mem _ hx))
      (by simp only [List.length_append, List.length_singleton]; omega)]
    simp

/-- A framed body without escape bytes whose checksum digits are those of its checksum
is delivered unchanged by a fresh decoder. -/
theorem decoder_accepts_frame (body : List Nat) (hb : ∀ c ∈ body, c ≠ 35 ∧ c ≠ 36 ∧ c ≠ 125)
    (hlen : body.length ≤ Packet_decoder.max_buffer_size) :
    ((Packet_decoder.push {}
        ([36] ++ body ++ [35] ++ format_02x (algo.get_checksum body))).pop_packet).1
      = .ok body := by
  obtain ⟨x1, x2, x3, ⟨y1, y2, y3, y4⟩, ⟨z1, z2, z3, z4⟩⟩ :=
    format_02x_reads_back _ (get_checksum_lt body)
  have hbody := decoder_receives_body body
    { state := .Receiving_body } rfl (fun c hc => ⟨(hb c hc).1, (hb c hc).2.1⟩)
    (by simpa using hlen)
  have hesc := remove_escape_of_no_escape body (fun c hc => (hb c hc).2.2)
  unfold Packet_decoder.push format_02x
  simp only [List.foldl_append, List.foldl_cons, List.foldl_nil]
  have h0 : Packet_decoder.push_char {} 36 = { state := .Receiving_body } := rfl
  rw [h0, hbody]
  simp only [List.nil_append]
  have h1 : Packet_decoder.push_char
      { in_buffer := body, state := .Receiving_body } 35
      = { in_buffer := body, state := .Receiving_checksum1 } := rfl
  rw [h1]
  have hnot1 : ¬ (hex_digit (algo.get_checksum body / 16) = 43
      ∨ hex_digit (algo.get_checksum body / 16) = 45
      ∨ hex_digit (algo.get_checksum body / 16) = 3) := by
    intro h; rcases h with h | h | h
    · exact y2 h
    · exact y3 h
    · exact y4 h
  have hnot2 : ¬ (hex_digit (algo.get_checksum body % 16) = 43
      ∨ hex_digit (algo.get_checksum body % 16) = 45
      ∨ hex_digit (algo.get_checksum body % 16) = 3) := by
    intro h; rcases h with h | h | h
    · exact z2 h
    · exact z3 h
    · exact z4 h
  have h2 : Packet_decoder.push_char
      { in_buffer := body, state := .Receiving_checksum1 }
      (hex_digit (algo.get_checksum body / 16))
      = { in_buffer := body, state := .Receiving_checksum2,
          checksum_buffer := (hex_digit (algo.get_checksum body / 16), 0) } := by
    unfold Packet_decoder.push_char
    simp only [if_neg y1, if_neg hnot1]
  rw [h2]
  have hdec : Packet_decoder.decode_in_buffer
      { in_buffer := body, state := .Receiving_checksum2,
        checksum_buffer := (hex_digit (algo.get_checksum body / 16),
          hex_digit (algo.get_checksum body % 16)) } = .ok body := by
    unfold Packet_decoder.decode_in_buffer
    simp only [x1, x2, x3, hesc, Bool.and_self, Bool.not_true, ne_eq, not_true_eq_false,
      if_false]
    rfl
  have h3 : Packet_decoder.push_char
      { in_buffer := body, state := .Receiving_checksum2,
        checksum_buffer := (hex_digit (algo.get_checksum body / 16), 0) }
      (hex_digit (algo.get_checksum body % 16))
      = { in_buffer := [], out_queue := [.ok body], out_queue_available := true,
          state := .Waiting_dollar,
          checksum_buffer := (hex_digit (algo.get_checksum body / 16),
            hex_digit (algo.get_checksum body % 16)) } := by
    unfold Packet_decoder.push_char
    simp only [if_neg z1, if_neg hnot2, hdec, Packet_decoder.push_result, List.nil_append]
  rw [h3]
  rfl

/-- C1 (as amended). For every body whose bytes all lie in `[0x20,0x7E]` minus
`$ # } * + -`, that contains no run of four or more equal consecutive bytes and that is at
most `max_buffer_size` bytes long, pushing `Packet_encoder::encode(body)` into a fresh
`Packet_decoder` and popping once returns exactly that body. -/
theorem packet_decode_inverts_encode_without_runs (body : List Nat)
    (hplain : ∀ c ∈ body, plain_byte c = true) (hrun : no_run4 body = true)
    (hlen : body.length ≤ Packet_decoder.max_buffer_size) :
    ((Packet_decoder.push {} (Packet_encoder.encode body)).pop_packet).1 = .ok body := by
  rw [encode_of_no_run4 body hplain hrun]
  exact decoder_accepts_frame body
    (fun c hc => by
      have := plain_byte_facts c (hplain c hc)
      exact ⟨this.2.1, this.2.2.1, this.2.2.2.2.1⟩)
    hlen

/-- Witness for C1 (as amended) at the body `vMustReplyEmpty`. -/
theorem packet_decode_inverts_encode_without_runs_witness :
    ((Packet_decoder.push {} (Packet_encoder.encode (bytes "vMustReplyEmpty"))).pop_packet).1
      = .ok (bytes "vMustReplyEmpty") :=
  packet_decode_inverts_encode_without_runs (bytes "vMustReplyEmpty")
    (by decide) (by decide) (by decide)

set_option maxRecDepth 100000 in
/-- C1 fails as stated. The body `My favourite    number is 00001234` has only allowed
bytes; its encoding is the frame `$My favourite * number is 0* 1234#0e`, and the decoder,
which does not expand run-length markers, returns `My favourite * number is 0* 1234`,
not the body. -/
theorem packet_decode_inverts_encode_counterexample :
    (∀ c ∈ bytes "My favourite    number is 00001234", plain_byte c = true)
    ∧ Packet_encoder.encode (bytes "My favourite    number is 00001234")
        = bytes "$My favourite * number is 0* 1234#0e"
    ∧ ((Packet_decoder.push {}
          (Packet_encoder.encode (bytes "My favourite    number is 00001234"))).pop_packet).1
        = .ok (bytes "My favourite * number is 0* 1234")
    ∧ ((Packet_decoder.push {}
          (Packet_encoder.encode (bytes "My favourite    number is 00001234"))).pop_packet).1
        ≠ .ok (bytes "My favourite    number is 00001234") := by
  refine ⟨by decide, by decide, by decide, by decide⟩

end gdb_stub

namespace device

open core

/-! ## C6: store/load round trip over a block memory -/

theorem and_fffffffc (x : Nat) (hx : x < 2 ^ 32) : x &&& 0xfffffffc = x / 4 * 4 := by
  have hc : (0xfffffffc : Nat) = (2 ^ 30 - 1) <<< 2 := by decide
  have hm : x / 4 * 4 = (x >>> 2) <<< 2 := by
    rw [Nat.shiftLeft_eq, Nat.shiftRight_eq_div_pow]
  rw [hm]
  apply Nat.eq_of_testBit_eq
  intro i
  rw [Nat.testBit_and, hc, Nat.testBit_shiftLeft, Nat.testBit_shiftLeft,
    Nat.testBit_two_pow_sub_one, Nat.testBit_shiftRight]
  by_cases h2 : 2 ≤ i
  · by_cases h32 : i < 32
    · have : i - 2 < 30 := by omega
      have e : 2 + (i - 2) = i := by omega
      simp [h2, this, e]
    · have hlt : x < 2 ^ i := lt_of_lt_of_le hx (Nat.pow_le_pow_right (by decide) (by omega))
      have e : 2 + (i - 2) = i := by omega
      simp [h2, e, Nat.testBit_lt_two_pow hlt]
  · simp [h2]

theorem and_three (x : Nat) : x &&& 0x3 = x % 4 := Nat.and_pow_two_sub_one_eq_mod x 2

theorem and_one (x : Nat) : x &&& 0x1 = x % 2 := Nat.and_pow_two_sub_one_eq_mod x 1

/-- A masked word write to an unlocked block memory of at least four bytes succeeds, and
a read of the same word returns the merged bytes without changing the memory again. -/
theorem block_write_then_read (b : Block_memory) (a data mask : Nat)
    (hlock : b.write_lock = false) (hsize : 4 ≤ b.actual_size_bytes)
    (ha : a < b.actual_size_bytes) (hal : a % 4 = 0) (hmask : mask ≠ 0) :
    ∃ old b1, Block_memory.write b a data mask = (.ok (), b1)
      ∧ Block_memory.read b1 a = (.ok (Block_memory.write_bytes old data mask), b1) := by
  have h1 : ¬ a ≥ b.size := by unfold Block_memory.size; omega
  have h2 : ¬ (a &&& 0x3 ≠ 0) := by rw [and_three]; omega
  have h3 : ¬ (b.actual_size_bytes < 4 ∧
      ((b.actual_size_bytes < 4 ∧ Bitset.take_bit 3 mask ≠ 0)
        ∨ (b.actual_size_bytes < 3 ∧ Bitset.take_bit 2 mask ≠ 0)
        ∨ (b.actual_size_bytes < 2 ∧ Bitset.take_bit 1 mask ≠ 0)
        ∨ (b.actual_size_bytes < 1 ∧ Bitset.take_bit 0 mask ≠ 0))) := by
    intro h; omega
  have hw : Block_memory.write b a data mask
      = (.ok (), { b.touch_page (a / Block_memory.page_size_bytes) with
          storage := fun i =>
            if i = a / Block_memory.page_size_bytes then
              some (fun w =>
                if w = a % Block_memory.page_size_bytes / 4 then
                  Block_memory.write_bytes
                    ((b.touch_page (a / Block_memory.page_size_bytes)).page
                      (a / Block_memory.page_size_bytes)
                      (a % Block_memory.page_size_bytes / 4)) data mask
                else (b.touch_page (a / Block_memory.page_size_bytes)).page
                      (a / Block_memory.page_size_bytes) w)
            else (b.touch_page (a / Block_memory.page_size_bytes)).storage i }) := by
    unfold Block_memory.write
    rw [if_neg h1, hlock]
    simp only [Bool.false_eq_true, if_false, if_neg hmask, if_neg h2, if_neg h3]
  refine ⟨(b.touch_page (a / Block_memory.page_size_bytes)).page
      (a / Block_memory.page_size_bytes) (a % Block_memory.page_size_bytes / 4), _, hw, ?_⟩
  · have hsz : ∀ p, (b.touch_page p).actual_size_bytes = b.actual_size_bytes := by
      intro p
      unfold Block_memory.touch_page Block_memory.fill_page
      split
      · rfl
      · split
        · rfl
        · cases b.fill_policy <;> rfl
    have g1 : ¬ a ≥ b.actual_size_bytes := by omega
    have g3 : ¬ b.actual_size_bytes < 4 := by omega
    unfold Block_memory.read
    simp only [Block_memory.size, hsz, if_neg g1, if_neg h2, if_neg g3]
    have htouch : ∀ (c : Block_memory) (p : Nat),
        (c.storage p).isSome = true → c.touch_page p = c := by
      intro c p hpg
      unfold Block_memory.touch_page
      split
      · rfl
      · simp [hpg]
    rw [htouch _ (a / Block_memory.page_size_bytes) (by simp)]
    simp [Block_memory.page]

theorem write_bytes_lt (old data mask : Nat) : Block_memory.write_bytes old data mask < 2 ^ 32 := by
  unfold Block_memory.write_bytes
  simp only
  split <;> split <;> split <;> split <;> omega

/-- Byte `k` of the merged word comes from `data` where the mask selects it and from
the old word elsewhere. -/
theorem write_bytes_byte (old data mask : Nat) :
    (Block_memory.write_bytes old data mask >>> 0) % 256
        = (if Bitset.take_bit 0 mask ≠ 0 then data % 256 else old % 256)
    ∧ (Block_memory.write_bytes old data mask >>> 8) % 256
        = (if Bitset.take_bit 1 mask ≠ 0 then (data >>> 8) % 256 else (old >>> 8) % 256)
    ∧ (Block_memory.write_bytes old data mask >>> 16) % 256
        = (if Bitset.take_bit 2 mask ≠ 0 then (data >>> 16) % 256 else (old >>> 16) % 256)
    ∧ (Block_memory.write_bytes old data mask >>> 24) % 256
        = (if Bitset.take_bit 3 mask ≠ 0 then (data >>> 24) % 256 else (old >>> 24) % 256) := by
  unfold Block_memory.write_bytes
  simp only
  generalize hb0 : (if Bitset.take_bit 0 mask ≠ 0 then data % 256 else old % 256) = b0
  generalize hb1 :
    (if Bitset.take_bit 1 mask ≠ 0 then (data >>> 8) % 256 else (old >>> 8) % 256) = b1
  generalize hb2 :
    (if Bitset.take_bit 2 mask ≠ 0 then (data >>> 16) % 256 else (old >>> 16) % 256) = b2
  generalize hb3 :
    (if Bitset.take_bit 3 mask ≠ 0 then (data >>> 24) % 256 else (old >>> 24) % 256) = b3
  have h0 : b0 < 256 := by rw [← hb0]; split <;> exact Nat.mod_lt _ (by decide)
  have h1 : b1 < 256 := by rw [← hb1]; split <;> exact Nat.mod_lt _ (by decide)
  have h2 : b2 < 256 := by rw [← hb2]; split <;> exact Nat.mod_lt _ (by decide)
  have h3 : b3 < 256 := by rw [← hb3]; split <;> exact Nat.mod_lt _ (by decide)
  simp only [Nat.shiftRight_eq_div_pow]
  norm_num
  omega

theorem as_signed_eq_of_mod_eq (w x y : Nat) (h : x % 2 ^ w = y % 2 ^ w) :
    as_signed w x = as_signed w y := by
  unfold as_signed
  rw [h]

theorem store_byte_then_load (b : Block_memory) (address v : Nat)
    (hlock : b.write_lock = false) (hsize : 4 ≤ b.actual_size_bytes)
    (ha : address < b.actual_size_bytes) (h32 : address < 2 ^ 32) :
    store_then_load b .Store_byte .Load_byte_unsigned address v = some (.ok (v % 2 ^ 8))
    ∧ store_then_load b .Store_byte .Load_byte address v
        = some (.ok (of_int 32 (as_signed 8 v))) := by
  have hA := and_fffffffc address h32
  have hk : address % 4 = 0 ∨ address % 4 = 1 ∨ address % 4 = 2 ∨ address % 4 = 3 := by omega
  have hmask : Bitset.mk 4 (0b0001 <<< (address % 4)) ≠ 0 := by
    rcases hk with h | h | h | h <;> rw [h] <;> decide
  obtain ⟨old, b1, hw, hr⟩ := block_write_then_read b (address / 4 * 4)
    (wrap32 (v <<< (address % 4 * 8))) (Bitset.mk 4 (0b0001 <<< (address % 4)))
    hlock hsize (by omega) (by omega) hmask
  obtain ⟨w0, w1, w2, w3⟩ := write_bytes_byte old (wrap32 (v <<< (address % 4 * 8)))
    (Bitset.mk 4 (0b0001 <<< (address % 4)))
  have hval : (Block_memory.write_bytes old (wrap32 (v <<< (address % 4 * 8)))
      (Bitset.mk 4 (0b0001 <<< (address % 4))) >>> (address % 4 * 8)) % 2 ^ 8 = v % 2 ^ 8 := by
    rcases hk with h | h | h | h
    · rw [h] at w0 ⊢
      rw [show (0 * 8 = 0) from rfl, show (2 ^ 8 = 256) from rfl, w0, if_pos (by decide)]
      unfold wrap32; simp only [Nat.shiftLeft_eq]; omega
    · rw [h] at w1 ⊢
      rw [show (1 * 8 = 8) from rfl, show (2 ^ 8 = 256) from rfl, w1, if_pos (by decide)]
      unfold wrap32; simp only [Nat.shiftLeft_eq, Nat.shiftRight_eq_div_pow]; omega
    · rw [h] at w2 ⊢
      rw [show (2 * 8 = 16) from rfl, show (2 ^ 8 = 256) from rfl, w2, if_pos (by decide)]
      unfold wrap32; simp only [Nat.shiftLeft_eq, Nat.shiftRight_eq_div_pow]; omega
    · rw [h] at w3 ⊢
      rw [show (3 * 8 = 24) from rfl, show (2 ^ 8 = 256) from rfl, w3, if_pos (by decide)]
      unfold wrap32; simp only [Nat.shiftLeft_eq, Nat.shiftRight_eq_div_pow]; omega
  constructor
  · simp only [store_then_load, Load_store_module.call, Block_memory.interface, is_aligned,
      and_three, hA, hw, hr, hval, reduceCtorEq, if_false, if_true, Bool.not_true,
      Bool.false_eq_true, Option.map_some']
  · simp only [store_then_load, Load_store_module.call, Block_memory.interface, is_aligned,
      and_three, hA, hw, hr, reduceCtorEq, if_false, if_true, Bool.not_true,
      Bool.false_eq_true, Option.map_some']
    rw [as_signed_eq_of_mod_eq 8 _ v hval]

theorem store_halfword_then_load (b : Block_memory) (address v : Nat)
    (hlock : b.write_lock = false) (hsize : 4 ≤ b.actual_size_bytes)
    (ha : address < b.actual_size_bytes) (h32 : address < 2 ^ 32) (hal : address % 2 = 0) :
    store_then_load b .Store_halfword .Load_halfword_unsigned address v
        = some (.ok (v % 2 ^ 16))
    ∧ store_then_load b .Store_halfword .Load_halfword address v
        = some (.ok (of_int 32 (as_signed 16 v))) := by
  have hA := and_fffffffc address h32
  have hk : address % 4 = 0 ∨ address % 4 = 2 := by omega
  have hmask : Bitset.mk 4 (0b0011 <<< (address % 4)) ≠ 0 := by
    rcases hk with h | h <;> rw [h] <;> decide
  obtain ⟨old, b1, hw, hr⟩ := block_write_then_read b (address / 4 * 4)
    (wrap32 (v <<< (address % 4 * 8))) (Bitset.mk 4 (0b0011 <<< (address % 4)))
    hlock hsize (by omega) (by omega) hmask
  obtain ⟨w0, w1, w2, w3⟩ := write_bytes_byte old (wrap32 (v <<< (address % 4 * 8)))
    (Bitset.mk 4 (0b0011 <<< (address % 4)))
  have hlt := write_bytes_lt old (wrap32 (v <<< (address % 4 * 8)))
    (Bitset.mk 4 (0b0011 <<< (address % 4)))
  have hval : (Block_memory.write_bytes old (wrap32 (v <<< (address % 4 * 8)))
      (Bitset.mk 4 (0b0011 <<< (address % 4))) >>> (address % 4 * 8)) % 2 ^ 16
        = v % 2 ^ 16 := by
    rcases hk with h | h
    · rw [h] at w0 w1 hlt ⊢
      rw [if_pos (by decide)] at w0 w1
      rw [show (0 * 8 = 0) from rfl] at w0 w1 hlt ⊢
      generalize Block_memory.write_bytes old (wrap32 (v <<< 0)) (Bitset.mk 4 (3 <<< 0)) = W
        at w0 w1 hlt ⊢
      unfold wrap32 at w0 w1
      simp only [Nat.shiftLeft_eq, Nat.shiftRight_eq_div_pow] at w0 w1 ⊢
      norm_num at w0 w1 hlt ⊢
      omega
    · rw [h] at w2 w3 hlt ⊢
      rw [if_pos (by decide)] at w2 w3
      rw [show (2 * 8 = 16) from rfl] at w2 w3 hlt ⊢
      generalize Block_memory.write_bytes old (wrap32 (v <<< 16)) (Bitset.mk 4 (3 <<< 2)) = W
        at w2 w3 hlt ⊢
      unfold wrap32 at w2 w3
      simp only [Nat.shiftLeft_eq, Nat.shiftRight_eq_div_pow] at w2 w3 ⊢
      norm_num at w2 w3 hlt ⊢
      omega
  have hal1 : address % 2 = 0 := hal
  constructor
  · simp only [store_then_load, Load_store_module.call, Block_memory.interface, is_aligned,
      and_three, and_one, hal1, hA, hw, hr, hval, reduceCtorEq, if_false, if_true,
      Bool.not_true, Bool.false_eq_true, Option.map_some', beq_self_eq_true]
  · simp only [store_then_load, Load_store_module.call, Block_memory.interface, is_aligned,
      and_three, and_one, hal1, hA, hw, hr, reduceCtorEq, if_false, if_true,
      Bool.not_true, Bool.false_eq_true, Option.map_some', beq_self_eq_true]
    rw [as_signed_eq_of_mod_eq 16 _ v hval]

theorem store_word_then_load_word (b : Block_memory) (address v : Nat)
    (hlock : b.write_lock = false) (hsize : 4 ≤ b.actual_size_bytes)
    (ha : address < b.actual_size_bytes) (h32 : address < 2 ^ 32) (hal : address % 4 = 0)
    (hv : v < 2 ^ 32) :
    store_then_load b .Store_word .Load_word address v = some (.ok v) := by
  have hA := and_fffffffc address h32
  have hmask : Bitset.mk 4 0b1111 ≠ 0 := by decide
  obtain ⟨old, b1, hw, hr⟩ := block_write_then_read b (address / 4 * 4)
    (wrap32 (v <<< (address % 4 * 8))) (Bitset.mk 4 0b1111)
    hlock hsize (by omega) (by omega) hmask
  obtain ⟨w0, w1, w2, w3⟩ := write_bytes_byte old (wrap32 (v <<< (address % 4 * 8)))
    (Bitset.mk 4 0b1111)
  have hlt := write_bytes_lt old (wrap32 (v <<< (address % 4 * 8))) (Bitset.mk 4 0b1111)
  have hval : Block_memory.write_bytes old (wrap32 (v <<< (address % 4 * 8)))
      (Bitset.mk 4 0b1111) = v := by
    rw [hal] at w0 w1 w2 w3 hlt ⊢
    rw [if_pos (by decide)] at w0 w1 w2 w3
    rw [show (0 * 8 = 0) from rfl] at w0 w1 w2 w3 hlt ⊢
    generalize Block_memory.write_bytes old (wrap32 (v <<< 0)) (Bitset.mk 4 15) = W
      at w0 w1 w2 w3 hlt ⊢
    unfold wrap32 at w0 w1 w2 w3
    simp only [Nat.shiftLeft_eq, Nat.shiftRight_eq_div_pow] at w0 w1 w2 w3
    norm_num at w0 w1 w2 w3 hlt hv
    omega
  rw [hal] at hw hr hval
  simp only [store_then_load, Load_store_module.call, Block_memory.interface, is_aligned,
    and_three, hal, hA, hw, hr, hval, reduceCtorEq, if_false, if_true,
    Bool.not_true, Bool.false_eq_true, Option.map_some', beq_self_eq_true]

/-- C6 (as amended). Store/load round trip through the load/store unit over an unlocked
block memory of at least four bytes: for every in-range address aligned for the access
width and every 32-bit value `v`, a `store_byte`/`store_halfword`/`store_word` of `v`
followed by the matching load at the same address returns `v` truncated to that width,
zero-extended for `lbu`/`lhu`, sign-extended for `lb`/`lh`, and `v` itself for `lw`.
Moreover, after storing the word `0x12345678` at offset 0 of a zero-filled 2 GiB memory,
`lbu` at offset 1 returns `0x56` and `lh` at offset 2 returns `0x1234`. -/
theorem store_load_round_trip (b : Block_memory) (address v : Nat)
    (hlock : b.write_lock = false) (hsize : 4 ≤ b.actual_size_bytes)
    (ha : address < b.actual_size_bytes) (h32 : address < 2 ^ 32) (hv : v < 2 ^ 32) :
    store_then_load b .Store_byte .Load_byte_unsigned address v = some (.ok (v % 2 ^ 8))
    ∧ store_then_load b .Store_byte .Load_byte address v
        = some (.ok (of_int 32 (as_signed 8 v)))
    ∧ (address % 2 = 0 →
        store_then_load b .Store_halfword .Load_halfword_unsigned address v
          = some (.ok (v % 2 ^ 16))
        ∧ store_then_load b .Store_halfword .Load_halfword address v
          = some (.ok (of_int 32 (as_signed 16 v))))
    ∧ (address % 4 = 0 →
        store_then_load b .Store_word .Load_word address v = some (.ok v))
    ∧ store_word_then_load (Block_memory.create (2 * 1024 * 1024 * 1024) .Zero) 0 0x12345678
        .Load_byte_unsigned 1 = some (.ok 0x56)
    ∧ store_word_then_load (Block_memory.create (2 * 1024 * 1024 * 1024) .Zero) 0 0x12345678
        .Load_halfword 2 = some (.ok 0x1234) := by
  obtain ⟨hb1, hb2⟩ := store_byte_then_load b address v hlock hsize ha h32
  refine ⟨hb1, hb2, ?_, ?_, ?_, ?_⟩
  · intro hal
    exact store_halfword_then_load b address v hlock hsize ha h32 hal
  · intro hal
    exact store_word_then_load_word b address v hlock hsize ha h32 hal hv
  · decide
  · decide

/-- Witness for C6 (as amended): a 1 KiB memory filled with `0xCD`, address 8 and the value
`0x89ABCDEF`, whose byte and halfword are negative. -/
theorem store_load_round_trip_witness :
    store_then_load (Block_memory.create 1024 .Cdcdcdcd) .Store_byte .Load_byte_unsigned
        8 0x89ABCDEF = some (.ok (0x89ABCDEF % 2 ^ 8))
    ∧ store_then_load (Block_memory.create 1024 .Cdcdcdcd) .Store_byte .Load_byte
        8 0x89ABCDEF = some (.ok (of_int 32 (as_signed 8 0x89ABCDEF)))
    ∧ (store_then_load (Block_memory.create 1024 .Cdcdcdcd) .Store_halfword
          .Load_halfword_unsigned 8 0x89ABCDEF = some (.ok (0x89ABCDEF % 2 ^ 16))
        ∧ store_then_load (Block_memory.create 1024 .Cdcdcdcd) .Store_halfword
          .Load_halfword 8 0x89ABCDEF = some (.ok (of_int 32 (as_signed 16 0x89ABCDEF))))
    ∧ store_then_load (Block_memory.create 1024 .Cdcdcdcd) .Store_word .Load_word
        8 0x89ABCDEF = some (.ok 0x89ABCDEF) :=
  have h := store_load_round_trip (Block_memory.create 1024 .Cdcdcdcd) 8 0x89ABCDEF
    rfl (by decide) (by decide) (by decide) (by decide)
  ⟨h.1, h.2.1, h.2.2.1 (by decide), h.2.2.2.1 (by decide)⟩

/-- C6 fails as stated on a block memory smaller than one word. In an unlocked 3-byte
memory the address 0 is in range and a byte store there succeeds, but the matching load
is refused (`Block_memory::read` reports `Out_of_range` whenever the size is below 4), so
the load traps with `Load_access_fault` instead of returning the stored byte. -/
theorem store_load_round_trip_counterexample :
    (Block_memory.create 3 .Zero).write_lock = false
    ∧ 0 < (Block_memory.create 3 .Zero).actual_size_bytes
    ∧ (Load_store_module.call Block_memory.interface (Block_memory.create 3 .Zero)
          .Store .Store_byte 0 0x12).map Prod.fst = some (.ok 0)
    ∧ store_then_load (Block_memory.create 3 .Zero) .Store_byte .Load_byte_unsigned 0 0x12
        = some (.error .Load_access_fault)
    ∧ store_then_load (Block_memory.create 3 .Zero) .Store_byte .Load_byte_unsigned 0 0x12
        ≠ some (.ok (0x12 % 2 ^ 8)) := by
  refine ⟨rfl, by decide, by decide, by decide, by decide⟩

end device

namespace core

open CPU_module

/-! ## The CPU step: traps leave the architectural state to `handle_trap` -/

/-- An access with the default access record (no read, no write) changes nothing. -/
theorem csr_call_default (c : CSR_module) : c.call {} = .ok (0, c) := by
  unfold CSR_module.call
  simp [Bitset.slice, Bitset.mk]

/-- Case analysis on a conditional value. -/
theorem ite_elim {α : Type} {c : Prop} [Decidable c] {a b x : α} {P : Prop}
    (h : (if c then a else b) = x) (ha : c → a = x → P) (hb : ¬ c → b = x → P) : P := by
  by_cases hc : c
  · rw [if_pos hc] at h; exact ha hc h
  · rw [if_neg hc] at h; exact hb hc h

/-- Only load and store instructions use the memory unit, and they carry the default CSR
access record. -/
theorem decode_memory_or_csr (registers : Register_file_module) (instr pc : Nat)
    (d : Inst_decode_module.Result)
    (h : Inst_decode_module.call registers instr pc = .ok d) :
    d.memory_opcode = .None ∨ d.csr_access_info = {} := by
  unfold Inst_decode_module.call at h
  dsimp only at h
  refine ite_elim h (fun _ h => absurd h (by simp)) (fun _ h => ?_)
  refine ite_elim h (fun _ h => by cases h; left; rfl) (fun _ h => ?_)
  refine ite_elim h (fun _ h => by cases h; left; rfl) (fun _ h => ?_)
  refine ite_elim h (fun _ h => by cases h; left; rfl) (fun _ h => ?_)
  refine ite_elim h (fun _ h => by cases h; left; rfl) (fun _ h => ?_)
  refine ite_elim h (fun _ h => by cases h; right; rfl) (fun _ h => ?_)
  refine ite_elim h (fun _ h => by cases h; right; rfl) (fun _ h => ?_)
  refine ite_elim h (fun _ h => by cases h; left; rfl) (fun _ h => ?_)
  refine ite_elim h (fun _ h => ?_) (fun _ h => ?_)
  · unfold decode_register_register at h
    dsimp only at h
    split at h
    · exact absurd h (by simp)
    · cases h; left; rfl
  refine ite_elim h (fun _ h => by cases h; left; rfl) (fun _ h => ?_)
  refine ite_elim h (fun _ h => ?_) (fun _ h => ?_)
  · unfold decode_misc_mem at h
    dsimp only at h
    refine ite_elim h (fun _ h => by cases h; left; rfl) (fun _ h => absurd h (by simp))
  refine ite_elim h (fun _ h => ?_) (fun _ h => absurd h (by simp))
  unfold decode_system at h
  dsimp only at h
  refine ite_elim h (fun _ h => ?_) (fun _ h => ?_)
  · refine ite_elim h (fun _ h => by cases h; left; rfl) (fun _ h => ?_)
    refine ite_elim h (fun _ h => by cases h; left; rfl) (fun _ h => absurd h (by simp))
  refine ite_elim h (fun _ h => absurd h (by simp)) (fun _ h => ?_)
  refine ite_elim h (fun _ h => by cases h; left; rfl) (fun _ h => ?_)
  refine ite_elim h (fun _ h => by cases h; left; rfl) (fun _ h => ?_)
  refine ite_elim h (fun _ h => by cases h; left; rfl) (fun _ h => absurd h (by simp))
/-- The memory unit does nothing and cannot trap when the opcode is `None`. -/
theorem load_store_none {M : Type} (interface : Memory_interface M) (m : M)
    (funct : Load_store_module.Funct) (address store_value : Nat) :
    Load_store_module.call interface m .None funct address store_value = some (.ok 0, m) := by
  unfold Load_store_module.call
  simp

/-- When `execute` returns a record with a trap, it has changed neither the program
counter, nor the registers, nor any CSR. -/
theorem execute_trap_frame {M : Type} (interface : Memory_interface M) (cpu : CPU_module M)
    (r : Result) (c1 : CPU_module M) (t : Trap)
    (h : execute interface cpu = some (r, c1)) (ht : r.trap = some t) :
    c1.pc = cpu.pc ∧ c1.csr = cpu.csr ∧ c1.registers = cpu.registers := by
  unfold execute at h
  split at h
  · exact absurd h (by simp)
  · simp only [Option.some.injEq, Prod.mk.injEq] at h
    obtain ⟨_, rfl⟩ := h
    simp
  · simp only at h
    split at h
    · simp only [Option.some.injEq, Prod.mk.injEq] at h
      obtain ⟨_, rfl⟩ := h
      simp
    · split at h
      · simp only [Option.some.injEq, Prod.mk.injEq] at h
        obtain ⟨_, rfl⟩ := h
        simp
      · split at h
        · simp only [Option.some.injEq, Prod.mk.injEq] at h
          obtain ⟨_, rfl⟩ := h
          simp
        · split at h
          · simp only [Option.some.injEq, Prod.mk.injEq] at h
            obtain ⟨_, rfl⟩ := h
            simp
          · rename_i decoded hdec _ _ _ csr_value csr1 hcsr
            split at h
            · exact absurd h (by simp)
            · rename_i _ t2 m2 hmem
              simp only [Option.some.injEq, Prod.mk.injEq] at h
              obtain ⟨_, rfl⟩ := h
              rcases decode_memory_or_csr _ _ _ _ hdec with hnone | hdef
              · rw [hnone, load_store_none] at hmem
                simp at hmem
              · rw [hdef, csr_call_default] at hcsr
                simp only [Except.ok.injEq, Prod.mk.injEq] at hcsr
                obtain ⟨_, rfl⟩ := hcsr
                simp
            · simp only [Option.some.injEq, Prod.mk.injEq] at h
              obtain ⟨rfl, _⟩ := h
              split at ht <;> simp at ht

/-- When `execute` returns a record without a trap, the record holds the decoded
instruction, the CSR access was performed, and registers, CSRs and program counter are
updated by the writeback and PC-update stages. -/
theorem execute_commit {M : Type} (interface : Memory_interface M) (cpu : CPU_module M)
    (r : Result) (c1 : CPU_module M)
    (h : execute interface cpu = some (r, c1)) (ht : r.trap = none) :
    ∃ fetched csr_value csr1,
      Inst_decode_module.call cpu.registers fetched cpu.pc = .ok r.toResult
      ∧ r.ecall = false
      ∧ cpu.csr.call r.csr_access_info = .ok (csr_value, csr1)
      ∧ c1.registers = (if r.dest_register ≠ 0 then
            cpu.registers.set_register r.dest_register r.writeback_value
          else cpu.registers)
      ∧ c1.csr = (if r.mret then
            { csr1 with mstatus := { csr1.mstatus with mie := csr1.mstatus.mpie, mpie := false } }
          else csr1)
      ∧ c1.pc = (if r.mret then csr1.mepc
          else if r.branch_result then r.alu_result else wrap32 (cpu.pc + 4)) := by
  unfold execute at h
  split at h
  · exact absurd h (by simp)
  · simp only [Option.some.injEq, Prod.mk.injEq] at h
    obtain ⟨rfl, _⟩ := h
    simp at ht
  · simp only at h
    split at h
    · simp only [Option.some.injEq, Prod.mk.injEq] at h
      obtain ⟨rfl, _⟩ := h
      simp at ht
    · split at h
      · simp only [Option.some.injEq, Prod.mk.injEq] at h
        obtain ⟨rfl, _⟩ := h
        simp at ht
      · split at h
        · simp only [Option.some.injEq, Prod.mk.injEq] at h
          obtain ⟨rfl, _⟩ := h
          simp at ht
        · split at h
          · simp only [Option.some.injEq, Prod.mk.injEq] at h
            obtain ⟨rfl, _⟩ := h
            simp at ht
          · rename_i fetched _ _ _ _ decoded hdec hecall _ _ csr_value csr1 hcsr
            split at h
            · exact absurd h (by simp)
            · simp only [Option.some.injEq, Prod.mk.injEq] at h
              obtain ⟨rfl, _⟩ := h
              simp at ht
            · simp only [Option.some.injEq, Prod.mk.injEq] at h
              obtain ⟨rfl, rfl⟩ := h
              refine ⟨fetched, csr_value, csr1, ?_, ?_, ?_, ?_, ?_, ?_⟩
              · cases hws : decoded.writeback_source <;> simp only [hws] <;> exact hdec
              · cases hws : decoded.writeback_source <;> simp only [hws] <;> simpa using hecall
              · cases hws : decoded.writeback_source <;> simp only [hws] <;> exact hcsr
              · cases hws : decoded.writeback_source <;> simp only [hws] <;>
                  by_cases hd : decoded.dest_register = 0 <;>
                  by_cases hm : decoded.mret = true <;>
                  by_cases hb : Branch_module.call decoded.branch_opcode decoded.branch_num1
                    decoded.branch_num2 = true <;>
                  simp [hd, hm, hb]
              · cases hws : decoded.writeback_source <;> simp only [hws] <;>
                  by_cases hd : decoded.dest_register = 0 <;>
                  by_cases hm : decoded.mret = true <;>
                  by_cases hb : Branch_module.call decoded.branch_opcode decoded.branch_num1
                    decoded.branch_num2 = true <;>
                  simp [hd, hm, hb]
              · cases hws : decoded.writeback_source <;> simp only [hws] <;>
                  by_cases hd : decoded.dest_register = 0 <;>
                  by_cases hm : decoded.mret = true <;>
                  by_cases hb : Branch_module.call decoded.branch_opcode decoded.branch_num1
                    decoded.branch_num2 = true <;>
                  simp [hd, hm, hb]

/-- Shape of a completed `step`: `execute`, then `handle_trap`, then the counter tick. -/
theorem step_eq {M : Type} (interface : Memory_interface M) (cpu : CPU_module M)
    (r : Result) (cpu' : CPU_module M) (h : step interface cpu = some (r, cpu')) :
    ∃ c1, execute interface cpu = some (r, c1)
      ∧ cpu' = { handle_trap c1 r with csr := (handle_trap c1 r).csr.tick } := by
  unfold step at h
  split at h
  · exact absurd h (by simp)
  · rename_i r1 c1 hexec
    simp only [Option.some.injEq, Prod.mk.injEq] at h
    obtain ⟨rfl, rfl⟩ := h
    exact ⟨c1, hexec, rfl⟩

/-- A completed `step` is the `step_result`. -/
theorem step_eq_step_result {M : Type} (interface : Memory_interface M) (cpu : CPU_module M)
    (h : (step interface cpu).isSome = true) :
    step interface cpu
      = some ((step_result interface cpu).1, (step_result interface cpu).2) := by
  unfold step_result
  cases hs : step interface cpu with
  | none => rw [hs] at h; exact absurd h (by simp)
  | some o => simp

/-- Storing a trap code over `mcause` and reading the word back gives the code. -/
theorem mcause_word_of_code (t : Trap) : (csr.Mcause.of_word t.code).word = t.code := by
  cases t <;> decide

/-! ## C2: trap delivery -/

/-- C2. For every CPU state, a `step()` whose record carries a trap ends with
`mstatus.mpie` equal to the pre-step `mstatus.mie`, `mstatus.mie` false,
`mstatus.mpp = Machine`, `mepc` equal to the pc at the start of the cycle, `mcause` equal
to the trap code, and `pc` equal to `mtvec.base << 2`, plus `4 * (code & 0x7fffffff)` only
when the trap is an interrupt and `mtvec.mode` is `Vectored` (32-bit arithmetic); `mtvec`
itself is unchanged by the step. -/
theorem trap_delivery {M : Type} (interface : Memory_interface M) (cpu : CPU_module M)
    (r : Result) (cpu' : CPU_module M) (t : Trap)
    (hstep : step interface cpu = some (r, cpu')) (htrap : r.trap = some t) :
    cpu'.csr.mstatus.mpie = cpu.csr.mstatus.mie
    ∧ cpu'.csr.mstatus.mie = false
    ∧ cpu'.csr.mstatus.mpp = Priviledge.Machine
    ∧ cpu'.csr.mepc = cpu.pc
    ∧ cpu'.csr.mcause.word = t.code
    ∧ cpu'.csr.mtvec = cpu.csr.mtvec
    ∧ cpu'.pc =
        (if is_interrupt t = true ∧ cpu.csr.mtvec.mode = csr.Mtvec.Mode.Vectored then
          wrap32 (wrap32 (cpu.csr.mtvec.base_upper30 <<< 2)
            + wrap32 (4 * (t.code &&& 0x7fffffff)))
        else wrap32 (cpu.csr.mtvec.base_upper30 <<< 2)) := by
  obtain ⟨c1, hexec, rfl⟩ := step_eq interface cpu r cpu' hstep
  obtain ⟨hpc, hcsr, _⟩ := execute_trap_frame interface cpu r c1 t hexec htrap
  refine ⟨?_, ?_, ?_, ?_, ?_, ?_, ?_⟩ <;>
    simp [handle_trap, htrap, CSR_module.tick, hpc, hcsr, mcause_word_of_code]

/-- Witness for C2: the `ecall` at address 0 of the small machine. -/
theorem trap_delivery_witness :
    (step_result device.Block_memory.interface (demo.cpu 0)).2.csr.mstatus.mpie
        = (demo.cpu 0).csr.mstatus.mie
    ∧ (step_result device.Block_memory.interface (demo.cpu 0)).2.csr.mstatus.mie = false
    ∧ (step_result device.Block_memory.interface (demo.cpu 0)).2.csr.mstatus.mpp
        = Priviledge.Machine
    ∧ (step_result device.Block_memory.interface (demo.cpu 0)).2.csr.mepc = (demo.cpu 0).pc
    ∧ (step_result device.Block_memory.interface (demo.cpu 0)).2.csr.mcause.word
        = Trap.Env_call_from_M_mode.code
    ∧ (step_result device.Block_memory.interface (demo.cpu 0)).2.csr.mtvec
        = (demo.cpu 0).csr.mtvec
    ∧ (step_result device.Block_memory.interface (demo.cpu 0)).2.pc =
        (if is_interrupt Trap.Env_call_from_M_mode = true
            ∧ (demo.cpu 0).csr.mtvec.mode = csr.Mtvec.Mode.Vectored then
          wrap32 (wrap32 ((demo.cpu 0).csr.mtvec.base_upper30 <<< 2)
            + wrap32 (4 * (Trap.Env_call_from_M_mode.code &&& 0x7fffffff)))
        else wrap32 ((demo.cpu 0).csr.mtvec.base_upper30 <<< 2)) :=
  trap_delivery device.Block_memory.interface (demo.cpu 0)
    (step_result device.Block_memory.interface (demo.cpu 0)).1
    (step_result device.Block_memory.interface (demo.cpu 0)).2
    Trap.Env_call_from_M_mode
    (step_eq_step_result _ _ (by decide)) (by decide)

/-! ## C3: `mret` -/

/-- The only record the decoder produces with the `mret` flag is the bare `mret` record. -/
theorem decode_mret (registers : Register_file_module) (instr pc : Nat)
    (d : Inst_decode_module.Result)
    (h : Inst_decode_module.call registers instr pc = .ok d) (hm : d.mret = true) :
    d = { mret := true } := by
  unfold Inst_decode_module.call at h
  dsimp only at h
  refine ite_elim h (fun _ h => absurd h (by simp)) (fun _ h => ?_)
  refine ite_elim h (fun _ h => by cases h; simp [decode_lui] at hm) (fun _ h => ?_)
  refine ite_elim h (fun _ h => by cases h; simp [decode_auipc] at hm) (fun _ h => ?_)
  refine ite_elim h (fun _ h => by cases h; simp [decode_jal] at hm) (fun _ h => ?_)
  refine ite_elim h (fun _ h => by cases h; simp [decode_jalr] at hm) (fun _ h => ?_)
  refine ite_elim h (fun _ h => by cases h; simp [decode_load] at hm) (fun _ h => ?_)
  refine ite_elim h (fun _ h => by cases h; simp [decode_store] at hm) (fun _ h => ?_)
  refine ite_elim h (fun _ h => by cases h; simp [decode_register_imm] at hm) (fun _ h => ?_)
  refine ite_elim h (fun _ h => ?_) (fun _ h => ?_)
  · unfold decode_register_register at h
    dsimp only at h
    split at h
    · exact absurd h (by simp)
    · cases h; simp at hm
  refine ite_elim h (fun _ h => by cases h; simp [decode_branch] at hm) (fun _ h => ?_)
  refine ite_elim h (fun _ h => ?_) (fun _ h => ?_)
  · unfold decode_misc_mem at h
    dsimp only at h
    refine ite_elim h (fun _ h => by cases h; simp at hm) (fun _ h => absurd h (by simp))
  refine ite_elim h (fun _ h => ?_) (fun _ h => absurd h (by simp))
  unfold decode_system at h
  dsimp only at h
  refine ite_elim h (fun _ h => ?_) (fun _ h => ?_)
  · refine ite_elim h (fun _ h => by cases h; simp at hm) (fun _ h => ?_)
    refine ite_elim h (fun _ h => by cases h; rfl) (fun _ h => absurd h (by simp))
  refine ite_elim h (fun _ h => absurd h (by simp)) (fun _ h => ?_)
  refine ite_elim h (fun _ h => by cases h; simp at hm) (fun _ h => ?_)
  refine ite_elim h (fun _ h => by cases h; simp at hm) (fun _ h => ?_)
  refine ite_elim h (fun _ h => by cases h; simp at hm) (fun _ h => absurd h (by simp))

/-- C3. For every CPU state, a `step()` that executes `mret` without trapping sets `pc`
to `mepc`, sets `mstatus.mie` to the pre-step `mstatus.mpie`, and sets `mstatus.mpie` to
false. -/
theorem mret_restores {M : Type} (interface : Memory_interface M) (cpu : CPU_module M)
    (r : Result) (cpu' : CPU_module M)
    (hstep : step interface cpu = some (r, cpu')) (hmret : r.mret = true)
    (hnotrap : r.trap = none) :
    cpu'.pc = cpu.csr.mepc
    ∧ cpu'.csr.mstatus.mie = cpu.csr.mstatus.mpie
    ∧ cpu'.csr.mstatus.mpie = false := by
  obtain ⟨c1, hexec, rfl⟩ := step_eq interface cpu r cpu' hstep
  obtain ⟨fetched, csr_value, csr1, hdec, _, hcall, _, hcsr, hpc⟩ :=
    execute_commit interface cpu r c1 hexec hnotrap
  have hd := decode_mret _ _ _ _ hdec hmret
  have hinfo : r.csr_access_info = {} := by
    show r.toResult.csr_access_info = {}
    rw [hd]
  rw [hinfo, csr_call_default] at hcall
  simp only [Except.ok.injEq, Prod.mk.injEq] at hcall
  obtain ⟨_, rfl⟩ := hcall
  rw [hmret] at hcsr hpc
  simp only [if_true] at hcsr hpc
  refine ⟨?_, ?_, ?_⟩ <;> simp [handle_trap, hnotrap, CSR_module.tick, hpc, hcsr]

/-- Witness for C3: the `mret` at address 4 of the small machine. -/
theorem mret_restores_witness :
    (step_result device.Block_memory.interface (demo.cpu 4)).2.pc = (demo.cpu 4).csr.mepc
    ∧ (step_result device.Block_memory.interface (demo.cpu 4)).2.csr.mstatus.mie
        = (demo.cpu 4).csr.mstatus.mpie
    ∧ (step_result device.Block_memory.interface (demo.cpu 4)).2.csr.mstatus.mpie = false :=
  mret_restores device.Block_memory.interface (demo.cpu 4)
    (step_result device.Block_memory.interface (demo.cpu 4)).1
    (step_result device.Block_memory.interface (demo.cpu 4)).2
    (step_eq_step_result _ _ (by decide)) (by decide) (by decide)

/-! ## C4: register zero -/

/-- No call of `set_register` changes `registers[0]`. -/
theorem set_register_zero (rf : Register_file_module) (index value : Nat) :
    (rf.set_register index value).registers 0 = rf.registers 0 := by
  unfold Register_file_module.set_register
  split
  · rename_i h
    simp only
    rw [if_neg (fun h0 => h h0.symm)]
  · rfl

/-- C4. General-purpose register 0 always reads zero: for every register-file state with
`registers[0] = 0`, every `set_register` call (any index, any value) and every CPU `step()`
leaves `registers[0] = 0` (so `get_register(0)` is `0`), and `set_register` with a non-zero
index writes that register and changes no other. -/
theorem register_zero_invariant {M : Type} (rf : Register_file_module) (index value j : Nat)
    (interface : Memory_interface M) (cpu : CPU_module M) (r : Result) (cpu' : CPU_module M)
    (hrf : rf.registers 0 = 0) (hcpu : cpu.registers.registers 0 = 0)
    (hstep : step interface cpu = some (r, cpu')) :
    (rf.set_register index value).registers 0 = 0
    ∧ (rf.set_register index value).get_register 0 = 0
    ∧ cpu'.registers.registers 0 = 0
    ∧ cpu'.registers.get_register 0 = 0
    ∧ (index < 32 → index ≠ 0 →
        (rf.set_register index value).registers index = value
        ∧ (j ≠ index → (rf.set_register index value).registers j = rf.registers j)) := by
  have h1 : (rf.set_register index value).registers 0 = 0 := by
    rw [set_register_zero, hrf]
  have h2 : cpu'.registers.registers 0 = 0 := by
    obtain ⟨c1, hexec, rfl⟩ := step_eq interface cpu r cpu' hstep
    have hreg : c1.registers.registers 0 = 0 := by
      cases htr : r.trap with
      | some t =>
        rw [(execute_trap_frame interface cpu r c1 t hexec htr).2.2]; exact hcpu
      | none =>
        obtain ⟨_, _, _, _, _, _, hregs, _, _⟩ := execute_commit interface cpu r c1 hexec htr
        rw [hregs]
        split
        · rw [set_register_zero]; exact hcpu
        · exact hcpu
    cases htr : r.trap <;> simp [handle_trap, htr, hreg]
  refine ⟨h1, ?_, h2, ?_, ?_⟩
  · simpa [Register_file_module.get_register, Bitset.mk] using h1
  · simpa [Register_file_module.get_register, Bitset.mk] using h2
  · intro hlt hne
    have hmk : Bitset.mk 5 index = index := by
      unfold Bitset.mk; exact Nat.mod_eq_of_lt (by norm_num; exact hlt)
    unfold Register_file_module.set_register
    rw [hmk, if_pos hne]
    refine ⟨by simp, fun hj => by simp [hj]⟩

/-- Witness for C4: the `addi x1, x0, 5` at address 12 of the small machine, and a write of
7 to register 3 (with register 2 observed) in its register file. -/
theorem register_zero_invariant_witness :
    ((demo.cpu 12).registers.set_register 3 7).registers 0 = 0
    ∧ ((demo.cpu 12).registers.set_register 3 7).get_register 0 = 0
    ∧ (step_result device.Block_memory.interface (demo.cpu 12)).2.registers.registers 0 = 0
    ∧ (step_result device.Block_memory.interface (demo.cpu 12)).2.registers.get_register 0 = 0
    ∧ (((demo.cpu 12).registers.set_register 3 7).registers 3 = 7
        ∧ ((demo.cpu 12).registers.set_register 3 7).registers 2
            = (demo.cpu 12).registers.registers 2) :=
  have h := register_zero_invariant (demo.cpu 12).registers 3 7 2
    device.Block_memory.interface (demo.cpu 12)
    (step_result device.Block_memory.interface (demo.cpu 12)).1
    (step_result device.Block_memory.interface (demo.cpu 12)).2
    (by decide) (by decide) (step_eq_step_result _ _ (by decide))
  ⟨h.1, h.2.1, h.2.2.1, h.2.2.2.1,
    (h.2.2.2.2 (by decide) (by decide)).1, (h.2.2.2.2 (by decide) (by decide)).2 (by decide)⟩

/-! ## C5: the cycle and retired-instruction counters -/

/-- The state component of a successful result. -/
theorem ok_pair_snd {ε α β : Type} {a a' : α} {b b' : β}
    (h : (Except.ok (a, b) : Except ε (α × β)) = Except.ok (a', b')) : b = b' := by
  cases h; rfl

theorem csr_write_none (x : Nat) : CSR_module.write x 0 0 = x % 2 ^ 32 := by
  unfold CSR_module.write CSR_module.not32
  have h : (2 ^ 32 - 1) ^^^ (0 % 2 ^ 32) = 2 ^ 32 - 1 := by decide
  rw [h, Nat.and_pow_two_sub_one_eq_mod]
  simp

/-- A CSR access that does not write, or that addresses neither `mcycle` nor `mcycleh`,
leaves the 64-bit cycle counter as it is. -/
theorem csr_call_mcycle_frame (c c1 : CSR_module) (info : CSR_access_info) (v : Nat)
    (h : c.call info = .ok (v, c1))
    (hfree : info.write_mode = .None
      ∨ (Bitset.mk 12 info.address ≠ csr.Mcycles.low_address
          ∧ Bitset.mk 12 info.address ≠ csr.Mcycles.high_address)) :
    c1.mcycles % 2 ^ 64 = c.mcycles % 2 ^ 64 := by
  unfold CSR_module.call at h
  generalize hp : (match info.write_mode with
      | .None => ((0 : Nat), (0 : Nat))
      | .Overwrite => (info.write_value, 0xffffffff)
      | .Clear => (0, info.write_value)
      | .Set => (0xffffffff, info.write_value)) = p at h
  obtain ⟨wv, wm⟩ := p
  dsimp only at h
  have hnone : info.write_mode = .None → wv = 0 ∧ wm = 0 := by
    intro hn
    rw [hn] at hp
    simp only [Prod.mk.injEq] at hp
    exact ⟨hp.1.symm, hp.2.symm⟩
  refine ite_elim h (fun _ h => by cases h) (fun _ h => ?_)
  refine ite_elim h (fun _ h => by rw [← ok_pair_snd h]) (fun _ h => ?_)
  refine ite_elim h (fun _ h => by rw [← ok_pair_snd h]) (fun _ h => ?_)
  refine ite_elim h (fun _ h => by rw [← ok_pair_snd h]) (fun _ h => ?_)
  refine ite_elim h (fun _ h => by rw [← ok_pair_snd h]) (fun _ h => ?_)
  refine ite_elim h (fun _ h => by rw [← ok_pair_snd h]) (fun _ h => ?_)
  refine ite_elim h (fun _ h => by rw [← ok_pair_snd h]) (fun _ h => ?_)
  refine ite_elim h (fun _ h => by rw [← ok_pair_snd h]) (fun _ h => ?_)
  refine ite_elim h (fun _ h => by rw [← ok_pair_snd h]) (fun _ h => ?_)
  refine ite_elim h (fun hc h => ?_) (fun _ h => ?_)
  · rcases hfree with hn | ⟨h1, _⟩
    · obtain ⟨rfl, rfl⟩ := hnone hn
      rw [← ok_pair_snd h]
      simp only [csr_write_none, CSR_module.with_low32, CSR_module.high32, CSR_module.low32]
      omega
    · exact absurd hc h1
  refine ite_elim h (fun hc h => ?_) (fun _ h => ?_)
  · rcases hfree with hn | ⟨_, h2⟩
    · obtain ⟨rfl, rfl⟩ := hnone hn
      rw [← ok_pair_snd h]
      simp only [csr_write_none, CSR_module.with_high32, CSR_module.high32, CSR_module.low32]
      omega
    · exact absurd hc h2
  refine ite_elim h (fun _ h => by rw [← ok_pair_snd h]) (fun _ h => ?_)
  refine ite_elim h (fun _ h => by rw [← ok_pair_snd h]) (fun _ h => ?_)
  refine ite_elim h (fun _ h => by rw [← ok_pair_snd h]) (fun _ h => ?_)
  refine ite_elim h (fun _ h => by rw [← ok_pair_snd h]) (fun _ h => ?_)
  refine ite_elim h (fun _ h => by rw [← ok_pair_snd h]) (fun _ h => ?_)
  refine ite_elim h (fun _ h => by rw [← ok_pair_snd h]) (fun _ h => ?_)
  refine ite_elim h (fun _ h => by rw [← ok_pair_snd h]) (fun _ h => ?_)
  refine ite_elim h (fun _ h => by rw [← ok_pair_snd h]) (fun _ h => ?_)
  refine ite_elim h (fun _ h => by rw [← ok_pair_snd h]) (fun _ h => ?_)
  refine ite_elim h (fun _ h => by rw [← ok_pair_snd h]) (fun _ h => ?_)
  cases h

/-- A CSR access that does not write, or that addresses neither `minstret` nor
`minstreth`, leaves the 64-bit retired-instruction counter as it is. -/
theorem csr_call_minstret_frame (c c1 : CSR_module) (info : CSR_access_info) (v : Nat)
    (h : c.call info = .ok (v, c1))
    (hfree : info.write_mode = .None
      ∨ (Bitset.mk 12 info.address ≠ csr.Minstret.low_address
          ∧ Bitset.mk 12 info.address ≠ csr.Minstret.high_address)) :
    c1.minstret % 2 ^ 64 = c.minstret % 2 ^ 64 := by
  unfold CSR_module.call at h
  generalize hp : (match info.write_mode with
      | .None => ((0 : Nat), (0 : Nat))
      | .Overwrite => (info.write_value, 0xffffffff)
      | .Clear => (0, info.write_value)
      | .Set => (0xffffffff, info.write_value)) = p at h
  obtain ⟨wv, wm⟩ := p
  dsimp only at h
  have hnone : info.write_mode = .None → wv = 0 ∧ wm = 0 := by
    intro hn
    rw [hn] at hp
    simp only [Prod.mk.injEq] at hp
    exact ⟨hp.1.symm, hp.2.symm⟩
  refine ite_elim h (fun _ h => by cases h) (fun _ h => ?_)
  refine ite_elim h (fun _ h => by rw [← ok_pair_snd h]) (fun _ h => ?_)
  refine ite_elim h (fun _ h => by rw [← ok_pair_snd h]) (fun _ h => ?_)
  refine ite_elim h (fun _ h => by rw [← ok_pair_snd h]) (fun _ h => ?_)
  refine ite_elim h (fun _ h => by rw [← ok_pair_snd h]) (fun _ h => ?_)
  refine ite_elim h (fun _ h => by rw [← ok_pair_snd h]) (fun _ h => ?_)
  refine ite_elim h (fun _ h => by rw [← ok_pair_snd h]) (fun _ h => ?_)
  refine ite_elim h (fun _ h => by rw [← ok_pair_snd h]) (fun _ h => ?_)
  refine ite_elim h (fun _ h => by rw [← ok_pair_snd h]) (fun _ h => ?_)
  refine ite_elim h (fun _ h => by rw [← ok_pair_snd h]) (fun _ h => ?_)
  refine ite_elim h (fun _ h => by rw [← ok_pair_snd h]) (fun _ h => ?_)
  refine ite_elim h (fun hc h => ?_) (fun _ h => ?_)
  · rcases hfree with hn | ⟨h1, _⟩
    · obtain ⟨rfl, rfl⟩ := hnone hn
      rw [← ok_pair_snd h]
      simp only [csr_write_none, CSR_module.with_low32, CSR_module.high32, CSR_module.low32]
      omega
    · exact absurd hc h1
  refine ite_elim h (fun hc h => ?_) (fun _ h => ?_)
  · rcases hfree with hn | ⟨_, h2⟩
    · obtain ⟨rfl, rfl⟩ := hnone hn
      rw [← ok_pair_snd h]
      simp only [csr_write_none, CSR_module.with_high32, CSR_module.high32, CSR_module.low32]
      omega
    · exact absurd hc h2
  refine ite_elim h (fun _ h => by rw [← ok_pair_snd h]) (fun _ h => ?_)
  refine ite_elim h (fun _ h => by rw [← ok_pair_snd h]) (fun _ h => ?_)
  refine ite_elim h (fun _ h => by rw [← ok_pair_snd h]) (fun _ h => ?_)
  refine ite_elim h (fun _ h => by rw [← ok_pair_snd h]) (fun _ h => ?_)
  refine ite_elim h (fun _ h => by rw [← ok_pair_snd h]) (fun _ h => ?_)
  refine ite_elim h (fun _ h => by rw [← ok_pair_snd h]) (fun _ h => ?_)
  refine ite_elim h (fun _ h => by rw [← ok_pair_snd h]) (fun _ h => ?_)
  refine ite_elim h (fun _ h => by rw [← ok_pair_snd h]) (fun _ h => ?_)
  cases h

/-- C5 (as amended). For every CPU state and every fetched instruction, `step()` ticks
the 64-bit counters `mcycle` and `minstret` by one (modulo 2^64) after the instruction has
taken effect: each counter equals its pre-step value plus one whenever the cycle traps, or
the instruction performs no CSR write, or its CSR address is not that of the counter
(`0xB00`/`0xB80` for `mcycle`, `0xB02`/`0xB82` for `minstret`); in a cycle without a trap
each counter is one more than the value the CSR access of the instruction leaves in it. -/
theorem counters_tick {M : Type} (interface : Memory_interface M) (cpu : CPU_module M)
    (r : Result) (cpu' : CPU_module M) (hstep : step interface cpu = some (r, cpu')) :
    (r.trap ≠ none ∨ r.csr_access_info.write_mode = .None
        ∨ (Bitset.mk 12 r.csr_access_info.address ≠ csr.Mcycles.low_address
            ∧ Bitset.mk 12 r.csr_access_info.address ≠ csr.Mcycles.high_address) →
      cpu'.csr.mcycles = (cpu.csr.mcycles + 1) % 2 ^ 64)
    ∧ (r.trap ≠ none ∨ r.csr_access_info.write_mode = .None
        ∨ (Bitset.mk 12 r.csr_access_info.address ≠ csr.Minstret.low_address
            ∧ Bitset.mk 12 r.csr_access_info.address ≠ csr.Minstret.high_address) →
      cpu'.csr.minstret = (cpu.csr.minstret + 1) % 2 ^ 64)
    ∧ (r.trap = none →
        ∃ csr_value csr1, cpu.csr.call r.csr_access_info = .ok (csr_value, csr1)
          ∧ cpu'.csr.mcycles = (csr1.mcycles + 1) % 2 ^ 64
          ∧ cpu'.csr.minstret = (csr1.minstret + 1) % 2 ^ 64) := by
  obtain ⟨c1, hexec, rfl⟩ := step_eq interface cpu r cpu' hstep
  have htrapped : ∀ t, r.trap = some t →
      ({ handle_trap c1 r with csr := (handle_trap c1 r).csr.tick } : CPU_module M).csr.mcycles
          = (cpu.csr.mcycles + 1) % 2 ^ 64
      ∧ ({ handle_trap c1 r with csr := (handle_trap c1 r).csr.tick } : CPU_module M).csr.minstret
          = (cpu.csr.minstret + 1) % 2 ^ 64 := by
    intro t ht
    obtain ⟨_, hcsr, _⟩ := execute_trap_frame interface cpu r c1 t hexec ht
    constructor <;> simp [handle_trap, ht, CSR_module.tick, hcsr]
  have hcommit : r.trap = none →
      ∃ csr_value csr1, cpu.csr.call r.csr_access_info = .ok (csr_value, csr1)
        ∧ ({ handle_trap c1 r with csr := (handle_trap c1 r).csr.tick } : CPU_module M).csr.mcycles
            = (csr1.mcycles + 1) % 2 ^ 64
        ∧ ({ handle_trap c1 r with csr := (handle_trap c1 r).csr.tick } : CPU_module M).csr.minstret
            = (csr1.minstret + 1) % 2 ^ 64 := by
    intro ht
    obtain ⟨_, csr_value, csr1, _, _, hcall, _, hcsr, _⟩ :=
      execute_commit interface cpu r c1 hexec ht
    refine ⟨csr_value, csr1, hcall, ?_, ?_⟩
    · by_cases hm : r.mret = true <;> simp [handle_trap, ht, CSR_module.tick, hcsr, hm]
    · by_cases hm : r.mret = true <;> simp [handle_trap, ht, CSR_module.tick, hcsr, hm]
  refine ⟨?_, ?_, hcommit⟩
  · intro hfree
    cases ht : r.trap with
    | some t => exact (htrapped t ht).1
    | none =>
      obtain ⟨csr_value, csr1, hcall, hcyc, _⟩ := hcommit ht
      have hfree' : r.csr_access_info.write_mode = .None
          ∨ (Bitset.mk 12 r.csr_access_info.address ≠ csr.Mcycles.low_address
              ∧ Bitset.mk 12 r.csr_access_info.address ≠ csr.Mcycles.high_address) := by
        rcases hfree with h | h | h
        · exact absurd ht h
        · exact Or.inl h
        · exact Or.inr h
      have := csr_call_mcycle_frame _ _ _ _ hcall hfree'
      rw [hcyc]
      omega
  · intro hfree
    cases ht : r.trap with
    | some t => exact (htrapped t ht).2
    | none =>
      obtain ⟨csr_value, csr1, hcall, _, hret⟩ := hcommit ht
      have hfree' : r.csr_access_info.write_mode = .None
          ∨ (Bitset.mk 12 r.csr_access_info.address ≠ csr.Minstret.low_address
              ∧ Bitset.mk 12 r.csr_access_info.address ≠ csr.Minstret.high_address) := by
        rcases hfree with h | h | h
        · exact absurd ht h
        · exact Or.inl h
        · exact Or.inr h
      have := csr_call_minstret_frame _ _ _ _ hcall hfree'
      rw [hret]
      omega

/-- Witness for C5 (as amended): the `addi` at address 12 of the small machine. -/
theorem counters_tick_witness :
    (step_result device.Block_memory.interface (demo.cpu 12)).2.csr.mcycles
        = ((demo.cpu 12).csr.mcycles + 1) % 2 ^ 64
    ∧ (step_result device.Block_memory.interface (demo.cpu 12)).2.csr.minstret
        = ((demo.cpu 12).csr.minstret + 1) % 2 ^ 64
    ∧ (∃ csr_value csr1,
        (demo.cpu 12).csr.call
            (step_result device.Block_memory.interface (demo.cpu 12)).1.csr_access_info
          = .ok (csr_value, csr1)
        ∧ (step_result device.Block_memory.interface (demo.cpu 12)).2.csr.mcycles
            = (csr1.mcycles + 1) % 2 ^ 64
        ∧ (step_result device.Block_memory.interface (demo.cpu 12)).2.csr.minstret
            = (csr1.minstret + 1) % 2 ^ 64) :=
  have h := counters_tick device.Block_memory.interface (demo.cpu 12)
    (step_result device.Block_memory.interface (demo.cpu 12)).1
    (step_result device.Block_memory.interface (demo.cpu 12)).2
    (step_eq_step_result _ _ (by decide))
  ⟨h.1 (Or.inr (Or.inl (by decide))), h.2.1 (Or.inr (Or.inl (by decide))), h.2.2 (by decide)⟩

/-- C5 fails as stated. The instruction `csrrw x0, mcycle, x1` at address 8 of the small
machine commits without a trap; with `mcycle = 7` and `x1 = 100` before the step,
`mcycle` is `101` afterwards, not `8`. -/
theorem counters_tick_counterexample :
    (step device.Block_memory.interface (demo.cpu 8)).isSome = true
    ∧ (step_result device.Block_memory.interface (demo.cpu 8)).1.inst = 0xB0009073
    ∧ (step_result device.Block_memory.interface (demo.cpu 8)).1.trap = none
    ∧ (demo.cpu 8).csr.mcycles = 7
    ∧ (step_result device.Block_memory.interface (demo.cpu 8)).2.csr.mcycles = 101
    ∧ (step_result device.Block_memory.interface (demo.cpu 8)).2.csr.mcycles
        ≠ ((demo.cpu 8).csr.mcycles + 1) % 2 ^ 64 := by
  refine ⟨by decide, by decide, by decide, by decide, by decide, by decide⟩

end core

namespace core
open CPU_module

/-! ## C7: misaligned program counter -/

/-- C7, as the code behaves. For every CPU state whose pc is not a multiple of 4, `step()`
completes with a record carrying `trap = Inst_address_misaligned`, `mepc` is that pc, but
`mtval` is `0`: `handle_trap` copies `alu_result`, which `execute` has not computed when
the fetch fails, so the pc is never written to `mtval`. -/
theorem fetch_misaligned_mtval_is_zero {M : Type} (interface : Memory_interface M)
    (cpu : CPU_module M) (h : cpu.pc % 4 ≠ 0) :
    (step interface cpu).map (fun o => (o.1.trap, o.1.alu_result, o.2.csr.mepc, o.2.csr.mtval))
      = some (some .Inst_address_misaligned, 0, cpu.pc, 0) := by
  have hfetch : Inst_fetch_module.call interface cpu.inst_fetch cpu.memory cpu.pc
      = some (.error .Inst_address_misaligned, cpu.inst_fetch, cpu.memory) := by
    unfold Inst_fetch_module.call
    rw [device.and_three, if_pos h]
  unfold step execute
  rw [hfetch]
  simp [handle_trap, trap_value, CSR_module.tick]

/-- Failing input of C7: the small machine with `pc = 2`. The step traps with
`Inst_address_misaligned` and leaves `mtval = 0`, which is not the pc. -/
theorem fetch_misaligned_mtval_is_zero_witness :
    (step device.Block_memory.interface (demo.cpu 2)).map
        (fun o => (o.1.trap, o.1.alu_result, o.2.csr.mepc, o.2.csr.mtval))
      = some (some .Inst_address_misaligned, 0, (demo.cpu 2).pc, 0)
    ∧ (demo.cpu 2).pc = 2
    ∧ (step_result device.Block_memory.interface (demo.cpu 2)).2.csr.mtval
        ≠ (demo.cpu 2).pc :=
  ⟨fetch_misaligned_mtval_is_zero device.Block_memory.interface (demo.cpu 2) (by decide),
    by decide, by decide⟩

/-! ## C8: memory errors at instruction fetch -/

/-- C8, as the code behaves. On a cache miss at a 4-aligned pc, a `read_page` error
`Out_of_range`, `Unaligned`, `Access_fault` or `Device_error` becomes a trap value, but
`Not_supported` is not handled: the fetch throws (`none`), and so does the `step()` of a
CPU in that situation. -/
theorem fetch_not_supported_throws {M : Type} (interface : Memory_interface M)
    (cpu : CPU_module M) (e : Memory_interface.Error)
    (hal : cpu.pc % 4 = 0)
    (hmiss : (cpu.inst_fetch.cache ((cpu.pc >>> 12) % Inst_fetch_module.cache_num)).valid = false
      ∨ (cpu.inst_fetch.cache ((cpu.pc >>> 12) % Inst_fetch_module.cache_num)).address
          ≠ cpu.pc &&& 0xFFFFF000)
    (he : (interface.read_page cpu.memory (cpu.pc &&& 0xfffff000)
        (cpu.inst_fetch.cache ((cpu.pc >>> 12) % Inst_fetch_module.cache_num)).data).1
          = .error e) :
    (e = .Not_supported →
      Inst_fetch_module.call interface cpu.inst_fetch cpu.memory cpu.pc = none
      ∧ step interface cpu = none)
    ∧ (e ≠ .Not_supported →
      ∃ t f1 m1, Inst_fetch_module.call interface cpu.inst_fetch cpu.memory cpu.pc
        = some (.error t, f1, m1)) := by
  have hcond : (!(cpu.inst_fetch.cache ((cpu.pc >>> 12) % Inst_fetch_module.cache_num)).valid
      || (cpu.inst_fetch.cache ((cpu.pc >>> 12) % Inst_fetch_module.cache_num)).address
          != (cpu.pc &&& 0xFFFFF000)) = true := by
    rcases hmiss with h | h
    · simp [h]
    · simp [h]
  have hnot : ¬ (cpu.pc &&& 0x3 ≠ 0) := by rw [device.and_three]; omega
  generalize hrp : interface.read_page cpu.memory (cpu.pc &&& 0xfffff000)
    (cpu.inst_fetch.cache ((cpu.pc >>> 12) % Inst_fetch_module.cache_num)).data = res at he
  obtain ⟨res1, data, m1⟩ := res
  simp only at he
  subst he
  constructor
  · intro hns
    subst hns
    have hfetch : Inst_fetch_module.call interface cpu.inst_fetch cpu.memory cpu.pc = none := by
      unfold Inst_fetch_module.call
      rw [if_neg hnot]
      simp only [hcond, if_true, hrp]
    refine ⟨hfetch, ?_⟩
    unfold step execute
    rw [hfetch]
  · intro hns
    unfold Inst_fetch_module.call
    rw [if_neg hnot]
    simp only [hcond, if_true, hrp]
    cases e <;> first | exact absurd rfl hns | exact ⟨_, _, _, rfl⟩

/-- Failing input of C8: the platform memory map with `pc = 0x00010000`, the base of the
UART region, and an empty fetch cache. `read_page` of a peripheral is `Not_supported`, and
both the fetch and the step throw. -/
theorem fetch_not_supported_throws_witness :
    Inst_fetch_module.call (Platform.Memory.interface demo.no_registers demo.no_registers)
        ({} : Inst_fetch_module) (Platform.create_memory device.Fill_policy.Zero () ()) 0x00010000
      = none
    ∧ step (Platform.Memory.interface demo.no_registers demo.no_registers)
        { pc := 0x00010000, memory := Platform.create_memory device.Fill_policy.Zero () () }
      = none :=
  (fetch_not_supported_throws (Platform.Memory.interface demo.no_registers demo.no_registers)
    { pc := 0x00010000, memory := Platform.create_memory device.Fill_policy.Zero () () }
    .Not_supported (by decide) (Or.inl (by decide)) (by decide)).1 rfl

end core

namespace core
open CPU_module

/-! ## C9: machine timer interrupt -/

theorem and_128_ne_zero (x : Nat) (h : x.testBit 7 = true) : x &&& (1 <<< 7) ≠ 0 := by
  intro h0
  have h1 : (x &&& (1 <<< 7)).testBit 7 = false := by rw [h0]; simp
  rw [Nat.testBit_and, h] at h1
  exact absurd h1 (by decide)

/-- C9. Timer interrupt delivery: for every CPU state in which fetch and decode succeed,
the instruction is not `ecall`, `mstatus.mie` is set and bit 7 of `mip & mie` is set,
`step()` executes nothing of the instruction (the registers are unchanged, the memory is
as the fetch left it, the record holds no ALU, CSR or load result, and the CSR block is the
pre-step block after trap delivery and the counter tick) and yields
`trap = Machine_timer_interrupt` with `mepc` the pre-step pc and `mcause = 0x80000007`;
with `mtvec.mode = Direct` the new pc is `mtvec.base << 2`. -/
theorem timer_interrupt_delivery {M : Type} (interface : Memory_interface M)
    (cpu : CPU_module M) (fetched : Nat) (f1 : Inst_fetch_module) (m1 : M)
    (d : Inst_decode_module.Result)
    (hfetch : Inst_fetch_module.call interface cpu.inst_fetch cpu.memory cpu.pc
      = some (.ok fetched, f1, m1))
    (hdec : Inst_decode_module.call cpu.registers fetched cpu.pc = .ok d)
    (hecall : d.ecall = false)
    (hmie : cpu.csr.mstatus.mie = true)
    (hbit : (cpu.csr.mip &&& cpu.csr.mie).testBit 7 = true) :
    ∃ r cpu', step interface cpu = some (r, cpu')
      ∧ r.trap = some .Machine_timer_interrupt
      ∧ r.alu_result = 0 ∧ r.csr_result = 0 ∧ r.memory_load_value = 0 ∧ r.writeback_value = 0
      ∧ cpu'.registers = cpu.registers
      ∧ cpu'.memory = m1
      ∧ cpu'.csr =
          ({ cpu.csr with
              mstatus := { cpu.csr.mstatus with
                mpie := cpu.csr.mstatus.mie, mie := false, mpp := Priviledge.Machine },
              mepc := cpu.pc,
              mcause := csr.Mcause.of_word 0x80000007,
              mtval := 0 } : CSR_module).tick
      ∧ cpu'.csr.mepc = cpu.pc
      ∧ cpu'.csr.mcause.word = 0x80000007
      ∧ (cpu.csr.mtvec.mode = csr.Mtvec.Mode.Direct →
          cpu'.pc = wrap32 (cpu.csr.mtvec.base_upper30 <<< 2)) := by
  have hne : cpu.csr.mip &&& cpu.csr.mie ≠ 0 := by
    intro h0
    rw [h0] at hbit
    simp at hbit
  have h128 := and_128_ne_zero _ hbit
  have hcond : cpu.csr.mstatus.mie = true ∧ (cpu.csr.mip &&& cpu.csr.mie) ≠ 0
      ∧ ((cpu.csr.mip &&& cpu.csr.mie) &&& (1 <<< 7)) ≠ 0 := ⟨hmie, hne, h128⟩
  have hexec : execute interface cpu
      = some ({ toResult := d, pc := cpu.pc, inst := fetched,
                trap := some .Machine_timer_interrupt },
              { cpu with inst_fetch := f1, memory := m1 }) := by
    unfold execute
    rw [hfetch]
    simp only [hdec, hecall, Bool.false_eq_true, if_false, if_pos hcond]
  have hstep : step interface cpu
      = some ({ toResult := d, pc := cpu.pc, inst := fetched,
                trap := some .Machine_timer_interrupt },
              { handle_trap ({ cpu with inst_fetch := f1, memory := m1 } : CPU_module M)
                  { toResult := d, pc := cpu.pc, inst := fetched,
                    trap := some .Machine_timer_interrupt } with
                csr := (handle_trap ({ cpu with inst_fetch := f1, memory := m1 } : CPU_module M)
                  { toResult := d, pc := cpu.pc, inst := fetched,
                    trap := some .Machine_timer_interrupt }).csr.tick }) := by
    unfold step
    rw [hexec]
  have hdirect : cpu.csr.mtvec.mode = csr.Mtvec.Mode.Direct →
      ¬ (is_interrupt Trap.Machine_timer_interrupt = true
          ∧ cpu.csr.mtvec.mode = csr.Mtvec.Mode.Vectored) := by
    intro hm hv
    rw [hm] at hv
    exact absurd hv.2 (by decide)
  refine ⟨_, _, hstep, rfl, rfl, rfl, rfl, rfl, rfl, rfl, ?_, rfl, ?_, ?_⟩
  · simp [handle_trap, trap_value, Trap.code]
  · simp [handle_trap, CSR_module.tick, csr.Mcause.of_word, csr.Mcause.word, Trap.code]
    decide
  · intro hm
    simp [handle_trap, hdirect hm]

/-- A fetch known to deliver the word `w` equals the triple of `w` and the components
of its own result. -/
theorem fetch_eq_of_word {M : Type} (x : Option (Except Trap Nat × Inst_fetch_module × M))
    (w : Nat) (dflt : Except Trap Nat × Inst_fetch_module × M)
    (h : x.map (fun o => o.1) = some (.ok w)) :
    x = some (.ok w, (x.getD dflt).2.1, (x.getD dflt).2.2) := by
  cases x with
  | none => simp at h
  | some o =>
    obtain ⟨a, b, c⟩ := o
    simp only [Option.map_some', Option.some.injEq] at h
    subst h
    rfl

/-- Witness for C9: the small machine with the timer interrupt pending and enabled, about
to execute the `addi` at address 12; the trap vector is `0x400`. -/
theorem timer_interrupt_delivery_witness :
    (step_result device.Block_memory.interface (demo.cpu_timer 12)).1.trap
        = some .Machine_timer_interrupt
    ∧ (step_result device.Block_memory.interface (demo.cpu_timer 12)).2.registers
        = (demo.cpu_timer 12).registers
    ∧ (step_result device.Block_memory.interface (demo.cpu_timer 12)).2.csr.mepc
        = (demo.cpu_timer 12).pc
    ∧ (step_result device.Block_memory.interface (demo.cpu_timer 12)).2.csr.mcause.word
        = 0x80000007
    ∧ (step_result device.Block_memory.interface (demo.cpu_timer 12)).2.pc = 0x400 := by
  obtain ⟨r, cpu', hs, h1, _, _, _, _, h6, _, _, h9, h10, h11⟩ :=
    timer_interrupt_delivery device.Block_memory.interface (demo.cpu_timer 12)
      0x00500093 _ _
      (decode_register_imm (demo.cpu_timer 12).registers 0x00500093)
      (fetch_eq_of_word _ 0x00500093 (.ok 0, {}, demo.memory) (by decide))
      (by decide) (by decide) (by decide) (by decide)
  have e : step_result device.Block_memory.interface (demo.cpu_timer 12) = (r, cpu') := by
    unfold step_result
    rw [hs]
    rfl
  have hpc : cpu'.pc = 0x400 := (h11 (by decide)).trans (by decide)
  rw [e]
  exact ⟨h1, h6, h9, h10, hpc⟩

end core

namespace core

/-! ## C11, C12: the high-word multiplications -/

/-- Shifting a signed 64-bit value right by 32 is the floor division by `2 ^ 32`. -/
theorem int_shiftRight_32 (m : Int) : m >>> (32 : Int) = m / 2 ^ 32 := by
  cases m with
  | ofNat n =>
    have h := Int.shiftRight_coe_nat n 32
    simp only [Nat.cast_ofNat] at h
    rw [Int.ofNat_eq_coe, h, Nat.shiftRight_eq_div_pow]
    push_cast
    rfl
  | negSucc n =>
    have h := Int.shiftRight_negSucc n 32
    simp only [Nat.cast_ofNat] at h
    rw [h, Nat.shiftRight_eq_div_pow]
    simp only [Int.negSucc_eq]
    push_cast
    omega

/-- A word below `2 ^ 32` cast to `i64` keeps its value: the cast zero-extends. -/
theorem as_signed_64_of_u32 (x : Nat) (hx : x < 2 ^ 32) : as_signed 64 x = (x : Int) := by
  unfold as_signed
  have h1 : x % 2 ^ 64 = x := Nat.mod_eq_of_lt (by omega)
  rw [h1, if_pos (by omega)]

/-- The product of two 32-bit words is below `2 ^ 64`. -/
theorem mul_u32_lt (x y : Nat) (hx : x < 2 ^ 32) (hy : y < 2 ^ 32) : x * y < 2 ^ 64 := by
  have h := Nat.mul_lt_mul'' hx hy
  exact lt_of_lt_of_eq h (by norm_num)

/-- The high word of the product of two 32-bit words is below `2 ^ 32`. -/
theorem mul_u32_high_lt (x y : Nat) (hx : x < 2 ^ 32) (hy : y < 2 ^ 32) :
    x * y / 2 ^ 32 < 2 ^ 32 := by
  have h := mul_u32_lt x y hx hy
  omega

/-- On 32-bit words `native_math::mulh` is the high word of the unsigned product. -/
theorem mulh_eq_unsigned_high (x y : Nat) (hx : x < 2 ^ 32) (hy : y < 2 ^ 32) :
    native_math.mulh x y = x * y / 2 ^ 32 := by
  unfold native_math.mulh
  rw [as_signed_64_of_u32 x hx, as_signed_64_of_u32 y hy]
  have hp := mul_u32_lt x y hx hy
  have hh := mul_u32_high_lt x y hx hy
  generalize hq : x * y = p at hp hh
  have hcast : ((x : Int) * (y : Int)) = ((p : Nat) : Int) := by rw [← hq]; push_cast; rfl
  rw [hcast]
  unfold of_int as_signed
  have e1 : (((p : Int) % 2 ^ 64).toNat) = p := by omega
  rw [e1, Nat.mod_eq_of_lt hp]
  split
  · rw [int_shiftRight_32]
    omega
  · rw [int_shiftRight_32]
    omega

/-- On 32-bit words `native_math::mulhsu` is the high word of the unsigned product. -/
theorem mulhsu_eq_unsigned_high (x y : Nat) (hx : x < 2 ^ 32) (hy : y < 2 ^ 32) :
    native_math.mulhsu x y = x * y / 2 ^ 32 := by
  unfold native_math.mulhsu
  rw [as_signed_64_of_u32 x hx]
  have hp := mul_u32_lt x y hx hy
  have hh := mul_u32_high_lt x y hx hy
  have e1 : of_int 64 (x : Int) = x := by unfold of_int; omega
  rw [e1, Nat.mod_eq_of_lt hp, Nat.shiftRight_eq_div_pow]
  unfold wrap32
  exact Nat.mod_eq_of_lt hh

/-- On 32-bit words `native_math::mulhu` is the high word of the unsigned product. -/
theorem mulhu_eq_unsigned_high (x y : Nat) (hx : x < 2 ^ 32) (hy : y < 2 ^ 32) :
    native_math.mulhu x y = x * y / 2 ^ 32 := by
  unfold native_math.mulhu
  have hp := mul_u32_lt x y hx hy
  have hh := mul_u32_high_lt x y hx hy
  rw [Nat.mod_eq_of_lt hp, Nat.shiftRight_eq_div_pow]
  unfold wrap32
  exact Nat.mod_eq_of_lt hh

/-- The reference value of `mulh` on operands that are non-negative as signed words is
the high word of the unsigned product. -/
theorem reference_mulh_of_nonneg (x y : Nat) (hx : x < 2 ^ 31) (hy : y < 2 ^ 31) :
    reference.mulh x y = x * y / 2 ^ 32 := by
  unfold reference.mulh
  have hx1 : as_signed 32 x = (x : Int) := by
    unfold as_signed
    have h1 : x % 2 ^ 32 = x := Nat.mod_eq_of_lt (by omega)
    rw [h1, if_pos (by omega)]
  have hy1 : as_signed 32 y = (y : Int) := by
    unfold as_signed
    have h1 : y % 2 ^ 32 = y := Nat.mod_eq_of_lt (by omega)
    rw [h1, if_pos (by omega)]
  rw [hx1, hy1]
  have hp := mul_u32_lt x y (by omega) (by omega)
  have hh := mul_u32_high_lt x y (by omega) (by omega)
  generalize hq : x * y = p at hp hh
  have hcast : ((x : Int) * (y : Int)) = ((p : Nat) : Int) := by rw [← hq]; push_cast; rfl
  rw [hcast]
  have e1 : of_int 64 (p : Int) = p := by unfold of_int; omega
  rw [e1, Nat.shiftRight_eq_div_pow]
  exact Nat.mod_eq_of_lt hh

/-- C11 (defect in `native_math::mulh`). For every pair of 32-bit words the ALU op `mulh`
returns the high word of the product of `x` and `y` read as UNSIGNED integers: the source
casts the `u32` operands straight to `i64`, which zero-extends them (the 64-bit product
is modelled as wrapping). It agrees with bits 63..32 of the signed product when both
operands are non-negative as signed words, and differs otherwise: `mulh(0xFFFFFFFF, 1)` is
`0` where the signed product `-1` has high word `0xFFFFFFFF`, and
`mulh(0xFFFFFFFF, 0xFFFFFFFF)` is `0xFFFFFFFE` where the signed product `1` has high
word `0`. -/
theorem mulh_zero_extends_operands (x y : Nat) (hx : x < 2 ^ 32) (hy : y < 2 ^ 32) :
    ALU_module.call .Mulh x y = x * y / 2 ^ 32
    ∧ (x < 2 ^ 31 → y < 2 ^ 31 → ALU_module.call .Mulh x y = reference.mulh x y)
    ∧ ALU_module.call .Mulh 0xFFFFFFFF 1 = 0
    ∧ reference.mulh 0xFFFFFFFF 1 = 0xFFFFFFFF
    ∧ ALU_module.call .Mulh 0xFFFFFFFF 0xFFFFFFFF = 0xFFFFFFFE
    ∧ reference.mulh 0xFFFFFFFF 0xFFFFFFFF = 0 := by
  have h := mulh_eq_unsigned_high x y hx hy
  refine ⟨h, ?_, by decide, by decide, by decide, by decide⟩
  intro hx1 hy1
  rw [reference_mulh_of_nonneg x y hx1 hy1]
  exact h

/-- Witness for C11: the operands `0xFFFFFFFF` and `1`. -/
theorem mulh_zero_extends_operands_witness :
    ALU_module.call .Mulh 0xFFFFFFFF 1 = 0xFFFFFFFF * 1 / 2 ^ 32
    ∧ ALU_module.call .Mulh 0xFFFFFFFF 1 ≠ reference.mulh 0xFFFFFFFF 1 :=
  ⟨(mulh_zero_extends_operands 0xFFFFFFFF 1 (by decide) (by decide)).1, by decide⟩

/-- C12 (defect in `native_math::mulhsu`). For every pair of 32-bit words the ALU op
`mulhu` returns bits 63..32 of the unsigned product, as specified; the ALU op `mulhsu`
returns the same value, the high word of the product of `x` and `y` both read as
UNSIGNED: the source casts the `u32` operand `x` straight to `i64`, which zero-extends
it. `mulhsu(0xFFFFFFFF, 1)` is `0`, where the product of `-1` and `1` has high word
`0xFFFFFFFF`. -/
theorem mulhsu_zero_extends_operand (x y : Nat) (hx : x < 2 ^ 32) (hy : y < 2 ^ 32) :
    ALU_module.call .Mulhu x y = reference.mulhu x y
    ∧ ALU_module.call .Mulhsu x y = ALU_module.call .Mulhu x y
    ∧ ALU_module.call .Mulhsu x y = x * y / 2 ^ 32
    ∧ ALU_module.call .Mulhsu 0xFFFFFFFF 1 = 0
    ∧ reference.mulhsu 0xFFFFFFFF 1 = 0xFFFFFFFF := by
  have hu := mulhu_eq_unsigned_high x y hx hy
  have hs := mulhsu_eq_unsigned_high x y hx hy
  have hh := mul_u32_high_lt x y hx hy
  refine ⟨?_, hs.trans hu.symm, hs, by decide, by decide⟩
  show native_math.mulhu x y = reference.mulhu x y
  rw [hu]
  unfold reference.mulhu
  rw [Nat.shiftRight_eq_div_pow]
  exact (Nat.mod_eq_of_lt hh).symm

/-- Witness for C12: the operands `0xFFFFFFFF` and `1`. -/
theorem mulhsu_zero_extends_operand_witness :
    ALU_module.call .Mulhsu 0xFFFFFFFF 1 = ALU_module.call .Mulhu 0xFFFFFFFF 1
    ∧ ALU_module.call .Mulhsu 0xFFFFFFFF 1 ≠ reference.mulhsu 0xFFFFFFFF 1 :=
  ⟨(mulhsu_zero_extends_operand 0xFFFFFFFF 1 (by decide) (by decide)).2.1, by decide⟩

end core

namespace core

open CPU_module

/-! ## Decoding by major opcode -/

/-- The two fields the decoder dispatches on, for a 32-bit word whose low seven bits
are known. -/
theorem opcode_fields (w k : Nat) (hw : w < 2 ^ 32) (hop : w % 128 = k) :
    Bitset.mk 32 w = w ∧ Bitset.slice 1 0 w = k % 4 ∧ Bitset.slice 6 2 w = k / 4 % 32 := by
  unfold Bitset.slice Bitset.mk
  rw [Nat.shiftRight_eq_div_pow, Nat.shiftRight_eq_div_pow]
  refine ⟨Nat.mod_eq_of_lt hw, ?_, ?_⟩ <;> omega

/-- A word with the BRANCH opcode is decoded by `decode_branch`. -/
theorem decode_call_branch (registers : Register_file_module) (w pc : Nat)
    (hw : w < 2 ^ 32) (hop : w % 128 = 0b1100011) :
    Inst_decode_module.call registers w pc = .ok (decode_branch registers w pc) := by
  obtain ⟨h1, h2, h3⟩ := opcode_fields w _ hw hop
  unfold Inst_decode_module.call
  simp only [h1, h2, h3]
  rfl

/-- A word with the LOAD opcode is decoded by `decode_load`. -/
theorem decode_call_load (registers : Register_file_module) (w pc : Nat)
    (hw : w < 2 ^ 32) (hop : w % 128 = 0b0000011) :
    Inst_decode_module.call registers w pc = .ok (decode_load registers w) := by
  obtain ⟨h1, h2, h3⟩ := opcode_fields w _ hw hop
  unfold Inst_decode_module.call
  simp only [h1, h2, h3]
  rfl

/-- A word with the STORE opcode is decoded by `decode_store`. -/
theorem decode_call_store (registers : Register_file_module) (w pc : Nat)
    (hw : w < 2 ^ 32) (hop : w % 128 = 0b0100011) :
    Inst_decode_module.call registers w pc = .ok (decode_store registers w) := by
  obtain ⟨h1, h2, h3⟩ := opcode_fields w _ hw hop
  unfold Inst_decode_module.call
  simp only [h1, h2, h3]
  rfl

/-- A word with the JAL opcode is decoded by `decode_jal`. -/
theorem decode_call_jal (registers : Register_file_module) (w pc : Nat)
    (hw : w < 2 ^ 32) (hop : w % 128 = 0b1101111) :
    Inst_decode_module.call registers w pc = .ok (decode_jal w pc) := by
  obtain ⟨h1, h2, h3⟩ := opcode_fields w _ hw hop
  unfold Inst_decode_module.call
  simp only [h1, h2, h3]
  rfl

/-- A word with the SYSTEM opcode is decoded by `decode_system`. -/
theorem decode_call_system (registers : Register_file_module) (w pc : Nat)
    (hw : w < 2 ^ 32) (hop : w % 128 = 0b1110011) :
    Inst_decode_module.call registers w pc = decode_system registers w := by
  obtain ⟨h1, h2, h3⟩ := opcode_fields w _ hw hop
  unfold Inst_decode_module.call
  simp only [h1, h2, h3]
  rfl

end core

namespace core

open CPU_module

/-! ## C13: branch words with a reserved `funct3` -/

/-- The decoded record of a BRANCH word whose `funct3` is `010` or `011`: no branch
operation, no memory operation, no CSR access, no destination register. -/
theorem decode_branch_reserved (registers : Register_file_module) (w pc : Nat)
    (hf3 : Bitset.slice 14 12 w = 0b010 ∨ Bitset.slice 14 12 w = 0b011) :
    (decode_branch registers w pc).branch_opcode = .None
    ∧ (decode_branch registers w pc).memory_opcode = .None
    ∧ (decode_branch registers w pc).csr_access_info = {}
    ∧ (decode_branch registers w pc).ecall = false
    ∧ (decode_branch registers w pc).mret = false
    ∧ (decode_branch registers w pc).dest_register = 0
    ∧ (decode_branch registers w pc).writeback_source = .None := by
  refine ⟨?_, rfl, rfl, rfl, rfl, rfl, rfl⟩
  unfold decode_branch inst.Btype.of
  dsimp only
  rcases hf3 with h | h <;> rw [h] <;> rfl

/-- C13 (defect in `decode_branch`). For every CPU state whose fetch delivers a BRANCH
word (`bits[6:2] = 11000`, `bits[1:0] = 11`) with `funct3` equal to `010` or `011`,
`step()` completes and does NOT trap `Illegal_instruction`: the decoder maps the reserved
`funct3` to the branch operation `None`, so the record carries no trap unless the machine
timer interrupt is taken, and without that interrupt the step is a no-operation that
falls through to `pc + 4` with the registers unchanged and the CSR block only ticked. -/
theorem branch_reserved_funct3_falls_through {M : Type} (interface : Memory_interface M)
    (cpu : CPU_module M) (w : Nat) (f1 : Inst_fetch_module) (m1 : M)
    (hfetch : Inst_fetch_module.call interface cpu.inst_fetch cpu.memory cpu.pc
      = some (.ok w, f1, m1))
    (hw : w < 2 ^ 32) (hop : w % 128 = 0b1100011)
    (hf3 : Bitset.slice 14 12 w = 0b010 ∨ Bitset.slice 14 12 w = 0b011) :
    ∃ r cpu', step interface cpu = some (r, cpu')
      ∧ r.inst = w
      ∧ r.branch_opcode = .None
      ∧ r.trap ≠ some .Illegal_instruction
      ∧ (r.trap = none ∨ r.trap = some .Machine_timer_interrupt)
      ∧ (¬ (cpu.csr.mstatus.mie = true ∧ (cpu.csr.mip &&& cpu.csr.mie) ≠ 0
            ∧ ((cpu.csr.mip &&& cpu.csr.mie) &&& (1 <<< 7)) ≠ 0) →
          r.trap = none ∧ cpu'.pc = wrap32 (cpu.pc + 4) ∧ cpu'.registers = cpu.registers
          ∧ cpu'.csr = cpu.csr.tick) := by
  have hdec := decode_call_branch cpu.registers w cpu.pc hw hop
  obtain ⟨hb, hm, hc, he, hr, hd, hs⟩ := decode_branch_reserved cpu.registers w cpu.pc hf3
  by_cases hint : cpu.csr.mstatus.mie = true ∧ (cpu.csr.mip &&& cpu.csr.mie) ≠ 0
      ∧ ((cpu.csr.mip &&& cpu.csr.mie) &&& (1 <<< 7)) ≠ 0
  · have hexec : execute interface cpu
        = some ({ toResult := decode_branch cpu.registers w cpu.pc, pc := cpu.pc, inst := w,
                  trap := some .Machine_timer_interrupt },
                { cpu with inst_fetch := f1, memory := m1 }) := by
      unfold execute
      rw [hfetch]
      simp only [hdec, he, Bool.false_eq_true, if_false, if_pos hint]
    have hstep : step interface cpu
        = some ({ toResult := decode_branch cpu.registers w cpu.pc, pc := cpu.pc, inst := w,
                  trap := some .Machine_timer_interrupt },
                { handle_trap ({ cpu with inst_fetch := f1, memory := m1 } : CPU_module M)
                    { toResult := decode_branch cpu.registers w cpu.pc, pc := cpu.pc,
                      inst := w, trap := some .Machine_timer_interrupt } with
                  csr := (handle_trap ({ cpu with inst_fetch := f1, memory := m1 } : CPU_module M)
                    { toResult := decode_branch cpu.registers w cpu.pc, pc := cpu.pc,
                      inst := w, trap := some .Machine_timer_interrupt }).csr.tick }) := by
      unfold step
      rw [hexec]
    exact ⟨_, _, hstep, rfl, hb, by simp, Or.inr rfl, fun h => absurd hint h⟩
  · have hexec : execute interface cpu
        = some ({ toResult := decode_branch cpu.registers w cpu.pc, pc := cpu.pc, inst := w,
                  alu_result := ALU_module.call .Add cpu.pc
                    (decode_branch cpu.registers w cpu.pc).alu_num2 },
                { cpu with inst_fetch := f1, memory := m1, pc := wrap32 (cpu.pc + 4) }) := by
      unfold execute
      rw [hfetch]
      simp only [hdec, he, hc, hm, hb, hr, hd, hs, csr_call_default, load_store_none,
        Bool.false_eq_true, if_false, if_neg hint, Branch_module.call, ne_eq,
        not_true_eq_false]
      rfl
    have hstep : step interface cpu
        = some ({ toResult := decode_branch cpu.registers w cpu.pc, pc := cpu.pc, inst := w,
                  alu_result := ALU_module.call .Add cpu.pc
                    (decode_branch cpu.registers w cpu.pc).alu_num2 },
                { cpu with inst_fetch := f1, memory := m1, pc := wrap32 (cpu.pc + 4),
                           csr := cpu.csr.tick }) := by
      unfold step
      rw [hexec]
      rfl
    exact ⟨_, _, hstep, rfl, hb, by simp, Or.inl rfl, fun _ => ⟨rfl, rfl, rfl, rfl⟩⟩

/-- Witness for C13: the word `0x00002063` at address 0 of the second small machine; the
step completes without a trap and the next pc is 4. -/
theorem branch_reserved_funct3_falls_through_witness :
    (step_result device.Block_memory.interface (demo.cpu_encodings 0)).1.inst = 0x00002063
    ∧ (step_result device.Block_memory.interface (demo.cpu_encodings 0)).1.trap = none
    ∧ (step_result device.Block_memory.interface (demo.cpu_encodings 0)).2.pc = 4 := by
  obtain ⟨r, cpu', hs, h1, _, _, _, h5⟩ :=
    branch_reserved_funct3_falls_through device.Block_memory.interface (demo.cpu_encodings 0)
      0x00002063 _ _
      (fetch_eq_of_word _ 0x00002063 (.ok 0, {}, demo.memory_encodings) (by decide))
      (by decide) (by decide) (Or.inl (by decide))
  have e : step_result device.Block_memory.interface (demo.cpu_encodings 0) = (r, cpu') := by
    unfold step_result
    rw [hs]
    rfl
  obtain ⟨h6, h7, _, _⟩ := h5 (by decide)
  rw [e]
  exact ⟨h1, h6, h7.trans (by decide)⟩

end core

namespace core

open CPU_module

/-! ## C14: load and store words with a reserved `funct3` -/

/-- The record `execute` returns when the machine timer interrupt is taken. -/
theorem execute_timer_interrupt {M : Type} (interface : Memory_interface M)
    (cpu : CPU_module M) (w : Nat) (f1 : Inst_fetch_module) (m1 : M)
    (d : Inst_decode_module.Result)
    (hfetch : Inst_fetch_module.call interface cpu.inst_fetch cpu.memory cpu.pc
      = some (.ok w, f1, m1))
    (hdec : Inst_decode_module.call cpu.registers w cpu.pc = .ok d)
    (he : d.ecall = false)
    (hint : cpu.csr.mstatus.mie = true ∧ (cpu.csr.mip &&& cpu.csr.mie) ≠ 0
      ∧ ((cpu.csr.mip &&& cpu.csr.mie) &&& (1 <<< 7)) ≠ 0) :
    execute interface cpu
      = some ({ toResult := d, pc := cpu.pc, inst := w, trap := some .Machine_timer_interrupt },
              { cpu with inst_fetch := f1, memory := m1 }) := by
  unfold execute
  rw [hfetch]
  simp only [hdec, he, Bool.false_eq_true, if_false, if_pos hint]

/-- The record `execute` returns when the memory unit traps on an instruction without a
CSR access. -/
theorem execute_memory_trap {M : Type} (interface : Memory_interface M)
    (cpu : CPU_module M) (w : Nat) (f1 : Inst_fetch_module) (m1 m2 : M)
    (d : Inst_decode_module.Result) (t : Trap)
    (hfetch : Inst_fetch_module.call interface cpu.inst_fetch cpu.memory cpu.pc
      = some (.ok w, f1, m1))
    (hdec : Inst_decode_module.call cpu.registers w cpu.pc = .ok d)
    (he : d.ecall = false)
    (hint : ¬ (cpu.csr.mstatus.mie = true ∧ (cpu.csr.mip &&& cpu.csr.mie) ≠ 0
      ∧ ((cpu.csr.mip &&& cpu.csr.mie) &&& (1 <<< 7)) ≠ 0))
    (hc : d.csr_access_info = {})
    (hmem : Load_store_module.call interface m1 d.memory_opcode d.memory_funct
        (ALU_module.call d.alu_opcode d.alu_num1 d.alu_num2) d.memory_store_value
      = some (.error t, m2)) :
    execute interface cpu
      = some ({ toResult := d, pc := cpu.pc, inst := w,
                alu_result := ALU_module.call d.alu_opcode d.alu_num1 d.alu_num2,
                branch_result := Branch_module.call d.branch_opcode d.branch_num1 d.branch_num2,
                trap := some t },
              { cpu with inst_fetch := f1, memory := m2 }) := by
  unfold execute
  rw [hfetch]
  simp only [hdec, he, hc, csr_call_default, hmem, Bool.false_eq_true, if_false, if_neg hint]

/-- The memory unit reports a misaligned address for every access whose width selector is
`None`, whatever the address. -/
theorem load_store_funct_none {M : Type} (interface : Memory_interface M) (m : M)
    (address store_value : Nat) :
    Load_store_module.call interface m .Load .None address store_value
        = some (.error .Load_address_misaligned, m)
    ∧ Load_store_module.call interface m .Store .None address store_value
        = some (.error .Store_address_misaligned, m) := by
  constructor <;> simp [Load_store_module.call, is_aligned]

/-- The decoded record of a LOAD word whose `funct3` is `011`, `110` or `111`. -/
theorem decode_load_reserved (registers : Register_file_module) (w : Nat)
    (hf3 : Bitset.slice 14 12 w = 0b011 ∨ Bitset.slice 14 12 w = 0b110
      ∨ Bitset.slice 14 12 w = 0b111) :
    (decode_load registers w).memory_opcode = .Load
    ∧ (decode_load registers w).memory_funct = .None
    ∧ (decode_load registers w).csr_access_info = {}
    ∧ (decode_load registers w).ecall = false := by
  refine ⟨rfl, ?_, rfl, rfl⟩
  unfold decode_load inst.Itype.of
  dsimp only
  rcases hf3 with h | h | h <;> rw [h] <;> rfl

/-- The decoded record of a STORE word whose `funct3` is none of `000`, `001`, `010`. -/
theorem decode_store_reserved (registers : Register_file_module) (w : Nat)
    (hf3 : Bitset.slice 14 12 w ≠ 0b000 ∧ Bitset.slice 14 12 w ≠ 0b001
      ∧ Bitset.slice 14 12 w ≠ 0b010) :
    (decode_store registers w).memory_opcode = .Store
    ∧ (decode_store registers w).memory_funct = .None
    ∧ (decode_store registers w).csr_access_info = {}
    ∧ (decode_store registers w).ecall = false := by
  refine ⟨rfl, ?_, rfl, rfl⟩
  have hlt : Bitset.slice 14 12 w < 8 := by
    unfold Bitset.slice Bitset.mk
    exact Nat.mod_lt _ (by decide)
  have hmod : Bitset.slice 14 12 w % 256 = Bitset.slice 14 12 w := Nat.mod_eq_of_lt (by omega)
  unfold decode_store inst.Stype.of
  dsimp only
  rw [hmod, if_neg hf3.1, if_neg hf3.2.1, if_neg hf3.2.2]

/-- A step whose instruction carries no CSR access and whose memory operation traps with
`t` for every address: the record holds `t` unless the timer interrupt is taken, and
`handle_trap` delivers it. -/
theorem step_memory_trap {M : Type} (interface : Memory_interface M)
    (cpu : CPU_module M) (w : Nat) (f1 : Inst_fetch_module) (m1 : M)
    (d : Inst_decode_module.Result) (t : Trap)
    (hfetch : Inst_fetch_module.call interface cpu.inst_fetch cpu.memory cpu.pc
      = some (.ok w, f1, m1))
    (hdec : Inst_decode_module.call cpu.registers w cpu.pc = .ok d)
    (he : d.ecall = false)
    (hc : d.csr_access_info = {})
    (hmem : ∀ address, Load_store_module.call interface m1 d.memory_opcode d.memory_funct
        address d.memory_store_value = some (.error t, m1))
    (ht : t ≠ .Illegal_instruction) :
    ∃ r cpu', step interface cpu = some (r, cpu')
      ∧ r.inst = w
      ∧ r.trap ≠ some .Illegal_instruction
      ∧ (¬ (cpu.csr.mstatus.mie = true ∧ (cpu.csr.mip &&& cpu.csr.mie) ≠ 0
            ∧ ((cpu.csr.mip &&& cpu.csr.mie) &&& (1 <<< 7)) ≠ 0) →
          r.trap = some t
          ∧ r.alu_result = ALU_module.call d.alu_opcode d.alu_num1 d.alu_num2
          ∧ cpu'.csr.mcause.word = t.code
          ∧ cpu'.csr.mtval = trap_value r t
          ∧ cpu'.registers = cpu.registers
          ∧ cpu'.memory = m1) := by
  by_cases hint : cpu.csr.mstatus.mie = true ∧ (cpu.csr.mip &&& cpu.csr.mie) ≠ 0
      ∧ ((cpu.csr.mip &&& cpu.csr.mie) &&& (1 <<< 7)) ≠ 0
  · have hexec := execute_timer_interrupt interface cpu w f1 m1 d hfetch hdec he hint
    have hstep : step interface cpu
        = some ({ toResult := d, pc := cpu.pc, inst := w,
                  trap := some .Machine_timer_interrupt },
                { handle_trap ({ cpu with inst_fetch := f1, memory := m1 } : CPU_module M)
                    { toResult := d, pc := cpu.pc, inst := w,
                      trap := some .Machine_timer_interrupt } with
                  csr := (handle_trap ({ cpu with inst_fetch := f1, memory := m1 } : CPU_module M)
                    { toResult := d, pc := cpu.pc, inst := w,
                      trap := some .Machine_timer_interrupt }).csr.tick }) := by
      unfold step
      rw [hexec]
    exact ⟨_, _, hstep, rfl, by simp, fun h => absurd hint h⟩
  · have hexec := execute_memory_trap interface cpu w f1 m1 m1 d t hfetch hdec he hint hc
      (hmem _)
    have hstep : step interface cpu
        = some ({ toResult := d, pc := cpu.pc, inst := w,
                  alu_result := ALU_module.call d.alu_opcode d.alu_num1 d.alu_num2,
                  branch_result :=
                    Branch_module.call d.branch_opcode d.branch_num1 d.branch_num2,
                  trap := some t },
                { handle_trap ({ cpu with inst_fetch := f1, memory := m1 } : CPU_module M)
                    { toResult := d, pc := cpu.pc, inst := w,
                      alu_result := ALU_module.call d.alu_opcode d.alu_num1 d.alu_num2,
                      branch_result :=
                        Branch_module.call d.branch_opcode d.branch_num1 d.branch_num2,
                      trap := some t } with
                  csr := (handle_trap ({ cpu with inst_fetch := f1, memory := m1 } : CPU_module M)
                    { toResult := d, pc := cpu.pc, inst := w,
                      alu_result := ALU_module.call d.alu_opcode d.alu_num1 d.alu_num2,
                      branch_result :=
                        Branch_module.call d.branch_opcode d.branch_num1 d.branch_num2,
                      trap := some t }).csr.tick }) := by
      unfold step
      rw [hexec]
    refine ⟨_, _, hstep, rfl, ?_, fun _ => ⟨rfl, rfl, ?_, ?_, rfl, rfl⟩⟩
    · simpa using ht
    · simp [handle_trap, CSR_module.tick, mcause_word_of_code]
    · simp [handle_trap, CSR_module.tick]

/-- C14 (defect in the decode of LOAD and STORE). For every CPU state whose fetch
delivers a LOAD word with `funct3` in `011`, `110`, `111`, or a STORE word with `funct3`
outside `000`, `001`, `010`, `step()` completes and does NOT trap `Illegal_instruction`.
The decoder maps the reserved `funct3` to the width selector `None`, for which the
alignment check of the memory unit fails at every address: unless the machine timer
interrupt is taken, the step traps `Load_address_misaligned` (cause 4), respectively
`Store_address_misaligned` (cause 6), with `mtval` the effective address, for every
register state and every effective address, aligned or not. -/
theorem load_store_reserved_funct3_traps_misaligned {M : Type}
    (interface : Memory_interface M) (cpu : CPU_module M) (w : Nat)
    (f1 : Inst_fetch_module) (m1 : M)
    (hfetch : Inst_fetch_module.call interface cpu.inst_fetch cpu.memory cpu.pc
      = some (.ok w, f1, m1))
    (hw : w < 2 ^ 32) :
    (w % 128 = 0b0000011 →
      Bitset.slice 14 12 w = 0b011 ∨ Bitset.slice 14 12 w = 0b110
        ∨ Bitset.slice 14 12 w = 0b111 →
      ∃ r cpu', step interface cpu = some (r, cpu')
        ∧ r.inst = w
        ∧ r.trap ≠ some .Illegal_instruction
        ∧ (¬ (cpu.csr.mstatus.mie = true ∧ (cpu.csr.mip &&& cpu.csr.mie) ≠ 0
              ∧ ((cpu.csr.mip &&& cpu.csr.mie) &&& (1 <<< 7)) ≠ 0) →
            r.trap = some .Load_address_misaligned
            ∧ cpu'.csr.mcause.word = 4
            ∧ cpu'.csr.mtval = r.alu_result
            ∧ r.alu_result = ALU_module.call .Add
                (cpu.registers.get_register (Bitset.slice 19 15 w))
                ((inst.Itype.of w).imm % 2 ^ 32)))
    ∧ (w % 128 = 0b0100011 →
      Bitset.slice 14 12 w ≠ 0b000 ∧ Bitset.slice 14 12 w ≠ 0b001
        ∧ Bitset.slice 14 12 w ≠ 0b010 →
      ∃ r cpu', step interface cpu = some (r, cpu')
        ∧ r.inst = w
        ∧ r.trap ≠ some .Illegal_instruction
        ∧ (¬ (cpu.csr.mstatus.mie = true ∧ (cpu.csr.mip &&& cpu.csr.mie) ≠ 0
              ∧ ((cpu.csr.mip &&& cpu.csr.mie) &&& (1 <<< 7)) ≠ 0) →
            r.trap = some .Store_address_misaligned
            ∧ cpu'.csr.mcause.word = 6
            ∧ cpu'.csr.mtval = r.alu_result
            ∧ r.alu_result = ALU_module.call .Add
                (cpu.registers.get_register (Bitset.slice 19 15 w))
                ((inst.Stype.of w).imm % 2 ^ 32))) := by
  constructor
  · intro hop hf3
    obtain ⟨h1, h2, h3, h4⟩ := decode_load_reserved cpu.registers w hf3
    obtain ⟨r, cpu', hs, hi, hn, hrest⟩ :=
      step_memory_trap interface cpu w f1 m1 (decode_load cpu.registers w)
        .Load_address_misaligned hfetch (decode_call_load cpu.registers w cpu.pc hw hop) h4 h3
        (fun a => by rw [h1, h2]; exact (load_store_funct_none interface m1 a _).1)
        (by decide)
    refine ⟨r, cpu', hs, hi, hn, fun hint => ?_⟩
    obtain ⟨a1, a2, a3, a4, _, _⟩ := hrest hint
    exact ⟨a1, a3, a4, a2⟩
  · intro hop hf3
    obtain ⟨h1, h2, h3, h4⟩ := decode_store_reserved cpu.registers w hf3
    obtain ⟨r, cpu', hs, hi, hn, hrest⟩ :=
      step_memory_trap interface cpu w f1 m1 (decode_store cpu.registers w)
        .Store_address_misaligned hfetch (decode_call_store cpu.registers w cpu.pc hw hop) h4 h3
        (fun a => by rw [h1, h2]; exact (load_store_funct_none interface m1 a _).2)
        (by decide)
    refine ⟨r, cpu', hs, hi, hn, fun hint => ?_⟩
    obtain ⟨a1, a2, a3, a4, _, _⟩ := hrest hint
    exact ⟨a1, a3, a4, a2⟩

/-- Witness for C14: the word `0x00003083` (LOAD, `funct3 = 011`, address `0(x0)`) at
address 4 of the second small machine traps `Load_address_misaligned` on the aligned
effective address 0. -/
theorem load_store_reserved_funct3_traps_misaligned_witness :
    (step_result device.Block_memory.interface (demo.cpu_encodings 4)).1.inst = 0x00003083
    ∧ (step_result device.Block_memory.interface (demo.cpu_encodings 4)).1.trap
        = some .Load_address_misaligned
    ∧ (step_result device.Block_memory.interface (demo.cpu_encodings 4)).2.csr.mcause.word = 4
    ∧ (step_result device.Block_memory.interface (demo.cpu_encodings 4)).2.csr.mtval = 0 := by
  obtain ⟨r, cpu', hs, h1, _, h3⟩ :=
    (load_store_reserved_funct3_traps_misaligned device.Block_memory.interface
      (demo.cpu_encodings 4) 0x00003083 _ _
      (fetch_eq_of_word _ 0x00003083 (.ok 0, {}, demo.memory_encodings) (by decide))
      (by decide)).1 (by decide) (Or.inl (by decide))
  have e : step_result device.Block_memory.interface (demo.cpu_encodings 4) = (r, cpu') := by
    unfold step_result
    rw [hs]
    rfl
  obtain ⟨h4, h5, h6, h7⟩ := h3 (by decide)
  rw [e]
  exact ⟨h1, h4, h5, h6.trans (h7.trans (by decide))⟩

end core

namespace core

/-! ## C15: branch and jump immediates -/

theorem take_bit_eq (b v : Nat) : Bitset.take_bit b v = v / 2 ^ b % 2 := by
  unfold Bitset.take_bit Bitset.mk
  rw [Nat.shiftRight_eq_div_pow]
  have h := Nat.and_pow_two_sub_one_eq_mod (v / 2 ^ b) 1
  simp only [pow_one, Nat.add_one_sub_one] at h
  rw [h]
  omega

theorem slice_eq (msb lsb v : Nat) :
    Bitset.slice msb lsb v = v / 2 ^ lsb % 2 ^ (msb - lsb + 1) := by
  unfold Bitset.slice Bitset.mk
  rw [Nat.shiftRight_eq_div_pow]

/-- Concatenation of bit sets, as arithmetic. -/
theorem concat_eq (na nb a b : Nat) (hb : b < 2 ^ nb) :
    Bitset.concat na nb a b = (a * 2 ^ nb + b) % 2 ^ (na + nb) := by
  unfold Bitset.concat Bitset.mk
  rw [Nat.shiftLeft_eq, Nat.mul_comm a, ← Nat.mul_add_lt_is_or hb]

/-- Sign extension of an `nb`-bit value to `ny` bits, as arithmetic. -/
theorem sext_eq (nb ny v : Nat) (hv : v < 2 ^ nb) (hnb : 0 < nb) (hny : nb < ny)
    (h64 : ny ≤ 64) :
    Bitset.sext nb ny v = if v < 2 ^ (nb - 1) then v else v + 2 ^ ny - 2 ^ nb := by
  unfold Bitset.sext
  rw [concat_eq _ _ _ _ hv, take_bit_eq]
  have hnn : ny - nb + nb = ny := by omega
  rw [hnn]
  have hpow : 2 ^ nb = 2 * 2 ^ (nb - 1) := by
    rw [← pow_succ']
    congr 1
    omega
  have hle : 2 ^ nb < 2 ^ ny := Nat.pow_lt_pow_right (by decide) hny
  by_cases hlt : v < 2 ^ (nb - 1)
  · have h0 : v / 2 ^ (nb - 1) % 2 = 0 := by
      rw [Nat.div_eq_of_lt hlt]
    rw [if_neg (by rw [h0]; simp), if_pos hlt]
    unfold Bitset.zeros
    rw [Nat.zero_mul, Nat.zero_add]
    exact Nat.mod_eq_of_lt (by omega)
  · have h1 : v / 2 ^ (nb - 1) % 2 = 1 := by
      have : v / 2 ^ (nb - 1) = 1 := by
        apply Nat.div_eq_of_lt_le
        · omega
        · omega
      rw [this]
    rw [if_pos (by rw [h1]; simp), if_neg hlt]
    unfold Bitset.ones Bitset.mk
    have hones : (2 ^ 64 - 1) % 2 ^ (ny - nb) = 2 ^ (ny - nb) - 1 := by
      have h2 : (2:Nat) ^ 64 = 2 ^ (ny - nb) * 2 ^ (64 - (ny - nb)) := by
        rw [← pow_add]
        congr 1
        omega
      have hpos : 0 < 2 ^ (ny - nb) := Nat.two_pow_pos _
      have hpos2 : 0 < 2 ^ (64 - (ny - nb)) := Nat.two_pow_pos _
      generalize 2 ^ (ny - nb) = A at *
      generalize 2 ^ (64 - (ny - nb)) = B at *
      rw [h2]
      have : A * B - 1 = A * (B - 1) + (A - 1) := by
        obtain ⟨B', rfl⟩ : ∃ B', B = B' + 1 := ⟨B - 1, by omega⟩
        simp only [Nat.add_sub_cancel]
        rw [Nat.mul_add, Nat.mul_one]
        omega
      rw [this, Nat.mul_add_mod]
      exact Nat.mod_eq_of_lt (by omega)
    rw [hones]
    have h3 : (2 ^ (ny - nb) - 1) * 2 ^ nb = 2 ^ ny - 2 ^ nb := by
      rw [Nat.sub_mul, ← pow_add, hnn, Nat.one_mul]
    rw [h3]
    have : 2 ^ ny - 2 ^ nb + v = v + 2 ^ ny - 2 ^ nb := by omega
    rw [this]
    exact Nat.mod_eq_of_lt (by omega)

/-- Splitting a seven-bit field into its top bit and its low six bits. -/
theorem split_1_6 (a p q : Nat) (hq : q < 64) (h : a % 128 = p * 64 + q) :
    a / 64 % 2 = p ∧ a % 64 = q := by
  omega

/-- Splitting a five-bit field into its high four bits and its low bit. -/
theorem split_4_1 (a p q : Nat) (hq : q < 2) (h : a % 32 = p * 2 + q) :
    a / 2 % 16 = p ∧ a % 2 = q := by
  omega

/-- The low 13 bits of a word, by the fields the B-type format uses. -/
theorem low13_fields (u : Nat) :
    u % 8192 = u / 4096 % 2 * 4096 + u / 2048 % 2 * 2048 + u / 32 % 64 * 32
      + u / 2 % 16 * 2 + u % 2 := by
  have h1 : u % 8192 = u % 4096 + 4096 * (u / 4096 % 2) := Nat.mod_mul (a := 4096) (b := 2)
  have h2 : u % 4096 = u % 2048 + 2048 * (u / 2048 % 2) := Nat.mod_mul (a := 2048) (b := 2)
  have h3 : u % 2048 = u % 32 + 32 * (u / 32 % 64) := Nat.mod_mul (a := 32) (b := 64)
  have h4 : u % 32 = u % 2 + 2 * (u / 2 % 16) := Nat.mod_mul (a := 2) (b := 16)
  rw [h1, h2, h3, h4]
  ring

/-- Reassembly of the B-type immediate from its fields, with the sign extension. -/
theorem btype_reassemble (u p r q s : Nat) (offset : Int)
    (hlow : u % 8192 = p * 4096 + r * 2048 + q * 32 + s * 2)
    (hcases : (0 ≤ offset ∧ (u : Int) = offset)
      ∨ (offset < 0 ∧ (u : Int) = offset + 4294967296))
    (hlo : -4096 ≤ offset) (hhi : offset ≤ 4094) :
    (if (((p * 2 + r) % 4 * 64 + q) % 256 * 16 + s) % 4096 * 2 % 8192 < 4096 then
        (((p * 2 + r) % 4 * 64 + q) % 256 * 16 + s) % 4096 * 2 % 8192
      else (((p * 2 + r) % 4 * 64 + q) % 256 * 16 + s) % 4096 * 2 % 8192
        + 4294967296 - 8192) % 4294967296 = u := by
  have e : (((p * 2 + r) % 4 * 64 + q) % 256 * 16 + s) % 4096 * 2 % 8192
      = p * 4096 + r * 2048 + q * 32 + s * 2 := by omega
  rw [e]
  split <;> omega

/-- The B-type immediate of a word whose bits 31:25 and 11:7 hold the canonical placement
of an even offset in `[-4096, 4094]`. -/
theorem btype_imm (w : Nat) (offset : Int) (heven : offset % 2 = 0)
    (hlo : -4096 ≤ offset) (hhi : offset ≤ 4094)
    (h1 : Bitset.slice 31 25 w = reference.btype_bits_31_25 offset)
    (h2 : Bitset.slice 11 7 w = reference.btype_bits_11_7 offset) :
    (inst.Btype.of w).imm % 2 ^ 32 = of_int 32 offset := by
  unfold inst.Btype.of
  dsimp only
  have hz : Bitset.zeros 1 = 0 := rfl
  have b1 : Bitset.take_bit 7 w < 2 ^ 1 := by rw [take_bit_eq]; omega
  have b2 : Bitset.slice 30 25 w < 2 ^ 6 := by rw [slice_eq]; omega
  have b3 : Bitset.slice 11 8 w < 2 ^ 4 := by rw [slice_eq]; omega
  have b4 : Bitset.zeros 1 < 2 ^ 1 := by rw [hz]; decide
  rw [concat_eq 1 1 _ _ b1, concat_eq 2 6 _ _ b2, concat_eq 8 4 _ _ b3, concat_eq 12 1 _ _ b4]
  rw [sext_eq 13 32 _ (Nat.mod_lt _ (by decide)) (by decide) (by decide) (by decide)]
  rw [slice_eq] at h1 h2
  unfold reference.btype_bits_31_25 field at h1
  unfold reference.btype_bits_11_7 field at h2
  simp only [Nat.shiftRight_eq_div_pow] at h1 h2
  rw [take_bit_eq, take_bit_eq, slice_eq, slice_eq, hz]
  have hu : of_int 32 offset = (offset % 2 ^ 32).toNat := rfl
  generalize of_int 32 offset = u at *
  norm_num at h1 h2 ⊢
  have hcases : (0 ≤ offset ∧ (u : Int) = offset)
      ∨ (offset < 0 ∧ (u : Int) = offset + 4294967296) := by
    omega
  have hu2 : u % 2 = 0 := by omega
  have hlow := low13_fields u
  rw [hu2, Nat.add_zero] at hlow
  have d1 : w / 2147483648 = w / 33554432 / 64 := by rw [Nat.div_div_eq_div_mul]
  have d2 : w / 256 = w / 128 / 2 := by rw [Nat.div_div_eq_div_mul]
  rw [d1, d2]
  obtain ⟨e1, e2⟩ := split_1_6 (w / 33554432) (u / 4096 % 2) (u / 32 % 64)
    (Nat.mod_lt _ (by decide)) h1
  obtain ⟨e3, e4⟩ := split_4_1 (w / 128) (u / 2 % 16) (u / 2048 % 2)
    (Nat.mod_lt _ (by decide)) h2
  rw [e1, e2, e3, e4]
  exact btype_reassemble u _ _ _ _ offset hlow hcases hlo hhi

/-- Splitting the twenty-bit field of a JAL word into `imm[20]`, `imm[10:1]`, `imm[11]`
and `imm[19:12]`. -/
theorem split_jtype (c p s r t : Nat) (hs : s < 1024) (hr : r < 2) (ht : t < 256)
    (h : c % 1048576 = p * 524288 + s * 512 + r * 256 + t) :
    c / 524288 % 2 = p ∧ c % 256 = t ∧ c / 256 % 2 = r ∧ c / 512 % 1024 = s := by
  omega

/-- The low 21 bits of a word, by the fields the J-type format uses. -/
theorem low21_fields (u : Nat) :
    u % 2097152 = u / 1048576 % 2 * 1048576 + u / 4096 % 256 * 4096 + u / 2048 % 2 * 2048
      + u / 2 % 1024 * 2 + u % 2 := by
  have h1 : u % 2097152 = u % 1048576 + 1048576 * (u / 1048576 % 2) :=
    Nat.mod_mul (a := 1048576) (b := 2)
  have h2 : u % 1048576 = u % 4096 + 4096 * (u / 4096 % 256) :=
    Nat.mod_mul (a := 4096) (b := 256)
  have h3 : u % 4096 = u % 2048 + 2048 * (u / 2048 % 2) := Nat.mod_mul (a := 2048) (b := 2)
  have h4 : u % 2048 = u % 2 + 2 * (u / 2 % 1024) := Nat.mod_mul (a := 2) (b := 1024)
  rw [h1, h2, h3, h4]
  ring

/-- Reassembly of the J-type immediate from its fields, with the sign extension. -/
theorem jtype_reassemble (u p t r s : Nat) (offset : Int)
    (hlow : u % 2097152 = p * 1048576 + t * 4096 + r * 2048 + s * 2)
    (hcases : (0 ≤ offset ∧ (u : Int) = offset)
      ∨ (offset < 0 ∧ (u : Int) = offset + 4294967296))
    (hlo : -1048576 ≤ offset) (hhi : offset ≤ 1048574) :
    (if (((p * 256 + t) % 512 * 2 + r) % 1024 * 1024 + s) % 1048576 * 2 % 2097152 < 1048576
      then (((p * 256 + t) % 512 * 2 + r) % 1024 * 1024 + s) % 1048576 * 2 % 2097152
      else (((p * 256 + t) % 512 * 2 + r) % 1024 * 1024 + s) % 1048576 * 2 % 2097152
        + 4294967296 - 2097152) % 4294967296 = u := by
  have e : (((p * 256 + t) % 512 * 2 + r) % 1024 * 1024 + s) % 1048576 * 2 % 2097152
      = p * 1048576 + t * 4096 + r * 2048 + s * 2 := by omega
  rw [e]
  split <;> omega

/-- The J-type immediate of a word whose bits 31:12 hold the canonical placement of an
even offset in `[-2^20, 2^20 - 2]`. -/
theorem jtype_imm (w : Nat) (offset : Int) (heven : offset % 2 = 0)
    (hlo : -1048576 ≤ offset) (hhi : offset ≤ 1048574)
    (h1 : Bitset.slice 31 12 w = reference.jtype_bits_31_12 offset) :
    (inst.Jtype.of w).imm % 2 ^ 32 = of_int 32 offset := by
  unfold inst.Jtype.of
  dsimp only
  have hz : Bitset.zeros 1 = 0 := rfl
  have b1 : Bitset.slice 19 12 w < 2 ^ 8 := by rw [slice_eq]; omega
  have b2 : Bitset.take_bit 20 w < 2 ^ 1 := by rw [take_bit_eq]; omega
  have b3 : Bitset.slice 30 21 w < 2 ^ 10 := by rw [slice_eq]; omega
  have b4 : Bitset.zeros 1 < 2 ^ 1 := by rw [hz]; decide
  rw [concat_eq 1 8 _ _ b1, concat_eq 9 1 _ _ b2, concat_eq 10 10 _ _ b3,
    concat_eq 20 1 _ _ b4]
  rw [sext_eq 21 32 _ (Nat.mod_lt _ (by decide)) (by decide) (by decide) (by decide)]
  rw [slice_eq] at h1
  unfold reference.jtype_bits_31_12 field at h1
  simp only [Nat.shiftRight_eq_div_pow] at h1
  rw [take_bit_eq, take_bit_eq, slice_eq, slice_eq, hz]
  have hu : of_int 32 offset = (offset % 2 ^ 32).toNat := rfl
  generalize of_int 32 offset = u at *
  norm_num at h1 ⊢
  have hcases : (0 ≤ offset ∧ (u : Int) = offset)
      ∨ (offset < 0 ∧ (u : Int) = offset + 4294967296) := by
    omega
  have hu2 : u % 2 = 0 := by omega
  have hlow := low21_fields u
  rw [hu2, Nat.add_zero] at hlow
  have d1 : w / 2147483648 = w / 4096 / 524288 := by rw [Nat.div_div_eq_div_mul]
  have d2 : w / 1048576 = w / 4096 / 256 := by rw [Nat.div_div_eq_div_mul]
  have d3 : w / 2097152 = w / 4096 / 512 := by rw [Nat.div_div_eq_div_mul]
  rw [d1, d2, d3]
  obtain ⟨e1, e2, e3, e4⟩ := split_jtype (w / 4096) (u / 1048576 % 2) (u / 2 % 1024)
    (u / 2048 % 2) (u / 4096 % 256)
    (Nat.mod_lt _ (by decide)) (Nat.mod_lt _ (by decide)) (Nat.mod_lt _ (by decide)) h1
  rw [e1, e2, e3, e4]
  exact jtype_reassemble u _ _ _ _ offset hlow hcases hlo hhi

/-- C15. Branch and jump immediates follow the canonical RISC-V encodings. For every
even offset in `[-4096, 4094]`, every 32-bit word with the BRANCH opcode whose bits 31:25
hold `imm[12|10:5]` and whose bits 11:7 hold `imm[4:1|11]` of the offset decodes with the
ALU operation `Add` and the ALU operands `(pc, offset mod 2^32)`; and for every even
offset in `[-2^20, 2^20 - 2]`, every 32-bit word with the JAL opcode whose bits 31:12 hold
`imm[20|10:1|11|19:12]` of the offset decodes with the ALU operation `Add` and the ALU
operands `(pc, offset mod 2^32)`. -/
theorem branch_jump_immediates (registers : Register_file_module) (w pc : Nat)
    (offset : Int) (hw : w < 2 ^ 32) (heven : offset % 2 = 0) :
    (w % 128 = 0b1100011 → -4096 ≤ offset → offset ≤ 4094 →
      Bitset.slice 31 25 w = reference.btype_bits_31_25 offset →
      Bitset.slice 11 7 w = reference.btype_bits_11_7 offset →
      ∃ d, Inst_decode_module.call registers w pc = .ok d
        ∧ d.alu_opcode = .Add ∧ d.alu_num1 = pc ∧ d.alu_num2 = of_int 32 offset)
    ∧ (w % 128 = 0b1101111 → -2 ^ 20 ≤ offset → offset ≤ 2 ^ 20 - 2 →
      Bitset.slice 31 12 w = reference.jtype_bits_31_12 offset →
      ∃ d, Inst_decode_module.call registers w pc = .ok d
        ∧ d.alu_opcode = .Add ∧ d.alu_num1 = pc ∧ d.alu_num2 = of_int 32 offset) := by
  constructor
  · intro hop hlo hhi h1 h2
    exact ⟨_, decode_call_branch registers w pc hw hop, rfl, rfl,
      btype_imm w offset heven hlo hhi h1 h2⟩
  · intro hop hlo hhi h1
    exact ⟨_, decode_call_jal registers w pc hw hop, rfl, rfl,
      jtype_imm w offset heven (by norm_num at hlo; exact hlo) (by norm_num at hhi; exact hhi) h1⟩

/-- Witness for C15: `beq x0, x0, -4096` is the word `0x80000063`, and `jal x0, -2` is the
word `0xFFFFF06F`; both decode at `pc = 0x2000` with the operands `(pc, offset mod 2^32)`. -/
theorem branch_jump_immediates_witness :
    (∃ d, Inst_decode_module.call {} 0x80000063 0x2000 = .ok d
      ∧ d.alu_opcode = .Add ∧ d.alu_num1 = 0x2000 ∧ d.alu_num2 = of_int 32 (-4096))
    ∧ (∃ d, Inst_decode_module.call {} 0xFFFFF06F 0x2000 = .ok d
      ∧ d.alu_opcode = .Add ∧ d.alu_num1 = 0x2000 ∧ d.alu_num2 = of_int 32 (-2))
    ∧ of_int 32 (-4096) = 0xFFFFF000 ∧ of_int 32 (-2) = 0xFFFFFFFE :=
  ⟨(branch_jump_immediates {} 0x80000063 0x2000 (-4096) (by decide) (by decide)).1
      (by decide) (by decide) (by decide) (by decide) (by decide),
    (branch_jump_immediates {} 0xFFFFF06F 0x2000 (-2) (by decide) (by decide)).2
      (by decide) (by decide) (by decide) (by decide),
    by decide, by decide⟩

end core

namespace core

open CPU_module

/-! ## C16: the write value of the CSR immediate instructions -/

/-- The record `decode_system` builds for a CSR immediate word (`funct3` in `101`, `110`,
`111`): its write value is the 5-bit field `rs1` SIGN-extended to 32 bits. -/
theorem decode_system_immediate (registers : Register_file_module) (w : Nat)
    (hf3 : Bitset.slice 14 12 w = 0b101 ∨ Bitset.slice 14 12 w = 0b110
      ∨ Bitset.slice 14 12 w = 0b111) :
    ∃ d, decode_system registers w = .ok d
      ∧ d.csr_access_info.write_value = Bitset.sext 5 32 (Bitset.slice 19 15 w) % 2 ^ 32
      ∧ d.csr_access_info.address = Bitset.slice 11 0 (inst.Itype.of w).imm
      ∧ (Bitset.slice 19 15 w ≠ 0 → d.csr_access_info.write_mode ≠ .None) := by
  unfold decode_system inst.Itype.of
  dsimp only
  rcases hf3 with h | h | h
  · rw [h]
    refine ⟨_, rfl, rfl, rfl, ?_⟩
    intro hne
    simp [hne]
  · rw [h]
    refine ⟨_, rfl, rfl, rfl, ?_⟩
    intro hne
    simp [hne]
  · rw [h]
    refine ⟨_, rfl, rfl, rfl, ?_⟩
    intro hne
    simp [hne]

/-- C16 (defect in `decode_system`). For every CSR immediate word (SYSTEM opcode,
`funct3` in `101`, `110`, `111`) the decoded CSR write value does not depend on the
register file, but it is the 5-bit immediate of instruction bits 19:15 SIGN-extended to
32 bits (the source calls `sext<32>()` on the field): an immediate below 16 is written as
it is, an immediate `16 ≤ uimm ≤ 31` is written as `0xFFFFFFE0 + uimm`, which is not a
number between 0 and 31. -/
theorem csr_immediate_is_sign_extended (registers : Register_file_module) (w pc : Nat)
    (hw : w < 2 ^ 32) (hop : w % 128 = 0b1110011)
    (hf3 : Bitset.slice 14 12 w = 0b101 ∨ Bitset.slice 14 12 w = 0b110
      ∨ Bitset.slice 14 12 w = 0b111) :
    ∃ d, Inst_decode_module.call registers w pc = .ok d
      ∧ d.csr_access_info.write_value
          = (if Bitset.slice 19 15 w < 16 then Bitset.slice 19 15 w
             else 0xFFFFFFE0 + Bitset.slice 19 15 w)
      ∧ (16 ≤ Bitset.slice 19 15 w → 31 < d.csr_access_info.write_value) := by
  obtain ⟨d, hd, hv, _, _⟩ := decode_system_immediate registers w hf3
  have hlt : Bitset.slice 19 15 w < 2 ^ 5 := by
    rw [slice_eq]
    exact Nat.mod_lt _ (by decide)
  have hval : d.csr_access_info.write_value
      = (if Bitset.slice 19 15 w < 16 then Bitset.slice 19 15 w
         else 0xFFFFFFE0 + Bitset.slice 19 15 w) := by
    rw [hv, sext_eq 5 32 _ hlt (by decide) (by decide) (by decide)]
    generalize Bitset.slice 19 15 w = v at hlt
    norm_num at hlt ⊢
    split <;> omega
  refine ⟨d, (decode_call_system registers w pc hw hop).trans hd, hval, ?_⟩
  intro h16
  rw [hval, if_neg (by omega)]
  omega

/-- Witness for C16: `csrrwi x0, mscratch, 31` is the word `0x340FD073`; the decoded write
value is `0xFFFFFFFF`, and executing it on the second small machine leaves
`mscratch = 0xFFFFFFFF`. -/
theorem csr_immediate_is_sign_extended_witness :
    (∃ d, Inst_decode_module.call {} 0x340FD073 12 = .ok d
      ∧ d.csr_access_info.write_value
          = (if Bitset.slice 19 15 0x340FD073 < 16 then Bitset.slice 19 15 0x340FD073
             else 0xFFFFFFE0 + Bitset.slice 19 15 0x340FD073)
      ∧ (16 ≤ Bitset.slice 19 15 0x340FD073 → 31 < d.csr_access_info.write_value))
    ∧ Bitset.slice 19 15 0x340FD073 = 31
    ∧ (step_result device.Block_memory.interface (demo.cpu_encodings 12)).1.inst = 0x340FD073
    ∧ (step_result device.Block_memory.interface (demo.cpu_encodings 12)).1.trap = none
    ∧ (step_result device.Block_memory.interface (demo.cpu_encodings 12)).1.csr_access_info
        = { write_mode := .Overwrite, address := 0x340, write_value := 0xFFFFFFFF,
            read := false }
    ∧ (step_result device.Block_memory.interface (demo.cpu_encodings 12)).2.csr.mscratch
        = 0xFFFFFFFF :=
  ⟨csr_immediate_is_sign_extended {} 0x340FD073 12 (by decide) (by decide)
      (Or.inl (by decide)),
    by decide, by decide, by decide, by decide, by decide⟩

end core

namespace core

/-! ## C17: read-only CSRs -/

/-- A write with an empty mask stores the old word. -/
theorem csr_write_empty_mask (x v : Nat) : CSR_module.write x 0 v = x % 2 ^ 32 := by
  unfold CSR_module.write CSR_module.not32
  have h : (2 ^ 32 - 1) ^^^ (0 % 2 ^ 32) = 2 ^ 32 - 1 := by decide
  rw [h, Nat.and_pow_two_sub_one_eq_mod]
  simp

/-- An address whose low twelve bits are at least `0xC00` has bits `[11:10] = 11`. -/
theorem readonly_range (a k : Nat) (h : Bitset.mk 12 a = k) (hk : 0xC00 ≤ k) :
    Bitset.slice 11 10 a = 0b11 := by
  unfold Bitset.mk at h
  rw [slice_eq]
  norm_num at h ⊢
  omega

/-- A successful CSR access leaves each of the five identification registers as it is, up
to the truncation to 32 bits of a stored word. -/
theorem csr_call_readonly_frame (c c1 : CSR_module) (info : CSR_access_info) (v : Nat)
    (h : c.call info = .ok (v, c1)) :
    (c1.mvendorid = c.mvendorid ∨ c1.mvendorid = c.mvendorid % 2 ^ 32)
    ∧ (c1.marchid = c.marchid ∨ c1.marchid = c.marchid % 2 ^ 32)
    ∧ (c1.mimpid = c.mimpid ∨ c1.mimpid = c.mimpid % 2 ^ 32)
    ∧ (c1.mhartid = c.mhartid ∨ c1.mhartid = c.mhartid % 2 ^ 32)
    ∧ (c1.mconfigptr = c.mconfigptr ∨ c1.mconfigptr = c.mconfigptr % 2 ^ 32) := by
  unfold CSR_module.call at h
  generalize hp : CSR_module.call.match_1 (fun _ => Nat × Nat) info.write_mode (fun _ => (0, 0))
      (fun _ => (info.write_value, 0xffffffff)) (fun _ => (0, info.write_value))
      (fun _ => (0xffffffff, info.write_value)) = p at h
  obtain ⟨wv, wm⟩ := p
  dsimp only at h
  refine ite_elim h (fun _ h => by cases h) (fun hw h => ?_)
  have hmask : Bitset.slice 11 10 info.address = 0b11 → wm = 0 := by
    intro h3
    by_contra hne
    apply hw
    simp [h3, hne]
  refine ite_elim h (fun _ h => by
    rw [← ok_pair_snd h]; exact ⟨Or.inl rfl, Or.inl rfl, Or.inl rfl, Or.inl rfl, Or.inl rfl⟩)
    (fun _ h => ?_)
  refine ite_elim h (fun _ h => by
    rw [← ok_pair_snd h]; exact ⟨Or.inl rfl, Or.inl rfl, Or.inl rfl, Or.inl rfl, Or.inl rfl⟩)
    (fun _ h => ?_)
  refine ite_elim h (fun _ h => by
    rw [← ok_pair_snd h]; exact ⟨Or.inl rfl, Or.inl rfl, Or.inl rfl, Or.inl rfl, Or.inl rfl⟩)
    (fun _ h => ?_)
  refine ite_elim h (fun ha h => ?_) (fun _ h => ?_)
  · rw [← ok_pair_snd h, hmask (readonly_range _ _ ha (by decide))]
    exact ⟨Or.inr (csr_write_empty_mask _ _), Or.inl rfl, Or.inl rfl, Or.inl rfl, Or.inl rfl⟩
  refine ite_elim h (fun ha h => ?_) (fun _ h => ?_)
  · rw [← ok_pair_snd h, hmask (readonly_range _ _ ha (by decide))]
    exact ⟨Or.inl rfl, Or.inr (csr_write_empty_mask _ _), Or.inl rfl, Or.inl rfl, Or.inl rfl⟩
  refine ite_elim h (fun ha h => ?_) (fun _ h => ?_)
  · rw [← ok_pair_snd h, hmask (readonly_range _ _ ha (by decide))]
    exact ⟨Or.inl rfl, Or.inl rfl, Or.inr (csr_write_empty_mask _ _), Or.inl rfl, Or.inl rfl⟩
  refine ite_elim h (fun ha h => ?_) (fun _ h => ?_)
  · rw [← ok_pair_snd h, hmask (readonly_range _ _ ha (by decide))]
    exact ⟨Or.inl rfl, Or.inl rfl, Or.inl rfl, Or.inr (csr_write_empty_mask _ _), Or.inl rfl⟩
  refine ite_elim h (fun ha h => ?_) (fun _ h => ?_)
  · rw [← ok_pair_snd h, hmask (readonly_range _ _ ha (by decide))]
    exact ⟨Or.inl rfl, Or.inl rfl, Or.inl rfl, Or.inl rfl, Or.inr (csr_write_empty_mask _ _)⟩
  refine ite_elim h (fun _ h => by
    rw [← ok_pair_snd h]; exact ⟨Or.inl rfl, Or.inl rfl, Or.inl rfl, Or.inl rfl, Or.inl rfl⟩)
    (fun _ h => ?_)
  refine ite_elim h (fun _ h => by
    rw [← ok_pair_snd h]; exact ⟨Or.inl rfl, Or.inl rfl, Or.inl rfl, Or.inl rfl, Or.inl rfl⟩)
    (fun _ h => ?_)
  refine ite_elim h (fun _ h => by
    rw [← ok_pair_snd h]; exact ⟨Or.inl rfl, Or.inl rfl, Or.inl rfl, Or.inl rfl, Or.inl rfl⟩)
    (fun _ h => ?_)
  refine ite_elim h (fun _ h => by
    rw [← ok_pair_snd h]; exact ⟨Or.inl rfl, Or.inl rfl, Or.inl rfl, Or.inl rfl, Or.inl rfl⟩)
    (fun _ h => ?_)
  refine ite_elim h (fun _ h => by
    rw [← ok_pair_snd h]; exact ⟨Or.inl rfl, Or.inl rfl, Or.inl rfl, Or.inl rfl, Or.inl rfl⟩)
    (fun _ h => ?_)
  refine ite_elim h (fun _ h => by
    rw [← ok_pair_snd h]; exact ⟨Or.inl rfl, Or.inl rfl, Or.inl rfl, Or.inl rfl, Or.inl rfl⟩)
    (fun _ h => ?_)
  refine ite_elim h (fun _ h => by
    rw [← ok_pair_snd h]; exact ⟨Or.inl rfl, Or.inl rfl, Or.inl rfl, Or.inl rfl, Or.inl rfl⟩)
    (fun _ h => ?_)
  refine ite_elim h (fun _ h => by
    rw [← ok_pair_snd h]; exact ⟨Or.inl rfl, Or.inl rfl, Or.inl rfl, Or.inl rfl, Or.inl rfl⟩)
    (fun _ h => ?_)
  refine ite_elim h (fun _ h => by
    rw [← ok_pair_snd h]; exact ⟨Or.inl rfl, Or.inl rfl, Or.inl rfl, Or.inl rfl, Or.inl rfl⟩)
    (fun _ h => ?_)
  refine ite_elim h (fun _ h => by
    rw [← ok_pair_snd h]; exact ⟨Or.inl rfl, Or.inl rfl, Or.inl rfl, Or.inl rfl, Or.inl rfl⟩)
    (fun _ h => ?_)
  refine ite_elim h (fun _ h => by
    rw [← ok_pair_snd h]; exact ⟨Or.inl rfl, Or.inl rfl, Or.inl rfl, Or.inl rfl, Or.inl rfl⟩)
    (fun _ h => ?_)
  refine ite_elim h (fun _ h => by
    rw [← ok_pair_snd h]; exact ⟨Or.inl rfl, Or.inl rfl, Or.inl rfl, Or.inl rfl, Or.inl rfl⟩)
    (fun _ h => ?_)
  cases h

/-- An access to an address with bits `[11:10] = 11` and a non-empty write mask is
refused. -/
theorem csr_call_write_readonly (c : CSR_module) (info : CSR_access_info)
    (haddr : Bitset.slice 11 10 info.address = 0b11)
    (hmode : info.write_mode = .Overwrite
      ∨ ((info.write_mode = .Set ∨ info.write_mode = .Clear) ∧ info.write_value ≠ 0)) :
    c.call info = .error .Write_readonly := by
  unfold CSR_module.call
  rcases hmode with h | ⟨h | h, hv⟩
  · rw [h]
    simp [haddr]
  · rw [h]
    simp [haddr, hv]
  · rw [h]
    simp [haddr, hv]

/-- C17. Read-only CSRs: for every CSR state (each identification register a 32-bit
word) and every access, (1) if the 12-bit address has bits `[11:10] = 11` and the write
mask is non-empty (`Overwrite`, or `Set`/`Clear` with a non-zero write value) the access
returns an error, namely `Write_readonly`; (2) whatever the access, `mvendorid`, `marchid`,
`mimpid`, `mhartid` and `mconfigptr` hold the same values afterwards; (3) an access that
returns an error leaves the whole CSR block as it was. -/
theorem readonly_csrs (c : CSR_module) (info : CSR_access_info)
    (hwf : c.mvendorid < 2 ^ 32 ∧ c.marchid < 2 ^ 32 ∧ c.mimpid < 2 ^ 32 ∧ c.mhartid < 2 ^ 32
      ∧ c.mconfigptr < 2 ^ 32) :
    (Bitset.slice 11 10 info.address = 0b11 →
      info.write_mode = .Overwrite
        ∨ ((info.write_mode = .Set ∨ info.write_mode = .Clear) ∧ info.write_value ≠ 0) →
      c.call info = .error .Write_readonly)
    ∧ ((c.after info).mvendorid = c.mvendorid ∧ (c.after info).marchid = c.marchid
      ∧ (c.after info).mimpid = c.mimpid ∧ (c.after info).mhartid = c.mhartid
      ∧ (c.after info).mconfigptr = c.mconfigptr)
    ∧ (∀ e, c.call info = .error e → c.after info = c) := by
  refine ⟨csr_call_write_readonly c info, ?_, ?_⟩
  · unfold CSR_module.after
    cases hc : c.call info with
    | error e => exact ⟨rfl, rfl, rfl, rfl, rfl⟩
    | ok p =>
      obtain ⟨v, c1⟩ := p
      obtain ⟨h1, h2, h3, h4, h5⟩ := csr_call_readonly_frame c c1 info v hc
      obtain ⟨w1, w2, w3, w4, w5⟩ := hwf
      dsimp only
      refine ⟨?_, ?_, ?_, ?_, ?_⟩
      · rcases h1 with h | h
        · exact h
        · rw [h]; exact Nat.mod_eq_of_lt w1
      · rcases h2 with h | h
        · exact h
        · rw [h]; exact Nat.mod_eq_of_lt w2
      · rcases h3 with h | h
        · exact h
        · rw [h]; exact Nat.mod_eq_of_lt w3
      · rcases h4 with h | h
        · exact h
        · rw [h]; exact Nat.mod_eq_of_lt w4
      · rcases h5 with h | h
        · exact h
        · rw [h]; exact Nat.mod_eq_of_lt w5
  · intro e he
    unfold CSR_module.after
    rw [he]

/-- Witness for C17: `csrrw`-style access (`Overwrite`, value 5, with read) to `mvendorid`
(`0xF11`) on the constructed CSR block. -/
theorem readonly_csrs_witness :
    ({} : CSR_module).call
        { write_mode := .Overwrite, address := 0xF11, write_value := 5, read := true }
      = .error .Write_readonly
    ∧ (({} : CSR_module).after
        { write_mode := .Overwrite, address := 0xF11, write_value := 5, read := true }).mvendorid
      = ({} : CSR_module).mvendorid
    ∧ ({} : CSR_module).after
        { write_mode := .Overwrite, address := 0xF11, write_value := 5, read := true }
      = {} :=
  have h := readonly_csrs {}
    { write_mode := .Overwrite, address := 0xF11, write_value := 5, read := true }
    (by decide)
  ⟨h.1 (by decide) (Or.inl rfl), h.2.1.1, h.2.2 _ (h.1 (by decide) (Or.inl rfl))⟩

end core

namespace core

/-! ## C18, C19: `mstatus` after a write -/

/-- The 64-bit `mstatus` after `force_legal`: only `mie`, `mpie` and `mpp` remain. -/
theorem force_legal_word64 (m : csr.Mstatus) :
    m.force_legal.word64 = bit m.mie * 2 ^ 3 + bit m.mpie * 2 ^ 7 + (m.mpp % 4) * 2 ^ 11 := by
  simp [csr.Mstatus.force_legal, csr.Mstatus.word64, csr.Mstatus.low_word,
    csr.Mstatus.high_word, bit]

/-- The bits of `0x1888` are bits 3, 7, 11 and 12. -/
theorem warl_mask_bits (i : Nat) (h3 : i ≠ 3) (h7 : i ≠ 7) (h11 : i ≠ 11) (h12 : i ≠ 12) :
    (0x1888 : Nat).testBit i = false := by
  by_cases hi : i < 13
  · interval_cases i <;> first | decide | contradiction
  · exact Nat.testBit_lt_two_pow (lt_of_lt_of_le (by decide : 0x1888 < 2 ^ 13)
      (Nat.pow_le_pow_right (by decide) (by omega)))

/-- A word assembled from `mie`, `mpie` and `mpp` has no bit outside 3, 7, 11 and 12. -/
theorem warl_word_bits (a b : Bool) (p i : Nat)
    (h3 : i ≠ 3) (h7 : i ≠ 7) (h11 : i ≠ 11) (h12 : i ≠ 12) :
    (bit a * 2 ^ 3 + bit b * 2 ^ 7 + (p % 4) * 2 ^ 11).testBit i = false := by
  have hand : (bit a * 2 ^ 3 + bit b * 2 ^ 7 + (p % 4) * 2 ^ 11) &&& 0x1888
      = bit a * 2 ^ 3 + bit b * 2 ^ 7 + (p % 4) * 2 ^ 11 := by
    have hp : p % 4 = 0 ∨ p % 4 = 1 ∨ p % 4 = 2 ∨ p % 4 = 3 := by omega
    rcases hp with h | h | h | h <;> rw [h] <;> cases a <;> cases b <;> decide
  rw [← hand, Nat.testBit_and, warl_mask_bits i h3 h7 h11 h12, Bool.and_false]

/-- The result of a write access to `mstatus` (`0x300`). -/
theorem csr_call_mstatus (c : CSR_module) (info : CSR_access_info)
    (hmode : info.write_mode ≠ .None) (haddr : info.address = 0x300) :
    ∃ wv wm, c.call info
      = .ok (((c.mstatus.set_low_word
                (CSR_module.write c.mstatus.low_word wm wv)).force_legal).low_word,
             { c with mstatus := (c.mstatus.set_low_word
                (CSR_module.write c.mstatus.low_word wm wv)).force_legal })
      ∧ (info.write_mode = .Overwrite → wv = info.write_value ∧ wm = 0xffffffff) := by
  unfold CSR_module.call
  generalize hp : CSR_module.call.match_1 (fun _ => Nat × Nat) info.write_mode (fun _ => (0, 0))
      (fun _ => (info.write_value, 0xffffffff)) (fun _ => (0, info.write_value))
      (fun _ => (0xffffffff, info.write_value)) = p
  obtain ⟨wv, wm⟩ := p
  refine ⟨wv, wm, ?_, ?_⟩
  · rw [haddr]
    simp [hmode, Bitset.slice, Bitset.mk, csr.Mscratch.address, csr.Misa.address,
      csr.Mvendorid.address, csr.Marchid.address, csr.Mimpid.address, csr.Mhartid.address,
      csr.Mconfigptr.address, csr.Mcycles.low_address, csr.Mcycles.high_address,
      csr.Minstret.low_address, csr.Minstret.high_address, csr.Mepc.address,
      csr.Mcause.address, csr.Mtval.address, csr.Mip.address, csr.Mie.address,
      csr.Mtvec.address, csr.Mstatus.low_address]
  · intro ho
    rw [ho] at hp
    simp only [Prod.mk.injEq] at hp
    exact ⟨hp.1.symm, hp.2.symm⟩

/-- The result of a write access to `mstatush` (`0x310`). -/
theorem csr_call_mstatush (c : CSR_module) (info : CSR_access_info)
    (hmode : info.write_mode ≠ .None) (haddr : info.address = 0x310) :
    ∃ wv wm, c.call info
      = .ok (((c.mstatus.set_high_word
                (CSR_module.write c.mstatus.high_word wm wv)).force_legal).high_word,
             { c with mstatus := (c.mstatus.set_high_word
                (CSR_module.write c.mstatus.high_word wm wv)).force_legal }) := by
  unfold CSR_module.call
  generalize hp : CSR_module.call.match_1 (fun _ => Nat × Nat) info.write_mode (fun _ => (0, 0))
      (fun _ => (info.write_value, 0xffffffff)) (fun _ => (0, info.write_value))
      (fun _ => (0xffffffff, info.write_value)) = p
  obtain ⟨wv, wm⟩ := p
  refine ⟨wv, wm, ?_⟩
  rw [haddr]
  simp [hmode, Bitset.slice, Bitset.mk, csr.Mscratch.address, csr.Misa.address,
    csr.Mvendorid.address, csr.Marchid.address, csr.Mimpid.address, csr.Mhartid.address,
    csr.Mconfigptr.address, csr.Mcycles.low_address, csr.Mcycles.high_address,
    csr.Minstret.low_address, csr.Minstret.high_address, csr.Mepc.address,
    csr.Mcause.address, csr.Mtval.address, csr.Mip.address, csr.Mie.address,
    csr.Mtvec.address, csr.Mstatus.low_address, csr.Mstatus.high_address]

/-- C18. `mstatus` WARL discipline: for every CSR state and every write access
(`Overwrite`, `Set` or `Clear`, any value) to `mstatus` (`0x300`) or `mstatush` (`0x310`),
the access succeeds and afterwards every bit of the 64-bit `mstatus` other than `mie`
(bit 3), `mpie` (bit 7) and `mpp` (bits 12:11) is zero. -/
theorem mstatus_warl (c : CSR_module) (info : CSR_access_info)
    (hmode : info.write_mode ≠ .None)
    (haddr : info.address = 0x300 ∨ info.address = 0x310) :
    ∃ v c1, c.call info = .ok (v, c1)
      ∧ ∀ i, i ≠ 3 → i ≠ 7 → i ≠ 11 → i ≠ 12 → c1.mstatus.word64.testBit i = false := by
  rcases haddr with ha | ha
  · obtain ⟨wv, wm, hc, _⟩ := csr_call_mstatus c info hmode ha
    refine ⟨_, _, hc, ?_⟩
    intro i h3 h7 h11 h12
    dsimp only
    rw [force_legal_word64]
    exact warl_word_bits _ _ _ i h3 h7 h11 h12
  · obtain ⟨wv, wm, hc⟩ := csr_call_mstatush c info hmode ha
    refine ⟨_, _, hc, ?_⟩
    intro i h3 h7 h11 h12
    dsimp only
    rw [force_legal_word64]
    exact warl_word_bits _ _ _ i h3 h7 h11 h12

/-- Witness for C18: all ones written to `mstatus` of the constructed CSR block. -/
theorem mstatus_warl_witness :
    ∃ v c1, ({} : CSR_module).call
        { write_mode := .Overwrite, address := 0x300, write_value := 0xFFFFFFFF } = .ok (v, c1)
      ∧ ∀ i, i ≠ 3 → i ≠ 7 → i ≠ 11 → i ≠ 12 → c1.mstatus.word64.testBit i = false :=
  mstatus_warl {} { write_mode := .Overwrite, address := 0x300, write_value := 0xFFFFFFFF }
    (by decide) (Or.inl rfl)

/-- An `Overwrite` stores the written 32-bit word. -/
theorem csr_write_overwrite (x v : Nat) : CSR_module.write x 0xffffffff v = v % 2 ^ 32 := by
  unfold CSR_module.write CSR_module.not32
  have h : (2 ^ 32 - 1) ^^^ (0xffffffff % 2 ^ 32) = 0 := by decide
  rw [h, Nat.and_zero, Nat.zero_or]
  exact Nat.and_pow_two_sub_one_eq_mod v 32

/-- C19 (defect in `csr::Mstatus::force_legal`). For every CSR state and every value `v`,
an `Overwrite` access to `mstatus` (`0x300`) succeeds and leaves in `mstatus.mpp` bits
12:11 of `v`: `force_legal` resets every unsupported field but does not touch `mpp`. In
particular `mpp` is `0` (the user-mode encoding), not `0b11`, when bits 12:11 of `v` are
zero. -/
theorem mstatus_write_keeps_written_mpp (c : CSR_module) (v : Nat) (rd : Bool)
    (hv : v < 2 ^ 32) :
    ∃ r c1, c.call { write_mode := .Overwrite, address := 0x300, write_value := v, read := rd }
        = .ok (r, c1)
      ∧ c1.mstatus.mpp = (v >>> 11) % 4
      ∧ ((v >>> 11) % 4 = 0 → c1.mstatus.mpp ≠ Priviledge.Machine) := by
  obtain ⟨wv, wm, hc, ho⟩ := csr_call_mstatus c
    { write_mode := .Overwrite, address := 0x300, write_value := v, read := rd }
    (by simp) rfl
  obtain ⟨h1, h2⟩ := ho rfl
  dsimp only at h1
  rw [h1, h2] at hc
  have hmpp : ((c.mstatus.set_low_word
      (CSR_module.write c.mstatus.low_word 0xffffffff v)).force_legal).mpp = (v >>> 11) % 4 := by
    rw [csr_write_overwrite, Nat.mod_eq_of_lt hv]
    rfl
  refine ⟨_, _, hc, hmpp, ?_⟩
  intro h0
  dsimp only
  rw [hmpp, h0]
  decide

/-- Witness for C19: zero written to `mstatus` of the constructed CSR block, whose `mpp`
is `Machine` before the access. -/
theorem mstatus_write_keeps_written_mpp_witness :
    ({} : CSR_module).mstatus.mpp = Priviledge.Machine
    ∧ (({} : CSR_module).after
        { write_mode := .Overwrite, address := 0x300, write_value := 0 }).mstatus.mpp = 0
    ∧ ∃ r c1, ({} : CSR_module).call
          { write_mode := .Overwrite, address := 0x300, write_value := 0, read := false }
        = .ok (r, c1)
      ∧ c1.mstatus.mpp = (0 >>> 11) % 4
      ∧ ((0 >>> 11) % 4 = 0 → c1.mstatus.mpp ≠ Priviledge.Machine) :=
  ⟨rfl, by decide, mstatus_write_keeps_written_mpp {} 0 false (by decide)⟩

end core

namespace core

/-! ## C20: `misa` -/

/-- A successful CSR access that is not a write to `misa` leaves `misa` as it is, up to
the truncation to 32 bits of a stored word. -/
theorem csr_call_misa_frame (c c1 : CSR_module) (info : CSR_access_info) (v : Nat)
    (h : c.call info = .ok (v, c1))
    (hfree : Bitset.mk 12 info.address ≠ csr.Misa.address ∨ info.write_mode = .None) :
    c1.misa = c.misa ∨ c1.misa = c.misa % 2 ^ 32 := by
  unfold CSR_module.call at h
  generalize hp : CSR_module.call.match_1 (fun _ => Nat × Nat) info.write_mode (fun _ => (0, 0))
      (fun _ => (info.write_value, 0xffffffff)) (fun _ => (0, info.write_value))
      (fun _ => (0xffffffff, info.write_value)) = p at h
  obtain ⟨wv, wm⟩ := p
  dsimp only at h
  have hnone : info.write_mode = .None → wm = 0 := by
    intro hn
    rw [hn] at hp
    simp only [Prod.mk.injEq] at hp
    exact hp.2.symm
  refine ite_elim h (fun _ h => by cases h) (fun _ h => ?_)
  refine ite_elim h (fun _ h => by rw [← ok_pair_snd h]; exact Or.inl rfl) (fun _ h => ?_)
  refine ite_elim h (fun _ h => by rw [← ok_pair_snd h]; exact Or.inl rfl) (fun _ h => ?_)
  refine ite_elim h (fun ha h => ?_) (fun _ h => ?_)
  · rcases hfree with hne | hn
    · exact absurd ha hne
    · rw [← ok_pair_snd h, hnone hn]
      exact Or.inr (csr_write_empty_mask _ _)
  refine ite_elim h (fun _ h => by rw [← ok_pair_snd h]; exact Or.inl rfl) (fun _ h => ?_)
  refine ite_elim h (fun _ h => by rw [← ok_pair_snd h]; exact Or.inl rfl) (fun _ h => ?_)
  refine ite_elim h (fun _ h => by rw [← ok_pair_snd h]; exact Or.inl rfl) (fun _ h => ?_)
  refine ite_elim h (fun _ h => by rw [← ok_pair_snd h]; exact Or.inl rfl) (fun _ h => ?_)
  refine ite_elim h (fun _ h => by rw [← ok_pair_snd h]; exact Or.inl rfl) (fun _ h => ?_)
  refine ite_elim h (fun _ h => by rw [← ok_pair_snd h]; exact Or.inl rfl) (fun _ h => ?_)
  refine ite_elim h (fun _ h => by rw [← ok_pair_snd h]; exact Or.inl rfl) (fun _ h => ?_)
  refine ite_elim h (fun _ h => by rw [← ok_pair_snd h]; exact Or.inl rfl) (fun _ h => ?_)
  refine ite_elim h (fun _ h => by rw [← ok_pair_snd h]; exact Or.inl rfl) (fun _ h => ?_)
  refine ite_elim h (fun _ h => by rw [← ok_pair_snd h]; exact Or.inl rfl) (fun _ h => ?_)
  refine ite_elim h (fun _ h => by rw [← ok_pair_snd h]; exact Or.inl rfl) (fun _ h => ?_)
  refine ite_elim h (fun _ h => by rw [← ok_pair_snd h]; exact Or.inl rfl) (fun _ h => ?_)
  refine ite_elim h (fun _ h => by rw [← ok_pair_snd h]; exact Or.inl rfl) (fun _ h => ?_)
  refine ite_elim h (fun _ h => by rw [← ok_pair_snd h]; exact Or.inl rfl) (fun _ h => ?_)
  refine ite_elim h (fun _ h => by rw [← ok_pair_snd h]; exact Or.inl rfl) (fun _ h => ?_)
  refine ite_elim h (fun _ h => by rw [← ok_pair_snd h]; exact Or.inl rfl) (fun _ h => ?_)
  refine ite_elim h (fun _ h => by rw [← ok_pair_snd h]; exact Or.inl rfl) (fun _ h => ?_)
  cases h

/-- A read access to `misa` returns the stored word. -/
theorem read_value_misa (c : CSR_module) : c.read_value 0x301 = c.misa := by
  unfold CSR_module.read_value CSR_module.call
  simp [Bitset.slice, Bitset.mk, csr.Mscratch.address, csr.Misa.address]

/-- An access that is not a write to `misa` preserves a `misa` equal to the constructed
value. -/
theorem after_keeps_misa (c : CSR_module) (info : CSR_access_info)
    (hc : c.misa = csr.Misa.initial)
    (hfree : Bitset.mk 12 info.address ≠ csr.Misa.address ∨ info.write_mode = .None) :
    (c.after info).misa = csr.Misa.initial := by
  unfold CSR_module.after
  cases hcall : c.call info with
  | error e => exact hc
  | ok p =>
    obtain ⟨v, c1⟩ := p
    dsimp only
    rcases csr_call_misa_frame c c1 info v hcall hfree with h | h
    · rw [h, hc]
    · rw [h, hc]
      decide

/-- The invariant of `after_keeps_misa` along a sequence of accesses. -/
theorem after_all_keeps_misa (accesses : List CSR_access_info) (c : CSR_module)
    (hc : c.misa = csr.Misa.initial)
    (hfree : ∀ info ∈ accesses,
      Bitset.mk 12 info.address ≠ csr.Misa.address ∨ info.write_mode = .None) :
    (c.after_all accesses).misa = csr.Misa.initial := by
  induction accesses generalizing c with
  | nil => exact hc
  | cons info rest ih =>
    unfold CSR_module.after_all
    rw [List.foldl_cons]
    exact ih (c.after info)
      (after_keeps_misa c info hc (hfree info (List.mem_cons_self _ _)))
      (fun i hi => hfree i (List.mem_cons_of_mem _ hi))

/-- C20 (as amended). Starting from the constructed CSR block, after every sequence of
CSR accesses none of which is a write access (`Overwrite`, `Set` or `Clear`) to `misa`
(`0x301`), whatever their addresses, modes and values otherwise, a read of `misa` reports
base RV32 with the `I` and `M` extension bits set: it returns the constructed word
`0x40001100`. -/
theorem misa_kept_without_misa_writes (accesses : List CSR_access_info)
    (hfree : ∀ info ∈ accesses,
      Bitset.mk 12 info.address ≠ csr.Misa.address ∨ info.write_mode = .None) :
    (({} : CSR_module).after_all accesses).read_value 0x301 = 0x40001100
    ∧ csr.Misa.reports_rv32im ((({} : CSR_module).after_all accesses).read_value 0x301)
        = true := by
  have h := after_all_keeps_misa accesses {} rfl hfree
  rw [read_value_misa, h]
  exact ⟨by decide, by decide⟩

/-- Witness for C20 (as amended): a read of `misa`, an `Overwrite` of `mscratch` and a
refused `Overwrite` of `mvendorid`. -/
theorem misa_kept_without_misa_writes_witness :
    (({} : CSR_module).after_all
        [{ address := 0x301, read := true },
         { write_mode := .Overwrite, address := 0x340, write_value := 0 },
         { write_mode := .Overwrite, address := 0xF11, write_value := 0 }]).read_value 0x301
      = 0x40001100
    ∧ csr.Misa.reports_rv32im ((({} : CSR_module).after_all
        [{ address := 0x301, read := true },
         { write_mode := .Overwrite, address := 0x340, write_value := 0 },
         { write_mode := .Overwrite, address := 0xF11, write_value := 0 }]).read_value 0x301)
        = true :=
  misa_kept_without_misa_writes _ (by decide)

/-- C20 fails as stated. On the constructed CSR block the single access
`Overwrite misa := 0` (the effect of `csrrw x0, misa, xN` with `xN = 0`) succeeds, and the
read of `misa` that follows returns `0`: base `Unknown`, `I` and `M` clear. -/
theorem misa_invariant_counterexample :
    csr.Misa.reports_rv32im (({} : CSR_module).read_value 0x301) = true
    ∧ (({} : CSR_module).after_all
        [{ write_mode := .Overwrite, address := 0x301, write_value := 0 }]).read_value 0x301 = 0
    ∧ csr.Misa.reports_rv32im ((({} : CSR_module).after_all
        [{ write_mode := .Overwrite, address := 0x301, write_value := 0 }]).read_value 0x301)
        = false := by
  refine ⟨by decide, by decide, by decide⟩

end core

namespace core

open CPU_module

/-! ## C21: `fence.i` -/

/-- A word with the MISC-MEM opcode is decoded by `decode_misc_mem`. -/
theorem decode_call_misc_mem (registers : Register_file_module) (w pc : Nat)
    (hw : w < 2 ^ 32) (hop : w % 128 = 0b0001111) :
    Inst_decode_module.call registers w pc = decode_misc_mem w := by
  obtain ⟨h1, h2, h3⟩ := opcode_fields w _ hw hop
  unfold Inst_decode_module.call
  simp only [h1, h2, h3]
  rfl

/-- After a successful fetch the cache entry of the fetched page is valid. -/
theorem fetch_leaves_entry_valid {M : Type} (interface : Memory_interface M)
    (f f1 : Inst_fetch_module) (m m1 : M) (pc w : Nat)
    (h : Inst_fetch_module.call interface f m pc = some (.ok w, f1, m1)) :
    (f1.cache ((pc >>> 12) % Inst_fetch_module.cache_num)).valid = true := by
  unfold Inst_fetch_module.call at h
  split at h
  · simp at h
  · dsimp only at h
    split at h
    · split at h
      · split at h <;> simp at h
      · simp only [Option.some.injEq, Prod.mk.injEq] at h
        obtain ⟨_, rfl, _⟩ := h
        simp [Inst_fetch_module.set_entry]
    · rename_i hhit
      simp only [Option.some.injEq, Prod.mk.injEq] at h
      obtain ⟨_, rfl, _⟩ := h
      simp only [Bool.or_eq_true, Bool.not_eq_true', not_or, Bool.not_eq_false] at hhit
      exact hhit.1

/-- C21 (defect in `CPU_module::execute`). For every CPU state whose fetch delivers a
`fence.i` word (MISC-MEM opcode, `funct3 = 001`) while no timer interrupt is taken,
`step()` completes without a trap and its record carries `fencei = true`, but the fetch
cache is exactly the cache the fetch of this instruction left: `execute` never calls
`Inst_fetch_module::fencei`. In particular the entry of the page of `pc` is VALID after
the step, so the next fetch from that page is served from the cache. -/
theorem fencei_leaves_cache_valid {M : Type} (interface : Memory_interface M)
    (cpu : CPU_module M) (w : Nat) (f1 : Inst_fetch_module) (m1 : M)
    (hfetch : Inst_fetch_module.call interface cpu.inst_fetch cpu.memory cpu.pc
      = some (.ok w, f1, m1))
    (hw : w < 2 ^ 32) (hop : w % 128 = 0b0001111) (hf3 : Bitset.slice 14 12 w = 0b001)
    (hint : ¬ (cpu.csr.mstatus.mie = true ∧ (cpu.csr.mip &&& cpu.csr.mie) ≠ 0
      ∧ ((cpu.csr.mip &&& cpu.csr.mie) &&& (1 <<< 7)) ≠ 0)) :
    ∃ r cpu', step interface cpu = some (r, cpu')
      ∧ r.inst = w ∧ r.fencei = true ∧ r.trap = none
      ∧ cpu'.inst_fetch = f1
      ∧ cpu'.inst_fetch ≠ f1.fencei
      ∧ (cpu'.inst_fetch.cache ((cpu.pc >>> 12) % Inst_fetch_module.cache_num)).valid = true
      ∧ cpu'.pc = wrap32 (cpu.pc + 4) := by
  have hdec : Inst_decode_module.call cpu.registers w cpu.pc = .ok { fencei := true } := by
    rw [decode_call_misc_mem cpu.registers w cpu.pc hw hop]
    unfold decode_misc_mem inst.Itype.of
    dsimp only
    rw [hf3]
    rfl
  have hvalid := fetch_leaves_entry_valid interface _ _ _ _ _ _ hfetch
  have hexec : execute interface cpu
      = some ({ toResult := { fencei := true }, pc := cpu.pc, inst := w,
                alu_result := ALU_module.call .Add 0 0 },
              { cpu with inst_fetch := f1, memory := m1, pc := wrap32 (cpu.pc + 4) }) := by
    unfold execute
    rw [hfetch]
    simp only [hdec, csr_call_default, load_store_none, Bool.false_eq_true, if_false,
      if_neg hint, Branch_module.call, ne_eq, not_true_eq_false]
  have hstep : step interface cpu
      = some ({ toResult := { fencei := true }, pc := cpu.pc, inst := w,
                alu_result := ALU_module.call .Add 0 0 },
              { cpu with inst_fetch := f1, memory := m1, pc := wrap32 (cpu.pc + 4),
                         csr := cpu.csr.tick }) := by
    unfold step
    rw [hexec]
    rfl
  refine ⟨_, _, hstep, rfl, rfl, rfl, rfl, ?_, hvalid, rfl⟩
  intro heq
  have h2 : (f1.cache ((cpu.pc >>> 12) % Inst_fetch_module.cache_num)).valid
      = (f1.fencei.cache ((cpu.pc >>> 12) % Inst_fetch_module.cache_num)).valid :=
    congrArg (fun f => (f.cache ((cpu.pc >>> 12) % Inst_fetch_module.cache_num)).valid) heq
  rw [hvalid] at h2
  simp [Inst_fetch_module.fencei] at h2

/-- Witness for C21: the `fence.i` at address 0 of the third small machine; after the
step the cache entry 0 is still valid. -/
theorem fencei_leaves_cache_valid_witness :
    (step_result device.Block_memory.interface (demo.cpu_fencei 0)).1.inst = 0x0000100F
    ∧ (step_result device.Block_memory.interface (demo.cpu_fencei 0)).1.fencei = true
    ∧ (step_result device.Block_memory.interface (demo.cpu_fencei 0)).1.trap = none
    ∧ ((step_result device.Block_memory.interface (demo.cpu_fencei 0)).2.inst_fetch.cache
        0).valid = true := by
  obtain ⟨r, cpu', hs, h1, h2, h3, _, _, h6, _⟩ :=
    fencei_leaves_cache_valid device.Block_memory.interface (demo.cpu_fencei 0)
      0x0000100F _ _
      (fetch_eq_of_word _ 0x0000100F (.ok 0, {}, demo.memory_fencei) (by decide))
      (by decide) (by decide) (by decide) (by decide)
  have e : step_result device.Block_memory.interface (demo.cpu_fencei 0) = (r, cpu') := by
    unfold step_result
    rw [hs]
    rfl
  rw [e]
  exact ⟨h1, h2, h3, h6⟩

end core

namespace device

open core

/-! ## C22, C23: masked writes of the block memory -/

/-- The state `fill_page` leaves differs from the memory at most in the count of random
fills. -/
theorem fill_page_snd (b : Block_memory) :
    b.fill_page.2.storage = b.storage ∧ b.fill_page.2.actual_size_bytes = b.actual_size_bytes
    ∧ b.fill_page.2.write_lock = b.write_lock ∧ b.fill_page.2.fill_policy = b.fill_policy := by
  unfold Block_memory.fill_page
  cases hf : b.fill_policy
  · exact ⟨rfl, rfl, rfl, hf⟩
  · exact ⟨rfl, rfl, rfl, hf⟩
  · exact ⟨rfl, rfl, rfl, hf⟩
  · exact ⟨rfl, rfl, rfl, rfl⟩
  · exact ⟨rfl, rfl, rfl, hf⟩

/-- With a deterministic fill policy the fresh page depends on the policy only. -/
theorem fill_page_fst (b c : Block_memory) (hpol : b.fill_policy = c.fill_policy)
    (hdet : b.fill_policy ≠ .Random) : b.fill_page.1 = c.fill_page.1 := by
  unfold Block_memory.fill_page
  rw [← hpol]
  cases hf : b.fill_policy
  · rfl
  · rfl
  · rfl
  · exact absurd hf hdet
  · rfl

theorem touch_page_out (b : Block_memory) (p : Nat) (h : ¬ p < b.page_count) :
    b.touch_page p = b := by
  unfold Block_memory.touch_page
  exact if_pos (Nat.le_of_not_lt h)

theorem touch_page_of_allocated (b : Block_memory) (p : Nat)
    (h : (b.storage p).isSome = true) : b.touch_page p = b := by
  unfold Block_memory.touch_page
  split
  · rfl
  · simp [h]

theorem touch_page_eq (b : Block_memory) (p : Nat) (h1 : p < b.page_count)
    (h2 : b.storage p = none) :
    b.touch_page p = { b.fill_page.2 with
      storage := fun i => if i = p then some b.fill_page.1 else b.fill_page.2.storage i } := by
  unfold Block_memory.touch_page
  rw [if_neg (Nat.not_le.mpr h1), h2]
  rfl

/-- The three ways `touch_page` can go. -/
theorem touch_page_cases (b : Block_memory) (p : Nat) :
    b.touch_page p = b
    ∨ (p < b.page_count ∧ b.storage p = none
        ∧ b.touch_page p = { b.fill_page.2 with
            storage := fun i =>
              if i = p then some b.fill_page.1 else b.fill_page.2.storage i }) := by
  by_cases h1 : p < b.page_count
  · cases h2 : b.storage p with
    | none => exact Or.inr ⟨h1, rfl, touch_page_eq b p h1 h2⟩
    | some pg => exact Or.inl (touch_page_of_allocated b p (by rw [h2]; rfl))
  · exact Or.inl (touch_page_out b p h1)

theorem touch_page_size (b : Block_memory) (p : Nat) :
    (b.touch_page p).actual_size_bytes = b.actual_size_bytes
    ∧ (b.touch_page p).write_lock = b.write_lock
    ∧ (b.touch_page p).fill_policy = b.fill_policy := by
  rcases touch_page_cases b p with h | ⟨_, _, h⟩
  · rw [h]
    exact ⟨rfl, rfl, rfl⟩
  · rw [h]
    exact ⟨(fill_page_snd b).2.1, (fill_page_snd b).2.2.1, (fill_page_snd b).2.2.2⟩

theorem touch_page_storage_other (b : Block_memory) (p q : Nat) (h : q ≠ p) :
    (b.touch_page p).storage q = b.storage q := by
  rcases touch_page_cases b p with h1 | ⟨_, _, h1⟩
  · rw [h1]
  · rw [h1]
    show (if q = p then some b.fill_page.1 else b.fill_page.2.storage q) = b.storage q
    rw [if_neg h, (fill_page_snd b).1]

theorem touch_page_allocates (b : Block_memory) (p : Nat) (h : p < b.page_count) :
    ((b.touch_page p).storage p).isSome = true := by
  cases h2 : b.storage p with
  | none =>
    rw [touch_page_eq b p h h2]
    show (if p = p then some b.fill_page.1 else b.fill_page.2.storage p).isSome = true
    rw [if_pos rfl]
    rfl
  | some pg =>
    rw [touch_page_of_allocated b p (by rw [h2]; rfl), h2]
    rfl

/-- The page of an address below the size exists in `storage`. -/
theorem page_index_lt (b : Block_memory) (a : Nat) (ha : a < b.actual_size_bytes) :
    a / Block_memory.page_size_bytes < b.page_count := by
  unfold Block_memory.page_count Block_memory.page_size_bytes
  omega

/-- An aligned read below the size of a memory of at least four bytes: the word of the
touched page. -/
theorem block_read_eq (b : Block_memory) (a : Nat) (hsize : 4 ≤ b.actual_size_bytes)
    (ha : a < b.actual_size_bytes) (hal : a % 4 = 0) :
    b.read a = (.ok ((b.touch_page (a / Block_memory.page_size_bytes)).page
        (a / Block_memory.page_size_bytes) (a % Block_memory.page_size_bytes / 4)),
      b.touch_page (a / Block_memory.page_size_bytes)) := by
  have h1 : ¬ a ≥ b.size := by unfold Block_memory.size; omega
  have h2 : ¬ (a &&& 0x3 ≠ 0) := by rw [and_three]; omega
  have h3 : ¬ b.actual_size_bytes < 4 := by omega
  unfold Block_memory.read
  rw [if_neg h1, if_neg h2, if_neg h3]

/-- A masked write with a non-empty mask, under the same conditions: the state after. -/
theorem block_write_eq (b : Block_memory) (a data mask : Nat)
    (hlock : b.write_lock = false) (hsize : 4 ≤ b.actual_size_bytes)
    (ha : a < b.actual_size_bytes) (hal : a % 4 = 0) (hmask : mask ≠ 0) :
    b.write a data mask
      = (.ok (), { b.touch_page (a / Block_memory.page_size_bytes) with
          storage := fun i =>
            if i = a / Block_memory.page_size_bytes then
              some (fun w =>
                if w = a % Block_memory.page_size_bytes / 4 then
                  Block_memory.write_bytes
                    ((b.touch_page (a / Block_memory.page_size_bytes)).page
                      (a / Block_memory.page_size_bytes)
                      (a % Block_memory.page_size_bytes / 4)) data mask
                else (b.touch_page (a / Block_memory.page_size_bytes)).page
                      (a / Block_memory.page_size_bytes) w)
            else (b.touch_page (a / Block_memory.page_size_bytes)).storage i }) := by
  have h1 : ¬ a ≥ b.size := by unfold Block_memory.size; omega
  have h2 : ¬ (a &&& 0x3 ≠ 0) := by rw [and_three]; omega
  have h3 : ¬ (b.actual_size_bytes < 4 ∧
      ((b.actual_size_bytes < 4 ∧ Bitset.take_bit 3 mask ≠ 0)
        ∨ (b.actual_size_bytes < 3 ∧ Bitset.take_bit 2 mask ≠ 0)
        ∨ (b.actual_size_bytes < 2 ∧ Bitset.take_bit 1 mask ≠ 0)
        ∨ (b.actual_size_bytes < 1 ∧ Bitset.take_bit 0 mask ≠ 0))) := by
    intro h; omega
  unfold Block_memory.write
  rw [if_neg h1, hlock]
  simp only [Bool.false_eq_true, if_false, if_neg hmask, if_neg h2, if_neg h3]

/-- The page a touch leaves at the touched index: the allocated page, or the fresh one. -/
theorem touch_page_page (b : Block_memory) (p : Nat) (h : p < b.page_count) :
    (b.touch_page p).page p = (b.storage p).getD b.fill_page.1 := by
  cases h2 : b.storage p with
  | none =>
    rw [touch_page_eq b p h h2]
    unfold Block_memory.page
    simp
  | some pg =>
    rw [touch_page_of_allocated b p (by rw [h2]; rfl)]
    unfold Block_memory.page
    rw [h2]
    rfl

/-- The value of an aligned read, by the stored page or the fresh page. -/
theorem block_read_value (b : Block_memory) (a : Nat) (hsize : 4 ≤ b.actual_size_bytes)
    (ha : a < b.actual_size_bytes) (hal : a % 4 = 0) :
    (b.read a).1 = .ok (((b.storage (a / Block_memory.page_size_bytes)).getD b.fill_page.1)
      (a % Block_memory.page_size_bytes / 4)) := by
  rw [block_read_eq b a hsize ha hal, touch_page_page b _ (page_index_lt b a ha)]

/-- The state after a masked write with a non-empty mask, by its components; `p` is the
page index and `w` the word index of the address. -/
theorem block_write_state (b : Block_memory) (a data mask p w : Nat)
    (hpi : a / Block_memory.page_size_bytes = p)
    (hwi : a % Block_memory.page_size_bytes / 4 = w)
    (hlock : b.write_lock = false) (hsize : 4 ≤ b.actual_size_bytes)
    (ha : a < b.actual_size_bytes) (hal : a % 4 = 0) (hmask : mask ≠ 0) :
    (b.write a data mask).1 = .ok ()
    ∧ (b.write a data mask).2.actual_size_bytes = b.actual_size_bytes
    ∧ (b.write a data mask).2.fill_policy = b.fill_policy
    ∧ (b.write a data mask).2.write_lock = b.write_lock
    ∧ (b.write a data mask).2.storage p
        = some (fun i =>
            if i = w then
              Block_memory.write_bytes (((b.storage p).getD b.fill_page.1) w) data mask
            else ((b.storage p).getD b.fill_page.1) i)
    ∧ (∀ q, q ≠ p → (b.write a data mask).2.storage q = b.storage q) := by
  have hw := block_write_eq b a data mask hlock hsize ha hal hmask
  have hp := touch_page_page b _ (page_index_lt b a ha)
  obtain ⟨t1, t2, t3⟩ := touch_page_size b (a / Block_memory.page_size_bytes)
  have t4 := touch_page_storage_other b (a / Block_memory.page_size_bytes)
  rw [hwi, hpi] at hw
  rw [hpi] at hp t1 t2 t3 t4
  generalize b.touch_page p = T at hw hp t1 t2 t3 t4
  generalize b.write a data mask = res at hw ⊢
  subst hw
  refine ⟨rfl, t1, t3, t2, ?_, ?_⟩
  · show (if p = p then _ else _) = _
    rw [if_pos rfl, hp]
  · intro q hq
    show (if q = p then _ else _) = _
    rw [if_neg hq]
    exact t4 q hq

/-- Two distinct aligned addresses of one page have distinct word indices. -/
theorem word_index_ne (a a' : Nat) (hal : a % 4 = 0) (hal' : a' % 4 = 0) (hne : a' ≠ a)
    (hpage : a' / Block_memory.page_size_bytes = a / Block_memory.page_size_bytes) :
    a' % Block_memory.page_size_bytes / 4 ≠ a % Block_memory.page_size_bytes / 4 := by
  unfold Block_memory.page_size_bytes at *
  omega

/-- Frame of a masked write: the word at any other aligned address reads the same before
and after, provided the fill policy is deterministic, or the page of that address is
already allocated, or it is the page written to. -/
theorem block_write_frame (b : Block_memory) (a a' data mask : Nat)
    (hlock : b.write_lock = false) (hsize : 4 ≤ b.actual_size_bytes)
    (ha : a < b.actual_size_bytes) (hal : a % 4 = 0)
    (ha' : a' < b.actual_size_bytes) (hal' : a' % 4 = 0) (hne : a' ≠ a)
    (hdet : b.fill_policy ≠ .Random
      ∨ (b.storage (a' / Block_memory.page_size_bytes)).isSome = true
      ∨ a' / Block_memory.page_size_bytes = a / Block_memory.page_size_bytes) :
    ((b.write a data mask).2.read a').1 = (b.read a').1 := by
  by_cases hmask : mask = 0
  · have h1 : ¬ a ≥ b.size := by unfold Block_memory.size; omega
    have hw : b.write a data mask = (.ok (), b) := by
      unfold Block_memory.write
      rw [if_neg h1, hlock]
      simp only [Bool.false_eq_true, if_false, if_pos hmask]
    rw [hw]
  · obtain ⟨_, s1, s2, _, s4, s5⟩ := block_write_state b a data mask _ _ rfl rfl hlock hsize
      ha hal hmask
    generalize (b.write a data mask).2 = b1 at s1 s2 s4 s5 ⊢
    rw [block_read_value b1 a' (by omega) (by omega) hal', block_read_value b a' hsize ha' hal']
    by_cases hpp : a' / Block_memory.page_size_bytes = a / Block_memory.page_size_bytes
    · rw [hpp, s4]
      simp only [Option.getD_some]
      rw [if_neg (word_index_ne a a' hal hal' hne hpp)]
    · rw [s5 _ hpp]
      cases hst : b.storage (a' / Block_memory.page_size_bytes) with
      | some pg => rfl
      | none =>
        rcases hdet with hd | hd | hd
        · simp only [Option.getD_none]
          rw [fill_page_fst b1 b s2 (by rw [s2]; exact hd)]
        · rw [hst] at hd
          exact absurd hd (by simp)
        · exact absurd hd hpp

/-- A read leaves a memory on which the page read is allocated, and reading again gives
the same word. -/
theorem block_read_again (b : Block_memory) (a : Nat) (hsize : 4 ≤ b.actual_size_bytes)
    (ha : a < b.actual_size_bytes) (hal : a % 4 = 0) :
    (b.read a).2.write_lock = b.write_lock
    ∧ (b.read a).2.actual_size_bytes = b.actual_size_bytes
    ∧ ((b.read a).2.storage (a / Block_memory.page_size_bytes)).isSome = true
    ∧ ((b.read a).2.read a).1 = (b.read a).1 := by
  have hr := block_read_eq b a hsize ha hal
  obtain ⟨t1, t2, _⟩ := touch_page_size b (a / Block_memory.page_size_bytes)
  have t3 := touch_page_allocates b _ (page_index_lt b a ha)
  have hv := block_read_value b a hsize ha hal
  have hidem : (b.touch_page (a / Block_memory.page_size_bytes)).read a
      = (.ok ((b.touch_page (a / Block_memory.page_size_bytes)).page
          (a / Block_memory.page_size_bytes) (a % Block_memory.page_size_bytes / 4)),
        b.touch_page (a / Block_memory.page_size_bytes)) := by
    rw [block_read_eq _ a (by omega) (by omega) hal, touch_page_of_allocated _ _ t3]
  rw [hr]
  exact ⟨t2, t1, t3, by rw [hidem]⟩

/-- C22. Masked write of block memory: for every unlocked block memory of size at least
4, every word-aligned address `a < size`, data `d` and mask `m`, `write(a, d, m)` succeeds
and afterwards `read(a)` returns, in each byte lane `i`, byte `i` of `d` when bit `i` of
`m` is set and otherwise the byte `read(a)` returns before the write; and the read of
every other aligned address `a' < size` is unchanged: `read(a')`, then the write, then
`read(a')` again returns the same word, and so does `read(a')` on the written memory
compared with `read(a')` on the memory before, when the fill policy is deterministic or
the page of `a'` is allocated or is the page of `a`. -/
theorem masked_write (b : Block_memory) (a a' d m : Nat)
    (hlock : b.write_lock = false) (hsize : 4 ≤ b.actual_size_bytes)
    (ha : a < b.actual_size_bytes) (hal : a % 4 = 0) :
    ∃ old new, (b.read a).1 = .ok old
      ∧ (b.write a d m).1 = .ok ()
      ∧ ((b.write a d m).2.read a).1 = .ok new
      ∧ (new >>> 0) % 256 = (if Bitset.take_bit 0 m ≠ 0 then d % 256 else old % 256)
      ∧ (new >>> 8) % 256
          = (if Bitset.take_bit 1 m ≠ 0 then (d >>> 8) % 256 else (old >>> 8) % 256)
      ∧ (new >>> 16) % 256
          = (if Bitset.take_bit 2 m ≠ 0 then (d >>> 16) % 256 else (old >>> 16) % 256)
      ∧ (new >>> 24) % 256
          = (if Bitset.take_bit 3 m ≠ 0 then (d >>> 24) % 256 else (old >>> 24) % 256)
      ∧ (a' < b.actual_size_bytes → a' % 4 = 0 → a' ≠ a →
          (((b.read a').2.write a d m).2.read a').1 = (b.read a').1
          ∧ (b.fill_policy ≠ .Random
              ∨ (b.storage (a' / Block_memory.page_size_bytes)).isSome = true
              ∨ a' / Block_memory.page_size_bytes = a / Block_memory.page_size_bytes →
            ((b.write a d m).2.read a').1 = (b.read a').1)) := by
  have hv := block_read_value b a hsize ha hal
  have hframe : a' < b.actual_size_bytes → a' % 4 = 0 → a' ≠ a →
      (((b.read a').2.write a d m).2.read a').1 = (b.read a').1
      ∧ (b.fill_policy ≠ .Random
          ∨ (b.storage (a' / Block_memory.page_size_bytes)).isSome = true
          ∨ a' / Block_memory.page_size_bytes = a / Block_memory.page_size_bytes →
        ((b.write a d m).2.read a').1 = (b.read a').1) := by
    intro ha' hal' hne
    obtain ⟨r1, r2, r3, r4⟩ := block_read_again b a' hsize ha' hal'
    refine ⟨?_, block_write_frame b a a' d m hlock hsize ha hal ha' hal' hne⟩
    rw [← r4]
    exact block_write_frame _ a a' d m (by rw [r1]; exact hlock) (by omega) (by omega) hal
      (by omega) hal' hne (Or.inr (Or.inl r3))
  by_cases hmask : m = 0
  · have h1 : ¬ a ≥ b.size := by unfold Block_memory.size; omega
    have hw : b.write a d m = (.ok (), b) := by
      unfold Block_memory.write
      rw [if_neg h1, hlock]
      simp only [Bool.false_eq_true, if_false, if_pos hmask]
    refine ⟨_, _, hv, by rw [hw], by rw [hw]; exact hv, ?_, ?_, ?_, ?_, hframe⟩ <;>
      · rw [hmask]
        rfl
  · obtain ⟨s0, s1, _, _, s4, _⟩ := block_write_state b a d m _ _ rfl rfl hlock hsize
      ha hal hmask
    have hnew : ((b.write a d m).2.read a).1
        = .ok (Block_memory.write_bytes
            (((b.storage (a / Block_memory.page_size_bytes)).getD b.fill_page.1)
              (a % Block_memory.page_size_bytes / 4)) d m) := by
      generalize (b.write a d m).2 = b1 at s1 s4 ⊢
      rw [block_read_value b1 a (by omega) (by omega) hal, s4]
      simp only [Option.getD_some, if_true]
    obtain ⟨l0, l1, l2, l3⟩ := write_bytes_byte
      (((b.storage (a / Block_memory.page_size_bytes)).getD b.fill_page.1)
        (a % Block_memory.page_size_bytes / 4)) d m
    exact ⟨_, _, hv, s0, hnew, l0, l1, l2, l3, hframe⟩

/-- Witness for C22: a 1 KiB memory filled with `0xCDCDCDCD`, the word `0x12345678`
written with mask `0b1010` at address 4 and the neighbour at address 8; and the sequence
of the repository test: `0x12345678` with mask `0b1010`, then `0xdeadbeef` with mask
`0b0101`, reads back `0x12ad56ef`. -/
theorem masked_write_witness :
    (∃ old new, ((Block_memory.create 1024 .Cdcdcdcd).read 4).1 = .ok old
      ∧ ((Block_memory.create 1024 .Cdcdcdcd).write 4 0x12345678 0b1010).1 = .ok ()
      ∧ (((Block_memory.create 1024 .Cdcdcdcd).write 4 0x12345678 0b1010).2.read 4).1
          = .ok new
      ∧ (new >>> 0) % 256
          = (if Bitset.take_bit 0 0b1010 ≠ 0 then 0x12345678 % 256 else old % 256)
      ∧ (new >>> 8) % 256
          = (if Bitset.take_bit 1 0b1010 ≠ 0 then (0x12345678 >>> 8) % 256
             else (old >>> 8) % 256)
      ∧ (new >>> 16) % 256
          = (if Bitset.take_bit 2 0b1010 ≠ 0 then (0x12345678 >>> 16) % 256
             else (old >>> 16) % 256)
      ∧ (new >>> 24) % 256
          = (if Bitset.take_bit 3 0b1010 ≠ 0 then (0x12345678 >>> 24) % 256
             else (old >>> 24) % 256)
      ∧ (8 < (Block_memory.create 1024 .Cdcdcdcd).actual_size_bytes → 8 % 4 = 0 → 8 ≠ 4 →
          ((((Block_memory.create 1024 .Cdcdcdcd).read 8).2.write 4 0x12345678 0b1010).2.read
              8).1
            = ((Block_memory.create 1024 .Cdcdcdcd).read 8).1
          ∧ ((Block_memory.create 1024 .Cdcdcdcd).fill_policy ≠ .Random
              ∨ ((Block_memory.create 1024 .Cdcdcdcd).storage
                  (8 / Block_memory.page_size_bytes)).isSome = true
              ∨ 8 / Block_memory.page_size_bytes = 4 / Block_memory.page_size_bytes →
            (((Block_memory.create 1024 .Cdcdcdcd).write 4 0x12345678 0b1010).2.read 8).1
              = ((Block_memory.create 1024 .Cdcdcdcd).read 8).1)))
    ∧ (((Block_memory.create 1024 .Cdcdcdcd).write 4 0x12345678 0b1010).2.read 4).1
        = .ok 0x12CD56CD
    ∧ ((((Block_memory.create (16 * 1024 * 1024) .Zero).write 4 0x12345678 0b1010).2.write 4
          0xdeadbeef 0b0101).2.read 4).1 = .ok 0x12ad56ef :=
  ⟨masked_write (Block_memory.create 1024 .Cdcdcdcd) 4 8 0x12345678 0b1010
      (by decide) (by decide) (by decide) (by decide),
    by decide, by decide⟩

end device

namespace device

open core

/-- C23 (as amended). With the write lock asserted, for every address below the size a
write returns `Access_fault` whatever its mask, the empty mask included: the lock is
tested before the mask. A write with mask 0 is silently dropped (returns success) when
the lock is not asserted. In both cases the memory is unchanged. -/
theorem locked_write_faults (b : Block_memory) (a d m : Nat) (ha : a < b.size) :
    (b.write_lock = true → b.write a d m = (.error .Access_fault, b))
    ∧ (b.write_lock = false → b.write a d 0 = (.ok (), b)) := by
  have h1 : ¬ a ≥ b.size := by omega
  constructor
  · intro hlock
    unfold Block_memory.write
    rw [if_neg h1, if_pos hlock]
  · intro hlock
    unfold Block_memory.write
    rw [if_neg h1, hlock]
    simp only [Bool.false_eq_true, if_false, if_true]

/-- Witness for C23 (as amended): a locked and an unlocked 1 KiB memory, address 0. -/
theorem locked_write_faults_witness :
    ({ Block_memory.create 1024 with write_lock := true } : Block_memory).write 0 0x12345678
        0b1111
      = (.error .Access_fault, { Block_memory.create 1024 with write_lock := true })
    ∧ (Block_memory.create 1024).write 0 0x12345678 0 = (.ok (), Block_memory.create 1024) :=
  ⟨(locked_write_faults { Block_memory.create 1024 with write_lock := true } 0 0x12345678
      0b1111 (by decide)).1 rfl,
    (locked_write_faults (Block_memory.create 1024) 0 0x12345678 0 (by decide)).2 rfl⟩

/-- C23 fails as stated. On a locked 1 KiB memory the write of `0x12345678` at address 0
with the empty mask returns `Access_fault`, not success. -/
theorem locked_write_counterexample :
    ({ Block_memory.create 1024 with write_lock := true } : Block_memory).write_lock = true
    ∧ 0 < ({ Block_memory.create 1024 with write_lock := true } : Block_memory).size
    ∧ (({ Block_memory.create 1024 with write_lock := true } : Block_memory).write 0
        0x12345678 0).1 = .error .Access_fault
    ∧ (({ Block_memory.create 1024 with write_lock := true } : Block_memory).write 0
        0x12345678 0).1 ≠ .ok () := by
  refine ⟨by decide, by decide, by decide, by decide⟩

end device

namespace device

open core

namespace periph

/-! ## C24: atomic 64-bit reads of the clock -/

/-- The 64-bit value of a register whose halves are 32-bit words. -/
theorem reg_get_64 (r : Clock.Reg) (hl : r.low < 2 ^ 32) (hh : r.high < 2 ^ 32) :
    r.get_64 = r.high * 2 ^ 32 + r.low := by
  unfold Clock.Reg.get_64
  rw [Nat.mod_eq_of_lt hl, Nat.mod_eq_of_lt hh, Nat.shiftLeft_eq,
    Nat.mod_eq_of_lt (by omega), Nat.mul_comm, ← Nat.mul_add_lt_is_or hl]

/-- Storing a 64-bit value and reading it back. -/
theorem reg_set_get_64 (v : Nat) (hv : v < 2 ^ 64) :
    (Clock.Reg.set_64 v).low = v % 2 ^ 32 ∧ (Clock.Reg.set_64 v).high = v / 2 ^ 32
    ∧ (Clock.Reg.set_64 v).get_64 = v := by
  have h1 : (Clock.Reg.set_64 v).low = v % 2 ^ 32 := by
    show (v &&& 0xFFFFFFFF) % 2 ^ 32 = v % 2 ^ 32
    rw [show (0xFFFFFFFF : Nat) = 2 ^ 32 - 1 from rfl, Nat.and_pow_two_sub_one_eq_mod]
    exact Nat.mod_mod _ _
  have h2 : (Clock.Reg.set_64 v).high = v / 2 ^ 32 := by
    show ((v >>> 32) &&& 0xFFFFFFFF) % 2 ^ 32 = v / 2 ^ 32
    rw [show (0xFFFFFFFF : Nat) = 2 ^ 32 - 1 from rfl, Nat.and_pow_two_sub_one_eq_mod,
      Nat.shiftRight_eq_div_pow]
    omega
  refine ⟨h1, h2, ?_⟩
  rw [reg_get_64 _ (by rw [h1]; omega) (by rw [h2]; omega), h1, h2]
  omega

/-- One tick: the counter advances by one modulo `2 ^ 64`; the compare register and the
staging registers are untouched. -/
theorem tick_props (c : Clock) (mip : Nat) :
    (c.tick mip).1.comp = c.comp
    ∧ (c.tick mip).1.counter_templow = c.counter_templow
    ∧ (c.tick mip).1.comp_templow = c.comp_templow
    ∧ (c.tick mip).1.timer.get_64 = (c.timer.get_64 + 1) % 2 ^ 64
    ∧ (c.tick mip).1.timer.low < 2 ^ 32 ∧ (c.tick mip).1.timer.high < 2 ^ 32 := by
  obtain ⟨h1, h2, h3⟩ := reg_set_get_64 ((c.timer.get_64 + 1) % 2 ^ 64)
    (Nat.mod_lt _ (by decide))
  refine ⟨rfl, rfl, rfl, h3, ?_, ?_⟩
  · show (Clock.Reg.set_64 ((c.timer.get_64 + 1) % 2 ^ 64)).low < 2 ^ 32
    rw [h1]
    exact Nat.mod_lt _ (by decide)
  · show (Clock.Reg.set_64 ((c.timer.get_64 + 1) % 2 ^ 64)).high < 2 ^ 32
    rw [h2]
    have := Nat.mod_lt (c.timer.get_64 + 1) (by decide : 0 < 2 ^ 64)
    omega

/-- Any number of ticks: the counter advances by `k` modulo `2 ^ 64`. -/
theorem ticks_props (k : Nat) :
    ∀ (c : Clock) (mip : Nat), c.timer.low < 2 ^ 32 → c.timer.high < 2 ^ 32 →
      (Clock.ticks k c mip).1.comp = c.comp
      ∧ (Clock.ticks k c mip).1.counter_templow = c.counter_templow
      ∧ (Clock.ticks k c mip).1.comp_templow = c.comp_templow
      ∧ (Clock.ticks k c mip).1.timer.get_64 = (c.timer.get_64 + k) % 2 ^ 64
      ∧ (Clock.ticks k c mip).1.timer.low < 2 ^ 32
      ∧ (Clock.ticks k c mip).1.timer.high < 2 ^ 32 := by
  induction k with
  | zero =>
    intro c mip hl hh
    have hlt : c.timer.get_64 < 2 ^ 64 := by
      rw [reg_get_64 _ hl hh]
      omega
    exact ⟨rfl, rfl, rfl, (Nat.mod_eq_of_lt hlt).symm, hl, hh⟩
  | succ k ih =>
    intro c mip _ _
    obtain ⟨t1, t2, t3, t4, t5, t6⟩ := tick_props c mip
    obtain ⟨i1, i2, i3, i4, i5, i6⟩ := ih (c.tick mip).1 (c.tick mip).2 t5 t6
    unfold Clock.ticks
    refine ⟨i1.trans t1, i2.trans t2, i3.trans t3, ?_, i5, i6⟩
    rw [i4, t4]
    omega

/-- C24. Clock 64-bit reads are atomic: for every clock state (each register half a
32-bit word) and every number `k ≥ 0` of `tick()` calls between the two reads, a read of
word offset 1 (byte address 4, `counter.hi`) followed by a read of word offset 0
(`counter.lo`) returns `hi` and `lo` with `hi * 2^32 + lo` equal to the counter value at
the moment of the offset-1 read; the following read of offset 0 returns the live low
half, that of the counter advanced by `k`. The same holds for `cmp` at word offsets 3
then 2 (byte addresses 12 and 8). -/
theorem clock_atomic_read (c : Clock) (k mip : Nat)
    (hwf : c.timer.low < 2 ^ 32 ∧ c.timer.high < 2 ^ 32 ∧ c.comp.low < 2 ^ 32
      ∧ c.comp.high < 2 ^ 32) :
    (∃ hi lo, (c.read 4).1 = .ok hi
      ∧ ((Clock.ticks k (c.read 4).2 mip).1.read 0).1 = .ok lo
      ∧ hi * 2 ^ 32 + lo = c.timer.get_64
      ∧ (((Clock.ticks k (c.read 4).2 mip).1.read 0).2.read 0).1
          = .ok ((c.timer.get_64 + k) % 2 ^ 64 % 2 ^ 32))
    ∧ (∃ hi lo, (c.read 12).1 = .ok hi
      ∧ ((Clock.ticks k (c.read 12).2 mip).1.read 8).1 = .ok lo
      ∧ hi * 2 ^ 32 + lo = c.comp.get_64
      ∧ (((Clock.ticks k (c.read 12).2 mip).1.read 8).2.read 8).1
          = .ok (c.comp.get_64 % 2 ^ 32)) := by
  obtain ⟨hl, hh, hcl, hch⟩ := hwf
  constructor
  · have hr1 : c.read 4 = (.ok c.timer.high, { c with counter_templow := some c.timer.low }) :=
      rfl
    obtain ⟨_, i2, _, i4, i5, i6⟩ :=
      ticks_props k ({ c with counter_templow := some c.timer.low } : Clock) mip hl hh
    rw [hr1]
    generalize (Clock.ticks k ({ c with counter_templow := some c.timer.low } : Clock) mip).1
      = c2 at i2 i4 i5 i6
    have hr2 : c2.read 0 = (.ok c.timer.low, { c2 with counter_templow := none }) := by
      unfold Clock.read
      rw [i2]
      rfl
    have hr3 : ({ c2 with counter_templow := none } : Clock).read 0
        = (.ok c2.timer.low, { c2 with counter_templow := none }) := rfl
    refine ⟨c.timer.high, c.timer.low, rfl, by rw [hr2], (reg_get_64 _ hl hh).symm, ?_⟩
    rw [hr2, hr3]
    have hg := reg_get_64 c2.timer i5 i6
    have hlow : c2.timer.low = (c.timer.get_64 + k) % 2 ^ 64 % 2 ^ 32 := by
      rw [← i4, hg]
      omega
    rw [hlow]
  · have hr1 : c.read 12 = (.ok c.comp.high, { c with comp_templow := some c.comp.low }) :=
      rfl
    obtain ⟨i1, _, i3, _, _, _⟩ :=
      ticks_props k ({ c with comp_templow := some c.comp.low } : Clock) mip hl hh
    rw [hr1]
    generalize (Clock.ticks k ({ c with comp_templow := some c.comp.low } : Clock) mip).1
      = c2 at i1 i3
    have hr2 : c2.read 8 = (.ok c.comp.low, { c2 with comp_templow := none }) := by
      unfold Clock.read
      rw [i3]
      rfl
    have hr3 : ({ c2 with comp_templow := none } : Clock).read 8
        = (.ok c2.comp.low, { c2 with comp_templow := none }) := rfl
    refine ⟨c.comp.high, c.comp.low, rfl, by rw [hr2], (reg_get_64 _ hcl hch).symm, ?_⟩
    rw [hr2, hr3, i1]
    have hg := reg_get_64 c.comp hcl hch
    have hlow : c.comp.low = c.comp.get_64 % 2 ^ 32 := by
      rw [hg]
      omega
    show Except.ok c.comp.low = _
    rw [← hlow]

/-- Witness for C24: the counter `0x00000001_FFFFFFFF` and three ticks between the reads:
the pair read is `(1, 0xFFFFFFFF)` although the counter has carried into the high half,
and the next read of offset 0 returns the live low half `2`. -/
theorem clock_atomic_read_witness :
    (({ timer := { low := 0xFFFFFFFF, high := 1 } } : Clock).read 4).1 = .ok 1
    ∧ ((Clock.ticks 3 (({ timer := { low := 0xFFFFFFFF, high := 1 } } : Clock).read 4).2
        0).1.read 0).1 = .ok 0xFFFFFFFF
    ∧ (((Clock.ticks 3 (({ timer := { low := 0xFFFFFFFF, high := 1 } } : Clock).read 4).2
        0).1.read 0).2.read 0).1 = .ok 2
    ∧ ((∃ hi lo, (({ timer := { low := 0xFFFFFFFF, high := 1 } } : Clock).read 4).1 = .ok hi
        ∧ ((Clock.ticks 3 (({ timer := { low := 0xFFFFFFFF, high := 1 } } : Clock).read 4).2
            0).1.read 0).1 = .ok lo
        ∧ hi * 2 ^ 32 + lo = ({ low := 0xFFFFFFFF, high := 1 } : Clock.Reg).get_64
        ∧ (((Clock.ticks 3 (({ timer := { low := 0xFFFFFFFF, high := 1 } } : Clock).read 4).2
            0).1.read 0).2.read 0).1
          = .ok ((({ low := 0xFFFFFFFF, high := 1 } : Clock.Reg).get_64 + 3) % 2 ^ 64
              % 2 ^ 32))) :=
  ⟨by decide, by decide, by decide,
    (clock_atomic_read { timer := { low := 0xFFFFFFFF, high := 1 } } 3 0
      ⟨by decide, by decide, by decide, by decide⟩).1⟩

end periph

end device

namespace gdb_stub

/-! ## C25: run-length encoding of a single run -/

/-- What `push_repeat` appends for `r` pending repetitions of the byte `last`. -/
theorem push_repeat_stream (e : Packet_encoder) (hl : e.last_char ≠ 0)
    (hr : e.repeat_count ≤ 97) :
    (e.push_repeat.last_char = e.last_char ∧ e.push_repeat.repeat_count = e.repeat_count)
    ∧ ((e.repeat_count = 0 ∧ e.push_repeat.stream = e.stream)
      ∨ (e.repeat_count = 1 ∧ e.push_repeat.stream = e.stream ++ [e.last_char])
      ∨ (e.repeat_count = 2 ∧ e.push_repeat.stream = e.stream ++ [e.last_char, e.last_char])
      ∨ (e.repeat_count = 6 ∧ e.push_repeat.stream = e.stream ++ [42, 34, e.last_char])
      ∨ (e.repeat_count = 7
          ∧ e.push_repeat.stream = e.stream ++ [42, 34, e.last_char, e.last_char])
      ∨ (3 ≤ e.repeat_count ∧ e.repeat_count ≠ 6 ∧ e.repeat_count ≠ 7
          ∧ e.push_repeat.stream = e.stream ++ [42, e.repeat_count + 29])) := by
  unfold Packet_encoder.push_repeat
  by_cases h0 : e.repeat_count = 0
  · rw [if_pos (Or.inl h0)]
    exact ⟨⟨rfl, rfl⟩, Or.inl ⟨h0, rfl⟩⟩
  · have hn : ¬ (e.repeat_count = 0 ∨ e.last_char = 0) := by
      intro h; rcases h with h | h
      · exact h0 h
      · exact hl h
    rw [if_neg hn]
    by_cases h2 : e.repeat_count ≤ 2
    · rw [if_pos h2]
      refine ⟨⟨rfl, rfl⟩, ?_⟩
      by_cases h1 : e.repeat_count = 1
      · exact Or.inr (Or.inl ⟨h1, by simp only [h1]; rfl⟩)
      · have h2e : e.repeat_count = 2 := by omega
        exact Or.inr (Or.inr (Or.inl ⟨h2e, by simp only [h2e]; rfl⟩))
    · rw [if_neg h2]
      by_cases h6 : e.repeat_count = 6
      · rw [if_pos h6]
        exact ⟨⟨rfl, rfl⟩, Or.inr (Or.inr (Or.inr (Or.inl ⟨h6, rfl⟩)))⟩
      · rw [if_neg h6]
        by_cases h7 : e.repeat_count = 7
        · rw [if_pos h7]
          exact ⟨⟨rfl, rfl⟩, Or.inr (Or.inr (Or.inr (Or.inr (Or.inl ⟨h7, rfl⟩))))⟩
        · rw [if_neg h7]
          have hm : (e.repeat_count + 29) % 256 = e.repeat_count + 29 := by omega
          refine ⟨⟨rfl, rfl⟩, Or.inr (Or.inr (Or.inr (Or.inr (Or.inr
            ⟨by omega, h6, h7, ?_⟩))))⟩
          simp only [hm]

theorem expand_runs_cons_plain (p c : Nat) (t : List Nat) (hc : c ≠ 42) :
    reference.expand_runs p (c :: t) = c :: reference.expand_runs c t := by
  conv_lhs => unfold reference.expand_runs
  rw [if_neg hc]

theorem expand_runs_marker (p k : Nat) (t : List Nat) :
    reference.expand_runs p (42 :: k :: t)
      = List.replicate (k - 29) p ++ reference.expand_runs p t := by
  conv_lhs => unfold reference.expand_runs
  rw [if_pos rfl]

/-- Expansion of what `push_repeat` appends: `r` further copies of the byte. -/
theorem expand_runs_flush (e : Packet_encoder) (c : Nat) (hl : e.last_char = c)
    (hc0 : c ≠ 0) (hc : c ≠ 42) (hr : e.repeat_count ≤ 97) :
    ∃ f, e.push_repeat.stream = e.stream ++ f
      ∧ ∀ t, reference.expand_runs c (f ++ t)
          = List.replicate e.repeat_count c ++ reference.expand_runs c t := by
  obtain ⟨_, h⟩ := push_repeat_stream e (by rw [hl]; exact hc0) hr
  rw [hl] at h
  rcases h with ⟨h0, hs⟩ | ⟨h1, hs⟩ | ⟨h2, hs⟩ | ⟨h6, hs⟩ | ⟨h7, hs⟩ | ⟨h3, _, _, hs⟩
  · exact ⟨[], by rw [hs, List.append_nil], fun t => by rw [h0]; rfl⟩
  · refine ⟨[c], hs, fun t => ?_⟩
    rw [h1, List.singleton_append, expand_runs_cons_plain _ _ _ hc]
    rfl
  · refine ⟨[c, c], hs, fun t => ?_⟩
    rw [h2]
    show reference.expand_runs c (c :: c :: t) = _
    rw [expand_runs_cons_plain _ _ _ hc, expand_runs_cons_plain _ _ _ hc]
    rfl
  · refine ⟨[42, 34, c], hs, fun t => ?_⟩
    rw [h6]
    show reference.expand_runs c (42 :: 34 :: c :: t) = _
    rw [expand_runs_marker, expand_runs_cons_plain _ _ _ hc]
    rfl
  · refine ⟨[42, 34, c, c], hs, fun t => ?_⟩
    rw [h7]
    show reference.expand_runs c (42 :: 34 :: c :: c :: t) = _
    rw [expand_runs_marker, expand_runs_cons_plain _ _ _ hc, expand_runs_cons_plain _ _ _ hc]
    rfl
  · refine ⟨[42, e.repeat_count + 29], hs, fun t => ?_⟩
    show reference.expand_runs c (42 :: (e.repeat_count + 29) :: t) = _
    rw [expand_runs_marker, Nat.add_sub_cancel]

/-- Encoder state inside a run of the byte `c` after `m` of its copies: the stream read
with run-length markers expanded is the run so far without the pending repetitions. One
more copy keeps that. -/
theorem run_invariant_push (c m : Nat) (e : Packet_encoder) (hc0 : c ≠ 0)
    (hc : ¬ (c = 42 ∨ c = 36 ∨ c = 125 ∨ c = 35)) (h : e.last_char = c ∧ e.repeat_count ≤ 97 ∧ e.repeat_count + 1 ≤ m
      ∧ ∀ p t, reference.expand_runs p (e.stream ++ t)
          = List.replicate (m - e.repeat_count) c ++ reference.expand_runs c t) :
    ((e.push c).last_char = c ∧ (e.push c).repeat_count ≤ 97 ∧ (e.push c).repeat_count + 1 ≤ (m + 1)
      ∧ ∀ p t, reference.expand_runs p ((e.push c).stream ++ t)
          = List.replicate ((m + 1) - (e.push c).repeat_count) c ++ reference.expand_runs c t) := by
  obtain ⟨hl, hr, hm, hs⟩ := h
  have hc42 : c ≠ 42 := fun h42 => hc (Or.inl h42)
  unfold Packet_encoder.push
  rw [if_neg hc0]
  by_cases h97 : e.repeat_count ≥ 126 - 29
  · rw [if_pos (Or.inr h97)]
    dsimp only
    rw [if_neg hc]
    have hr97 : e.repeat_count = 97 := by omega
    obtain ⟨f, hf, hexp⟩ := expand_runs_flush e c hl hc0 hc42 hr
    refine ⟨rfl, by simp only; omega, by simp only; omega, fun p t => ?_⟩
    simp only [hf, List.append_assoc]
    rw [hs p, hexp, List.singleton_append, expand_runs_cons_plain _ _ _ hc42,
      ← List.append_assoc, ← List.replicate_add, Nat.sub_zero]
    have : m - e.repeat_count + e.repeat_count = m := by omega
    rw [this, List.replicate_succ', List.append_assoc]
    rfl
  · have hnot : ¬ (c ≠ e.last_char ∨ e.repeat_count ≥ 126 - 29) := by
      intro h'; rcases h' with h' | h'
      · exact h' hl.symm
      · exact h97 h'
    rw [if_neg hnot]
    have hmod : (e.repeat_count + 1) % 256 = e.repeat_count + 1 := by omega
    refine ⟨hl, by simp only [hmod]; omega, by simp only [hmod]; omega, fun p t => ?_⟩
    simp only [hmod]
    rw [hs p]
    have : m + 1 - (e.repeat_count + 1) = m - e.repeat_count := by omega
    rw [this]

theorem run_invariant_fold (c : Nat) (hc0 : c ≠ 0)
    (hc : ¬ (c = 42 ∨ c = 36 ∨ c = 125 ∨ c = 35)) (k : Nat) :
    ∀ (m : Nat) (e : Packet_encoder), (e.last_char = c ∧ e.repeat_count ≤ 97 ∧ e.repeat_count + 1 ≤ m
      ∧ ∀ p t, reference.expand_runs p (e.stream ++ t)
          = List.replicate (m - e.repeat_count) c ++ reference.expand_runs c t) →
      (((List.replicate k c).foldl Packet_encoder.push e).last_char = c ∧ ((List.replicate k c).foldl Packet_encoder.push e).repeat_count ≤ 97 ∧ ((List.replicate k c).foldl Packet_encoder.push e).repeat_count + 1 ≤ (m + k)
      ∧ ∀ p t, reference.expand_runs p (((List.replicate k c).foldl Packet_encoder.push e).stream ++ t)
          = List.replicate ((m + k) - ((List.replicate k c).foldl Packet_encoder.push e).repeat_count) c ++ reference.expand_runs c t) := by
  induction k with
  | zero => intro m e h; exact h
  | succ k ih =>
    intro m e h
    rw [List.replicate_succ, List.foldl_cons]
    have := ih (m + 1) (e.push c) (run_invariant_push c m e hc0 hc h)
    have hmk : m + (k + 1) = m + 1 + k := by omega
    rw [hmk]
    exact this

/-- C25. Run-length encoding preserves run lengths: for every byte `c` other than
`*`, `$`, `}`, `#` and NUL and every `n ≥ 1`, `Packet_encoder::encode` of `c` repeated
`n` times is the frame `$ body # checksum` whose body, after expanding every marker `*k`
into `k - 29` further copies of the preceding byte, is exactly `c` repeated `n` times. -/
theorem encode_run_expands (c n : Nat) (hc0 : c ≠ 0)
    (hc : ¬ (c = 42 ∨ c = 36 ∨ c = 125 ∨ c = 35)) (hn : 1 ≤ n) :
    ∃ body, Packet_encoder.encode (List.replicate n c)
        = [36] ++ body ++ [35] ++ format_02x (algo.get_checksum body)
      ∧ ∀ prev, reference.expand_runs prev body = List.replicate n c := by
  obtain ⟨k, rfl⟩ : ∃ k, n = k + 1 := ⟨n - 1, by omega⟩
  have hc42 : c ≠ 42 := fun h42 => hc (Or.inl h42)
  have hfirst : ((Packet_encoder.push {} c).last_char = c ∧ (Packet_encoder.push {} c).repeat_count ≤ 97 ∧ (Packet_encoder.push {} c).repeat_count + 1 ≤ 1
      ∧ ∀ p t, reference.expand_runs p ((Packet_encoder.push {} c).stream ++ t)
          = List.replicate (1 - (Packet_encoder.push {} c).repeat_count) c ++ reference.expand_runs c t) := by
    unfold Packet_encoder.push
    rw [if_neg hc0]
    have h1 : c ≠ ({} : Packet_encoder).last_char
        ∨ ({} : Packet_encoder).repeat_count ≥ 126 - 29 := Or.inl hc0
    rw [if_pos h1]
    dsimp only
    rw [if_neg hc]
    refine ⟨rfl, Nat.zero_le _, Nat.le_refl _, fun p t => ?_⟩
    show reference.expand_runs p (c :: t) = _
    rw [expand_runs_cons_plain _ _ _ hc42]
    rfl
  have hinv := run_invariant_fold c hc0 hc k 1 _ hfirst
  generalize hE : (List.replicate k c).foldl Packet_encoder.push (Packet_encoder.push {} c)
    = E at hinv
  obtain ⟨hl, hr, hm, hs⟩ := hinv
  obtain ⟨f, hf, hexp⟩ := expand_runs_flush E c hl hc0 hc42 hr
  refine ⟨E.push_repeat.stream, ?_, fun prev => ?_⟩
  · unfold Packet_encoder.encode Packet_encoder.internal_encode
    rw [List.replicate_succ, List.foldl_cons, hE]
  · have h1 := hs prev (f ++ [])
    have h2 := hexp []
    rw [List.append_nil] at h1 h2
    rw [hf, h1, h2]
    show _ ++ (_ ++ []) = _
    rw [List.append_nil, ← List.replicate_add]
    have : 1 + k - E.repeat_count + E.repeat_count = k + 1 := by omega
    rw [this]

set_option maxRecDepth 100000 in
/-- Witness for C25: the byte `0` repeated 102 times, with the frames of the encoder test
for the runs of length 4, 7 and 102. -/
theorem encode_run_expands_witness :
    Packet_encoder.encode (bytes "0000") = bytes "$0* #7a"
    ∧ Packet_encoder.encode (bytes "0000000") = bytes "$0*\"0#ac"
    ∧ Packet_encoder.encode (List.replicate 102 48) = bytes "$0*~0* #52"
    ∧ reference.expand_runs 0 (bytes "0*~0* ") = List.replicate 102 48
    ∧ ∃ body, Packet_encoder.encode (List.replicate 102 48)
        = [36] ++ body ++ [35] ++ format_02x (algo.get_checksum body)
      ∧ ∀ prev, reference.expand_runs prev body = List.replicate 102 48 :=
  ⟨by decide, by decide, by decide, by decide,
    encode_run_expands 48 102 (by decide) (by decide) (by decide)⟩

end gdb_stub

namespace gdb_stub

/-! ## C26: run-length count bytes -/

/-- Reading a body in two parts: the second part is read from the position the first
part ends in. -/
theorem scan_append (s : List Nat) :
    ∀ (st : reference.Scan) (t : List Nat),
      reference.scan_state st (s ++ t) = reference.scan_state (reference.scan_state st s) t
      ∧ reference.count_chars_from st (s ++ t)
          = reference.count_chars_from st s
            ++ reference.count_chars_from (reference.scan_state st s) t := by
  induction s with
  | nil =>
    intro st t
    cases st <;> exact ⟨rfl, rfl⟩
  | cons c s ih =>
    intro st t
    cases st with
    | Normal =>
      by_cases h125 : c = 125
      · simp only [List.cons_append, reference.scan_state, reference.count_chars_from,
          if_pos h125]
        exact ih .Escaped t
      · by_cases h42 : c = 42
        · simp only [List.cons_append, reference.scan_state, reference.count_chars_from,
            if_neg h125, if_pos h42]
          exact ih .Counting t
        · simp only [List.cons_append, reference.scan_state, reference.count_chars_from,
            if_neg h125, if_neg h42]
          exact ih .Normal t
    | Escaped =>
      simp only [List.cons_append, reference.scan_state, reference.count_chars_from]
      exact ih .Normal t
    | Counting =>
      simp only [List.cons_append, reference.scan_state, reference.count_chars_from]
      exact ⟨(ih .Normal t).1, congrArg (List.cons c) (ih .Normal t).2⟩

/-- The bytes `push` writes for a new byte `c` (the escaped pair or the byte itself) end
in a plain reading position whatever the position before, and a count byte read in them
is neither `#` nor `$`. -/
theorem scan_pushed_byte (st : reference.Scan) (c : Nat) :
    reference.scan_state st
        (if c = 42 ∨ c = 36 ∨ c = 125 ∨ c = 35 then [125, (c % 256) ^^^ 0x20] else [c])
      = .Normal
    ∧ ∀ k ∈ reference.count_chars_from st
        (if c = 42 ∨ c = 36 ∨ c = 125 ∨ c = 35 then [125, (c % 256) ^^^ 0x20] else [c]),
        k ≠ 35 ∧ k ≠ 36 := by
  by_cases hc : c = 42 ∨ c = 36 ∨ c = 125 ∨ c = 35
  · rw [if_pos hc]
    rcases hc with h | h | h | h <;> subst h <;> cases st <;>
      exact ⟨by decide, by decide⟩
  · rw [if_neg hc]
    have h125 : c ≠ 125 := fun h => hc (Or.inr (Or.inr (Or.inl h)))
    have h42 : c ≠ 42 := fun h => hc (Or.inl h)
    have h36 : c ≠ 36 := fun h => hc (Or.inr (Or.inl h))
    have h35 : c ≠ 35 := fun h => hc (Or.inr (Or.inr (Or.inr h)))
    cases st with
    | Normal =>
      simp only [reference.scan_state, reference.count_chars_from, if_neg h125, if_neg h42]
      exact ⟨trivial, fun k hk => absurd hk (List.not_mem_nil k)⟩
    | Escaped =>
      simp only [reference.scan_state, reference.count_chars_from]
      exact ⟨trivial, fun k hk => absurd hk (List.not_mem_nil k)⟩
    | Counting =>
      simp only [reference.scan_state, reference.count_chars_from]
      refine ⟨trivial, fun k hk => ?_⟩
      rw [List.mem_singleton] at hk
      rw [hk]
      exact ⟨h35, h36⟩

/-- Count bytes in the bytes one or two literal copies of `l` add. -/
theorem count_chars_literals (l : Nat) :
    (∀ k ∈ reference.count_chars_from .Normal [l], k ≠ 35 ∧ k ≠ 36)
    ∧ (∀ k ∈ reference.count_chars_from .Normal [l, l], k ≠ 35 ∧ k ≠ 36) := by
  by_cases h125 : l = 125
  · subst h125
    exact ⟨by decide, by decide⟩
  · by_cases h42 : l = 42
    · subst h42
      exact ⟨by decide, by decide⟩
    · simp only [reference.count_chars_from, if_neg h125, if_neg h42]
      exact ⟨fun k hk => absurd hk (List.not_mem_nil k),
        fun k hk => absurd hk (List.not_mem_nil k)⟩

/-- Reading position after one or two literal copies of `l`, and after the marker with
count byte 34 followed by them: only a single `*` leaves the reader waiting for a count
byte. -/
theorem scan_literals (l : Nat) :
    (reference.scan_state .Normal [l] = .Counting ↔ l = 42)
    ∧ reference.scan_state .Normal [l, l] ≠ .Counting
    ∧ (reference.scan_state .Normal [42, 34, l] = .Counting ↔ l = 42)
    ∧ reference.scan_state .Normal [42, 34, l, l] ≠ .Counting := by
  by_cases h125 : l = 125
  · subst h125
    exact ⟨by decide, by decide, by decide, by decide⟩
  · by_cases h42 : l = 42
    · subst h42
      exact ⟨by decide, by decide, by decide, by decide⟩
    · have e1 : reference.scan_state .Normal [l] = .Normal := by
        simp only [reference.scan_state, if_neg h125, if_neg h42]
      have e2 : reference.scan_state .Normal [l, l] = .Normal := by
        simp only [reference.scan_state, if_neg h125, if_neg h42]
      have e3 : reference.scan_state .Normal [42, 34, l] = .Normal := e1
      have e4 : reference.scan_state .Normal [42, 34, l, l] = .Normal := e2
      rw [e1, e2, e3, e4]
      exact ⟨⟨fun h => reference.Scan.noConfusion h, fun h => absurd h h42⟩,
        fun h => reference.Scan.noConfusion h,
        ⟨fun h => reference.Scan.noConfusion h, fun h => absurd h h42⟩,
        fun h => reference.Scan.noConfusion h⟩

/-- What `push_repeat` appends holds no count byte `#` or `$`, and it ends with the reader
waiting for a count byte exactly when the pending byte is `*` with 1 or 6 repetitions. -/
theorem count_chars_flush (e : Packet_encoder) (hr : e.repeat_count ≤ 97) :
    ∃ f, e.push_repeat.stream = e.stream ++ f
      ∧ e.push_repeat.last_char = e.last_char
      ∧ e.push_repeat.repeat_count = e.repeat_count
      ∧ (∀ k ∈ reference.count_chars_from .Normal f, k ≠ 35 ∧ k ≠ 36)
      ∧ (reference.scan_state .Normal f = .Counting
          ↔ e.last_char = 42 ∧ (e.repeat_count = 1 ∨ e.repeat_count = 6)) := by
  by_cases hl : e.last_char = 0
  · refine ⟨[], ?_, ?_, ?_, fun k hk => absurd hk (List.not_mem_nil k),
      ⟨fun h => reference.Scan.noConfusion h, fun h => ?_⟩⟩
    · unfold Packet_encoder.push_repeat
      rw [if_pos (Or.inr hl), List.append_nil]
    · unfold Packet_encoder.push_repeat
      rw [if_pos (Or.inr hl)]
    · unfold Packet_encoder.push_repeat
      rw [if_pos (Or.inr hl)]
    · rw [hl] at h
      exact absurd h.1 (by decide)
  · obtain ⟨⟨hl1, hr1⟩, h⟩ := push_repeat_stream e hl hr
    obtain ⟨c1, c2⟩ := count_chars_literals e.last_char
    obtain ⟨s1, s2, s6, s7⟩ := scan_literals e.last_char
    rcases h with ⟨h0, hs⟩ | ⟨h1, hs⟩ | ⟨h2, hs⟩ | ⟨h6, hs⟩ | ⟨h7, hs⟩ | ⟨h3, h6, h7, hs⟩
    · refine ⟨[], by rw [hs, List.append_nil], hl1, hr1,
        fun k hk => absurd hk (List.not_mem_nil k),
        ⟨fun h => reference.Scan.noConfusion h, fun h => ?_⟩⟩
      omega
    · refine ⟨_, hs, hl1, hr1, c1, ⟨fun h => ⟨s1.mp h, Or.inl h1⟩, fun h => s1.mpr h.1⟩⟩
    · refine ⟨_, hs, hl1, hr1, c2, ⟨fun h => absurd h s2, fun h => ?_⟩⟩
      omega
    · refine ⟨_, hs, hl1, hr1, fun k hk => ?_,
        ⟨fun h => ⟨s6.mp h, Or.inr h6⟩, fun h => s6.mpr h.1⟩⟩
      have hk' : k = 34 ∨ k ∈ reference.count_chars_from .Normal [e.last_char] := by
        simpa [reference.count_chars_from] using hk
      rcases hk' with hk' | hk'
      · rw [hk']; decide
      · exact c1 k hk'
    · refine ⟨_, hs, hl1, hr1, fun k hk => ?_, ⟨fun h => absurd h s7, fun h => ?_⟩⟩
      · have hk' : k = 34
            ∨ k ∈ reference.count_chars_from .Normal [e.last_char, e.last_char] := by
          simpa [reference.count_chars_from] using hk
        rcases hk' with hk' | hk'
        · rw [hk']; decide
        · exact c2 k hk'
      · omega
    · refine ⟨_, hs, hl1, hr1, fun k hk => ?_,
        ⟨fun h => reference.Scan.noConfusion h, fun h => ?_⟩⟩
      · have hk' : k = e.repeat_count + 29 := by
          simpa [reference.count_chars_from] using hk
        rw [hk']
        omega
      · omega

/-- One `push` keeps: the stream ends in a plain reading position, none of its count
bytes is `#` or `$`, and at most 97 repetitions are pending. -/
theorem push_keeps_count_chars (e : Packet_encoder) (c : Nat)
    (h : reference.scan_state .Normal e.stream = .Normal
      ∧ (∀ k ∈ reference.count_chars_from .Normal e.stream, k ≠ 35 ∧ k ≠ 36)
      ∧ e.repeat_count ≤ 97) :
    reference.scan_state .Normal (e.push c).stream = .Normal
      ∧ (∀ k ∈ reference.count_chars_from .Normal (e.push c).stream, k ≠ 35 ∧ k ≠ 36)
      ∧ (e.push c).repeat_count ≤ 97 := by
  obtain ⟨hst, hcc, hr⟩ := h
  unfold Packet_encoder.push
  by_cases hc0 : c = 0
  · rw [if_pos hc0]
    exact ⟨hst, hcc, hr⟩
  · rw [if_neg hc0]
    by_cases hnew : c ≠ e.last_char ∨ e.repeat_count ≥ 126 - 29
    · rw [if_pos hnew]
      obtain ⟨f, hf, _, _, hfc, _⟩ := count_chars_flush e hr
      obtain ⟨t1, t2⟩ := scan_pushed_byte
        (reference.scan_state (reference.scan_state .Normal e.stream) f) c
      obtain ⟨a1, a2⟩ := scan_append e.stream .Normal f
      have hstream : ∀ (T : List Nat), reference.scan_state .Normal (e.stream ++ f ++ T)
            = reference.scan_state
                (reference.scan_state (reference.scan_state .Normal e.stream) f) T
          ∧ reference.count_chars_from .Normal (e.stream ++ f ++ T)
            = reference.count_chars_from .Normal e.stream ++ reference.count_chars_from .Normal f
              ++ reference.count_chars_from
                  (reference.scan_state (reference.scan_state .Normal e.stream) f) T := by
        intro T
        obtain ⟨b1, b2⟩ := scan_append (e.stream ++ f) .Normal T
        rw [b1, b2, a1, a2, hst]
        exact ⟨rfl, rfl⟩
      by_cases hsp : c = 42 ∨ c = 36 ∨ c = 125 ∨ c = 35
      · rw [if_pos hsp] at t1 t2
        dsimp only
        rw [if_pos hsp]
        dsimp only
        rw [hf, (hstream _).1, (hstream _).2]
        refine ⟨t1, fun k hk => ?_, Nat.zero_le _⟩
        rw [List.mem_append, List.mem_append] at hk
        rcases hk with (hk | hk) | hk
        · exact hcc k hk
        · exact hfc k hk
        · exact t2 k hk
      · rw [if_neg hsp] at t1 t2
        dsimp only
        rw [if_neg hsp]
        dsimp only
        rw [hf, (hstream _).1, (hstream _).2]
        refine ⟨t1, fun k hk => ?_, Nat.zero_le _⟩
        rw [List.mem_append, List.mem_append] at hk
        rcases hk with (hk | hk) | hk
        · exact hcc k hk
        · exact hfc k hk
        · exact t2 k hk
    · rw [if_neg hnew]
      refine ⟨hst, hcc, ?_⟩
      show (e.repeat_count + 1) % 256 ≤ 97
      have : ¬ e.repeat_count ≥ 126 - 29 := fun h => hnew (Or.inr h)
      omega

/-- Every `push` of a string keeps the three facts of `push_keeps_count_chars`. -/
theorem fold_keeps_count_chars (str : List Nat) :
    ∀ (e : Packet_encoder),
      (reference.scan_state .Normal e.stream = .Normal
        ∧ (∀ k ∈ reference.count_chars_from .Normal e.stream, k ≠ 35 ∧ k ≠ 36)
        ∧ e.repeat_count ≤ 97) →
      (reference.scan_state .Normal (str.foldl Packet_encoder.push e).stream = .Normal
        ∧ (∀ k ∈ reference.count_chars_from .Normal (str.foldl Packet_encoder.push e).stream,
            k ≠ 35 ∧ k ≠ 36)
        ∧ (str.foldl Packet_encoder.push e).repeat_count ≤ 97) := by
  induction str with
  | nil => intro e h; exact h
  | cons c rest ih =>
    intro e h
    rw [List.foldl_cons]
    exact ih (e.push c) (push_keeps_count_chars e c h)

/-- The last byte other than NUL that was pushed is the encoder's `last_char`. -/
theorem fold_last_char (str : List Nat) :
    ∀ (e : Packet_encoder),
      (str.foldl Packet_encoder.push e).last_char
        = (str.filter (fun b => b != 0)).getLastD e.last_char := by
  induction str with
  | nil => intro e; rfl
  | cons c rest ih =>
    intro e
    rw [List.foldl_cons, ih (e.push c)]
    by_cases hc0 : c = 0
    · have hp : e.push c = e := by
        unfold Packet_encoder.push
        rw [if_pos hc0]
      have hf : (c :: rest).filter (fun b => b != 0) = rest.filter (fun b => b != 0) := by
        rw [List.filter_cons_of_neg]
        simp [hc0]
      rw [hp, hf]
    · have hp : (e.push c).last_char = c := by
        unfold Packet_encoder.push
        rw [if_neg hc0]
        by_cases hnew : c ≠ e.last_char ∨ e.repeat_count ≥ 126 - 29
        · rw [if_pos hnew]
          dsimp only
          split <;> rfl
        · rw [if_neg hnew]
          have : c = e.last_char := by
            by_contra hne
            exact hnew (Or.inl hne)
          exact this.symm
      have hf : (c :: rest).filter (fun b => b != 0)
          = c :: rest.filter (fun b => b != 0) := by
        rw [List.filter_cons_of_pos]
        simp [hc0]
      rw [hp, hf, List.getLastD_cons]

/-- The count bytes the frame terminator adds: the terminator itself when the reader is
waiting for a count byte, none otherwise. -/
theorem count_chars_terminator (st : reference.Scan) :
    reference.count_chars_from st [35] = (if st = .Counting then [35] else []) := by
  cases st <;> rfl

/-- C26 (defect in `push_repeat`). For every input string, `Packet_encoder::encode`
returns the frame `$ body # checksum` with `body = result_str`, and of the run-length count
bytes of the frame (each byte that follows an unescaped `*` of the body on the wire):
none is `$`; one is `#` exactly when the encoder ends with `*` as its last character and 1
or 6 repetitions of it pending, where `push_repeat` writes the pending `*` raw, as the last
byte of the body, so that the frame terminator `#` follows an unescaped `*`. The last
character of the encoder is the last byte of the input other than NUL. -/
theorem count_chars_of_encode (str : List Nat) :
    Packet_encoder.encode str
        = [36] ++ Packet_encoder.result_str str ++ [35]
          ++ format_02x (algo.get_checksum (Packet_encoder.result_str str))
    ∧ (∀ k ∈ reference.count_chars (Packet_encoder.result_str str), k ≠ 36)
    ∧ (35 ∈ reference.count_chars (Packet_encoder.result_str str)
        ↔ (str.foldl Packet_encoder.push {}).last_char = 42
          ∧ ((str.foldl Packet_encoder.push {}).repeat_count = 1
            ∨ (str.foldl Packet_encoder.push {}).repeat_count = 6))
    ∧ (str.foldl Packet_encoder.push {}).last_char
        = (str.filter (fun b => b != 0)).getLastD 0 := by
  obtain ⟨hst, hcc, hr⟩ := fold_keeps_count_chars str {}
    ⟨rfl, fun k hk => absurd hk (List.not_mem_nil k), by decide⟩
  obtain ⟨f, hf, _, _, hfc, hfs⟩ :=
    count_chars_flush (str.foldl Packet_encoder.push {}) hr
  have hcount : reference.count_chars (Packet_encoder.result_str str)
      = reference.count_chars_from .Normal (str.foldl Packet_encoder.push {}).stream
        ++ reference.count_chars_from .Normal f
        ++ (if reference.scan_state .Normal f = .Counting then [35] else []) := by
    unfold reference.count_chars Packet_encoder.result_str
    rw [hf, (scan_append _ .Normal [35]).2, (scan_append _ .Normal f).2,
      (scan_append _ .Normal f).1, hst, count_chars_terminator]
  refine ⟨rfl, fun k hk => ?_, ⟨fun h => ?_, fun h => ?_⟩, fold_last_char str {}⟩
  · rw [hcount, List.mem_append, List.mem_append] at hk
    rcases hk with (hk | hk) | hk
    · exact (hcc k hk).2
    · exact (hfc k hk).2
    · split at hk
      · rw [List.mem_singleton] at hk
        rw [hk]
        decide
      · exact absurd hk (List.not_mem_nil k)
  · rw [hcount, List.mem_append, List.mem_append] at h
    rcases h with (h | h) | h
    · exact absurd rfl (hcc 35 h).1
    · exact absurd rfl (hfc 35 h).1
    · split at h
      · rename_i hcnt
        exact hfs.mp hcnt
      · exact absurd h (List.not_mem_nil 35)
  · rw [hcount, if_pos (hfs.mpr h)]
    exact List.mem_append_right _ (List.mem_singleton.mpr rfl)

set_option maxRecDepth 100000 in
/-- Witness for C26: the input `**` is encoded as `$ } \n * # b 1`; the body ends in the
raw `*` that `push_repeat` writes for the one pending repetition, and the count byte that
follows it on the wire is the frame terminator `#`. The input `***` has the count byte
`*`. The runs of 15, 17 and 97 copies of `A` are encoded as `$A*+#96`, `$A*-#98` and a
frame with count byte 125, whose count bytes are `+`, `-` and the escape byte. -/
theorem count_chars_of_encode_witness :
    Packet_encoder.encode (bytes "**") = bytes "$\x7d\n*#b1"
    ∧ Packet_encoder.result_str (bytes "**") = [125, 10, 42]
    ∧ reference.count_chars (Packet_encoder.result_str (bytes "**")) = [35]
    ∧ reference.count_chars (Packet_encoder.result_str (bytes "***")) = [42]
    ∧ (Packet_encoder.encode (List.replicate 15 65) = bytes "$A*+#96"
      ∧ reference.count_chars (Packet_encoder.result_str (List.replicate 15 65)) = [43])
    ∧ (Packet_encoder.encode (List.replicate 17 65) = bytes "$A*-#98"
      ∧ reference.count_chars (Packet_encoder.result_str (List.replicate 17 65)) = [45])
    ∧ (Packet_encoder.encode (List.replicate 97 65) = bytes "$A*\x7d#e8"
      ∧ reference.count_chars (Packet_encoder.result_str (List.replicate 97 65)) = [125])
    ∧ (Packet_encoder.encode (bytes "**")
          = [36] ++ Packet_encoder.result_str (bytes "**") ++ [35]
            ++ format_02x (algo.get_checksum (Packet_encoder.result_str (bytes "**")))
      ∧ (∀ k ∈ reference.count_chars (Packet_encoder.result_str (bytes "**")), k ≠ 36)
      ∧ (35 ∈ reference.count_chars (Packet_encoder.result_str (bytes "**"))
          ↔ ((bytes "**").foldl Packet_encoder.push {}).last_char = 42
            ∧ (((bytes "**").foldl Packet_encoder.push {}).repeat_count = 1
              ∨ ((bytes "**").foldl Packet_encoder.push {}).repeat_count = 6))
      ∧ ((bytes "**").foldl Packet_encoder.push {}).last_char
          = ((bytes "**").filter (fun b => b != 0)).getLastD 0) :=
  ⟨by decide, by decide, by decide, by decide, ⟨by decide, by decide⟩,
    ⟨by decide, by decide⟩, ⟨by decide, by decide⟩, count_chars_of_encode (bytes "**")⟩

end gdb_stub

namespace gdb_stub

/-! ## C27: checksum validation -/

theorem isxdigit_facts (c : Nat) (h : isxdigit c = true) :
    hex_value c < 16 ∧ c ≠ 36 ∧ c ≠ 43 ∧ c ≠ 45 ∧ c ≠ 3 ∧ c ≠ 35 := by
  simp only [isxdigit, Bool.or_eq_true, Bool.and_eq_true, decide_eq_true_eq] at h
  unfold hex_value
  split
  · omega
  · split <;> omega

/-- A whole frame pushed into a fresh decoder: when the body holds neither `#` nor `$`
and fits the buffer, and the two checksum bytes are none of `$ + -` and `0x03`, exactly
one result is queued, the one `decode_in_buffer` computes from the body and the two
checksum bytes. -/
theorem decoder_frame_result (b : List Nat) (h0 h1 : Nat)
    (hb : ∀ c ∈ b, c ≠ 35 ∧ c ≠ 36) (hlen : b.length ≤ Packet_decoder.max_buffer_size)
    (hh0 : h0 ≠ 36 ∧ h0 ≠ 43 ∧ h0 ≠ 45 ∧ h0 ≠ 3)
    (hh1 : h1 ≠ 36 ∧ h1 ≠ 43 ∧ h1 ≠ 45 ∧ h1 ≠ 3) :
    Packet_decoder.push {} ([36] ++ b ++ [35, h0, h1])
      = { in_buffer := [],
          out_queue := [Packet_decoder.decode_in_buffer
            { in_buffer := b, state := .Receiving_checksum2, checksum_buffer := (h0, h1) }],
          out_queue_available := true, state := .Waiting_dollar,
          checksum_buffer := (h0, h1) } := by
  have hbody := decoder_receives_body b { state := .Receiving_body } rfl hb
    (by simpa using hlen)
  unfold Packet_decoder.push
  simp only [List.foldl_append, List.foldl_cons, List.foldl_nil]
  have hs0 : Packet_decoder.push_char {} 36 = { state := .Receiving_body } := rfl
  rw [hs0, hbody]
  simp only [List.nil_append]
  have hs1 : Packet_decoder.push_char { in_buffer := b, state := .Receiving_body } 35
      = { in_buffer := b, state := .Receiving_checksum1 } := rfl
  rw [hs1]
  have hn0 : ¬ (h0 = 43 ∨ h0 = 45 ∨ h0 = 3) := by
    intro h; rcases h with h | h | h
    · exact hh0.2.1 h
    · exact hh0.2.2.1 h
    · exact hh0.2.2.2 h
  have hn1 : ¬ (h1 = 43 ∨ h1 = 45 ∨ h1 = 3) := by
    intro h; rcases h with h | h | h
    · exact hh1.2.1 h
    · exact hh1.2.2.1 h
    · exact hh1.2.2.2 h
  have hs2 : Packet_decoder.push_char { in_buffer := b, state := .Receiving_checksum1 } h0
      = { in_buffer := b, state := .Receiving_checksum2, checksum_buffer := (h0, 0) } := by
    unfold Packet_decoder.push_char
    simp only [if_neg hh0.1, if_neg hn0]
  rw [hs2]
  unfold Packet_decoder.push_char
  simp only [if_neg hh1.1, if_neg hn1, Packet_decoder.push_result, List.nil_append]

/-- C27. Checksum validation: for every body `b` of at most `max_buffer_size` bytes
holding neither `$` nor `#` and every two checksum bytes `h0 h1`, pushing
`$ b # h0 h1` into a fresh decoder queues exactly one result. With two hexadecimal digits
it is `Bad_checksum` when their value differs from the sum of the bytes of `b` modulo 256,
and otherwise the escape-removed body, `Bad_packet` if the escaping is malformed. Two
non-hexadecimal checksum bytes other than `$`, `+`, `-`, `0x03` give `Bad_packet`. -/
theorem checksum_validation (b : List Nat) (h0 h1 : Nat)
    (hb : ∀ c ∈ b, c ≠ 35 ∧ c ≠ 36) (hlen : b.length ≤ Packet_decoder.max_buffer_size) :
    (isxdigit h0 = true → isxdigit h1 = true →
      (stoi16 h0 h1 ≠ algo.get_checksum b →
        (Packet_decoder.push {} ([36] ++ b ++ [35, h0, h1])).out_queue
          = [.error .Bad_checksum])
      ∧ (stoi16 h0 h1 = algo.get_checksum b →
        (∀ r, algo.remove_escape b = some r →
          (Packet_decoder.push {} ([36] ++ b ++ [35, h0, h1])).out_queue = [.ok r])
        ∧ (algo.remove_escape b = none →
          (Packet_decoder.push {} ([36] ++ b ++ [35, h0, h1])).out_queue
            = [.error .Bad_packet])))
    ∧ (isxdigit h0 = false → isxdigit h1 = false →
        (h0 ≠ 36 ∧ h0 ≠ 43 ∧ h0 ≠ 45 ∧ h0 ≠ 3) → (h1 ≠ 36 ∧ h1 ≠ 43 ∧ h1 ≠ 45 ∧ h1 ≠ 3) →
        (Packet_decoder.push {} ([36] ++ b ++ [35, h0, h1])).out_queue
          = [.error .Bad_packet]) := by
  constructor
  · intro x0 x1
    obtain ⟨v0, n0⟩ := isxdigit_facts h0 x0
    obtain ⟨v1, n1⟩ := isxdigit_facts h1 x1
    have hres := decoder_frame_result b h0 h1 hb hlen
      ⟨n0.1, n0.2.1, n0.2.2.1, n0.2.2.2.1⟩ ⟨n1.1, n1.2.1, n1.2.2.1, n1.2.2.2.1⟩
    have hmod : stoi16 h0 h1 % 256 = stoi16 h0 h1 := by
      unfold stoi16
      omega
    rw [hres]
    unfold Packet_decoder.decode_in_buffer
    simp only [x0, x1, Bool.and_self, Bool.not_true, hmod]
    refine ⟨fun hne => ?_, fun heq => ⟨fun r hr => ?_, fun hnone => ?_⟩⟩
    · simp [hne]
    · simp [heq, hr]
    · simp [heq, hnone]
  · intro x0 x1 n0 n1
    rw [decoder_frame_result b h0 h1 hb hlen n0 n1]
    unfold Packet_decoder.decode_in_buffer
    simp [x0, x1]

/-- Witness for C27: the frames `$Hello#f4`, `$Hello#20` and `$#vv` of the decoder tests
give the body `Hello`, `Bad_checksum` and `Bad_packet`. -/
theorem checksum_validation_witness :
    (Packet_decoder.push {} ([36] ++ bytes "Hello" ++ [35, 102, 52])).out_queue
        = [.ok (bytes "Hello")]
    ∧ (Packet_decoder.push {} ([36] ++ bytes "Hello" ++ [35, 50, 48])).out_queue
        = [.error .Bad_checksum]
    ∧ (Packet_decoder.push {} ([36] ++ [] ++ [35, 118, 118])).out_queue
        = [.error .Bad_packet]
    ∧ [36] ++ bytes "Hello" ++ [35, 102, 52] = bytes "$Hello#f4"
    ∧ [36] ++ bytes "Hello" ++ [35, 50, 48] = bytes "$Hello#20"
    ∧ [36] ++ [] ++ [35, 118, 118] = bytes "$#vv" :=
  ⟨(((checksum_validation (bytes "Hello") 102 52 (by decide) (by decide)).1
      (by decide) (by decide)).2 (by decide)).1 (bytes "Hello") (by decide),
    ((checksum_validation (bytes "Hello") 50 48 (by decide) (by decide)).1
      (by decide) (by decide)).1 (by decide),
    (checksum_validation [] 118 118 (by decide) (by decide)).2
      (by decide) (by decide) (by decide) (by decide),
    by decide, by decide, by decide⟩

end gdb_stub

namespace gdb_stub

/-! ## C28: acknowledgement and interrupt bytes inside a frame -/

/-- C28 (as amended). For the bytes `+`, `-` and `0x03` pushed in a decoder state other
than `Waiting_dollar`: in `Receiving_body` no single-byte packet is queued (the byte
joins the body, or `Buffer_overflow` is queued when the body is full); in
`Receiving_checksum1` and `Receiving_checksum2` the decoder queues `Bad_packet` followed
by the single-byte packet for that byte and returns to `Waiting_dollar`. -/
theorem ack_bytes_inside_frame (d : Packet_decoder) (c : Nat)
    (hc : c = 43 ∨ c = 45 ∨ c = 3) :
    (d.state = .Receiving_body → d.in_buffer.length < Packet_decoder.max_buffer_size →
      (d.push_char c).out_queue = d.out_queue
      ∧ (d.push_char c).in_buffer = d.in_buffer ++ [c]
      ∧ (d.push_char c).state = .Receiving_body)
    ∧ (d.state = .Receiving_body → d.in_buffer.length ≥ Packet_decoder.max_buffer_size →
      (d.push_char c).out_queue = d.out_queue ++ [.error .Buffer_overflow]
      ∧ (d.push_char c).state = .Waiting_dollar)
    ∧ (d.state = .Receiving_checksum1 ∨ d.state = .Receiving_checksum2 →
      (d.push_char c).out_queue = d.out_queue ++ [.error .Bad_packet, .ok [c]]
      ∧ (d.push_char c).state = .Waiting_dollar) := by
  have h35 : c ≠ 35 := by omega
  have h36 : c ≠ 36 := by omega
  refine ⟨fun hs hlen => ?_, fun hs hlen => ?_, fun hs => ?_⟩
  · have hstep : d.push_char c = { d with in_buffer := d.in_buffer ++ [c] } := by
      unfold Packet_decoder.push_char
      rw [hs]
      have : ¬ d.in_buffer.length ≥ Packet_decoder.max_buffer_size := by omega
      simp only [if_neg h35, if_neg h36, if_neg this]
    rw [hstep]
    exact ⟨rfl, rfl, hs⟩
  · have hstep : d.push_char c
        = { d.push_result (.error .Buffer_overflow) with state := .Waiting_dollar } := by
      unfold Packet_decoder.push_char
      rw [hs]
      simp only [if_neg h35, if_neg h36, if_pos hlen]
    rw [hstep]
    exact ⟨rfl, rfl⟩
  · have hstep : d.push_char c
        = { (d.push_result (.error .Bad_packet)).push_result (.ok [c])
            with state := .Waiting_dollar } := by
      rcases hs with hs | hs
      · unfold Packet_decoder.push_char
        rw [hs]
        simp only [if_neg h36, if_pos hc]
      · unfold Packet_decoder.push_char
        rw [hs]
        simp only [if_neg h36, if_pos hc]
    rw [hstep]
    refine ⟨?_, rfl⟩
    show d.out_queue ++ [.error .Bad_packet] ++ [.ok [c]] = _
    rw [List.append_assoc]
    rfl

/-- Witness for C28 (as amended): the byte `-` pushed after `$vMustReplyEmpty` joins the
body, and pushed after `$vMustReplyEmpty#` it is queued behind `Bad_packet`. -/
theorem ack_bytes_inside_frame_witness :
    ((Packet_decoder.push {} (bytes "$vMustReplyEmpty")).state = .Receiving_body
      ∧ ((Packet_decoder.push {} (bytes "$vMustReplyEmpty")).push_char 45).out_queue = []
      ∧ ((Packet_decoder.push {} (bytes "$vMustReplyEmpty")).push_char 45).in_buffer
          = bytes "vMustReplyEmpty-")
    ∧ ((Packet_decoder.push {} (bytes "$vMustReplyEmpty#")).state = .Receiving_checksum1
      ∧ ((Packet_decoder.push {} (bytes "$vMustReplyEmpty#")).push_char 45).out_queue
          = (Packet_decoder.push {} (bytes "$vMustReplyEmpty#")).out_queue
            ++ [.error .Bad_packet, .ok [45]]
      ∧ ((Packet_decoder.push {} (bytes "$vMustReplyEmpty#")).push_char 45).state
          = .Waiting_dollar) :=
  ⟨⟨by decide, by decide, by decide⟩, by decide,
    (ack_bytes_inside_frame (Packet_decoder.push {} (bytes "$vMustReplyEmpty#")) 45
      (by decide)).2.2 (Or.inl (by decide))⟩

/-- C28 fails as stated in the two checksum states: a decoder in `Receiving_checksum1`
or `Receiving_checksum2` that is pushed `-` queues `Bad_packet` and then the single-byte
packet `-`, and so does the frame `$vMustReplyEmpty#-` of the decoder test. -/
theorem ack_bytes_counterexample :
    (Packet_decoder.push_char { state := .Receiving_checksum1 } 45).out_queue
        = [.error .Bad_packet, .ok [45]]
    ∧ (Packet_decoder.push_char { state := .Receiving_checksum2 } 3).out_queue
        = [.error .Bad_packet, .ok [3]]
    ∧ (Packet_decoder.push {} (bytes "$vMustReplyEmpty#-")).out_queue
        = [.error .Bad_packet, .ok (bytes "-")] := by
  refine ⟨by decide, by decide, by decide⟩

end gdb_stub

namespace gdb_stub

/-! ## C29: body length bound -/

/-- Outside a frame, bytes other than `$` leave the decoder in `Waiting_dollar` with an
empty input buffer; results are only added behind the queued ones. -/
theorem waiting_ignores (l : List Nat) :
    ∀ (d : Packet_decoder), d.state = .Waiting_dollar → d.in_buffer = [] →
      (∀ c ∈ l, c ≠ 36) →
      (l.foldl Packet_decoder.push_char d).state = .Waiting_dollar
      ∧ (l.foldl Packet_decoder.push_char d).in_buffer = []
      ∧ ∃ q, (l.foldl Packet_decoder.push_char d).out_queue = d.out_queue ++ q := by
  induction l with
  | nil => intro d hs hb _; exact ⟨hs, hb, [], (List.append_nil _).symm⟩
  | cons c rest ih =>
    intro d hs hb hl
    have hc : c ≠ 36 := hl c (List.mem_cons_self _ _)
    have hstep : (d.push_char c).state = .Waiting_dollar ∧ (d.push_char c).in_buffer = []
        ∧ ∃ q, (d.push_char c).out_queue = d.out_queue ++ q := by
      unfold Packet_decoder.push_char
      rw [hs]
      simp only [if_neg hc]
      by_cases hack : c = 43 ∨ c = 45 ∨ c = 3
      · rw [if_pos hack]
        exact ⟨hs, rfl, [.ok [c]], rfl⟩
      · rw [if_neg hack]
        exact ⟨hs, hb, [], (List.append_nil _).symm⟩
    obtain ⟨s1, s2, q1, s3⟩ := hstep
    obtain ⟨i1, i2, q2, i3⟩ := ih (d.push_char c) s1 s2
      (fun x hx => hl x (List.mem_cons_of_mem _ hx))
    rw [List.foldl_cons]
    exact ⟨i1, i2, q1 ++ q2, by rw [i3, s3, List.append_assoc]⟩

/-- C29. Body length bound: a frame whose body (free of `$` and `#`, well escaped) has
exactly `max_buffer_size` = 1,048,576 bytes and whose checksum digits are those of its
checksum decodes to the escape-removed body; and for every frame whose body has more
than `max_buffer_size` bytes the first queued result is `Buffer_overflow`, the decoder is
back in `Waiting_dollar` and the input buffer is empty. -/
theorem body_length_bound (b : List Nat) (h0 h1 : Nat) (hb : ∀ c ∈ b, c ≠ 35 ∧ c ≠ 36) :
    (b.length = Packet_decoder.max_buffer_size → ∀ r, algo.remove_escape b = some r →
      (Packet_decoder.push {}
          ([36] ++ b ++ [35] ++ format_02x (algo.get_checksum b))).out_queue = [.ok r])
    ∧ (b.length > Packet_decoder.max_buffer_size → h0 ≠ 36 → h1 ≠ 36 →
      (Packet_decoder.push {} ([36] ++ b ++ [35, h0, h1])).out_queue.head?
          = some (.error .Buffer_overflow)
      ∧ (Packet_decoder.push {} ([36] ++ b ++ [35, h0, h1])).state = .Waiting_dollar
      ∧ (Packet_decoder.push {} ([36] ++ b ++ [35, h0, h1])).in_buffer = []) := by
  constructor
  · intro hlen r hr
    obtain ⟨x1, x2, x3, ⟨y1, y2, y3, y4⟩, ⟨z1, z2, z3, z4⟩⟩ :=
      format_02x_reads_back _ (get_checksum_lt b)
    have hres := decoder_frame_result b (hex_digit (algo.get_checksum b / 16))
      (hex_digit (algo.get_checksum b % 16)) hb (Nat.le_of_eq hlen)
      ⟨y1, y2, y3, y4⟩ ⟨z1, z2, z3, z4⟩
    have hlist : [36] ++ b ++ [35] ++ format_02x (algo.get_checksum b)
        = [36] ++ b ++ [35, hex_digit (algo.get_checksum b / 16),
            hex_digit (algo.get_checksum b % 16)] := by
      unfold format_02x
      rw [List.append_assoc ([36] ++ b)]
      rfl
    rw [hlist, hres]
    unfold Packet_decoder.decode_in_buffer
    simp [x1, x2, x3, hr]
  · intro hlen n0 n1
    have hsplit : b = b.take Packet_decoder.max_buffer_size
        ++ b.drop Packet_decoder.max_buffer_size :=
      (List.take_append_drop _ _).symm
    have htake : (b.take Packet_decoder.max_buffer_size).length
        = Packet_decoder.max_buffer_size := by
      rw [List.length_take]
      omega
    have hbody := decoder_receives_body (b.take Packet_decoder.max_buffer_size)
      { state := .Receiving_body } rfl
      (fun c hc => hb c (List.mem_of_mem_take hc))
      (by rw [htake]; exact Nat.le_of_eq (Nat.zero_add _))
    cases hdrop : b.drop Packet_decoder.max_buffer_size with
    | nil =>
      have : (b.drop Packet_decoder.max_buffer_size).length = 0 := by rw [hdrop]; rfl
      rw [List.length_drop] at this
      omega
    | cons x rest =>
      have hx : x ∈ b := List.mem_of_mem_drop (by rw [hdrop]; exact List.mem_cons_self _ _)
      have hrest : ∀ c ∈ rest ++ [35, h0, h1], c ≠ 36 := by
        intro c hc
        rw [List.mem_append] at hc
        rcases hc with hc | hc
        · exact (hb c (List.mem_of_mem_drop
            (by rw [hdrop]; exact List.mem_cons_of_mem _ hc))).2
        · simp only [List.mem_cons, List.mem_singleton, List.not_mem_nil, or_false] at hc
          rcases hc with hc | hc | hc
          · rw [hc]; decide
          · rw [hc]; exact n0
          · rw [hc]; exact n1
      have hstep : Packet_decoder.push_char
          { in_buffer := b.take Packet_decoder.max_buffer_size, state := .Receiving_body } x
          = { in_buffer := [], out_queue := [.error .Buffer_overflow],
              out_queue_available := true, state := .Waiting_dollar } := by
        unfold Packet_decoder.push_char
        have hfull : (b.take Packet_decoder.max_buffer_size).length
            ≥ Packet_decoder.max_buffer_size := Nat.le_of_eq htake.symm
        simp only [if_neg (hb x hx).1, if_neg (hb x hx).2, if_pos hfull,
          Packet_decoder.push_result, List.nil_append]
      have hfold : Packet_decoder.push {} ([36] ++ b ++ [35, h0, h1])
          = (rest ++ [35, h0, h1]).foldl Packet_decoder.push_char
              { in_buffer := [], out_queue := [.error .Buffer_overflow],
                out_queue_available := true, state := .Waiting_dollar } := by
        unfold Packet_decoder.push
        rw [hsplit, hdrop]
        simp only [List.foldl_append, List.foldl_cons, List.foldl_nil]
        have hs0 : Packet_decoder.push_char {} 36 = { state := .Receiving_body } := rfl
        rw [hs0, hbody]
        simp only [List.nil_append]
        rw [hstep]
      obtain ⟨w1, w2, q, w3⟩ := waiting_ignores (rest ++ [35, h0, h1])
        { in_buffer := [], out_queue := [.error .Buffer_overflow],
          out_queue_available := true, state := .Waiting_dollar } rfl rfl hrest
      rw [hfold]
      exact ⟨by rw [w3]; rfl, w1, w2⟩

/-- Witness for C29: the body of 1,048,576 bytes `A` decodes, and the frame of the
overflow test, with one byte `A` more and the checksum digits `41`, queues
`Buffer_overflow` first. -/
theorem body_length_bound_witness :
    (Packet_decoder.push {}
        ([36] ++ List.replicate 1048576 65 ++ [35]
          ++ format_02x (algo.get_checksum (List.replicate 1048576 65)))).out_queue
      = [.ok (List.replicate 1048576 65)]
    ∧ ((Packet_decoder.push {}
          ([36] ++ List.replicate 1048577 65 ++ [35, 52, 49])).out_queue.head?
        = some (.error .Buffer_overflow)
      ∧ (Packet_decoder.push {}
          ([36] ++ List.replicate 1048577 65 ++ [35, 52, 49])).state = .Waiting_dollar
      ∧ (Packet_decoder.push {}
          ([36] ++ List.replicate 1048577 65 ++ [35, 52, 49])).in_buffer = []) :=
  ⟨(body_length_bound (List.replicate 1048576 65) 0 0
      (fun c hc => by rw [List.eq_of_mem_replicate hc]; decide)).1
      (List.length_replicate _ _) (List.replicate 1048576 65)
      (remove_escape_of_no_escape _
        (fun c hc => by rw [List.eq_of_mem_replicate hc]; decide)),
    (body_length_bound (List.replicate 1048577 65) 52 49
      (fun c hc => by rw [List.eq_of_mem_replicate hc]; decide)).2
      (by rw [List.length_replicate]; decide) (by decide) (by decide)⟩

end gdb_stub

namespace gdb_stub

/-! ## C30: removal of escapes -/

theorem remove_escape_cons_plain (c : Nat) (rest : List Nat) (hc : c ≠ 125) :
    algo.remove_escape (c :: rest) = (algo.remove_escape rest).map (fun r => c :: r) := by
  conv_lhs => unfold algo.remove_escape
  rw [if_neg hc]

theorem remove_escape_cons_escaped (d : Nat) (rest : List Nat) (hd : d ≠ 125) :
    algo.remove_escape (125 :: d :: rest)
      = (algo.remove_escape rest).map (fun r => (d ^^^ 0x20) % 256 :: r) := by
  conv_lhs => unfold algo.remove_escape
  rw [if_pos rfl]
  dsimp only
  rw [if_neg hd]

theorem remove_escape_escape (s : List Nat) :
    algo.remove_escape (reference.escape s) = some s := by
  induction s with
  | nil => rfl
  | cons c rest ih =>
    unfold reference.escape
    by_cases hc : c = 42 ∨ c = 36 ∨ c = 125 ∨ c = 35
    · rw [if_pos hc]
      have hx : c ^^^ 0x20 ≠ 125 ∧ ((c ^^^ 0x20) ^^^ 0x20) % 256 = c := by
        rcases hc with h | h | h | h <;> subst h <;> exact ⟨by decide, by decide⟩
      rw [remove_escape_cons_escaped _ _ hx.1, ih, hx.2]
      rfl
    · rw [if_neg hc]
      have h125 : c ≠ 125 := fun h => hc (Or.inr (Or.inr (Or.inl h)))
      rw [remove_escape_cons_plain _ _ h125, ih]
      rfl

theorem is_introducer_plain (c : Nat) (rest : List Nat) (hc : c ≠ 125) :
    reference.is_introducer (c :: rest) 0 = false
    ∧ ∀ i, reference.is_introducer (c :: rest) (i + 1) = reference.is_introducer rest i := by
  have h0 : reference.is_introducer (c :: rest) 0 = false := by
    simp [reference.is_introducer, hc]
  refine ⟨h0, fun i => ?_⟩
  induction i with
  | zero =>
    simp [reference.is_introducer, hc]
  | succ i ih =>
    rw [reference.is_introducer, ih]
    conv_rhs => rw [reference.is_introducer]
    rw [List.getElem?_cons_succ]

theorem is_introducer_escaped (d : Nat) (rest : List Nat) :
    reference.is_introducer (125 :: d :: rest) 0 = true
    ∧ reference.is_introducer (125 :: d :: rest) 1 = false
    ∧ ∀ i, reference.is_introducer (125 :: d :: rest) (i + 2)
        = reference.is_introducer rest i := by
  have h0 : reference.is_introducer (125 :: d :: rest) 0 = true := by
    simp [reference.is_introducer]
  have h1 : reference.is_introducer (125 :: d :: rest) 1 = false := by
    simp [reference.is_introducer]
  refine ⟨h0, h1, fun i => ?_⟩
  induction i with
  | zero =>
    simp [reference.is_introducer]
  | succ i ih =>
    rw [reference.is_introducer, ih]
    conv_rhs => rw [reference.is_introducer]
    rw [List.getElem?_cons_succ, List.getElem?_cons_succ]

theorem is_introducer_nil (i : Nat) : reference.is_introducer [] i = false := by
  cases i <;> simp [reference.is_introducer]

theorem remove_escape_none_iff (n : Nat) :
    ∀ (b : List Nat), b.length ≤ n →
      (algo.remove_escape b = none
        ↔ ∃ i, reference.is_introducer b i = true
            ∧ (i + 1 = b.length ∨ b[i + 1]? = some 125)) := by
  induction n using Nat.strong_induction_on with
  | _ n ih =>
    intro b hlen
    match b, hlen with
    | [], _ =>
      constructor
      · intro h; exact absurd h (by decide)
      · rintro ⟨i, hi, _⟩
        rw [is_introducer_nil] at hi
        exact absurd hi (by decide)
    | c :: rest, hlen =>
      by_cases hc : c = 125
      · subst hc
        match rest, hlen with
        | [], _ =>
          exact ⟨fun _ => ⟨0, by decide, Or.inl rfl⟩, fun _ => rfl⟩
        | d :: rest2, hlen =>
          by_cases hd : d = 125
          · subst hd
            exact ⟨fun _ => ⟨0, by simp [reference.is_introducer], Or.inr (by simp)⟩,
              fun _ => by
                conv_lhs => unfold algo.remove_escape
                rw [if_pos rfl]
                dsimp only
                rw [if_pos rfl]⟩
          · obtain ⟨i0, i1, i2⟩ := is_introducer_escaped d rest2
            simp only [List.length_cons] at hlen
            have hrec := ih (n - 2) (by omega) rest2 (by omega)
            rw [remove_escape_cons_escaped _ _ hd, Option.map_eq_none', hrec]
            constructor
            · rintro ⟨i, hi, hor⟩
              refine ⟨i + 2, by rw [i2]; exact hi, ?_⟩
              rcases hor with hor | hor
              · exact Or.inl (by simp only [List.length_cons]; omega)
              · exact Or.inr (by
                  rw [List.getElem?_cons_succ, List.getElem?_cons_succ]; exact hor)
            · rintro ⟨j, hj, hor⟩
              match j, hj, hor with
              | 0, _, hor =>
                rcases hor with hor | hor
                · simp only [List.length_cons] at hor
                  omega
                · simp only [List.getElem?_cons_succ, List.getElem?_cons_zero,
                    Option.some.injEq] at hor
                  exact absurd hor hd
              | 1, hj, _ =>
                rw [i1] at hj
                exact absurd hj (by decide)
              | i + 2, hj, hor =>
                rw [i2] at hj
                refine ⟨i, hj, ?_⟩
                rcases hor with hor | hor
                · exact Or.inl (by simp only [List.length_cons] at hor; omega)
                · exact Or.inr (by
                    rw [List.getElem?_cons_succ, List.getElem?_cons_succ] at hor; exact hor)
      · obtain ⟨i0, i1⟩ := is_introducer_plain c rest hc
        simp only [List.length_cons] at hlen
        have hrec := ih (n - 1) (by omega) rest (by omega)
        rw [remove_escape_cons_plain _ _ hc, Option.map_eq_none', hrec]
        constructor
        · rintro ⟨i, hi, hor⟩
          refine ⟨i + 1, by rw [i1]; exact hi, ?_⟩
          rcases hor with hor | hor
          · exact Or.inl (by simp only [List.length_cons]; omega)
          · exact Or.inr (by rw [List.getElem?_cons_succ]; exact hor)
        · rintro ⟨j, hj, hor⟩
          match j, hj, hor with
          | 0, hj, _ =>
            rw [i0] at hj
            exact absurd hj (by decide)
          | i + 1, hj, hor =>
            rw [i1] at hj
            refine ⟨i, hj, ?_⟩
            rcases hor with hor | hor
            · exact Or.inl (by simp only [List.length_cons] at hor; omega)
            · exact Or.inr (by rw [List.getElem?_cons_succ] at hor; exact hor)

/-- C30. The function `remove_escape` inverts escaping: for every string `s`,
`remove_escape` applied to `s` with each of `*`, `$`, `}`, `#` replaced by `}` followed by
that byte XOR `0x20` returns `s`; and for every body `b`, `remove_escape` fails exactly
when a `}` in escape-introducer position is the last byte or is immediately followed by
`}`. -/
theorem remove_escape_inverts_escape (s b : List Nat) :
    algo.remove_escape (reference.escape s) = some s
    ∧ (algo.remove_escape b = none
        ↔ ∃ i, reference.is_introducer b i = true
            ∧ (i + 1 = b.length ∨ b[i + 1]? = some 125)) :=
  ⟨remove_escape_escape s, remove_escape_none_iff b.length b (Nat.le_refl _)⟩

/-- The cases of the test `PacketDecode.RemoveEscape`. -/
theorem remove_escape_test_cases :
    algo.remove_escape (bytes "Hello") = some (bytes "Hello")
    ∧ algo.remove_escape ([125, 72 ^^^ 0x20] ++ bytes "ello") = some (bytes "Hello")
    ∧ algo.remove_escape ([125, 72 ^^^ 0x20] ++ bytes "ello" ++ [125]) = none
    ∧ algo.remove_escape ([125, 125, 72 ^^^ 0x20] ++ bytes "ello") = none
    ∧ algo.remove_escape [125, 125 ^^^ 0x20] = some (bytes "\x7d")
    ∧ reference.escape (bytes "a*$\x7d#") = [97, 125, 10, 125, 4, 125, 93, 125, 3] := by
  refine ⟨by decide, by decide, by decide, by decide, by decide, by decide⟩

end gdb_stub

namespace gdb_stub

open command

/-! ## The command parser: strings, numbers and chunks -/

theorem isxdigit_hex_value (c : Nat) (h : isxdigit c = true) :
    hex_value c < 16 ∧ c ≠ 44 ∧ c ≠ 58 ∧ c ≠ 59 ∧ c ≠ 61 ∧ c ≠ 120 := by
  simp only [isxdigit, Bool.or_eq_true, Bool.and_eq_true, decide_eq_true_eq] at h
  unfold hex_value
  split
  · omega
  · split <;> omega

theorem hex_digit_facts (d : Nat) (h : d < 16) :
    isxdigit (hex_digit d) = true ∧ hex_value (hex_digit d) = d ∧ hex_digit d ≠ 120 := by
  have hd : ∀ d, d < 16 → isxdigit (hex_digit d) = true ∧ hex_value (hex_digit d) = d
      ∧ hex_digit d ≠ 120 := by
    decide
  exact hd d h

/-- A successful `parse_hex` has read a non-empty string of hexadecimal digits whose
value fits 32 bits. -/
theorem parse_hex_some (s : List Nat) (v : Nat) (h : parse_hex s = .ret (some v)) :
    s ≠ [] ∧ s.all isxdigit = true ∧ v = hex_number s ∧ v < 2 ^ 32 := by
  unfold parse_hex at h
  by_cases h1 : s = []
  · rw [if_pos h1] at h
    cases h
  · rw [if_neg h1] at h
    by_cases h2 : s.all isxdigit = true
    · rw [h2] at h
      simp only [Bool.not_true, Bool.false_eq_true, if_false] at h
      by_cases h3 : hex_number s < 2 ^ 32
      · rw [if_pos h3] at h
        cases h
        exact ⟨h1, h2, rfl, h3⟩
      · rw [if_neg h3] at h
        cases h
    · simp only [Bool.not_eq_true] at h2
      rw [h2] at h
      simp only [Bool.not_false, if_true] at h
      cases h

theorem parse_hex_ne_throws (s : List Nat) : parse_hex s ≠ .throws := by
  unfold parse_hex
  split
  · exact Cxx.noConfusion
  · split
    · exact Cxx.noConfusion
    · split <;> exact Cxx.noConfusion

theorem bind_ne_throws {α β : Type} (x : Cxx α) (f : α → Cxx β) (hx : x ≠ .throws)
    (hf : ∀ a, f a ≠ .throws) : x.bind f ≠ .throws := by
  cases x with
  | ret a => exact hf a
  | throws => exact absurd rfl hx
  | undefined => exact Cxx.noConfusion

/-- The parts around the first `d` of a string built around a `d`. -/
theorem take_drop_at (s t : List Nat) (d : Nat) (hs : d ∉ s) :
    (s ++ d :: t).takeWhile (· ≠ d) = s
    ∧ ((s ++ d :: t).dropWhile (· ≠ d)).drop 1 = t := by
  induction s with
  | nil => simp [List.takeWhile, List.dropWhile]
  | cons c s ih =>
    have hc : c ≠ d := fun h => hs (h ▸ List.mem_cons_self _ _)
    have hs' : d ∉ s := fun h => hs (List.mem_cons_of_mem _ h)
    obtain ⟨i1, i2⟩ := ih hs'
    constructor
    · rw [List.cons_append, List.takeWhile_cons_of_pos (by simpa using hc), i1]
    · rw [List.cons_append, List.dropWhile_cons_of_pos (by simpa using hc), i2]

theorem split_once_at (s t : List Nat) (d : Nat) (hs : d ∉ s) :
    split_once (s ++ d :: t) d = (s, t) := by
  unfold split_once
  have hmem : d ∈ s ++ d :: t := List.mem_append_right _ (List.mem_cons_self _ _)
  rw [if_neg (not_not.mpr hmem), (take_drop_at s t d hs).1, (take_drop_at s t d hs).2]

/-- A string with a `d` is the part before its first `d`, the `d`, and the part after. -/
theorem take_drop_rejoin (l : List Nat) (d : Nat) (h : d ∈ l) :
    l = l.takeWhile (· ≠ d) ++ d :: (l.dropWhile (· ≠ d)).drop 1 := by
  induction l with
  | nil => exact absurd h (List.not_mem_nil _)
  | cons c l ih =>
    by_cases hc : c = d
    · subst hc
      simp [List.takeWhile, List.dropWhile]
    · have hmem : d ∈ l := by
        rcases List.mem_cons.mp h with h1 | h1
        · exact absurd h1.symm hc
        · exact h1
      rw [List.takeWhile_cons_of_pos (by simpa using hc),
        List.dropWhile_cons_of_pos (by simpa using hc), List.cons_append, ← ih hmem]

theorem split_once_found (l a b : List Nat) (d : Nat) (h : split_once l d = (a, b))
    (ha : a ≠ []) : l = a ++ d :: b := by
  unfold split_once at h
  by_cases hmem : d ∈ l
  · rw [if_neg (not_not.mpr hmem)] at h
    simp only [Prod.mk.injEq] at h
    rw [← h.1, ← h.2]
    exact take_drop_rejoin l d hmem
  · rw [if_pos hmem] at h
    simp only [Prod.mk.injEq] at h
    exact absurd h.1.symm ha

theorem all_isxdigit_not_mem (s : List Nat) (h : s.all isxdigit = true) :
    44 ∉ s ∧ 58 ∉ s := by
  rw [List.all_eq_true] at h
  exact ⟨fun hm => (isxdigit_hex_value 44 (h 44 hm)).2.1 rfl,
    fun hm => (isxdigit_hex_value 58 (h 58 hm)).2.2.1 rfl⟩

/-- The pair parser on two numbers joined by a comma. -/
theorem parse_u32_pair_at (s t : List Nat) (a b : Nat) (hs : parse_hex s = .ret (some a))
    (ht : parse_hex t = .ret (some b)) : parse_u32_pair (s ++ 44 :: t) = .ret (some (a, b)) := by
  obtain ⟨_, hall, _, _⟩ := parse_hex_some s a hs
  have hmem : 44 ∈ s ++ 44 :: t := List.mem_append_right _ (List.mem_cons_self _ _)
  unfold parse_u32_pair
  rw [if_neg (not_not.mpr hmem), (take_drop_at s t 44 (all_isxdigit_not_mem s hall).1).1,
    (take_drop_at s t 44 (all_isxdigit_not_mem s hall).1).2, hs, ht]
  rfl

theorem parse_u32_pair_ne_throws (s : List Nat) : parse_u32_pair s ≠ .throws := by
  unfold parse_u32_pair
  split
  · exact Cxx.noConfusion
  · refine bind_ne_throws _ _ (parse_hex_ne_throws _) (fun first => ?_)
    refine bind_ne_throws _ _ (parse_hex_ne_throws _) (fun second => ?_)
    split <;> exact Cxx.noConfusion

/-- Enough fuel: the chunks do not depend on the fuel. -/
theorem chunk_fuel_enough (n : Nat) (hn : 1 ≤ n) (f1 : Nat) :
    ∀ (f2 : Nat) (l : List Nat), l.length ≤ f1 → l.length ≤ f2 →
      chunk_fuel n f1 l = chunk_fuel n f2 l := by
  induction f1 with
  | zero =>
    intro f2 l h1 _
    have hl : l = [] := List.length_eq_zero.mp (Nat.le_zero.mp h1)
    subst hl
    cases f2 with
    | zero => rfl
    | succ f2 => simp [chunk_fuel]
  | succ f1 ih =>
    intro f2 l h1 h2
    cases f2 with
    | zero =>
      have hl : l = [] := List.length_eq_zero.mp (Nat.le_zero.mp h2)
      subst hl
      simp [chunk_fuel]
    | succ f2 =>
      unfold chunk_fuel
      by_cases hl : l = []
      · rw [if_pos hl, if_pos hl]
      · rw [if_neg hl, if_neg hl]
        have hpos : 0 < l.length := List.length_pos.mpr hl
        have hd : (l.drop n).length ≤ l.length - 1 := by
          rw [List.length_drop]
          omega
        rw [ih f2 (l.drop n) (by omega) (by omega)]

/-- A first piece of exactly `n` bytes is the first chunk. -/
theorem chunk_append (n : Nat) (hn : 1 ≤ n) (s t : List Nat) (hs : s.length = n) :
    chunk n (s ++ t) = s :: chunk n t := by
  have hne : s ++ t ≠ [] := by
    intro h
    have := congrArg List.length h
    rw [List.length_append, hs] at this
    simp at this
    omega
  unfold chunk
  rw [List.length_append, hs]
  have hfuel : n + t.length = (n + t.length - 1) + 1 := by omega
  rw [hfuel]
  conv_lhs => unfold chunk_fuel
  rw [if_neg hne, List.take_left' hs, List.drop_left' hs]
  rw [chunk_fuel_enough n hn (n + t.length - 1) t.length t (by omega) (Nat.le_refl _)]

end gdb_stub

namespace gdb_stub

open command

/-! ## C31: exceptions leaving `parse` -/

theorem parse_hex_list_ne_throws (l : List (List Nat)) : parse_hex_list l ≠ .throws := by
  induction l with
  | nil => exact Cxx.noConfusion
  | cons s rest ih =>
    unfold parse_hex_list
    refine bind_ne_throws _ _ (parse_hex_ne_throws _) (fun _ => ?_)
    exact bind_ne_throws _ _ ih (fun _ => Cxx.noConfusion)

theorem parse_hex_bytes_ne_throws (l : List Nat) : parse_hex_bytes l ≠ .throws := by
  unfold parse_hex_bytes
  exact bind_ne_throws _ _ (parse_hex_list_ne_throws _) (fun _ => Cxx.noConfusion)

theorem parse_register_chunks_ne_throws (l : List (List Nat)) :
    ∀ (index : Nat) (values : List (Nat × Nat)),
      parse_register_chunks l index values ≠ .throws := by
  induction l with
  | nil => intro _ _; exact Cxx.noConfusion
  | cons s rest ih =>
    intro index values
    unfold parse_register_chunks
    split
    · exact ih _ _
    · refine bind_ne_throws _ _ (parse_hex_ne_throws _) (fun r => ?_)
      cases r with
      | none => exact Cxx.noConfusion
      | some v => exact ih _ _

theorem parse_feature_ne_throws (s : List Nat) : parse_feature s ≠ .throws := by
  unfold parse_feature
  split
  · exact Cxx.noConfusion
  · dsimp only
    split
    · exact Cxx.noConfusion
    · split
      · exact Cxx.noConfusion
      · split <;> exact Cxx.noConfusion

theorem parse_features_ne_throws (l : List (List Nat)) :
    ∀ (features : List (List Nat × Host_feature_status)),
      parse_features l features ≠ .throws := by
  induction l with
  | nil => intro _; exact Cxx.noConfusion
  | cons s rest ih =>
    intro features
    unfold parse_features
    exact bind_ne_throws _ _ (parse_feature_ne_throws _) (fun _ => ih _)

theorem parse_continue_ne_throws (p : List Nat) : parse_continue p ≠ .throws := by
  unfold parse_continue
  split
  · exact Cxx.noConfusion
  · refine bind_ne_throws _ _ (parse_hex_ne_throws _) (fun r => ?_)
    cases r <;> exact Cxx.noConfusion

theorem parse_step_single_ne_throws (p : List Nat) : parse_step_single p ≠ .throws := by
  unfold parse_step_single
  split
  · exact Cxx.noConfusion
  · refine bind_ne_throws _ _ (parse_hex_ne_throws _) (fun r => ?_)
    cases r <;> exact Cxx.noConfusion

theorem parse_write_registers_ne_throws (p : List Nat) : parse_write_registers p ≠ .throws := by
  unfold parse_write_registers
  split
  · exact Cxx.noConfusion
  · refine bind_ne_throws _ _ (parse_register_chunks_ne_throws _ _ _) (fun r => ?_)
    cases r <;> exact Cxx.noConfusion

theorem parse_step_single_cycle_ne_throws (p : List Nat) :
    parse_step_single_cycle p ≠ .throws := by
  unfold parse_step_single_cycle
  refine bind_ne_throws _ _ (parse_hex_list_ne_throws _) (fun r => ?_)
  split <;> exact Cxx.noConfusion

theorem parse_read_memory_ne_throws (p : List Nat) : parse_read_memory p ≠ .throws := by
  unfold parse_read_memory
  refine bind_ne_throws _ _ (parse_u32_pair_ne_throws _) (fun r => ?_)
  split <;> exact Cxx.noConfusion

theorem parse_write_memory_ne_throws (p : List Nat) : parse_write_memory p ≠ .throws := by
  unfold parse_write_memory
  dsimp only
  split
  · exact Cxx.noConfusion
  · refine bind_ne_throws _ _ (parse_u32_pair_ne_throws _) (fun r => ?_)
    split
    · exact Cxx.noConfusion
    · split
      · exact Cxx.noConfusion
      · refine bind_ne_throws _ _ (parse_hex_bytes_ne_throws _) (fun d => ?_)
        split <;> exact Cxx.noConfusion

theorem parse_read_single_register_ne_throws (p : List Nat) :
    parse_read_single_register p ≠ .throws := by
  unfold parse_read_single_register
  split
  · exact Cxx.noConfusion
  · refine bind_ne_throws _ _ (parse_hex_ne_throws _) (fun r => ?_)
    split
    · exact Cxx.noConfusion
    · split <;> exact Cxx.noConfusion

theorem parse_write_single_register_ne_throws (p : List Nat) :
    parse_write_single_register p ≠ .throws := by
  unfold parse_write_single_register
  split
  · exact Cxx.noConfusion
  · dsimp only
    split
    · exact Cxx.noConfusion
    · refine bind_ne_throws _ _ (parse_hex_ne_throws _) (fun r => ?_)
      split
      · exact Cxx.noConfusion
      · split
        · exact Cxx.noConfusion
        · refine bind_ne_throws _ _ (parse_hex_ne_throws _) (fun v => ?_)
          split <;> exact Cxx.noConfusion

theorem parse_q_supported_ne_throws (p : List Nat) : parse_q_supported p ≠ .throws := by
  unfold parse_q_supported
  exact bind_ne_throws _ _ (parse_features_ne_throws _ _) (fun _ => Cxx.noConfusion)

theorem parse_qxfer_feature_read_ne_throws (p : List Nat) :
    parse_qxfer_feature_read p ≠ .throws := by
  unfold parse_qxfer_feature_read
  dsimp only
  refine bind_ne_throws _ _ (parse_u32_pair_ne_throws _) (fun r => ?_)
  split <;> exact Cxx.noConfusion

theorem parse_qxfer_memorymap_read_ne_throws (p : List Nat) :
    parse_qxfer_memorymap_read p ≠ .throws := by
  unfold parse_qxfer_memorymap_read
  dsimp only
  refine bind_ne_throws _ _ (parse_u32_pair_ne_throws _) (fun r => ?_)
  split <;> exact Cxx.noConfusion

theorem parse_bytecode_ne_throws (p : List Nat) : parse_bytecode p ≠ .throws := by
  unfold parse_bytecode
  split
  · exact Cxx.noConfusion
  · split
    · exact Cxx.noConfusion
    · dsimp only
      split
      · exact Cxx.noConfusion
      · refine bind_ne_throws _ _ (parse_hex_ne_throws _) (fun r => ?_)
        split
        · exact Cxx.noConfusion
        · split
          · exact Cxx.noConfusion
          · exact parse_hex_bytes_ne_throws _

theorem parse_z_ne_throws (p : List Nat) : parse_z p ≠ .throws := by
  unfold parse_z
  split
  · exact Cxx.noConfusion
  · split
    · exact Cxx.noConfusion
    · refine bind_ne_throws _ _ (parse_u32_pair_ne_throws _) (fun r => ?_)
      split
      · exact Cxx.noConfusion
      · split
        · exact Cxx.noConfusion
        · split
          · exact Cxx.noConfusion
          · split
            · exact Cxx.noConfusion
            · split
              · exact Cxx.noConfusion
              · split <;> exact Cxx.noConfusion

theorem parse_Z_ne_throws (p : List Nat) : parse_Z p ≠ .throws := by
  unfold parse_Z
  split
  · exact Cxx.noConfusion
  · split
    · exact Cxx.noConfusion
    · dsimp only
      split
      · split
        · exact Cxx.noConfusion
        · split
          · exact Cxx.noConfusion
          · refine bind_ne_throws _ _ (parse_u32_pair_ne_throws _) (fun r => ?_)
            split
            · exact Cxx.noConfusion
            · split
              · exact Cxx.noConfusion
              · refine bind_ne_throws _ _ (parse_bytecode_ne_throws _) (fun c => ?_)
                split <;> exact Cxx.noConfusion
      · split
        · refine bind_ne_throws _ _ (parse_u32_pair_ne_throws _) (fun r => ?_)
          split <;> exact Cxx.noConfusion
        · exact Cxx.noConfusion

/-- A bound call throws only when the first call throws, the second not throwing. -/
theorem bind_throws {α β : Type} (x : Cxx α) (f : α → Cxx β) (hf : ∀ a, f a ≠ .throws)
    (h : x.bind f = .throws) : x = .throws := by
  cases x with
  | ret a => exact absurd h (hf a)
  | throws => rfl
  | undefined => cases h

/-- A string with a given prefix and no room for one more byte is the prefix. -/
theorem short_string_is_start (pre s : List Nat) (hp : pre.isPrefixOf s = true)
    (hlen : substr s (pre.length + 1) = .throws) : s = pre := by
  rw [ List.isPrefixOf_iff_prefix] at hp
  obtain ⟨t, rfl⟩ := hp
  unfold substr at hlen
  split at hlen
  · rename_i h
    rw [List.length_append] at h
    have ht : t = [] := List.length_eq_zero.mp (by omega)
    rw [ht, List.append_nil]
  · cases hlen

theorem parse_qxfer_throws (s : List Nat) (h : parse_qxfer s = .throws) :
    s = features_read ∨ s = memory_map_read := by
  unfold parse_qxfer at h
  split at h
  · rename_i hp
    exact Or.inl (short_string_is_start _ _ hp
      (bind_throws _ _ parse_qxfer_feature_read_ne_throws h))
  · split at h
    · rename_i hp
      exact Or.inr (short_string_is_start _ _ hp
        (bind_throws _ _ parse_qxfer_memorymap_read_ne_throws h))
    · cases h

theorem parse_q_throws (p : List Nat) (h : parse_q p = .throws) :
    p = [88, 102, 101, 114] ++ 58 :: features_read
    ∨ p = [88, 102, 101, 114] ++ 58 :: memory_map_read := by
  unfold parse_q at h
  cases hs : split_once p 58 with
  | mk sub_operand sub_params =>
    rw [hs] at h
    dsimp only at h
    split at h
    · cases h
    · split at h
      · exact absurd h (parse_q_supported_ne_throws _)
      · split at h
        · rename_i hx
          have hp := split_once_found p sub_operand sub_params 58 hs (by rw [hx]; simp)
          rw [hx] at hp
          rcases parse_qxfer_throws sub_params h with h1 | h1
          · exact Or.inl (by rw [hp, h1])
          · exact Or.inr (by rw [hp, h1])
        · cases h

/-- Every parser of the table other than `parse_q` returns without throwing. -/
theorem parser_ne_throws (c : Nat) (f : List Nat → Cxx Any)
    (h : param_char_command_parsers c = some f) (hc : c ≠ 113) : ∀ p, f p ≠ .throws := by
  unfold param_char_command_parsers at h
  refine core.ite_elim h (fun _ h => by cases h; exact parse_continue_ne_throws) (fun _ h => ?_)
  refine core.ite_elim h (fun _ h => by cases h; exact parse_write_registers_ne_throws) (fun _ h => ?_)
  refine core.ite_elim h (fun _ h => by cases h; exact parse_step_single_cycle_ne_throws) (fun _ h => ?_)
  refine core.ite_elim h (fun _ h => by cases h; exact parse_read_memory_ne_throws) (fun _ h => ?_)
  refine core.ite_elim h (fun _ h => by cases h; exact parse_write_memory_ne_throws) (fun _ h => ?_)
  refine core.ite_elim h (fun _ h => by cases h; exact parse_read_single_register_ne_throws) (fun _ h => ?_)
  refine core.ite_elim h (fun _ h => by cases h; exact parse_write_single_register_ne_throws) (fun _ h => ?_)
  refine core.ite_elim h (fun _ h => by cases h; exact parse_step_single_ne_throws) (fun _ h => ?_)
  refine core.ite_elim h (fun hq _ => absurd hq hc) (fun _ h => ?_)
  refine core.ite_elim h (fun _ h => by cases h; exact parse_z_ne_throws) (fun _ h => ?_)
  refine core.ite_elim h (fun _ h => by cases h; exact parse_Z_ne_throws) (fun _ h => ?_)
  cases h

theorem parser_of_q (f : List Nat → Cxx Any) (h : param_char_command_parsers 113 = some f) :
    f = parse_q := by
  have h2 : param_char_command_parsers 113 = some parse_q := rfl
  rw [h2] at h
  cases h
  rfl

theorem qxfer_inputs :
    113 :: ([88, 102, 101, 114] ++ 58 :: features_read) = bytes "qXfer:features:read"
    ∧ 113 :: ([88, 102, 101, 114] ++ 58 :: memory_map_read) = bytes "qXfer:memory-map:read"
    ∧ parse (bytes "qXfer:features:read") = .throws
    ∧ parse (bytes "qXfer:memory-map:read") = .throws := by
  refine ⟨by decide, by decide, by rfl, by rfl⟩

/-- C31 (defect in `parse_qxfer`). An exception leaves `command::parse` on exactly two
inputs, `qXfer:features:read` and `qXfer:memory-map:read` with nothing after them: the
prefix tested by `starts_with` lacks the colon that `substr` skips, so `substr` is asked
for a position one past the end and throws `std::out_of_range`. On these two inputs
`parse` does not return the empty value. -/
theorem parse_throws_iff (command : List Nat) :
    parse command = .throws
      ↔ command = bytes "qXfer:features:read" ∨ command = bytes "qXfer:memory-map:read" := by
  constructor
  · intro h
    unfold parse at h
    split at h
    · cases h
    · rename_i c params
      split at h
      · cases h
      · split at h
        · rename_i parser_func hpf
          by_cases hc : c = 113
          · rw [hc] at hpf
            rw [parser_of_q parser_func hpf] at h
            rcases parse_q_throws params h with h1 | h1
            · left
              rw [hc, h1]
              exact qxfer_inputs.1
            · right
              rw [hc, h1]
              exact qxfer_inputs.2.1
          · exact absurd h (parser_ne_throws c parser_func hpf hc params)
        · cases h
  · intro h
    rcases h with h | h
    · rw [h]
      exact qxfer_inputs.2.2.1
    · rw [h]
      exact qxfer_inputs.2.2.2

end gdb_stub

namespace gdb_stub

open command

/-! ## C32: the `M` packet -/

theorem parse_hex_two (a b : Nat) :
    parse_hex [a, b]
      = .ret (if (isxdigit a && isxdigit b) = true then some (16 * hex_value a + hex_value b)
          else none) := by
  unfold parse_hex
  rw [if_neg (List.cons_ne_nil _ _)]
  by_cases ha : isxdigit a = true
  · by_cases hb : isxdigit b = true
    · have h1 := (isxdigit_hex_value a ha).1
      have h2 := (isxdigit_hex_value b hb).1
      have hn : hex_number [a, b] = 16 * hex_value a + hex_value b := by
        simp only [hex_number, List.foldl_cons, List.foldl_nil]
        omega
      have hall : ([a, b].all isxdigit) = true := by simp [ha, hb]
      rw [hall, hn, ha, hb]
      simp only [Bool.not_true, Bool.false_eq_true, if_false, Bool.and_self, if_true]
      rw [if_pos (by omega)]
    · have hall : ([a, b].all isxdigit) = false := by simp [hb]
      simp only [Bool.not_eq_true] at hb
      rw [hall, hb]
      simp
  · have hall : ([a, b].all isxdigit) = false := by simp [ha]
    simp only [Bool.not_eq_true] at ha
    rw [hall, ha]
    simp

/-- The digit pairs of a string of even length, parsed pair by pair. -/
theorem parse_hex_list_pairs (k : Nat) :
    ∀ (l : List Nat), l.length = 2 * k →
      ∃ dv, parse_hex_list (chunk 2 l) = .ret dv
        ∧ (all_values dv).map (fun vs => vs.map (· % 256))
            = (if l.all isxdigit = true then some (reference.hex_pairs l) else none) := by
  induction k with
  | zero =>
    intro l hl
    have : l = [] := List.length_eq_zero.mp hl
    subst this
    exact ⟨[], rfl, rfl⟩
  | succ k ih =>
    intro l hl
    match l, hl with
    | a :: b :: rest, hl =>
      have hrest : rest.length = 2 * k := by
        simp only [List.length_cons] at hl
        omega
      obtain ⟨dv, hdv, hval⟩ := ih rest hrest
      have hchunk : chunk 2 (a :: b :: rest) = [a, b] :: chunk 2 rest :=
        chunk_append 2 (by decide) [a, b] rest rfl
      rw [hchunk]
      refine ⟨_, by
        unfold parse_hex_list
        rw [parse_hex_two, hdv]
        rfl, ?_⟩
      by_cases hab : (isxdigit a && isxdigit b) = true
      · rw [if_pos hab]
        rw [Bool.and_eq_true] at hab
        have h1 := (isxdigit_hex_value a hab.1).1
        have h2 := (isxdigit_hex_value b hab.2).1
        have hmod : (16 * hex_value a + hex_value b) % 256 = 16 * hex_value a + hex_value b := by
          omega
        have hall : (a :: b :: rest).all isxdigit = rest.all isxdigit := by
          simp [hab.1, hab.2]
        rw [hall]
        unfold all_values
        cases hav : all_values dv with
        | none =>
          rw [hav] at hval
          by_cases hr : rest.all isxdigit = true
          · rw [if_pos hr] at hval
            cases hval
          · rw [if_neg hr]
            rfl
        | some w =>
          rw [hav] at hval
          by_cases hr : rest.all isxdigit = true
          · rw [if_pos hr] at hval ⊢
            simp only [Option.map_some', Option.some.injEq] at hval
            simp only [Option.map_some', List.map_cons, hmod, hval]
            rfl
          · rw [if_neg hr] at hval
            cases hval
      · rw [if_neg hab]
        have hall : (a :: b :: rest).all isxdigit = false := by
          simp only [List.all_cons]
          rw [← Bool.and_assoc]
          simp only [Bool.not_eq_true] at hab
          rw [hab]
          rfl
        rw [hall]
        rfl
    | [_], hl =>
      simp only [List.length_cons, List.length_nil] at hl
      omega
    | [], hl =>
      simp only [List.length_nil] at hl
      omega

theorem parse_hex_bytes_even (l : List Nat) (k : Nat) (hl : l.length = 2 * k) :
    parse_hex_bytes l
      = .ret (if l.all isxdigit = true then some (reference.hex_pairs l) else none) := by
  obtain ⟨dv, hdv, hval⟩ := parse_hex_list_pairs k l hl
  unfold parse_hex_bytes
  rw [hdv]
  show Cxx.ret _ = _
  rw [hval]

/-- C32 (defect in `parse_write_memory`). For every input `M<addr>,<len>:<hexbytes>`
with `<addr>` and `<len>` hexadecimal numbers of 32 bits and `<hexbytes>` not empty,
`parse` returns `Write_memory` exactly when `<hexbytes>` consists of hexadecimal digits
and their number is `2 * len` REDUCED MODULO `2 ^ 32`; then `address = addr` and `data`
holds the bytes the digit pairs denote, in order. Every other such input fails. The
product `length * 2` is formed in `u32`, so for `len ≥ 2 ^ 31` a packet with fewer than
`2 * len` digits is accepted. -/
theorem write_memory_length_wraps (addr_str len_str data_str : List Nat) (a n : Nat)
    (ha : parse_hex addr_str = .ret (some a)) (hn : parse_hex len_str = .ret (some n))
    (hd : data_str ≠ []) :
    parse (77 :: (addr_str ++ 44 :: (len_str ++ 58 :: data_str)))
      = (if data_str.length = (n * 2) % 2 ^ 32 ∧ data_str.all isxdigit = true then
          .ret (some (.Write_memory a (reference.hex_pairs data_str)))
        else .ret none) := by
  obtain ⟨_, halla, _, _⟩ := parse_hex_some addr_str a ha
  obtain ⟨_, halln, _, _⟩ := parse_hex_some len_str n hn
  have hassoc : addr_str ++ 44 :: (len_str ++ 58 :: data_str)
      = (addr_str ++ 44 :: len_str) ++ 58 :: data_str := by
    simp
  have hno : 58 ∉ addr_str ++ 44 :: len_str := by
    intro h
    rcases List.mem_append.mp h with h | h
    · exact (all_isxdigit_not_mem _ halla).2 h
    · rcases List.mem_cons.mp h with h | h
      · exact absurd h (by decide)
      · exact (all_isxdigit_not_mem _ halln).2 h
  have hne : addr_str ++ 44 :: (len_str ++ 58 :: data_str) ≠ [] := by simp
  have hparse : parse (77 :: (addr_str ++ 44 :: (len_str ++ 58 :: data_str)))
      = parse_write_memory (addr_str ++ 44 :: (len_str ++ 58 :: data_str)) := by
    unfold parse
    dsimp only
    rw [if_neg hne]
    rfl
  rw [hparse, hassoc]
  unfold parse_write_memory
  rw [split_once_at _ _ 58 hno]
  dsimp only
  have hne2 : ¬ (addr_str ++ 44 :: len_str = [] ∨ data_str = []) := by
    intro h
    rcases h with h | h
    · simp at h
    · exact hd h
  rw [if_neg hne2, parse_u32_pair_at addr_str len_str a n ha hn]
  show (if data_str.length ≠ (n * 2) % 2 ^ 32 then Cxx.ret none
    else (parse_hex_bytes data_str).bind _) = _
  by_cases hlen : data_str.length = (n * 2) % 2 ^ 32
  · rw [if_neg (not_not.mpr hlen)]
    rw [parse_hex_bytes_even data_str (data_str.length / 2) (by omega)]
    by_cases hall : data_str.all isxdigit = true
    · rw [if_pos hall, if_pos ⟨hlen, hall⟩]
      rfl
    · rw [if_neg hall, if_neg (fun h => hall h.2)]
      rfl
  · rw [if_pos hlen, if_neg (fun h => hlen h.1)]

set_option maxRecDepth 100000 in
/-- Witness for C32: `M0,80000001:12` announces `0x80000001` bytes and carries one; the
product `2 * 0x80000001` wraps to 2, so the packet is accepted with the single byte
`0x12`. The packets of the test: `M123,2:1234` gives the bytes `0x12, 0x34` and
`Mdeadbeef,3:ABcd` fails. -/
theorem write_memory_length_wraps_witness :
    parse (bytes "M0,80000001:12") = .ret (some (.Write_memory 0 [0x12]))
    ∧ parse (bytes "M123,2:1234") = .ret (some (.Write_memory 0x123 [0x12, 0x34]))
    ∧ parse (bytes "Mdeadbeef,3:ABcd") = .ret none
    ∧ parse (77 :: (bytes "0" ++ 44 :: (bytes "80000001" ++ 58 :: bytes "12")))
      = (if (bytes "12").length = (0x80000001 * 2) % 2 ^ 32
            ∧ (bytes "12").all isxdigit = true then
          .ret (some (.Write_memory 0 (reference.hex_pairs (bytes "12"))))
        else .ret none) :=
  ⟨by decide, by decide, by decide,
    write_memory_length_wraps (bytes "0") (bytes "80000001") (bytes "12") 0 0x80000001
      (by decide) (by decide) (by decide)⟩

end gdb_stub

namespace gdb_stub

namespace expression

/-! ## C33: the division opcodes of the expression interpreter -/

/-- C33 (defect in the four division cases of `execute`). For every stack ending in `x`
then `y` (`y` pushed later, so `y` is the top), `div_unsigned` and `rem_unsigned` return
`Division_by_zero` when `y = 0`, as claimed, but otherwise divide `y` by `x`: they replace
the two values by `y / x` and `y mod x`, not `x / y` and `x mod y`, and the behaviour is
undefined when `x = 0`. The macro `GET_TOP_TWO_STACK` pops `b = y` and `a = x`; the zero
test is on `b`, the division is `b / a`. The signed opcodes do the same on the signed
readings, with undefined behaviour also for `INT_MIN / -1`. -/
theorem division_divides_top_by_next (access_memory_func access_register_func : Nat → Option Nat)
    (bytecode : List Nat) (pc x y : Nat) (rest : List Nat) :
    (bytecode[pc]? = some Bytecode.Div_unsigned →
      step access_memory_func access_register_func bytecode pc (y :: x :: rest)
        = (if y = 0 then .done (.error .Division_by_zero)
          else if x = 0 then .done .undefined
          else .next (pc + 1) (y / x :: rest)))
    ∧ (bytecode[pc]? = some Bytecode.Rem_unsigned →
      step access_memory_func access_register_func bytecode pc (y :: x :: rest)
        = (if y = 0 then .done (.error .Division_by_zero)
          else if x = 0 then .done .undefined
          else .next (pc + 1) (y % x :: rest)))
    ∧ (bytecode[pc]? = some Bytecode.Div_signed →
      step access_memory_func access_register_func bytecode pc (y :: x :: rest)
        = (if y = 0 then .done (.error .Division_by_zero)
          else if x = 0 then .done .undefined
          else if core.as_signed 32 y = -2 ^ 31 ∧ core.as_signed 32 x = -1 then .done .undefined
          else .next (pc + 1)
            (core.of_int 32 (Int.tdiv (core.as_signed 32 y) (core.as_signed 32 x)) :: rest)))
    ∧ (bytecode[pc]? = some Bytecode.Rem_signed →
      step access_memory_func access_register_func bytecode pc (y :: x :: rest)
        = (if y = 0 then .done (.error .Division_by_zero)
          else if x = 0 then .done .undefined
          else if core.as_signed 32 y = -2 ^ 31 ∧ core.as_signed 32 x = -1 then .done .undefined
          else .next (pc + 1)
            (core.of_int 32 (Int.tmod (core.as_signed 32 y) (core.as_signed 32 x)) :: rest))) := by
  refine ⟨fun h => ?_, fun h => ?_, fun h => ?_, fun h => ?_⟩ <;>
  · unfold step
    rw [h]
    rfl

/-- Witness for C33: `10` pushed, then `2`, then `div_unsigned`: the claim gives
`10 / 2 = 5`; the interpreter returns `2 / 10 = 0`. With `0` pushed, then `10`, the divisor
the code uses is `0` and the behaviour is undefined, where `0 / 10 = 0` is claimed. The
program of the test, `10` then `0`, returns `Division_by_zero`. -/
theorem division_divides_top_by_next_witness :
    execute (fun _ => some 0) (fun _ => some 0)
        [Bytecode.Const8, 10, Bytecode.Const8, 2, Bytecode.Div_unsigned, Bytecode.End] 10
      = some (.result { top := 0 })
    ∧ execute (fun _ => some 0) (fun _ => some 0)
        [Bytecode.Const8, 10, Bytecode.Const8, 2, Bytecode.Rem_unsigned, Bytecode.End] 10
      = some (.result { top := 2 })
    ∧ execute (fun _ => some 0) (fun _ => some 0)
        [Bytecode.Const8, 0, Bytecode.Const8, 10, Bytecode.Div_unsigned, Bytecode.End] 10
      = some .undefined
    ∧ execute (fun _ => some 0) (fun _ => some 0)
        [Bytecode.Const32, 0, 0, 0, 10, Bytecode.Const32, 0, 0, 0, 0, Bytecode.Div_unsigned,
          Bytecode.End] 10
      = some (.error .Division_by_zero)
    ∧ step (fun _ => some 0) (fun _ => some 0)
        [Bytecode.Const8, 10, Bytecode.Const8, 2, Bytecode.Div_unsigned, Bytecode.End] 4
        [2, 10]
      = (if 2 = 0 then .done (.error .Division_by_zero)
        else if 10 = 0 then .done .undefined
        else .next (4 + 1) [2 / 10]) :=
  ⟨by decide, by decide, by decide, by decide,
    (division_divides_top_by_next (fun _ => some 0) (fun _ => some 0)
      [Bytecode.Const8, 10, Bytecode.Const8, 2, Bytecode.Div_unsigned, Bytecode.End]
      4 10 2 []).1 (by decide)⟩

end expression

end gdb_stub

namespace gdb_stub

namespace expression

open core

/-! ## C34: the width opcodes of the expression interpreter -/

/-- The 32-bit value shifted up by `32 - n`, read as signed, is the sign extension of the
low `n` bits scaled by `2 ^ (32 - n)`. -/
theorem as_signed_shifted (a n : Nat) (h1 : 1 ≤ n) (h2 : n ≤ 32) :
    as_signed 32 ((a <<< (32 - n)) % 2 ^ 32) = as_signed n a * 2 ^ (32 - n) := by
  have hpow : (2 : Nat) ^ 32 = 2 ^ n * 2 ^ (32 - n) := by
    rw [← Nat.pow_add]
    congr 1
    omega
  have hpow1 : (2 : Nat) ^ (32 - 1) = 2 ^ (n - 1) * 2 ^ (32 - n) := by
    rw [← Nat.pow_add]
    congr 1
    omega
  have hm : (a <<< (32 - n)) % 2 ^ 32 = a % 2 ^ n * 2 ^ (32 - n) := by
    rw [Nat.shiftLeft_eq, hpow, Nat.mul_mod_mul_right]
  have hpos : 0 < 2 ^ (32 - n) := Nat.pow_pos (by decide)
  unfold as_signed
  rw [Nat.mod_mod, hm, hpow1]
  by_cases hlt : a % 2 ^ n < 2 ^ (n - 1)
  · rw [if_pos ((Nat.mul_lt_mul_right hpos).mpr hlt), if_pos hlt]
    push_cast
    rfl
  · rw [if_neg (fun h => hlt ((Nat.mul_lt_mul_right hpos).mp h)), if_neg hlt]
    have hpowi : ((2 : Int) ^ 32) = 2 ^ n * 2 ^ (32 - n) := by exact_mod_cast hpow
    have hpowi' : (4294967296 : Int) = 2 ^ n * 2 ^ (32 - n) := by
      rw [← hpowi]
      norm_num
    push_cast
    rw [hpowi']
    ring

/-- The expression of the `Ext` case is the sign extension of the low `n` bits. -/
theorem ext_eq (a n : Nat) (h1 : 1 ≤ n) (h2 : n ≤ 32) :
    of_int 32 (as_signed 32 ((a <<< (32 - n)) % 2 ^ 32) >>> (32 - n))
      = of_int 32 (as_signed n a) := by
  rw [as_signed_shifted a n h1 h2, Int.shiftRight_eq_div_pow]
  congr 1
  have hc : ((2 ^ (32 - n) : Nat) : Int) = (2 : Int) ^ (32 - n) := by push_cast; rfl
  rw [hc]
  exact Int.mul_ediv_cancel _ (pow_ne_zero _ (by decide : (2 : Int) ≠ 0))

/-- The expression of the `Zero_ext` case keeps the low `n` bits when `n < 32`. -/
theorem zero_ext_eq (a n : Nat) (h : n < 32) : a &&& ((1 <<< n) % 2 ^ 32 - 1) = a % 2 ^ n := by
  rw [Nat.one_shiftLeft, Nat.mod_eq_of_lt (Nat.pow_lt_pow_right (by decide) h)]
  exact Nat.and_pow_two_sub_one_eq_mod a n

/-- C34 (defect in the `Zero_ext` case of `execute`). For every top-of-stack value `a`
and every operand `N` with `1 ≤ N ≤ 32`, `ext N` replaces `a` by the sign extension of its
low `N` bits (the identity on 32-bit values for `N = 32`). For `1 ≤ N ≤ 31`, `zero_ext N`
replaces `a` by its low `N` bits; for `N = 32` the mask `(1U << 32) - 1` shifts a 32-bit
value by its width, which the language leaves undefined, so `zero_ext 32` is not the
identity the claim states. -/
theorem width_ops (access_memory_func access_register_func : Nat → Option Nat)
    (bytecode : List Nat) (pc a n : Nat) (rest : List Nat)
    (hn : bytecode[pc + 1]? = some n) (h1 : 1 ≤ n) (h2 : n ≤ 32) :
    (bytecode[pc]? = some Bytecode.Ext →
      step access_memory_func access_register_func bytecode pc (a :: rest)
        = .next (pc + 2) (of_int 32 (as_signed n a) :: rest))
    ∧ (bytecode[pc]? = some Bytecode.Ext → a < 2 ^ 32 → n = 32 →
      step access_memory_func access_register_func bytecode pc (a :: rest)
        = .next (pc + 2) (a :: rest))
    ∧ (bytecode[pc]? = some Bytecode.Zero_ext → n ≤ 31 →
      step access_memory_func access_register_func bytecode pc (a :: rest)
        = .next (pc + 2) (a % 2 ^ n :: rest))
    ∧ (bytecode[pc]? = some Bytecode.Zero_ext → n = 32 →
      step access_memory_func access_register_func bytecode pc (a :: rest)
        = .done .undefined) := by
  have hext : bytecode[pc]? = some Bytecode.Ext →
      step access_memory_func access_register_func bytecode pc (a :: rest)
        = .next (pc + 2) (of_int 32 (as_signed n a) :: rest) := by
    intro h
    have hs : step access_memory_func access_register_func bytecode pc (a :: rest)
        = (if n = 0 ∨ 32 < n then .done .undefined
          else .next (pc + 2)
            (of_int 32 (as_signed 32 ((a <<< (32 - n)) % 2 ^ 32) >>> (32 - n)) :: rest)) := by
      unfold step
      rw [h]
      dsimp only
      rw [hn]
      rfl
    rw [hs, if_neg (by omega), ext_eq a n h1 h2]
  have hzext : bytecode[pc]? = some Bytecode.Zero_ext →
      step access_memory_func access_register_func bytecode pc (a :: rest)
        = (if 32 ≤ n then .done .undefined
          else .next (pc + 2) ((a &&& ((1 <<< n) % 2 ^ 32 - 1)) :: rest)) := by
    intro h
    unfold step
    rw [h]
    dsimp only
    rw [hn]
    rfl
  refine ⟨hext, fun h ha h32 => ?_, fun h h31 => ?_, fun h h32 => ?_⟩
  · rw [hext h, h32]
    have hid : of_int 32 (as_signed 32 a) = a := by
      unfold of_int as_signed
      rw [Nat.mod_eq_of_lt ha]
      split <;> omega
    rw [hid]
  · rw [hzext h, if_neg (by omega), zero_ext_eq a n (by omega)]
  · rw [hzext h, if_pos (by omega)]

/-- Witness for C34: the programs of the test (`ext 8` of `0xFF`, `zero_ext 16` of
`0xFFFF8001`), `ext 32`, and `zero_ext 32`, whose behaviour is undefined. -/
theorem width_ops_witness :
    execute (fun _ => some 0) (fun _ => some 0)
        [Bytecode.Const8, 0xFF, Bytecode.Ext, 8, Bytecode.End] 10
      = some (.result { top := 0xFFFFFFFF })
    ∧ execute (fun _ => some 0) (fun _ => some 0)
        [Bytecode.Const32, 0xFF, 0xFF, 0x80, 0x01, Bytecode.Zero_ext, 16, Bytecode.End] 10
      = some (.result { top := 0x00008001 })
    ∧ execute (fun _ => some 0) (fun _ => some 0)
        [Bytecode.Const32, 0xFF, 0xFF, 0x80, 0x01, Bytecode.Ext, 32, Bytecode.End] 10
      = some (.result { top := 0xFFFF8001 })
    ∧ execute (fun _ => some 0) (fun _ => some 0)
        [Bytecode.Const32, 0xFF, 0xFF, 0x80, 0x01, Bytecode.Zero_ext, 32, Bytecode.End] 10
      = some .undefined
    ∧ step (fun _ => some 0) (fun _ => some 0)
        [Bytecode.Const32, 0xFF, 0xFF, 0x80, 0x01, Bytecode.Zero_ext, 32, Bytecode.End] 5
        [0xFFFF8001]
      = .done .undefined :=
  ⟨by decide, by decide, by decide, by decide,
    (width_ops (fun _ => some 0) (fun _ => some 0)
      [Bytecode.Const32, 0xFF, 0xFF, 0x80, 0x01, Bytecode.Zero_ext, 32, Bytecode.End]
      5 0xFFFF8001 32 [] (by decide) (by decide) (by decide)).2.2.2 (by decide) rfl⟩

end expression

end gdb_stub

namespace gdb_stub

/-! ## C35: the order of watchpoint keys -/

/-- The three outcomes of `Address_range::operator<=>` on ranges that do not wrap: `less`
and `greater` need a gap of at least one byte, touching ranges are `unordered`. -/
theorem address_range_compare_cases (a b : Address_range)
    (ha : a.start + a.size < 2 ^ 32) (hb : b.start + b.size < 2 ^ 32) :
    (a.compare b = .less ↔ a.start + a.size < b.start)
    ∧ (a.compare b = .greater ↔ b.start + b.size < a.start)
    ∧ (a.start + a.size = b.start → 0 < a.size → 0 < b.size → a.compare b = .unordered) := by
  unfold Address_range.compare
  rw [Nat.mod_eq_of_lt ha, Nat.mod_eq_of_lt hb]
  dsimp only
  refine ⟨?_, ?_, ?_⟩
  · constructor
    · intro h
      split at h
      · cases h
      · split at h
        · cases h
        · split at h
          · cases h
          · split at h
            · assumption
            · cases h
    · intro h
      rw [if_neg (by omega), if_neg (by omega), if_neg (by omega), if_pos h]
  · constructor
    · intro h
      split at h
      · cases h
      · split at h
        · cases h
        · split at h
          · assumption
          · split at h <;> cases h
    · intro h
      rw [if_neg (by omega), if_neg (by omega), if_pos h]
  · intro h1 h2 h3
    rw [if_neg (by omega), if_neg (by omega), if_neg (by omega), if_neg (by omega)]

/-- C35 (defect in `Address_range::operator<=>`). For every two address ranges whose
`start + size` does not overflow 32 bits, `a <=> b` is `less` exactly when the end of `a`
is STRICTLY below the start of `b` (`a.start + a.size < b.start`), and `greater` exactly
when `b.start + b.size < a.start`. The ends are exclusive, so a non-empty range `a` that
lies wholly below a non-empty `b` and touches it (`a.start + a.size = b.start`) is not
`less` but `unordered`. -/
theorem address_range_less_is_strict (a b : Address_range)
    (ha : a.start + a.size < 2 ^ 32) (hb : b.start + b.size < 2 ^ 32) :
    (a.compare b = .less ↔ a.start + a.size < b.start)
    ∧ (a.compare b = .greater ↔ b.start + b.size < a.start)
    ∧ (a.start + a.size = b.start → 0 < a.size → 0 < b.size → a.compare b = .unordered) :=
  address_range_compare_cases a b ha hb

/-- Witness for C35: the range `[0, 4)` lies wholly below `[4, 8)` and neither contains
the other, yet `[0, 4) <=> [4, 8)` is `unordered`, not `less`; `[0, 3) <=> [4, 8)` is
`less`. -/
theorem address_range_less_is_strict_witness :
    Address_range.compare { start := 0, size := 4 } { start := 4, size := 4 } = .unordered
    ∧ Address_range.compare { start := 0, size := 3 } { start := 4, size := 4 } = .less
    ∧ Address_range.shares_byte { start := 0, size := 4 } { start := 4, size := 4 } = false
    ∧ ((Address_range.compare { start := 0, size := 4 } { start := 4, size := 4 } = .less
          ↔ 0 + 4 < 4)
      ∧ (Address_range.compare { start := 0, size := 4 } { start := 4, size := 4 } = .greater
          ↔ 4 + 4 < 0)
      ∧ (0 + 4 = 4 → 0 < 4 → 0 < 4 →
          Address_range.compare { start := 0, size := 4 } { start := 4, size := 4 }
            = .unordered)) :=
  ⟨by decide, by decide, by decide,
    address_range_less_is_strict { start := 0, size := 4 } { start := 4, size := 4 }
      (by decide) (by decide)⟩

end gdb_stub

namespace core

open CPU_module

/-! ## C36: traps are precise -/

/-- C36. Traps are precise: for every CPU state, if the record returned by `step()`
carries a trap, the register file after the step is the register file before it, so each
of the 32 general-purpose registers holds the value it held before the step. -/
theorem trap_keeps_registers {M : Type} (interface : Memory_interface M) (cpu : CPU_module M)
    (r : Result) (cpu' : CPU_module M) (t : Trap)
    (hstep : step interface cpu = some (r, cpu')) (htrap : r.trap = some t) :
    cpu'.registers = cpu.registers
    ∧ ∀ i, i < 32 → cpu'.registers.get_register i = cpu.registers.get_register i := by
  obtain ⟨c1, hexec, rfl⟩ := step_eq interface cpu r cpu' hstep
  obtain ⟨_, _, hreg⟩ := execute_trap_frame interface cpu r c1 t hexec htrap
  have h : ({ handle_trap c1 r with csr := (handle_trap c1 r).csr.tick } :
      CPU_module M).registers = cpu.registers := by
    rw [← hreg]
    simp [handle_trap, htrap]
  exact ⟨h, fun i _ => by rw [h]⟩

/-- Witness for C36: the `ecall` at address 0 of the small machine traps and leaves the
register file, with `x1 = 100`, as it was. -/
theorem trap_keeps_registers_witness :
    (step_result device.Block_memory.interface (demo.cpu 0)).1.trap
        = some Trap.Env_call_from_M_mode
    ∧ (step_result device.Block_memory.interface (demo.cpu 0)).2.registers.get_register 1 = 100
    ∧ ((step_result device.Block_memory.interface (demo.cpu 0)).2.registers
          = (demo.cpu 0).registers
      ∧ ∀ i, i < 32 →
          (step_result device.Block_memory.interface (demo.cpu 0)).2.registers.get_register i
            = (demo.cpu 0).registers.get_register i) :=
  ⟨by decide, by decide,
    trap_keeps_registers device.Block_memory.interface (demo.cpu 0)
      (step_result device.Block_memory.interface (demo.cpu 0)).1
      (step_result device.Block_memory.interface (demo.cpu 0)).2
      Trap.Env_call_from_M_mode
      (step_eq_step_result _ _ (by decide)) (by decide)⟩

end core

namespace device

open core

/-! ## C37: the fetch cache over a block memory that is not written -/

theorem and_fffff000 (x : Nat) (hx : x < 2 ^ 32) : x &&& 0xfffff000 = x / 4096 * 4096 := by
  have hc : (0xfffff000 : Nat) = (2 ^ 20 - 1) <<< 12 := by decide
  have hm : x / 4096 * 4096 = (x >>> 12) <<< 12 := by
    rw [Nat.shiftLeft_eq, Nat.shiftRight_eq_div_pow]
  rw [hm]
  apply Nat.eq_of_testBit_eq
  intro i
  rw [Nat.testBit_and, hc, Nat.testBit_shiftLeft, Nat.testBit_shiftLeft,
    Nat.testBit_two_pow_sub_one, Nat.testBit_shiftRight]
  by_cases h2 : 12 ≤ i
  · by_cases h32 : i < 32
    · have : i - 12 < 20 := by omega
      have e : 12 + (i - 12) = i := by omega
      simp [h2, this, e]
    · have hlt : x < 2 ^ i := lt_of_lt_of_le hx (Nat.pow_le_pow_right (by decide) (by omega))
      have e : 12 + (i - 12) = i := by omega
      simp [h2, e, Nat.testBit_lt_two_pow hlt]
  · simp [h2]

theorem and_fff (x : Nat) : x &&& 0xfff = x % 4096 := Nat.and_pow_two_sub_one_eq_mod x 12

/-- A page read at a 4 KiB-aligned address whose 4 KiB lie below the size: the 1024 words
of the touched page. -/
theorem block_read_page_eq (b : Block_memory) (a : Nat) (data : Page) (hal : a % 4096 = 0)
    (ha : a + 4096 ≤ b.actual_size_bytes) :
    b.read_page a data
      = (.ok (),
          (fun i => if i < 1024 then
              (b.touch_page (a / Block_memory.page_size_bytes)).page
                (a / Block_memory.page_size_bytes) (a % Block_memory.page_size_bytes / 4 + i)
            else data i),
          b.touch_page (a / Block_memory.page_size_bytes)) := by
  have h1 : ¬ (a &&& 0x00000FFF ≠ 0) := by rw [and_fff]; omega
  have h2 : ¬ (a + 1024 * 4 > b.size) := by unfold Block_memory.size; omega
  unfold Block_memory.read_page
  rw [if_neg h1, if_neg h2]

/-- Touching a page leaves every allocated page as it is. -/
theorem touch_page_keeps_allocated (b : Block_memory) (p q : Nat)
    (h : (b.storage q).isSome = true) : (b.touch_page p).storage q = b.storage q := by
  by_cases hq : q = p
  · rw [← hq, touch_page_of_allocated b q h]
  · exact touch_page_storage_other b p q hq

theorem page_congr (b c : Block_memory) (q : Nat) (h : c.storage q = b.storage q) :
    c.page q = b.page q := by
  unfold Block_memory.page
  rw [h]

/-- The state of the cache agrees with the memory: every valid entry holds the 1024 words
of an allocated page region of the memory. -/
theorem cache_agrees_after_touch (f : Inst_fetch_module) (b : Block_memory) (p : Nat)
    (hinv : ∀ idx, (f.cache idx).valid = true →
      (b.storage ((f.cache idx).address / Block_memory.page_size_bytes)).isSome = true
      ∧ ∀ i, i < 1024 → (f.cache idx).data i
          = b.page ((f.cache idx).address / Block_memory.page_size_bytes)
              ((f.cache idx).address % Block_memory.page_size_bytes / 4 + i)) :
    ∀ idx, (f.cache idx).valid = true →
      ((b.touch_page p).storage
          ((f.cache idx).address / Block_memory.page_size_bytes)).isSome = true
      ∧ ∀ i, i < 1024 → (f.cache idx).data i
          = (b.touch_page p).page ((f.cache idx).address / Block_memory.page_size_bytes)
              ((f.cache idx).address % Block_memory.page_size_bytes / 4 + i) := by
  intro idx hv
  obtain ⟨h1, h2⟩ := hinv idx hv
  have hs := touch_page_keeps_allocated b p _ h1
  exact ⟨hs.symm ▸ h1, fun i hi => (h2 i hi).trans (congrFun (page_congr _ _ _ hs).symm _)⟩

theorem set_entry_cache_same (f : Inst_fetch_module) (idx : Nat)
    (e : Inst_fetch_module.Cache_entry) : (f.set_entry idx e).cache idx = e := by
  unfold Inst_fetch_module.set_entry
  exact if_pos rfl

theorem set_entry_cache_other (f : Inst_fetch_module) (idx j : Nat)
    (e : Inst_fetch_module.Cache_entry) (h : j ≠ idx) :
    (f.set_entry idx e).cache j = f.cache j := by
  unfold Inst_fetch_module.set_entry
  exact if_neg h

/-- One fetch at a 4-aligned address below the size of a block memory whose size is a
multiple of 4096, from a cache that agrees with the memory: the fetch delivers the word
a direct read returns, and the cache left behind agrees with the memory left behind. -/
theorem fetch_step (f : Inst_fetch_module) (b : Block_memory) (pc : Nat)
    (hsize : b.actual_size_bytes % 4096 = 0)
    (hal : pc % 4 = 0) (hpc : pc < b.actual_size_bytes) (h32 : pc < 2 ^ 32)
    (hinv : ∀ idx, (f.cache idx).valid = true →
      (b.storage ((f.cache idx).address / Block_memory.page_size_bytes)).isSome = true
      ∧ ∀ i, i < 1024 → (f.cache idx).data i
          = b.page ((f.cache idx).address / Block_memory.page_size_bytes)
              ((f.cache idx).address % Block_memory.page_size_bytes / 4 + i)) :
    ∃ w f1 b1, Inst_fetch_module.call Block_memory.interface f b pc = some (.ok w, f1, b1)
      ∧ (b.read pc).1 = .ok w
      ∧ b1.actual_size_bytes = b.actual_size_bytes
      ∧ ∀ idx, (f1.cache idx).valid = true →
        (b1.storage ((f1.cache idx).address / Block_memory.page_size_bytes)).isSome = true
        ∧ ∀ i, i < 1024 → (f1.cache idx).data i
            = b1.page ((f1.cache idx).address / Block_memory.page_size_bytes)
                ((f1.cache idx).address % Block_memory.page_size_bytes / 4 + i) := by
  have hA := and_fffff000 pc h32
  have hoff : (pc &&& 0xfff) >>> 2 = pc % 4096 / 4 := by
    rw [and_fff, Nat.shiftRight_eq_div_pow]
  have hmis : ¬ (pc &&& 0x3 ≠ 0) := by rw [and_three]; omega
  have hpage : pc / 4096 * 4096 / Block_memory.page_size_bytes
      = pc / Block_memory.page_size_bytes := by
    unfold Block_memory.page_size_bytes
    omega
  have hword : pc / 4096 * 4096 % Block_memory.page_size_bytes / 4 + pc % 4096 / 4
      = pc % Block_memory.page_size_bytes / 4 := by
    unfold Block_memory.page_size_bytes
    omega
  have hlt : pc % 4096 / 4 < 1024 := by omega
  have hread := block_read_eq b pc (by omega) hpc hal
  unfold Inst_fetch_module.call
  rw [if_neg hmis]
  dsimp only
  rw [hoff, hA]
  by_cases hhit : (!(f.cache ((pc >>> 12) % Inst_fetch_module.cache_num)).valid
      || (f.cache ((pc >>> 12) % Inst_fetch_module.cache_num)).address
          != pc / 4096 * 4096) = true
  · rw [if_pos hhit]
    have hrp : Block_memory.interface.read_page b (pc / 4096 * 4096)
        (f.cache ((pc >>> 12) % Inst_fetch_module.cache_num)).data
        = (.ok (),
            (fun i => if i < 1024 then
                (b.touch_page (pc / Block_memory.page_size_bytes)).page
                  (pc / Block_memory.page_size_bytes)
                  (pc / 4096 * 4096 % Block_memory.page_size_bytes / 4 + i)
              else (f.cache ((pc >>> 12) % Inst_fetch_module.cache_num)).data i),
            b.touch_page (pc / Block_memory.page_size_bytes)) := by
      show b.read_page _ _ = _
      rw [block_read_page_eq b _ _ (by omega) (by omega), hpage]
    rw [hrp]
    dsimp only
    refine ⟨_, _, _, rfl, ?_, (touch_page_size b _).1, ?_⟩
    · rw [hread, if_pos hlt, hword]
    · intro idx hv
      by_cases hidx : idx = (pc >>> 12) % Inst_fetch_module.cache_num
      · rw [hidx, set_entry_cache_same] at hv ⊢
        dsimp only
        rw [hpage]
        refine ⟨touch_page_allocates b _ (page_index_lt b pc hpc), fun i hi => ?_⟩
        rw [if_pos hi]
      · rw [set_entry_cache_other _ _ _ _ hidx] at hv ⊢
        exact cache_agrees_after_touch f b _ hinv idx hv
  · rw [if_neg hhit]
    simp only [Bool.or_eq_true, Bool.not_eq_true', bne_iff_ne, ne_eq, not_or,
      Bool.not_eq_false, Decidable.not_not] at hhit
    obtain ⟨hv, haddr⟩ := hhit
    obtain ⟨h1, h2⟩ := hinv _ hv
    rw [haddr, hpage] at h1
    refine ⟨_, f, b, rfl, ?_, rfl, hinv⟩
    rw [hread, touch_page_of_allocated b _ h1, h2 _ hlt, haddr, hpage, hword]

theorem fetch_sequence (pcs : List Nat) :
    ∀ (f : Inst_fetch_module) (b : Block_memory),
      b.actual_size_bytes % 4096 = 0 →
      (∀ pc ∈ pcs, pc % 4 = 0 ∧ pc < b.actual_size_bytes ∧ pc < 2 ^ 32) →
      (∀ idx, (f.cache idx).valid = true →
        (b.storage ((f.cache idx).address / Block_memory.page_size_bytes)).isSome = true
        ∧ ∀ i, i < 1024 → (f.cache idx).data i
            = b.page ((f.cache idx).address / Block_memory.page_size_bytes)
                ((f.cache idx).address % Block_memory.page_size_bytes / 4 + i)) →
      fetch_matches_read f b pcs = true := by
  induction pcs with
  | nil => intro _ _ _ _ _; rfl
  | cons pc rest ih =>
    intro f b hsize hpcs hinv
    obtain ⟨hal, hpc, h32⟩ := hpcs pc (List.mem_cons_self _ _)
    obtain ⟨w, f1, b1, hcall, hread, hsz, hinv1⟩ := fetch_step f b pc hsize hal hpc h32 hinv
    unfold fetch_matches_read
    rw [hcall]
    dsimp only
    rw [hread, ih f1 b1 (by rw [hsz]; exact hsize)
      (fun x hx => by rw [hsz]; exact hpcs x (List.mem_cons_of_mem _ hx)) hinv1]
    simp

/-- C37. The fetch cache is transparent when memory is not written: for every block
memory whose size is a multiple of 4096 and every finite sequence of 4-aligned addresses
below the size (and below `2 ^ 32`, `pc` being a `u32`), starting from a cache with all
entries invalid, each fetch through `Inst_fetch_module` returns the same word as a direct
`read(pc)` of the memory, also when two pages map to the same cache index
`(pc >> 12) mod 1024`. -/
theorem fetch_cache_transparent (b : Block_memory) (pcs : List Nat)
    (hsize : b.actual_size_bytes % 4096 = 0)
    (hpcs : ∀ pc ∈ pcs, pc % 4 = 0 ∧ pc < b.actual_size_bytes ∧ pc < 2 ^ 32) :
    fetch_matches_read {} b pcs = true :=
  fetch_sequence pcs {} b hsize hpcs (fun _ hv => Bool.noConfusion hv)

set_option maxRecDepth 100000 in
/-- Witness for C37: an 8 MiB memory and the addresses `0x0`, `0x400004`, `0x8`,
`0x400004`; the pages of `0x0` and `0x400000` share the cache index 0. -/
theorem fetch_cache_transparent_witness :
    ((0x0 >>> 12) % Inst_fetch_module.cache_num = (0x400004 >>> 12) % Inst_fetch_module.cache_num)
    ∧ fetch_matches_read {} (Block_memory.create (8 * 1024 * 1024) .Cdcdcdcd)
        [0x0, 0x400004, 0x8, 0x400004] = true :=
  ⟨by decide,
    fetch_cache_transparent (Block_memory.create (8 * 1024 * 1024) .Cdcdcdcd)
      [0x0, 0x400004, 0x8, 0x400004] (by decide) (by decide)⟩

end device

namespace Emulator_debug

open gdb_stub core

/-! ## C38: the watchpoint check -/

/-- C38 (defect in `Address_range::operator<=>`, seen through `check_watchpoint`). For
every watchpoint map holding the single range `[s, s + n)` and every load or store of `k`
bytes at address `a` (no 32-bit overflow of `s + n` and `a + k`), the lookup finds the
watchpoint exactly when `s ≤ a + k` and `a ≤ s + n`, and a hit is then returned when the
direction of the access is watched. These bounds are not strict: an access that ends
where the range starts (`a + k = s`), or starts where it ends, is found although
`[a, a + k)` and `[s, s + n)` share no byte. -/
theorem watchpoint_hit_on_touching_access (w : Watchpoint) (r : CPU_module.Result) (k : Nat)
    (hmode : r.memory_opcode ≠ .None) (hk : get_size r.memory_funct = some k)
    (hw : w.addr_range.start + w.addr_range.size < 2 ^ 32)
    (ha : r.alu_result + k < 2 ^ 32) :
    check_watchpoint [(w.addr_range, w)] r
      = some (if w.addr_range.start ≤ r.alu_result + k
            ∧ r.alu_result ≤ w.addr_range.start + w.addr_range.size
            ∧ ((r.memory_opcode = .Store ∧ w.watch_write = true)
              ∨ (r.memory_opcode = .Load ∧ w.watch_read = true)) then
          some (r.memory_opcode == .Load && w.watch_read,
            r.memory_opcode == .Store && w.watch_write)
        else none) := by
  have hk4 : k ≤ 4 := by
    cases hf : r.memory_funct <;> rw [hf] at hk <;> simp [get_size] at hk <;> omega
  have hkm : k % 2 ^ 32 = k := Nat.mod_eq_of_lt (by omega)
  obtain ⟨l1, _, _⟩ := address_range_compare_cases w.addr_range
    { start := r.alu_result, size := k } hw ha
  obtain ⟨l2, _, _⟩ := address_range_compare_cases
    { start := r.alu_result, size := k } w.addr_range ha hw
  dsimp only at l1 l2
  unfold check_watchpoint
  dsimp only
  rw [if_neg hmode, hk]
  dsimp only
  rw [hkm]
  unfold find
  by_cases h1 : w.addr_range.start + w.addr_range.size < r.alu_result
  · have hlt : w.addr_range.lt { start := r.alu_result, size := k } = true := by
      unfold Address_range.lt
      rw [l1.2 h1]
      rfl
    simp only [List.find?, hlt, Bool.not_true]
    rw [if_neg (by omega)]
  · have hlt : w.addr_range.lt { start := r.alu_result, size := k } = false := by
      unfold Address_range.lt
      cases hc : w.addr_range.compare { start := r.alu_result, size := k } <;>
        first | rfl | exact absurd (l1.1 hc) h1
    simp only [List.find?, hlt, Bool.not_false]
    by_cases h2 : r.alu_result + k < w.addr_range.start
    · have hlt2 : Address_range.lt { start := r.alu_result, size := k } w.addr_range
          = true := by
        unfold Address_range.lt
        rw [l2.2 h2]
        rfl
      rw [if_pos hlt2]
      dsimp only
      rw [if_neg (by omega)]
    · have hlt2 : Address_range.lt { start := r.alu_result, size := k } w.addr_range
          = false := by
        unfold Address_range.lt
        cases hc : Address_range.compare { start := r.alu_result, size := k } w.addr_range <;>
          first | rfl | exact absurd (l2.1 hc) h2
      rw [hlt2]
      simp only [Bool.false_eq_true, if_false]
      cases hop : r.memory_opcode
      · exact absurd hop hmode
      · cases hr : w.watch_read <;> cases hww : w.watch_write <;>
          simp [hop, hr, hww] <;> omega
      · cases hr : w.watch_read <;> cases hww : w.watch_write <;>
          simp [hop, hr, hww] <;> omega

/-- Witness for C38: with the single write watchpoint `[8, 12)`, the 4-byte store at
address 4, which writes the bytes `[4, 8)` and shares no byte with the range, is reported
as a write hit; the 4-byte store at address 0 is not. -/
theorem watchpoint_hit_on_touching_access_witness :
    Address_range.shares_byte { start := 4, size := 4 } { start := 8, size := 4 } = false
    ∧ check_watchpoint
        [({ start := 8, size := 4 },
          { watch_write := true, watch_read := false, addr_range := { start := 8, size := 4 } })]
        { memory_opcode := .Store, memory_funct := .Store_word, alu_result := 0 } = some none
    ∧ check_watchpoint
        [({ start := 8, size := 4 },
          { watch_write := true, watch_read := false, addr_range := { start := 8, size := 4 } })]
        { memory_opcode := .Store, memory_funct := .Store_word, alu_result := 4 }
      = some (some (false, true))
    ∧ check_watchpoint
        [(({ watch_write := true, watch_read := false,
              addr_range := { start := 8, size := 4 } } : Watchpoint).addr_range,
          { watch_write := true, watch_read := false, addr_range := { start := 8, size := 4 } })]
        { memory_opcode := .Store, memory_funct := .Store_word, alu_result := 4 }
      = some (if 8 ≤ 4 + 4 ∧ 4 ≤ 8 + 4
            ∧ (((.Store : Load_store_module.Opcode) = .Store ∧ true = true)
              ∨ ((.Store : Load_store_module.Opcode) = .Load ∧ false = true)) then
          some ((.Store : Load_store_module.Opcode) == .Load && false,
            (.Store : Load_store_module.Opcode) == .Store && true)
        else none) :=
  ⟨by decide, by decide, by decide,
    watchpoint_hit_on_touching_access
      { watch_write := true, watch_read := false, addr_range := { start := 8, size := 4 } }
      { memory_opcode := .Store, memory_funct := .Store_word, alu_result := 4 } 4
      (by decide) (by decide) (by decide) (by decide)⟩

end Emulator_debug

namespace gdb_stub

open command response

/-! ## C39: the register dump read back by the `G` packet -/

theorem byteswap_lt (v : Nat) : byteswap v < 2 ^ 32 := by
  unfold byteswap
  omega

theorem hex_digits_recompose (w : Nat) (d7 d6 d5 d4 d3 d2 d1 d0 : Nat)
    (h7 : d7 = w / 16 ^ 7 % 16) (h6 : d6 = w / 16 ^ 6 % 16) (h5 : d5 = w / 16 ^ 5 % 16)
    (h4 : d4 = w / 16 ^ 4 % 16) (h3 : d3 = w / 16 ^ 3 % 16) (h2 : d2 = w / 16 ^ 2 % 16)
    (h1 : d1 = w / 16 % 16) (h0 : d0 = w % 16) (hw : w < 2 ^ 32) :
    (((((((0 * 16 + d7) * 16 + d6) * 16 + d5) * 16 + d4) * 16 + d3) * 16 + d2) * 16 + d1) * 16
      + d0 = w := by
  norm_num at h7 h6 h5 h4 h3 h2 hw
  omega

/-- The eight digits `{:08x}` prints are read back by `parse_hex` as the number printed,
and they are not the placeholder `xxxxxxxx`. -/
theorem format_08x_parse (w : Nat) (hw : w < 2 ^ 32) :
    parse_hex (format_08x w) = .ret (some w)
    ∧ format_08x w ≠ [120, 120, 120, 120, 120, 120, 120, 120]
    ∧ (format_08x w).length = 8 := by
  obtain ⟨x7, y7, z7⟩ := hex_digit_facts (w / 16 ^ 7 % 16) (Nat.mod_lt _ (by decide))
  obtain ⟨x6, y6, _⟩ := hex_digit_facts (w / 16 ^ 6 % 16) (Nat.mod_lt _ (by decide))
  obtain ⟨x5, y5, _⟩ := hex_digit_facts (w / 16 ^ 5 % 16) (Nat.mod_lt _ (by decide))
  obtain ⟨x4, y4, _⟩ := hex_digit_facts (w / 16 ^ 4 % 16) (Nat.mod_lt _ (by decide))
  obtain ⟨x3, y3, _⟩ := hex_digit_facts (w / 16 ^ 3 % 16) (Nat.mod_lt _ (by decide))
  obtain ⟨x2, y2, _⟩ := hex_digit_facts (w / 16 ^ 2 % 16) (Nat.mod_lt _ (by decide))
  obtain ⟨x1, y1, _⟩ := hex_digit_facts (w / 16 % 16) (Nat.mod_lt _ (by decide))
  obtain ⟨x0, y0, _⟩ := hex_digit_facts (w % 16) (Nat.mod_lt _ (by decide))
  have hnum : hex_number (format_08x w) = w := by
    show (((((((0 * 16 + hex_value (hex_digit (w / 16 ^ 7 % 16))) * 16
      + hex_value (hex_digit (w / 16 ^ 6 % 16))) * 16
      + hex_value (hex_digit (w / 16 ^ 5 % 16))) * 16
      + hex_value (hex_digit (w / 16 ^ 4 % 16))) * 16
      + hex_value (hex_digit (w / 16 ^ 3 % 16))) * 16
      + hex_value (hex_digit (w / 16 ^ 2 % 16))) * 16
      + hex_value (hex_digit (w / 16 % 16))) * 16
      + hex_value (hex_digit (w % 16)) = w
    rw [y7, y6, y5, y4, y3, y2, y1, y0]
    exact hex_digits_recompose w _ _ _ _ _ _ _ _ rfl rfl rfl rfl rfl rfl rfl rfl hw
  have hall : (format_08x w).all isxdigit = true := by
    simp only [format_08x, List.all_cons, List.all_nil, x7, x6, x5, x4, x3, x2, x1, x0,
      Bool.and_self]
  refine ⟨?_, ?_, rfl⟩
  · unfold parse_hex
    rw [if_neg (by simp [format_08x]), hall, hnum]
    simp only [Bool.not_true, Bool.false_eq_true, if_false]
    rw [if_pos hw]
  · intro h
    simp only [format_08x, List.cons.injEq] at h
    exact z7 h.1

/-- Insertion behind the last key appends. -/
theorem map_insert_append (m : List (Nat × Nat)) (k v : Nat) (h : ∀ p ∈ m, p.1 < k) :
    map_insert (fun a b => decide (a < b)) m k v = m ++ [(k, v)] := by
  induction m with
  | nil => rfl
  | cons p m ih =>
    obtain ⟨k1, v1⟩ := p
    have hk : k1 < k := h (k1, v1) (List.mem_cons_self _ _)
    unfold map_insert
    have h1 : ¬ (decide (k < k1) = true) := by simp; omega
    have h2 : ¬ k = k1 := by omega
    rw [if_neg h1, if_neg h2, ih (fun q hq => h q (List.mem_cons_of_mem _ hq))]
    rfl

/-- The chunk loop of `parse_write_registers` on printed registers: chunk number `index`
onwards enters the map under its own number with the value PRINTED, the byte-swapped
register. -/
theorem parse_register_chunks_printed (vs : List Nat) :
    ∀ (index : Nat) (values : List (Nat × Nat)),
      (∀ p ∈ values, p.1 < index) → index + vs.length ≤ 65536 →
      parse_register_chunks (vs.map (fun v => format_08x (byteswap v))) index values
        = .ret (some (values ++ List.enumFrom index (vs.map byteswap))) := by
  induction vs with
  | nil =>
    intro index values _ _
    simp [parse_register_chunks]
  | cons v vs ih =>
    intro index values hkeys hlen
    simp only [List.length_cons] at hlen
    obtain ⟨hp, hx, _⟩ := format_08x_parse (byteswap v) (byteswap_lt v)
    have hmod : index % 65536 = index := Nat.mod_eq_of_lt (by omega)
    rw [List.map_cons]
    unfold parse_register_chunks
    rw [if_neg hx, hp]
    show parse_register_chunks _ (index + 1)
      (map_insert (fun a b => decide (a < b)) values (index % 65536) (byteswap v)) = _
    rw [hmod, map_insert_append values index (byteswap v) hkeys,
      ih (index + 1) (values ++ [(index, byteswap v)])
        (fun p hp => by
          rcases List.mem_append.mp hp with h | h
          · exact Nat.lt_succ_of_lt (hkeys p h)
          · rw [List.mem_singleton] at h
            rw [h]
            exact Nat.lt_succ_self _)
        (by omega)]
    simp [List.enumFrom]

theorem to_string_chunks (vs : List Nat) :
    chunk 8 (Register_content.to_string (vs.map some))
        = vs.map (fun v => format_08x (byteswap v))
    ∧ (Register_content.to_string (vs.map some)).length = 8 * vs.length := by
  induction vs with
  | nil => exact ⟨rfl, rfl⟩
  | cons v vs ih =>
    have hcons : Register_content.to_string ((v :: vs).map some)
        = format_08x (byteswap v) ++ Register_content.to_string (vs.map some) := by
      simp [Register_content.to_string]
    rw [hcons]
    constructor
    · rw [chunk_append 8 (by decide) (format_08x (byteswap v)) _ rfl, ih.1]
      rfl
    · rw [List.length_append, ih.2]
      simp only [List.length_cons]
      show 8 + 8 * vs.length = _
      omega

/-- C39 (the `G` parser reads the dump without the byte swap the dump is written with).
For every non-empty list `vs` of at most 65536 register values of 32 bits, all present,
parsing `G` followed by `Register_content(vs).to_string()` yields `Write_register` whose
map sends each index `i` to `byteswap(vs[i])`, not to `vs[i]`: `to_string` prints each
register byte-swapped (target byte order), `parse_write_registers` reads the eight digits
as one plain hexadecimal number. -/
theorem register_dump_read_back_swapped (vs : List Nat) (hne : vs ≠ [])
    (hlen : vs.length ≤ 65536) :
    parse (71 :: Register_content.to_string (vs.map some))
      = .ret (some (.Write_register (List.enumFrom 0 (vs.map byteswap)))) := by
  obtain ⟨hchunks, hlength⟩ := to_string_chunks vs
  have hpos : 0 < vs.length := List.length_pos.mpr hne
  have hne2 : Register_content.to_string (vs.map some) ≠ [] := by
    intro h
    rw [h] at hlength
    simp only [List.length_nil] at hlength
    omega
  have hparse : parse (71 :: Register_content.to_string (vs.map some))
      = parse_write_registers (Register_content.to_string (vs.map some)) := by
    unfold parse
    dsimp only
    rw [if_neg hne2]
    rfl
  rw [hparse]
  unfold parse_write_registers
  have hcond : ¬ (Register_content.to_string (vs.map some) = []
      ∨ (Register_content.to_string (vs.map some)).length % 8 ≠ 0) := by
    intro h
    rcases h with h | h
    · exact hne2 h
    · rw [hlength] at h
      omega
  rw [if_neg hcond, hchunks,
    parse_register_chunks_printed vs 0 [] (fun p hp => absurd hp (List.not_mem_nil _))
      (by omega)]
  rfl

set_option maxRecDepth 100000 in
/-- Witness for C39: the registers `0, 0xdeadbeef, 0x12345678` of the test are printed as
`00000000efbeadde78563412`, and the `G` packet with that text is read as the values
`0, 0xefbeadde, 0x78563412`. -/
theorem register_dump_read_back_swapped_witness :
    Register_content.to_string [some 0, some 0xdeadbeef, some 0x12345678]
      = bytes "00000000efbeadde78563412"
    ∧ parse (bytes "G00000000efbeadde78563412")
      = .ret (some (.Write_register [(0, 0), (1, 0xefbeadde), (2, 0x78563412)]))
    ∧ parse (bytes "G12345678xxxxxxxxdeadbeef")
      = .ret (some (.Write_register [(0, 0x12345678), (2, 0xdeadbeef)]))
    ∧ parse (71 :: Register_content.to_string ([0, 0xdeadbeef, 0x12345678].map some))
      = .ret (some (.Write_register
          (List.enumFrom 0 ([0, 0xdeadbeef, 0x12345678].map byteswap)))) :=
  ⟨by decide, by decide, by decide,
    register_dump_read_back_swapped [0, 0xdeadbeef, 0x12345678] (by decide) (by decide)⟩

end gdb_stub

namespace core

/-! ## C40: the value a CSR access returns -/

/-- The value component of a successful result. -/
theorem ok_pair_fst {ε α β : Type} {a a' : α} {b b' : β}
    (h : (Except.ok (a, b) : Except ε (α × β)) = Except.ok (a', b')) : a = a' := by
  cases h; rfl

/-- C40 (defect in the `mstatus` cases of `CSR_module::operator()`). For every CSR state
and every successful access that reads or writes: at every implemented address other than
`mstatus` (`0x300`) and `mstatush` (`0x310`) the value returned is the word the CSR held
before the access; at `mstatus` and `mstatush` the value returned is the word the CSR
holds AFTER the access (written, then legalised by `force_legal`), not the word it held
before: these two cases drop the value `write` returns and re-read the object. -/
theorem csr_access_result (c c1 : CSR_module) (info : CSR_access_info) (v : Nat)
    (h : c.call info = .ok (v, c1))
    (hacc : info.read = true ∨ info.write_mode ≠ .None) :
    (Bitset.mk 12 info.address ≠ 0x300 → Bitset.mk 12 info.address ≠ 0x310 →
      c.stored (Bitset.mk 12 info.address) = some v)
    ∧ (Bitset.mk 12 info.address = 0x300 ∨ Bitset.mk 12 info.address = 0x310 →
      c1.stored (Bitset.mk 12 info.address) = some v) := by
  unfold CSR_module.call at h
  generalize hp : CSR_module.call.match_1 (fun _ => Nat × Nat) info.write_mode (fun _ => (0, 0))
      (fun _ => (info.write_value, 0xffffffff)) (fun _ => (0, info.write_value))
      (fun _ => (0xffffffff, info.write_value)) = p at h
  obtain ⟨wv, wm⟩ := p
  dsimp only at h
  generalize Bitset.mk 12 info.address = a at h ⊢
  refine ite_elim h (fun _ h => by cases h) (fun _ h => ?_)
  refine ite_elim h (fun hno h => ?_) (fun _ h => ?_)
  · exfalso
    simp only [Bool.and_eq_true, Bool.not_eq_true', beq_iff_eq] at hno
    rcases hacc with hr | hm
    · rw [hr] at hno
      exact absurd hno.1 (by decide)
    · exact hm hno.2
  refine ite_elim h (fun ha h => ?_) (fun _ h => ?_)
  · cases h
    rw [ha]
    exact ⟨fun _ _ => rfl,
      fun hm => by rcases hm with hm | hm <;> exact absurd hm (by decide)⟩
  refine ite_elim h (fun ha h => ?_) (fun _ h => ?_)
  · cases h
    rw [ha]
    exact ⟨fun _ _ => rfl,
      fun hm => by rcases hm with hm | hm <;> exact absurd hm (by decide)⟩
  refine ite_elim h (fun ha h => ?_) (fun _ h => ?_)
  · cases h
    rw [ha]
    exact ⟨fun _ _ => rfl,
      fun hm => by rcases hm with hm | hm <;> exact absurd hm (by decide)⟩
  refine ite_elim h (fun ha h => ?_) (fun _ h => ?_)
  · cases h
    rw [ha]
    exact ⟨fun _ _ => rfl,
      fun hm => by rcases hm with hm | hm <;> exact absurd hm (by decide)⟩
  refine ite_elim h (fun ha h => ?_) (fun _ h => ?_)
  · cases h
    rw [ha]
    exact ⟨fun _ _ => rfl,
      fun hm => by rcases hm with hm | hm <;> exact absurd hm (by decide)⟩
  refine ite_elim h (fun ha h => ?_) (fun _ h => ?_)
  · cases h
    rw [ha]
    exact ⟨fun _ _ => rfl,
      fun hm => by rcases hm with hm | hm <;> exact absurd hm (by decide)⟩
  refine ite_elim h (fun ha h => ?_) (fun _ h => ?_)
  · cases h
    rw [ha]
    exact ⟨fun _ _ => rfl,
      fun hm => by rcases hm with hm | hm <;> exact absurd hm (by decide)⟩
  refine ite_elim h (fun ha h => ?_) (fun _ h => ?_)
  · cases h
    rw [ha]
    exact ⟨fun _ _ => rfl,
      fun hm => by rcases hm with hm | hm <;> exact absurd hm (by decide)⟩
  refine ite_elim h (fun ha h => ?_) (fun _ h => ?_)
  · cases h
    rw [ha]
    exact ⟨fun _ _ => rfl,
      fun hm => by rcases hm with hm | hm <;> exact absurd hm (by decide)⟩
  refine ite_elim h (fun ha h => ?_) (fun _ h => ?_)
  · cases h
    rw [ha]
    exact ⟨fun _ _ => rfl,
      fun hm => by rcases hm with hm | hm <;> exact absurd hm (by decide)⟩
  refine ite_elim h (fun ha h => ?_) (fun _ h => ?_)
  · cases h
    rw [ha]
    exact ⟨fun _ _ => rfl,
      fun hm => by rcases hm with hm | hm <;> exact absurd hm (by decide)⟩
  refine ite_elim h (fun ha h => ?_) (fun _ h => ?_)
  · cases h
    rw [ha]
    exact ⟨fun _ _ => rfl,
      fun hm => by rcases hm with hm | hm <;> exact absurd hm (by decide)⟩
  refine ite_elim h (fun ha h => ?_) (fun _ h => ?_)
  · cases h
    rw [ha]
    exact ⟨fun _ _ => rfl,
      fun hm => by rcases hm with hm | hm <;> exact absurd hm (by decide)⟩
  refine ite_elim h (fun ha h => ?_) (fun _ h => ?_)
  · cases h
    rw [ha]
    exact ⟨fun _ _ => rfl,
      fun hm => by rcases hm with hm | hm <;> exact absurd hm (by decide)⟩
  refine ite_elim h (fun ha h => ?_) (fun _ h => ?_)
  · cases h
    rw [ha]
    exact ⟨fun _ _ => rfl,
      fun hm => by rcases hm with hm | hm <;> exact absurd hm (by decide)⟩
  refine ite_elim h (fun ha h => ?_) (fun _ h => ?_)
  · cases h
    rw [ha]
    exact ⟨fun _ _ => rfl,
      fun hm => by rcases hm with hm | hm <;> exact absurd hm (by decide)⟩
  refine ite_elim h (fun ha h => ?_) (fun _ h => ?_)
  · cases h
    rw [ha]
    exact ⟨fun _ _ => rfl,
      fun hm => by rcases hm with hm | hm <;> exact absurd hm (by decide)⟩
  refine ite_elim h (fun ha h => ?_) (fun _ h => ?_)
  · rw [ha, ← ok_pair_snd h, ← ok_pair_fst h]
    exact ⟨fun hne _ => absurd rfl hne, fun _ => rfl⟩
  refine ite_elim h (fun ha h => ?_) (fun _ h => ?_)
  · rw [ha, ← ok_pair_snd h, ← ok_pair_fst h]
    exact ⟨fun _ hne => absurd rfl hne, fun _ => rfl⟩
  cases h

set_option maxRecDepth 100000 in
/-- Witness for C40: on the constructed CSR block, whose `mstatus` word is `0x1800`, the
access `csrrw` writing `8` to `mstatus` returns `8`, the word held after the access. -/
theorem csr_access_result_witness :
    ({} : CSR_module).stored 0x300 = some 0x1800
    ∧ (({} : CSR_module).call
          { write_mode := .Overwrite, address := 0x300, write_value := 8, read := true }).toOption.map
        Prod.fst = some 8
    ∧ ((Bitset.mk 12 0x300 ≠ 0x300 → Bitset.mk 12 0x300 ≠ 0x310 →
        ({} : CSR_module).stored (Bitset.mk 12 0x300) = some 8)
      ∧ (Bitset.mk 12 0x300 = 0x300 ∨ Bitset.mk 12 0x300 = 0x310 →
        (({} : CSR_module).after
            { write_mode := .Overwrite, address := 0x300, write_value := 8, read := true }
          ).stored (Bitset.mk 12 0x300) = some 8)) :=
  ⟨by decide, by rfl,
    csr_access_result {}
      (({} : CSR_module).after
        { write_mode := .Overwrite, address := 0x300, write_value := 8, read := true })
      { write_mode := .Overwrite, address := 0x300, write_value := 8, read := true } 8
      rfl (Or.inl rfl)⟩

end core
